import Mathlib

/-!
# oceantool: a verification development

A shallow embedding of the numerical core of `oceantool` (`src/code/dft.cpp`,
`src/code/oceantool.cpp`) and theorems about it.

Modelling conventions.

* `double`/`float` values are elements of a field `K`: numbers, in exact arithmetic
  unless a rounding is a parameter (below).  The model is generic in `K`, so it runs on
  `ℚ`; the theorems about `exp` and `π` are stated for `K = ℝ`.
* `Math::PI` (in the source the `float` constant `3.141592653589793f`) and `std::exp` are
  parameters `PI : K` and `cexp : complex64 K → complex64 K` of the transforms; in exact
  arithmetic they denote `π` and the complex exponential, and the theorems about sums of
  exponentials instantiate them so.
* A buffer (`complex64*`) is a function `Nat → complex64 K`; a store is `Function.update`.
  `p + off` is `ptrAdd p off`, and `ptrStore` writes a callee's view back into the buffer.
* `unsigned int`/`uint32_t` are `Nat` with explicit `% 2^32`; `int` is `Int`, and the
  theorems take the sizes in the range of `int`.  Loop counters and array indices are
  natural numbers below the sizes; the product of two sizes that gives the length of a
  new array is tested against the range of `int`.
* `assert` failure, a failing `new[]` and overflow of a signed product are the `Except`
  error of type `Fault`; so is the square root of a negative number, a NaN in the source.
* Where the rounding of `float` operations matters (the normal map, the bytes of the
  exported height map), the definitions take the rounding `fl : K → K` of the result of
  an operation as a parameter: the identity is exact arithmetic, `binary32` is the
  rounding of IEEE 754 single precision.
-/

namespace OceanTool

/-! ## Generic control flow -/

/-- The loop `for (i = start; i < stop; i += step) s = body(i, s)`, with explicit fuel. -/
def forLoopFuel {σ : Type} : Nat → Nat → Nat → Nat → (Nat → σ → σ) → σ → σ
  | 0, _, _, _, _, s => s
  | fuel + 1, i, stop, step, body, s =>
    if i < stop then forLoopFuel fuel (i + step) stop step body (body i s) else s

/-- The loop `for (i = start; i < stop; i += step)`; `stop` units of fuel are enough for
every `step ≥ 1`. -/
def forLoop {σ : Type} (start stop step : Nat) (body : Nat → σ → σ) (s : σ) : σ :=
  forLoopFuel stop start stop step body s

/-- Ways in which a call leaves the model: it ends without returning (`assertFail`,
`badArrayNewLength`, `signedOverflow`), or a floating-point operation of the source is
invalid and yields a NaN, as the square root of a negative number does (`notANumber`);
what the source computes from a NaN is a NaN again, and the model, whose scalars are
numbers, stops there. -/
inductive Fault where
  | assertFail
  | badArrayNewLength
  | signedOverflow
  | notANumber
  deriving DecidableEq, Repr

/-- The loop `for (i = start; i < stop; i += step)` whose body may abort. -/
def forLoopEFuel {σ : Type} :
    Nat → Nat → Nat → Nat → (Nat → σ → Except Fault σ) → σ → Except Fault σ
  | 0, _, _, _, _, s => .ok s
  | fuel + 1, i, stop, step, body, s =>
    if i < stop then
      match body i s with
      | .ok s1 => forLoopEFuel fuel (i + step) stop step body s1
      | .error e => .error e
    else .ok s

/-- Fuelled by `stop`, as `forLoop`. -/
def forLoopE {σ : Type} (start stop step : Nat) (body : Nat → σ → Except Fault σ) (s : σ) :
    Except Fault σ :=
  forLoopEFuel stop start stop step body s

/-! ## `std::complex<double>` in exact arithmetic -/

/-- The type `complex64 = std::complex<double>` over exact scalars `K`. -/
@[ext]
structure complex64 (K : Type) where
  re : K
  im : K
  deriving DecidableEq, Repr

namespace complex64

variable {K : Type}

instance [Zero K] : Zero (complex64 K) := ⟨⟨0, 0⟩⟩
instance [Zero K] [One K] : One (complex64 K) := ⟨⟨1, 0⟩⟩
instance [Add K] : Add (complex64 K) := ⟨fun a b => ⟨a.re + b.re, a.im + b.im⟩⟩
instance [Sub K] : Sub (complex64 K) := ⟨fun a b => ⟨a.re - b.re, a.im - b.im⟩⟩
instance [Neg K] : Neg (complex64 K) := ⟨fun a => ⟨-a.re, -a.im⟩⟩
instance [Add K] [Sub K] [Mul K] : Mul (complex64 K) :=
  ⟨fun a b => ⟨a.re * b.re - a.im * b.im, a.re * b.im + a.im * b.re⟩⟩

end complex64

/-- A buffer of complex samples addressed by index. -/
abbrev Buf (K : Type) := Nat → complex64 K

/-- The pointer `p + off`. -/
def ptrAdd {K : Type} (p : Buf K) (off : Nat) : Buf K := fun i => p (off + i)

/-- The buffer `p` after a callee that was given `p + off` left `view` there. -/
def ptrStore {K : Type} (p : Buf K) (off : Nat) (view : Buf K) : Buf K :=
  fun i => if off ≤ i then view (i - off) else p i

/-! ## `dft.cpp`: helpers -/

/-- Conversion of an `int` to `unsigned int`. -/
def toUnsigned (z : Int) : Nat := (z % 4294967296).toNat

/-- `IsPowerOf2(unsigned int n)`: `(n != 0) && !(n & (n - 1))`, `n - 1` wrapping. -/
def IsPowerOf2 (n : Nat) : Bool :=
  (n != 0) && ((n &&& ((n + 4294967295) % 4294967296)) == 0)

/-- The loop of `GetPowerOf2`: `while (n) { n >>= 1; ++p; }`. -/
def GetPowerOf2Loop : Nat → Nat → Int → Int
  | 0, _, p => p
  | fuel + 1, n, p => if n ≠ 0 then GetPowerOf2Loop fuel (n >>> 1) (p + 1) else p

/-- `GetPowerOf2(unsigned int n)`; a 32-bit `n` is zero after at most 32 shifts. -/
def GetPowerOf2 (n : Nat) : Int := GetPowerOf2Loop 32 n (-1)

/-- `x << k` on `uint32_t`. -/
def shl32 (x k : Nat) : Nat := (x <<< k) % 4294967296

/-- `BitReverse(uint32_t n, int bits)`. -/
def BitReverse (n : Nat) (bits : Int) : Nat :=
  let n := ((n &&& 0xFFFF0000) >>> 16) ||| shl32 (n &&& 0x0000FFFF) 16
  let n := ((n &&& 0xFF00FF00) >>> 8) ||| shl32 (n &&& 0x00FF00FF) 8
  let n := ((n &&& 0xF0F0F0F0) >>> 4) ||| shl32 (n &&& 0x0F0F0F0F) 4
  let n := ((n &&& 0xCCCCCCCC) >>> 2) ||| shl32 (n &&& 0x33333333) 2
  let n := ((n &&& 0xAAAAAAAA) >>> 1) ||| shl32 (n &&& 0x55555555) 1
  n >>> (32 - bits).toNat

/-- `Transpose(in, out, N1, N2)`. -/
def Transpose {K : Type} (inp out : Buf K) (N1 N2 : Nat) : Buf K :=
  forLoop 0 N1 1 (fun n1 out =>
    forLoop 0 N2 1 (fun n2 out =>
      Function.update out (n2 * N1 + n1) (inp (n1 * N2 + n2))) out) out

/-- The first loop of every 1D transform: `out[BitReverse(i, p)] = in[i]`. -/
def bitReverseCopy {K : Type} (inp out : Buf K) (N : Nat) (p : Int) : Buf K :=
  forLoop 0 N 1 (fun i out => Function.update out (BitReverse i p) (inp i)) out

/-! ## `dft.cpp`: scalar transforms -/

section scalar

variable {K : Type} [Field K]

/-- The `m = 2` block of the scalar transforms (`if (p >= 1)`), the same in
`DFT1D_scalar` and `IDFT1D_scalar`. -/
def scalarStage2 (out : Buf K) (N : Nat) : Buf K :=
  forLoop 0 N 2 (fun k out =>
    let x0 := out k
    let x1 := out (k + 1)
    let out := Function.update out k (x0 + x1)
    Function.update out (k + 1) (x0 - x1)) out

/-- The `m = 4` block of `DFT1D_scalar` (`if (p >= 2)`). -/
def DFT1D_scalar_stage4 (out : Buf K) (N : Nat) : Buf K :=
  forLoop 0 N 4 (fun k out =>
    let x0 := out k
    let x2 := out (k + 2)
    let x2_w : complex64 K := ⟨x2.re, x2.im⟩
    let out := Function.update out k (x0 + x2_w)
    let out := Function.update out (k + 2) (x0 - x2_w)
    let x1 := out (k + 1)
    let x3 := out (k + 3)
    let x3_w : complex64 K := ⟨x3.im, -x3.re⟩
    let out := Function.update out (k + 1) (x1 + x3_w)
    Function.update out (k + 3) (x1 - x3_w)) out

/-- The `m = 4` block of `IDFT1D_scalar` (`if (p >= 2)`). -/
def IDFT1D_scalar_stage4 (out : Buf K) (N : Nat) : Buf K :=
  forLoop 0 N 4 (fun k out =>
    let x0 := out k
    let x2 := out (k + 2)
    let x2_w : complex64 K := ⟨x2.re, x2.im⟩
    let out := Function.update out k (x0 + x2_w)
    let out := Function.update out (k + 2) (x0 - x2_w)
    let x1 := out (k + 1)
    let x3 := out (k + 3)
    let x3_w : complex64 K := ⟨-x3.im, x3.re⟩
    let out := Function.update out (k + 1) (x1 + x3_w)
    Function.update out (k + 3) (x1 - x3_w)) out

/-- The loops over `k` and `j` of one general stage of the scalar transforms, for a
stage size `m` and its twiddle `Wm`; the state of the inner loop is `(out, W)`. -/
def scalarStage (Wm : complex64 K) (m : Nat) (out : Buf K) (N : Nat) : Buf K :=
  forLoop 0 N m (fun k out =>
    (forLoop 0 (m / 2) 1 (fun j (st : Buf K × complex64 K) =>
      let out := st.1
      let W := st.2
      let x0 := out (k + j)
      let x1 := out (k + j + m / 2) * W
      let out := Function.update out (k + j) (x0 + x1)
      let out := Function.update out (k + j + m / 2) (x0 - x1)
      (out, W * Wm)) (out, (1 : complex64 K))).1) out

/-- `DFT1D_scalar(in, out, N)`; `out` is the prior content of the output buffer. -/
def DFT1D_scalar (PI : K) (cexp : complex64 K → complex64 K) (inp out : Buf K) (N : Int) :
    Except Fault (Buf K) :=
  if ¬ (N > 1) then .error .assertFail
  else if ¬ IsPowerOf2 (toUnsigned N) then .error .assertFail
  else
    let p := GetPowerOf2 (toUnsigned N)
    let out := bitReverseCopy inp out N.toNat p
    let out := if p ≥ 1 then scalarStage2 out N.toNat else out
    let out := if p ≥ 2 then DFT1D_scalar_stage4 out N.toNat else out
    .ok (forLoop 3 (p + 1).toNat 1 (fun s out =>
      let m := 1 <<< s
      let Wm := cexp ⟨0, -2 * PI / (m : K)⟩
      scalarStage Wm m out N.toNat) out)

/-- `IDFT1D_scalar(in, out, N)`. -/
def IDFT1D_scalar (PI : K) (cexp : complex64 K → complex64 K) (inp out : Buf K) (N : Int) :
    Except Fault (Buf K) :=
  if ¬ (N > 1) then .error .assertFail
  else if ¬ IsPowerOf2 (toUnsigned N) then .error .assertFail
  else
    let p := GetPowerOf2 (toUnsigned N)
    let out := bitReverseCopy inp out N.toNat p
    let out := if p ≥ 1 then scalarStage2 out N.toNat else out
    let out := if p ≥ 2 then IDFT1D_scalar_stage4 out N.toNat else out
    .ok (forLoop 3 (p + 1).toNat 1 (fun s out =>
      let m := 1 <<< s
      let Wm := cexp ⟨0, 2 * PI / (m : K)⟩
      scalarStage Wm m out N.toNat) out)

/-- The call `T(src + off, dst + off, N)` of a 1D transform `T`, and what it leaves in
`dst`. -/
def callAt (T : Buf K → Buf K → Int → Except Fault (Buf K)) (src dst : Buf K) (off : Nat)
    (N : Int) : Except Fault (Buf K) :=
  (T (ptrAdd src off) (ptrAdd dst off) N).map (ptrStore dst off)

/-- The shape shared by the four 2D transforms: rows, transpose, rows, transpose,
around a 1D transform `T`.  The product `N1*N2` of `new complex64[N1*N2]` is an `int`:
outside the range of `int` it is undefined, and a negative length is refused.  The new
array is zero-filled. -/
def transform2D (T : Buf K → Buf K → Int → Except Fault (Buf K)) (inp out : Buf K)
    (N1 N2 : Int) : Except Fault (Buf K) :=
  if N1 * N2 < -2147483648 ∨ 2147483647 < N1 * N2 then .error .signedOverflow
  else if N1 * N2 < 0 then .error .badArrayNewLength
  else
    let aux : Buf K := fun _ => 0
    (forLoopE 0 N1.toNat 1 (fun n1 aux => callAt T inp aux (n1 * N2.toNat) N2) aux).bind
      fun aux =>
        let out := Transpose aux out N1.toNat N2.toNat
        (forLoopE 0 N2.toNat 1 (fun n2 aux => callAt T out aux (n2 * N1.toNat) N1) aux).bind
          fun aux => .ok (Transpose aux out N2.toNat N1.toNat)

/-- `DFT2D_scalar(in, out, N1, N2)`. -/
def DFT2D_scalar (PI : K) (cexp : complex64 K → complex64 K) (inp out : Buf K)
    (N1 N2 : Int) : Except Fault (Buf K) :=
  transform2D (DFT1D_scalar PI cexp) inp out N1 N2

/-- `IDFT2D_scalar(in, out, N1, N2)`. -/
def IDFT2D_scalar (PI : K) (cexp : complex64 K → complex64 K) (inp out : Buf K)
    (N1 N2 : Int) : Except Fault (Buf K) :=
  transform2D (IDFT1D_scalar PI cexp) inp out N1 N2

end scalar

/-! ## `dft.cpp`: SSE transforms

A `__m128d` register is a pair of lanes; `&out[k]` viewed as `double*` is the pair
`(re, im)` of `out[k]`. -/

/-- The register type `__m128d`: lane 0 is `lo`, lane 1 is `hi`. -/
@[ext]
structure m128d (K : Type) where
  lo : K
  hi : K
  deriving DecidableEq, Repr

section sse

variable {K : Type} [Field K]

/-- Load the two doubles at `&z`. -/
def _mm_loadu_pd (z : complex64 K) : m128d K := ⟨z.re, z.im⟩

/-- The value of a `complex64` after a store of `v` at its address. -/
def _mm_storeu_pd (v : m128d K) : complex64 K := ⟨v.lo, v.hi⟩

/-- Lane-wise sum. -/
def _mm_add_pd (a b : m128d K) : m128d K := ⟨a.lo + b.lo, a.hi + b.hi⟩

/-- Lane-wise difference. -/
def _mm_sub_pd (a b : m128d K) : m128d K := ⟨a.lo - b.lo, a.hi - b.hi⟩

/-- Lane-wise product. -/
def _mm_mul_pd (a b : m128d K) : m128d K := ⟨a.lo * b.lo, a.hi * b.hi⟩

/-- `_mm_set_pd(e1, e0)`: lane 0 is `e0`, lane 1 is `e1`. -/
def _mm_set_pd (e1 e0 : K) : m128d K := ⟨e0, e1⟩

/-- Both lanes `x`. -/
def _mm_set1_pd (x : K) : m128d K := ⟨x, x⟩

/-- `_mm_shuffle_pd(a, b, imm)`: lane 0 from `a` by bit 0 of `imm`, lane 1 from `b` by
bit 1. -/
def _mm_shuffle_pd (a b : m128d K) (imm : Nat) : m128d K :=
  ⟨if imm.testBit 0 then a.hi else a.lo, if imm.testBit 1 then b.hi else b.lo⟩

/-- The low lanes of `a` and `b`. -/
def _mm_unpacklo_pd (a b : m128d K) : m128d K := ⟨a.lo, b.lo⟩

/-- The high lanes of `a` and `b`. -/
def _mm_unpackhi_pd (a b : m128d K) : m128d K := ⟨a.hi, b.hi⟩

/-- The `m = 2` block of the SSE transforms (`if (p >= 1)`), the same in `DFT1D_sse`
and `IDFT1D_sse`. -/
def sseStage2 (out : Buf K) (N : Nat) : Buf K :=
  forLoop 0 N 2 (fun k out =>
    let x0 := _mm_loadu_pd (out k)
    let x1 := _mm_loadu_pd (out (k + 1))
    let y0 := _mm_add_pd x0 x1
    let y1 := _mm_sub_pd x0 x1
    let out := Function.update out k (_mm_storeu_pd y0)
    Function.update out (k + 1) (_mm_storeu_pd y1)) out

/-- The `m = 4` block of the SSE transforms (`if (p >= 2)`); `e1 e0` are the arguments
of `_mm_set_pd`: `-1, 1` in `DFT1D_sse` and `1, -1` in `IDFT1D_sse`. -/
def sseStage4 (e1 e0 : K) (out : Buf K) (N : Nat) : Buf K :=
  forLoop 0 N 4 (fun k out =>
    let x0 := _mm_loadu_pd (out k)
    let x2 := _mm_loadu_pd (out (k + 2))
    let y0 := _mm_add_pd x0 x2
    let y2 := _mm_sub_pd x0 x2
    let out := Function.update out k (_mm_storeu_pd y0)
    let out := Function.update out (k + 2) (_mm_storeu_pd y2)
    let x1 := _mm_loadu_pd (out (k + 1))
    let x3 := _mm_loadu_pd (out (k + 3))
    let x3 := _mm_shuffle_pd x3 x3 0b01
    let x3 := _mm_mul_pd x3 (_mm_set_pd e1 e0)
    let y1 := _mm_add_pd x1 x3
    let y3 := _mm_sub_pd x1 x3
    let out := Function.update out (k + 1) (_mm_storeu_pd y1)
    Function.update out (k + 3) (_mm_storeu_pd y3)) out

/-- The loops over `k` and `j` of one general stage of the SSE transforms, for a stage
size `m` and its twiddles `Wm`, `Wm_2`; the state of the inner loop is
`(out, W_re, W_im)`. -/
def sseStage (Wm Wm_2 : complex64 K) (m : Nat) (out : Buf K) (N : Nat) : Buf K :=
  let Wm_2_re := _mm_set1_pd Wm_2.re
  let Wm_2_im := _mm_set1_pd Wm_2.im
  let W_init_re := _mm_set_pd Wm.re 1
  let W_init_im := _mm_set_pd Wm.im 0
  forLoop 0 N m (fun k out =>
    (forLoop 0 (m / 2) 2 (fun j (st : Buf K × m128d K × m128d K) =>
      let out := st.1
      let W_re := st.2.1
      let W_im := st.2.2
      let x0 := _mm_loadu_pd (out (k + j))
      let x1 := _mm_loadu_pd (out (k + j + m / 2))
      let x2 := _mm_loadu_pd (out (k + j + 1))
      let x3 := _mm_loadu_pd (out (k + j + 1 + m / 2))
      let x02_re := _mm_shuffle_pd x0 x2 0b00
      let x02_im := _mm_shuffle_pd x0 x2 0b11
      let x13_re := _mm_shuffle_pd x1 x3 0b00
      let x13_im := _mm_shuffle_pd x1 x3 0b11
      let x13_i_re := _mm_sub_pd (_mm_mul_pd x13_re W_re) (_mm_mul_pd x13_im W_im)
      let x13_i_im := _mm_add_pd (_mm_mul_pd x13_re W_im) (_mm_mul_pd x13_im W_re)
      let y02_re := _mm_add_pd x02_re x13_i_re
      let y02_im := _mm_add_pd x02_im x13_i_im
      let y13_re := _mm_sub_pd x02_re x13_i_re
      let y13_im := _mm_sub_pd x02_im x13_i_im
      let y0 := _mm_unpacklo_pd y02_re y02_im
      let y1 := _mm_unpacklo_pd y13_re y13_im
      let y2 := _mm_unpackhi_pd y02_re y02_im
      let y3 := _mm_unpackhi_pd y13_re y13_im
      let out := Function.update out (k + j) (_mm_storeu_pd y0)
      let out := Function.update out (k + j + m / 2) (_mm_storeu_pd y1)
      let out := Function.update out (k + j + 1) (_mm_storeu_pd y2)
      let out := Function.update out (k + j + 1 + m / 2) (_mm_storeu_pd y3)
      let new_W_re := _mm_sub_pd (_mm_mul_pd W_re Wm_2_re) (_mm_mul_pd W_im Wm_2_im)
      let new_W_im := _mm_add_pd (_mm_mul_pd W_re Wm_2_im) (_mm_mul_pd W_im Wm_2_re)
      (out, new_W_re, new_W_im)) (out, W_init_re, W_init_im)).1) out

/-- `DFT1D_sse(in, out, N)`. -/
def DFT1D_sse (PI : K) (cexp : complex64 K → complex64 K) (inp out : Buf K) (N : Int) :
    Except Fault (Buf K) :=
  if ¬ (N > 1) then .error .assertFail
  else if ¬ IsPowerOf2 (toUnsigned N) then .error .assertFail
  else
    let p := GetPowerOf2 (toUnsigned N)
    let out := bitReverseCopy inp out N.toNat p
    let out := if p ≥ 1 then sseStage2 out N.toNat else out
    let out := if p ≥ 2 then sseStage4 (-1) 1 out N.toNat else out
    .ok (forLoop 3 (p + 1).toNat 1 (fun s out =>
      let m := 1 <<< s
      let Wm := cexp ⟨0, -2 * PI / (m : K)⟩
      let Wm_2 := cexp ⟨0, -4 * PI / (m : K)⟩
      sseStage Wm Wm_2 m out N.toNat) out)

/-- `IDFT1D_sse(in, out, N)`. -/
def IDFT1D_sse (PI : K) (cexp : complex64 K → complex64 K) (inp out : Buf K) (N : Int) :
    Except Fault (Buf K) :=
  if ¬ (N > 1) then .error .assertFail
  else if ¬ IsPowerOf2 (toUnsigned N) then .error .assertFail
  else
    let p := GetPowerOf2 (toUnsigned N)
    let out := bitReverseCopy inp out N.toNat p
    let out := if p ≥ 1 then sseStage2 out N.toNat else out
    let out := if p ≥ 2 then sseStage4 1 (-1) out N.toNat else out
    .ok (forLoop 3 (p + 1).toNat 1 (fun s out =>
      let m := 1 <<< s
      let Wm := cexp ⟨0, 2 * PI / (m : K)⟩
      let Wm_2 := cexp ⟨0, 4 * PI / (m : K)⟩
      sseStage Wm Wm_2 m out N.toNat) out)

/-- `DFT2D_sse(in, out, N1, N2)`. -/
def DFT2D_sse (PI : K) (cexp : complex64 K → complex64 K) (inp out : Buf K)
    (N1 N2 : Int) : Except Fault (Buf K) :=
  transform2D (DFT1D_sse PI cexp) inp out N1 N2

/-- `IDFT2D_sse(in, out, N1, N2)`. -/
def IDFT2D_sse (PI : K) (cexp : complex64 K → complex64 K) (inp out : Buf K)
    (N1 N2 : Int) : Except Fault (Buf K) :=
  transform2D (IDFT1D_sse PI cexp) inp out N1 N2

end sse

/-! ## `oceantool.cpp`: parameter validation -/

/-- The struct `OceanParams`. -/
structure OceanParams (K : Type) where
  Nx : Int
  Ny : Int
  Lx : K
  Ly : K
  Vx : K
  Vy : K
  A : K
  l : K
  t : K
  seed : Nat

/-- The macro `BIT(n)`: `1 << n`. -/
def BIT (n : Nat) : Nat := 1 <<< n

/-- The flag `OCEAN_PARAM_ERROR_INVALID_GRID_SIZE`. -/
def OCEAN_PARAM_ERROR_INVALID_GRID_SIZE : Nat := BIT 0

/-- The flag `OCEAN_PARAM_ERROR_INVALID_OCEAN_SIZE`. -/
def OCEAN_PARAM_ERROR_INVALID_OCEAN_SIZE : Nat := BIT 1

/-- The flag `OCEAN_PARAM_ERROR_INVALID_WIND_VELOCITY`. -/
def OCEAN_PARAM_ERROR_INVALID_WIND_VELOCITY : Nat := BIT 2

/-- `ValidateOceanParams(params)`; the `int` dimensions reach `IsPowerOf2` converted to
`unsigned int`. -/
def ValidateOceanParams {K : Type} [LinearOrderedField K] (params : OceanParams K) : Nat :=
  let ocean_param_errors := 0
  let ocean_param_errors :=
    if !IsPowerOf2 (toUnsigned params.Nx) || !IsPowerOf2 (toUnsigned params.Ny)
        || decide (params.Nx ≤ 1) || decide (params.Ny ≤ 1) then
      ocean_param_errors ||| OCEAN_PARAM_ERROR_INVALID_GRID_SIZE
    else ocean_param_errors
  let ocean_param_errors :=
    if decide (params.Lx ≤ 0) || decide (params.Ly ≤ 0) then
      ocean_param_errors ||| OCEAN_PARAM_ERROR_INVALID_OCEAN_SIZE
    else ocean_param_errors
  let ocean_param_errors :=
    if decide (params.Vx = 0) && decide (params.Vy = 0) then
      ocean_param_errors ||| OCEAN_PARAM_ERROR_INVALID_WIND_VELOCITY
    else ocean_param_errors
  ocean_param_errors

/-- The parameters set by `InitOceanTool`. -/
def InitOceanTool_params (K : Type) [LinearOrderedField K] : OceanParams K :=
  { Nx := 32, Ny := 32, Lx := 1000, Ly := 1000, Vx := 31, Vy := 0, A := 10, l := 1, t := 0,
    seed := 0 }

/-! ## `oceantool.cpp`: the spectrum and the height map

`sqrt` and `exp` (real) and `std::exp` (complex, `cexp`) are parameters, as `PI` is.  The
generator `std::mt19937 mt(seed)` with its `std::normal_distribution<float> nd(0, 1)` is
a state of a type `G`: `mt19937 seed` is the state after construction and `nd g` is the
sample drawn in state `g` together with the next state. -/

section spectrum

variable {K : Type} [LinearOrderedField K]

/-- `Ph(kx, ky, Vx, Vy, A, l)`; `abs` on a `float` is the absolute value. -/
def Ph (sqrt exp : K → K) (kx ky Vx Vy A l : K) : K :=
  let klen2 := kx * kx + ky * ky
  let klen := sqrt klen2
  let kx := kx / klen
  let ky := ky / klen
  let Vlen2 := Vx * Vx + Vy * Vy
  let Vlen := sqrt Vlen2
  let Vx := Vx / Vlen
  let Vy := Vy / Vlen
  let L := Vlen2 / 9.81
  if klen = 0 then 0
  else if Vlen = 0 then 0
  else
    let abs_k_dot_V := |kx * Vx + ky * Vy|
    A * exp (-1 / (klen2 * L * L)) / (klen2 * klen2) * (abs_k_dot_V * abs_k_dot_V) *
      exp (-klen2 * l * l)

/-- The product `c * z` of a real and a `complex64` (`operator*(const T&, const complex<T>&)`). -/
def scale (c : K) (z : complex64 K) : complex64 K := ⟨c * z.re, c * z.im⟩

/-- The conjugate `std::conj(z)`. -/
def conj (z : complex64 K) : complex64 K := ⟨z.re, -z.im⟩

/-- The magnitude `std::abs(z)` of a `complex64`. -/
def cabs (sqrt : K → K) (z : complex64 K) : K := sqrt (z.re * z.re + z.im * z.im)

/-- The constant `ONE_OVER_SQRT_2` of `GenerateOceanSpectrum`. -/
def ONE_OVER_SQRT_2 : K := 0.7071067811865475

/-- `GenerateOceanSpectrum(spectrum, seed, Nx, Ny, Lx, Ly, Vx, Vy, A, l, t)`; the state of
the loops is the array and the generator. -/
def GenerateOceanSpectrum {G : Type} (PI : K) (sqrt exp : K → K)
    (cexp : complex64 K → complex64 K) (mt19937 : Nat → G) (nd : G → K × G)
    (spectrum : Buf K) (seed : Nat) (Nx Ny : Int) (Lx Ly Vx Vy A l t : K) : Buf K :=
  let mt := mt19937 seed
  let A := A / (Lx * Ly)
  (forLoop 0 Ny.toNat 1 (fun y (st : Buf K × G) =>
    let ky := 2 * PI * (y : K) / Ly
    forLoop 0 Nx.toNat 1 (fun x (st : Buf K × G) =>
      let spectrum := st.1
      let mt := st.2
      let kx := 2 * PI * (x : K) / Lx
      let zr_a := (nd mt).1
      let mt := (nd mt).2
      let zi_a := (nd mt).1
      let mt := (nd mt).2
      let z_a : complex64 K := ⟨zr_a, zi_a⟩
      let h0a := scale (ONE_OVER_SQRT_2 * sqrt (Ph sqrt exp kx ky Vx Vy A l)) z_a
      let zr_b := (nd mt).1
      let mt := (nd mt).2
      let zi_b := (nd mt).1
      let mt := (nd mt).2
      let z_b : complex64 K := ⟨zr_b, zi_b⟩
      let h0b := conj (scale (ONE_OVER_SQRT_2 * sqrt (Ph sqrt exp (-kx) (-ky) Vx Vy A l)) z_b)
      let omega := sqrt (9.81 * sqrt (kx * kx + ky * ky))
      let h := h0a * cexp ⟨0, omega * t⟩ + h0b * cexp ⟨0, -omega * t⟩
      (Function.update spectrum (y * Nx.toNat + x) h, mt)) st) (spectrum, mt)).1

/-- The arguments of the calls `std::sqrt(Ph(...))` in the body of the loops of
`GenerateOceanSpectrum`, two a cell, in the order of the loops. -/
def GenerateOceanSpectrum_sqrt_args (PI : K) (sqrt exp : K → K) (Nx Ny : Int)
    (Lx Ly Vx Vy A l : K) : List K :=
  let A := A / (Lx * Ly)
  forLoop 0 Ny.toNat 1 (fun y args =>
    let ky := 2 * PI * (y : K) / Ly
    forLoop 0 Nx.toNat 1 (fun x args =>
      let kx := 2 * PI * (x : K) / Lx
      args ++ [Ph sqrt exp kx ky Vx Vy A l, Ph sqrt exp (-kx) (-ky) Vx Vy A l]) args) []

/-- The variables of the height loop of `GenerateOcean`: `min_value` starts at
`INFINITY` (`⊤`), `max_value` at `-INFINITY` (`⊥`). -/
structure HeightRange (K : Type) where
  min_value : WithTop K
  max_value : WithBot K
  height_map_data : Nat → K

/-- The height loop of `GenerateOcean` with its running minimum and maximum, on a
signal of numbers; the final `min_value` and `max_value` are what is stored in
`tool->min_value` and `tool->max_value`. -/
def GenerateOcean_height_range (sqrt : K → K) (Nx Ny : Int) (signal : Buf K)
    (height_map_data : Nat → K) : HeightRange K :=
  forLoop 0 Ny.toNat 1 (fun y (st : HeightRange K) =>
    forLoop 0 Nx.toNat 1 (fun x (st : HeightRange K) =>
      let h := cabs sqrt (signal (y * Nx.toNat + x))
      let st := if (h : WithTop K) < st.min_value then { st with min_value := (h : WithTop K) }
        else st
      let st := if st.max_value < (h : WithBot K) then { st with max_value := (h : WithBot K) }
        else st
      { st with height_map_data := Function.update st.height_map_data (y * Nx.toNat + x) h })
      st)
    { min_value := ⊤, max_value := ⊥, height_map_data := height_map_data }

/-- What the first part of `GenerateOcean` computes: the spectrum, the signal, the height
map and `tool->min_value`, `tool->max_value`. -/
structure OceanHeights (K : Type) where
  spectrum : Buf K
  signal : Buf K
  height_map_data : Nat → K
  min_value : WithTop K
  max_value : WithBot K

/-- The first part of `GenerateOcean(tool)`, up to the end of the loop that fills
`height_map_data`.  `USE_SIMD` is the build flag that selects `IDFT2D_sse`; the new arrays
are zero-filled and the product `Nx * Ny` is an `int`.  Where `GenerateOceanSpectrum`
takes the square root of a negative `Ph`, the source stores a NaN in the spectrum; the
inverse transform, whose asserts do not look at the data, spreads it over the signal,
and the heights that the loop computes are NaNs, which no comparison with `min_value`
or `max_value` records: the result is `Fault.notANumber`. -/
def GenerateOcean_heights {G : Type} (USE_SIMD : Bool) (PI : K) (sqrt exp : K → K)
    (cexp : complex64 K → complex64 K) (mt19937 : Nat → G) (nd : G → K × G)
    (params : OceanParams K) : Except Fault (OceanHeights K) :=
  let Nx := params.Nx
  let Ny := params.Ny
  if Nx * Ny < -2147483648 ∨ 2147483647 < Nx * Ny then .error .signedOverflow
  else if Nx * Ny < 0 then .error .badArrayNewLength
  else
    let spectrum : Buf K := fun _ => 0
    let spectrum := GenerateOceanSpectrum PI sqrt exp cexp mt19937 nd spectrum params.seed
      Nx Ny params.Lx params.Ly params.Vx params.Vy params.A params.l params.t
    let signal : Buf K := fun _ => 0
    (if USE_SIMD then IDFT2D_sse PI cexp spectrum signal Ny Nx
      else IDFT2D_scalar PI cexp spectrum signal Ny Nx).bind fun signal =>
        if (GenerateOceanSpectrum_sqrt_args PI sqrt exp Nx Ny params.Lx params.Ly params.Vx
            params.Vy params.A params.l).any (fun a => decide (a < 0)) then
          .error .notANumber
        else
          let height_map_data : Nat → K := fun _ => 0
          let range := GenerateOcean_height_range sqrt Nx Ny signal height_map_data
          .ok { spectrum := spectrum, signal := signal,
                height_map_data := range.height_map_data,
                min_value := range.min_value, max_value := range.max_value }

end spectrum

/-! ## `oceantool.cpp`: the generate actions of `UpdateOceanTool` -/

/-- The fields of `struct OceanTool` that the generate actions read and write, and a
record of the calls of `GenerateOcean`: the `params` each call found in the tool. -/
structure OceanToolState (K : Type) where
  params : OceanParams K
  pending_params : OceanParams K
  ocean_param_errors : Nat
  generate_calls : List (OceanParams K)

section update

variable {K : Type} [LinearOrderedField K]

/-- A call `GenerateOcean(tool)` as the generate actions see it: it reads `tool->params`. -/
def GenerateOcean_call (tool : OceanToolState K) : OceanToolState K :=
  { tool with generate_calls := tool.generate_calls ++ [tool.params] }

/-- The body of `if (ImGui::Button("Generate with new seed"))` in `UpdateOceanTool`; `rd`
is the value of `rd()`. -/
def UpdateOceanTool_generateNewSeed (rd : Nat) (tool : OceanToolState K) : OceanToolState K :=
  let tool := { tool with ocean_param_errors := ValidateOceanParams tool.pending_params }
  if tool.ocean_param_errors = 0 then
    let tool := { tool with pending_params := { tool.pending_params with seed := rd } }
    let tool := { tool with params := tool.pending_params }
    GenerateOcean_call tool
  else tool

/-- The body of `if (ImGui::Button("Regenerate with current seed"))` in `UpdateOceanTool`. -/
def UpdateOceanTool_regenerate (tool : OceanToolState K) : OceanToolState K :=
  let tool := { tool with ocean_param_errors := ValidateOceanParams tool.pending_params }
  if tool.ocean_param_errors = 0 then
    let tool := { tool with params := tool.pending_params }
    GenerateOcean_call tool
  else tool

/-- The two generate actions of `UpdateOceanTool` in their order; `new_seed` and
`regenerate` are the results of the two `ImGui::Button` calls. -/
def UpdateOceanTool_generate (new_seed regenerate : Bool) (rd : Nat) (tool : OceanToolState K) :
    OceanToolState K :=
  let tool := if new_seed then UpdateOceanTool_generateNewSeed rd tool else tool
  if regenerate then UpdateOceanTool_regenerate tool else tool

end update

/-! ## `float` arithmetic

The result of an operation on `float`s is the exact result rounded to a `float`; the
definitions of the `float` code whose rounding is at stake take this rounding as the
parameter `fl`. -/

section rounding

variable {K : Type} [LinearOrderedField K] [FloorRing K]

/-- The integer nearest to `x`, the even one of the two when `x` is half-way. -/
def roundHalfEven (x : K) : Int :=
  let n := ⌊x⌋
  if x - (n : K) < 1 / 2 then n
  else if 1 / 2 < x - (n : K) then n + 1
  else if n % 2 = 0 then n else n + 1

/-- Rounding to the nearest `float` (IEEE 754 binary32: 24 significant bits, ties to
even, a fixed quantum `2^-149` below `2^-126`).  A value beyond the largest `float` is
rounded in the same way, not sent to infinity. -/
def binary32 (x : K) : K :=
  let e := max (Int.log 2 |x|) (-126)
  (roundHalfEven (x / (2 : K) ^ (e - 23)) : K) * (2 : K) ^ (e - 23)

end rounding

/-! ## `math.cpp`: `Vector3` -/

/-- The struct `Vector3`. -/
@[ext]
structure Vector3 (K : Type) where
  x : K
  y : K
  z : K

section vector3

variable {K : Type} [LinearOrderedField K]

/-- `operator+(Vector3 v1, Vector3 v2)`. -/
def Vector3.add (fl : K → K) (v1 v2 : Vector3 K) : Vector3 K :=
  ⟨fl (v1.x + v2.x), fl (v1.y + v2.y), fl (v1.z + v2.z)⟩

/-- `operator*(float s, Vector3 v)`. -/
def Vector3.mul_left (fl : K → K) (s : K) (v : Vector3 K) : Vector3 K :=
  ⟨fl (s * v.x), fl (s * v.y), fl (s * v.z)⟩

/-- `operator*(Vector3 v, float s)`. -/
def Vector3.mul_right (fl : K → K) (v : Vector3 K) (s : K) : Vector3 K :=
  ⟨fl (v.x * s), fl (v.y * s), fl (v.z * s)⟩

/-- `Math::Length(v)`; `sqrt` is the square root of a `float`. -/
def Math.Length (fl : K → K) (sqrt : K → K) (v : Vector3 K) : K :=
  sqrt (fl (fl (fl (v.x * v.x) + fl (v.y * v.y)) + fl (v.z * v.z)))

/-- `Math::Normalize(v)`. -/
def Math.Normalize (fl : K → K) (sqrt : K → K) (v : Vector3 K) : Vector3 K :=
  let epsilon : K := fl 1e-7
  let len := Math.Length fl sqrt v
  if len < epsilon then ⟨0, 0, 0⟩
  else Vector3.mul_left fl (fl (1 / len)) v

/-- `Math::Cross(v1, v2)`. -/
def Math.Cross (fl : K → K) (v1 v2 : Vector3 K) : Vector3 K :=
  { x := fl (fl (v1.y * v2.z) - fl (v2.y * v1.z))
    y := -(fl (fl (v1.x * v2.z) - fl (v2.x * v1.z)))
    z := fl (fl (v1.x * v2.y) - fl (v2.x * v1.y)) }

end vector3

/-! ## `oceantool.cpp`: gradients and normals of `GenerateOcean`, `ResizeTextures` -/

section gradients

variable {K : Type} [LinearOrderedField K]

/-- The `else` branch of `GenerateOcean`: the finite differences of `height_map_data`,
with the `int` arithmetic of the neighbour indices; the result is `(grad_x, grad_y)`. -/
def GenerateOcean_gradients_fd (Nx Ny : Int) (Lx Ly : K) (height_map_data : Nat → K) :
    (Nat → K) × (Nat → K) :=
  forLoop 0 Ny.toNat 1 (fun y (st : (Nat → K) × (Nat → K)) =>
    let yb := Int.tmod ((y : Int) - 1 + Ny) Ny
    let yt := Int.tmod ((y : Int) + 1) Ny
    forLoop 0 Nx.toNat 1 (fun x (st : (Nat → K) × (Nat → K)) =>
      let xl := Int.tmod ((x : Int) - 1 + Nx) Nx
      let xr := Int.tmod ((x : Int) + 1) Nx
      let grad_x := Function.update st.1 (y * Nx.toNat + x)
        ((height_map_data ((y : Int) * Nx + xr).toNat -
          height_map_data ((y : Int) * Nx + xl).toNat) / (2 * Lx / (Nx : K)))
      let grad_y := Function.update st.2 (y * Nx.toNat + x)
        ((height_map_data (yt * Nx + (x : Int)).toNat -
          height_map_data (yb * Nx + (x : Int)).toNat) / (2 * Ly / (Ny : K)))
      (grad_x, grad_y)) st) (fun _ => 0, fun _ => 0)

/-- The product `z * s` of a `complex64` and a real (`operator*(const complex<T>&, const T&)`). -/
def scaleR (z : complex64 K) (s : K) : complex64 K := ⟨z.re * s, z.im * s⟩

/-- The quotient `z / s` of a `complex64` by a real (`operator/=(const T&)`). -/
def divR (z : complex64 K) (s : K) : complex64 K := ⟨z.re / s, z.im / s⟩

/-- The wavenumber that the spectral branch of `GenerateOcean` gives to the bin `j` of an
axis of `N` bins and extent `L`: `0` unless `j < N / 2` or `j > N / 2`. -/
def wavenumber (PI : K) (j : Nat) (N : Int) (L : K) : K :=
  let k : K := 0
  if (j : Int) < Int.tdiv N 2 then 2 * PI * (j : K) / L
  else if (j : Int) > Int.tdiv N 2 then 2 * PI * (((j : Int) - N : Int) : K) / L
  else k

/-- The branch `if (tool->gen_accurate_normal_map)` of `GenerateOcean`: spectral
differentiation of the magnitude of `signal`; the result is `(grad_x, grad_y)`. -/
def GenerateOcean_gradients_spectral (USE_SIMD : Bool) (PI : K) (sqrt : K → K)
    (cexp : complex64 K → complex64 K) (Nx Ny : Int) (Lx Ly : K) (signal : Buf K) :
    Except Fault ((Nat → K) × (Nat → K)) :=
  let new_signal : Buf K := fun _ => 0
  let new_signal :=
    forLoop 0 Ny.toNat 1 (fun y new_signal =>
      forLoop 0 Nx.toNat 1 (fun x new_signal =>
        Function.update new_signal (y * Nx.toNat + x)
          ⟨cabs sqrt (signal (y * Nx.toNat + x)), 0⟩) new_signal) new_signal
  let new_spectrum : Buf K := fun _ => 0
  (if USE_SIMD then DFT2D_sse PI cexp new_signal new_spectrum Ny Nx
    else DFT2D_scalar PI cexp new_signal new_spectrum Ny Nx).bind fun new_spectrum =>
    let new_spectrum :=
      forLoop 0 Ny.toNat 1 (fun y new_spectrum =>
        forLoop 0 Nx.toNat 1 (fun x new_spectrum =>
          Function.update new_spectrum (y * Nx.toNat + x)
            (divR (new_spectrum (y * Nx.toNat + x)) ((Nx * Ny : Int) : K))) new_spectrum)
        new_spectrum
    let I : complex64 K := ⟨0, 1⟩
    let grad_spectrum : Buf K × Buf K :=
      forLoop 0 Ny.toNat 1 (fun y (st : Buf K × Buf K) =>
        let ky := wavenumber PI y Ny Ly
        forLoop 0 Nx.toNat 1 (fun x (st : Buf K × Buf K) =>
          let kx := wavenumber PI x Nx Lx
          let grad_spectrum_x := Function.update st.1 (y * Nx.toNat + x)
            (scaleR (new_spectrum (y * Nx.toNat + x)) kx * I)
          let grad_spectrum_y := Function.update st.2 (y * Nx.toNat + x)
            (scaleR (new_spectrum (y * Nx.toNat + x)) ky * I)
          (grad_spectrum_x, grad_spectrum_y)) st) (fun _ => 0, fun _ => 0)
    let grad_signal_x : Buf K := fun _ => 0
    let grad_signal_y : Buf K := fun _ => 0
    (if USE_SIMD then IDFT2D_sse PI cexp grad_spectrum.1 grad_signal_x Ny Nx
      else IDFT2D_scalar PI cexp grad_spectrum.1 grad_signal_x Ny Nx).bind fun grad_signal_x =>
      (if USE_SIMD then IDFT2D_sse PI cexp grad_spectrum.2 grad_signal_y Ny Nx
        else IDFT2D_scalar PI cexp grad_spectrum.2 grad_signal_y Ny Nx).bind
        fun grad_signal_y =>
          .ok (forLoop 0 Ny.toNat 1 (fun y (st : (Nat → K) × (Nat → K)) =>
            forLoop 0 Nx.toNat 1 (fun x (st : (Nat → K) × (Nat → K)) =>
              (Function.update st.1 (y * Nx.toNat + x) (grad_signal_x (y * Nx.toNat + x)).re,
                Function.update st.2 (y * Nx.toNat + x)
                  (grad_signal_y (y * Nx.toNat + x)).re)) st) (fun _ => 0, fun _ => 0))

/-- The body of the loops of `GenerateOcean` that fill `normal_map_data`: the vector
stored for a cell with gradient `(gx, gy)`. -/
def GenerateOcean_normal (fl : K → K) (sqrt : K → K) (gx gy : K) : Vector3 K :=
  let tangent : Vector3 K := ⟨1, 0, gx⟩
  let bitangent : Vector3 K := ⟨0, 1, gy⟩
  let normal := Math.Normalize fl sqrt (Math.Cross fl tangent bitangent)
  Vector3.mul_right fl (Vector3.add fl normal (⟨1, 1, 1⟩ : Vector3 K)) (0.5 : K)

/-- The loops of `GenerateOcean` that fill `normal_map_data`. -/
def GenerateOcean_normal_map (fl : K → K) (sqrt : K → K) (Nx Ny : Int)
    (grad_x grad_y : Nat → K) : Nat → Vector3 K :=
  forLoop 0 Ny.toNat 1 (fun y normal_map_data =>
    forLoop 0 Nx.toNat 1 (fun x normal_map_data =>
      Function.update normal_map_data (y * Nx.toNat + x)
        (GenerateOcean_normal fl sqrt (grad_x (y * Nx.toNat + x))
          (grad_y (y * Nx.toNat + x))))
      normal_map_data) (fun _ => ⟨0, 0, 0⟩)

/-- The loops of `ResizeTextures` that fill `normal_map_data`, three floats a cell. -/
def ResizeTextures_normal_map_data (Nx Ny : Int) : Nat → K :=
  forLoop 0 Ny.toNat 1 (fun y normal_map_data =>
    forLoop 0 Nx.toNat 1 (fun x normal_map_data =>
      let normal_map_data := Function.update normal_map_data ((y * Nx.toNat + x) * 3 + 0) 0.5
      let normal_map_data := Function.update normal_map_data ((y * Nx.toNat + x) * 3 + 1) 0.5
      Function.update normal_map_data ((y * Nx.toNat + x) * 3 + 2) 1.0) normal_map_data)
    (fun _ => 0)

end gradients

/-! ## `oceantool.cpp`: the export routines

The file is the list of the bytes written so far, a byte a natural number below `256`.
`width`, `height` and `pixels` are what OpenGL returns for the texture; `fopen` is taken
to succeed.  An object of two bytes is written low byte first (x86). -/

/-- `fwrite(&v, 1, 1, fp)` for a `uint8_t` initialised with `v`. -/
def fwrite8 (fp : List Nat) (v : Nat) : List Nat := fp ++ [v % 256]

/-- `fwrite(&v, 2, 1, fp)` for a `uint16_t` initialised with the `int` `v`. -/
def fwrite16 (fp : List Nat) (v : Int) : List Nat :=
  let v := (v % 65536).toNat
  fp ++ [v % 256, v / 256]

/-- The header that both export routines write, for their `image_type` and
`pixel_depth`. -/
def writeHeader (fp : List Nat) (image_type pixel_depth : Nat) (width height : Int) :
    List Nat :=
  let id_length := 0
  let color_map_type := 0
  let fp := fwrite8 fp id_length
  let fp := fwrite8 fp color_map_type
  let fp := fwrite8 fp image_type
  let color_map_spec : List Nat := [0, 0, 0, 0, 0]
  let fp := fp ++ color_map_spec
  let x_origin := 0
  let y_origin := 0
  let image_width := width
  let image_height := height
  let image_descriptor := 0
  let fp := fwrite16 fp x_origin
  let fp := fwrite16 fp y_origin
  let fp := fwrite16 fp image_width
  let fp := fwrite16 fp image_height
  let fp := fwrite8 fp pixel_depth
  fwrite8 fp image_descriptor

section exportRoutines

variable {K : Type} [LinearOrderedField K] [FloorRing K]

/-- Conversion of a `float` to `GLubyte`: the value truncated toward zero; outside
`[0, 255]` the conversion is undefined in C++, the model keeps the low eight bits. -/
def toGLubyte (v : K) : Nat := ((if 0 ≤ v then ⌊v⌋ else ⌈v⌉) % 256).toNat

/-- The byte that `SaveHeightMap` writes for the pixel value `p`; every operation is an
operation on `float`s. -/
def SaveHeightMap_byte (fl : K → K) (min_value max_value p : K) : Nat :=
  let min_height := min_value
  let max_height := max_value
  let height_range := fl (max_height - min_height)
  let height_range := if height_range = 0 then 1 else height_range
  toGLubyte (fl (fl (fl (p - min_height) / height_range) * 255))

/-- `SaveHeightMap(tool, filename)`: the bytes of the file. -/
def SaveHeightMap (fl : K → K) (min_value max_value : K) (width height : Int)
    (pixels : Nat → K) : List Nat :=
  let fp : List Nat := []
  let fp := writeHeader fp 3 8 width height
  forLoop 0 height.toNat 1 (fun y fp =>
    forLoop 0 width.toNat 1 (fun x fp =>
      fwrite8 fp (SaveHeightMap_byte fl min_value max_value (pixels (y * width.toNat + x))))
      fp) fp

end exportRoutines

/-- `SaveNormalMap(tool, filename)`: the bytes of the file; `pixels` is the RGBA buffer,
four bytes a pixel. -/
def SaveNormalMap (width height : Int) (pixels : Nat → Nat) : List Nat :=
  let fp : List Nat := []
  let fp := writeHeader fp 2 24 width height
  forLoop 0 height.toNat 1 (fun y fp =>
    forLoop 0 width.toNat 1 (fun x fp =>
      let fp := fwrite8 fp (pixels ((y * width.toNat + x) * 4 + 2))
      let fp := fwrite8 fp (pixels ((y * width.toNat + x) * 4 + 1))
      fwrite8 fp (pixels ((y * width.toNat + x) * 4 + 0))) fp) fp

/-! ## `dft.cpp`: the subscripts of the 1D transforms

The buffers of the model are total functions, so the subscripts that the loops of the
1D transforms apply to `out` are listed here, loop by loop, in program order. -/

/-- The subscripts of `out` written by the first loop, `out[BitReverse(i, p)] = in[i]`. -/
def bitReverseCopy_subscripts (N : Nat) (p : Int) : List Nat :=
  forLoop 0 N 1 (fun i acc => acc ++ [BitReverse i p]) []

/-- The subscripts of `out` in the `m = 2` block (scalar and SSE): `k`, `k + 1`, read
and then written. -/
def stage2_subscripts (N : Nat) : List Nat :=
  forLoop 0 N 2 (fun k acc => acc ++ [k, k + 1, k, k + 1]) []

/-- The subscripts of `out` in the `m = 4` block (scalar and SSE). -/
def stage4_subscripts (N : Nat) : List Nat :=
  forLoop 0 N 4 (fun k acc => acc ++ [k, k + 2, k, k + 2, k + 1, k + 3, k + 1, k + 3]) []

/-- The subscripts of `out` in one general stage of the scalar transforms. -/
def scalarStage_subscripts (m N : Nat) : List Nat :=
  forLoop 0 N m (fun k acc =>
    forLoop 0 (m / 2) 1 (fun j acc =>
      acc ++ [k + j, k + j + m / 2, k + j, k + j + m / 2]) acc) []

/-- The subscripts of `out` in one general stage of the SSE transforms (`j += 2`). -/
def sseStage_subscripts (m N : Nat) : List Nat :=
  forLoop 0 N m (fun k acc =>
    forLoop 0 (m / 2) 2 (fun j acc =>
      acc ++ [k + j, k + j + m / 2, k + j + 1, k + j + 1 + m / 2,
        k + j, k + j + m / 2, k + j + 1, k + j + 1 + m / 2]) acc) []

/-- The subscripts of `out` in the butterfly stages of a 1D transform of size `N`, for
the scalar (`sse = false`) and the SSE (`sse = true`) variants; forward and inverse
transforms use the same subscripts. -/
def stages_subscripts (sse : Bool) (N : Int) : List Nat :=
  let p := GetPowerOf2 (toUnsigned N)
  let acc := if p ≥ 1 then stage2_subscripts N.toNat else []
  let acc := if p ≥ 2 then acc ++ stage4_subscripts N.toNat else acc
  forLoop 3 (p + 1).toNat 1 (fun s acc =>
    let m := 1 <<< s
    acc ++ (if sse then sseStage_subscripts m N.toNat
      else scalarStage_subscripts m N.toNat)) acc

/-! ## `math.cpp`: `Matrix4`, `Quaternion` and the transforms of a frame -/

/-- The struct `Matrix4`; `_ij` is the entry of row `i` and column `j`. -/
@[ext]
structure Matrix4 (K : Type) where
  _11 : K
  _12 : K
  _13 : K
  _14 : K
  _21 : K
  _22 : K
  _23 : K
  _24 : K
  _31 : K
  _32 : K
  _33 : K
  _34 : K
  _41 : K
  _42 : K
  _43 : K
  _44 : K
  deriving DecidableEq, Repr

/-- The struct `Quaternion`. -/
@[ext]
structure Quaternion (K : Type) where
  x : K
  y : K
  z : K
  w : K
  deriving DecidableEq, Repr

section matrix4

variable {K : Type} [LinearOrderedField K]

/-- `operator-(Vector3 v)`. -/
instance : Neg (Vector3 K) := ⟨fun v => ⟨-v.x, -v.y, -v.z⟩⟩

/-- The value-initialised matrix `Matrix4 res = {}`. -/
def Matrix4.zeroInit : Matrix4 K :=
  { _11 := 0, _12 := 0, _13 := 0, _14 := 0
    _21 := 0, _22 := 0, _23 := 0, _24 := 0
    _31 := 0, _32 := 0, _33 := 0, _34 := 0
    _41 := 0, _42 := 0, _43 := 0, _44 := 0 }

/-- `Matrix4::MakeIdentity()`. -/
def Matrix4.MakeIdentity : Matrix4 K :=
  let res : Matrix4 K := Matrix4.zeroInit
  { res with _11 := 1, _22 := 1, _33 := 1, _44 := 1 }

/-- `Matrix4::MakePerspective(l, r, b, t, z_near, z_far)`. -/
def Matrix4.MakePerspective (l r b t z_near z_far : K) : Matrix4 K :=
  let res : Matrix4 K := Matrix4.zeroInit
  let res := { res with _11 := 2 * z_near / (r - l) }
  let res := { res with _13 := (r + l) / (r - l) }
  let res := { res with _22 := 2 * z_near / (t - b) }
  let res := { res with _23 := (t + b) / (t - b) }
  let res := { res with _33 := (z_near + z_far) / (z_near - z_far) }
  let res := { res with _34 := 2 * z_near * z_far / (z_near - z_far) }
  let res := { res with _43 := -1 }
  { res with _44 := 0 }

/-- `Matrix4::MakePerspectiveInverse(l, r, b, t, z_near, z_far)`. -/
def Matrix4.MakePerspectiveInverse (l r b t z_near z_far : K) : Matrix4 K :=
  let res : Matrix4 K := Matrix4.zeroInit
  let res := { res with _11 := (r - l) / (2 * z_near) }
  let res := { res with _14 := (r + l) / (2 * z_near) }
  let res := { res with _22 := (t - b) / (2 * z_near) }
  let res := { res with _23 := (t + b) / (2 * z_near) }
  let res := { res with _33 := 0 }
  let res := { res with _34 := -1 }
  let res := { res with _43 := (z_near - z_far) / (2 * z_near * z_far) }
  { res with _44 := (z_near + z_far) / (2 * z_near * z_far) }

/-- `operator*(Matrix4 m1, Matrix4 m2)`. -/
instance : Mul (Matrix4 K) := ⟨fun m1 m2 =>
  { _11 := m1._11 * m2._11 + m1._12 * m2._21 + m1._13 * m2._31 + m1._14 * m2._41
    _12 := m1._11 * m2._12 + m1._12 * m2._22 + m1._13 * m2._32 + m1._14 * m2._42
    _13 := m1._11 * m2._13 + m1._12 * m2._23 + m1._13 * m2._33 + m1._14 * m2._43
    _14 := m1._11 * m2._14 + m1._12 * m2._24 + m1._13 * m2._34 + m1._14 * m2._44
    _21 := m1._21 * m2._11 + m1._22 * m2._21 + m1._23 * m2._31 + m1._24 * m2._41
    _22 := m1._21 * m2._12 + m1._22 * m2._22 + m1._23 * m2._32 + m1._24 * m2._42
    _23 := m1._21 * m2._13 + m1._22 * m2._23 + m1._23 * m2._33 + m1._24 * m2._43
    _24 := m1._21 * m2._14 + m1._22 * m2._24 + m1._23 * m2._34 + m1._24 * m2._44
    _31 := m1._31 * m2._11 + m1._32 * m2._21 + m1._33 * m2._31 + m1._34 * m2._41
    _32 := m1._31 * m2._12 + m1._32 * m2._22 + m1._33 * m2._32 + m1._34 * m2._42
    _33 := m1._31 * m2._13 + m1._32 * m2._23 + m1._33 * m2._33 + m1._34 * m2._43
    _34 := m1._31 * m2._14 + m1._32 * m2._24 + m1._33 * m2._34 + m1._34 * m2._44
    _41 := m1._41 * m2._11 + m1._42 * m2._21 + m1._43 * m2._31 + m1._44 * m2._41
    _42 := m1._41 * m2._12 + m1._42 * m2._22 + m1._43 * m2._32 + m1._44 * m2._42
    _43 := m1._41 * m2._13 + m1._42 * m2._23 + m1._43 * m2._33 + m1._44 * m2._43
    _44 := m1._41 * m2._14 + m1._42 * m2._24 + m1._43 * m2._34 + m1._44 * m2._44 }⟩

/-- `MakeLocalToWorldMatrix(position, orientation, scale)`. -/
def MakeLocalToWorldMatrix (position : Vector3 K) (orientation : Quaternion K) (scale : K) :
    Matrix4 K :=
  let matrix : Matrix4 K := Matrix4.MakeIdentity
  let qxqx := 2 * orientation.x * orientation.x
  let qyqy := 2 * orientation.y * orientation.y
  let qzqz := 2 * orientation.z * orientation.z
  let qwqx := 2 * orientation.w * orientation.x
  let qwqy := 2 * orientation.w * orientation.y
  let qwqz := 2 * orientation.w * orientation.z
  let qxqy := 2 * orientation.x * orientation.y
  let qxqz := 2 * orientation.x * orientation.z
  let qyqz := 2 * orientation.y * orientation.z
  let matrix := { matrix with _11 := scale * (1 - (qyqy + qzqz)) }
  let matrix := { matrix with _12 := scale * (qxqy - qwqz) }
  let matrix := { matrix with _13 := scale * (qxqz + qwqy) }
  let matrix := { matrix with _14 := position.x }
  let matrix := { matrix with _21 := scale * (qxqy + qwqz) }
  let matrix := { matrix with _22 := scale * (1 - (qxqx + qzqz)) }
  let matrix := { matrix with _23 := scale * (qyqz - qwqx) }
  let matrix := { matrix with _24 := position.y }
  let matrix := { matrix with _31 := scale * (qxqz - qwqy) }
  let matrix := { matrix with _32 := scale * (qyqz + qwqx) }
  let matrix := { matrix with _33 := scale * (1 - (qxqx + qyqy)) }
  { matrix with _34 := position.z }

/-- `MakeWorldToLocalMatrix(position, orientation, scale)`. -/
def MakeWorldToLocalMatrix (position : Vector3 K) (orientation : Quaternion K) (scale : K) :
    Matrix4 K :=
  let matrix : Matrix4 K := Matrix4.MakeIdentity
  let qxqx := 2 * orientation.x * orientation.x
  let qyqy := 2 * orientation.y * orientation.y
  let qzqz := 2 * orientation.z * orientation.z
  let qwqx := 2 * orientation.w * orientation.x
  let qwqy := 2 * orientation.w * orientation.y
  let qwqz := 2 * orientation.w * orientation.z
  let qxqy := 2 * orientation.x * orientation.y
  let qxqz := 2 * orientation.x * orientation.z
  let qyqz := 2 * orientation.y * orientation.z
  let p : Vector3 K := -position
  let s : K := 1 / scale
  let matrix := { matrix with _11 := s * (1 - (qyqy + qzqz)) }
  let matrix := { matrix with _12 := s * (qxqy + qwqz) }
  let matrix := { matrix with _13 := s * (qxqz - qwqy) }
  let matrix :=
    { matrix with _14 := matrix._11 * p.x + matrix._12 * p.y + matrix._13 * p.z }
  let matrix := { matrix with _21 := s * (qxqy - qwqz) }
  let matrix := { matrix with _22 := s * (1 - (qxqx + qzqz)) }
  let matrix := { matrix with _23 := s * (qyqz + qwqx) }
  let matrix :=
    { matrix with _24 := matrix._21 * p.x + matrix._22 * p.y + matrix._23 * p.z }
  let matrix := { matrix with _31 := s * (qxqz + qwqy) }
  let matrix := { matrix with _32 := s * (qyqz - qwqx) }
  let matrix := { matrix with _33 := s * (1 - (qxqx + qyqy)) }
  { matrix with _34 := matrix._31 * p.x + matrix._32 * p.y + matrix._33 * p.z }

end matrix4

/-! ## `common.cpp`: the scratch allocator

Sizes are `size_t` (64 bits): natural numbers with explicit `% 2^64`.  A pointer into
the scratch memory is its offset from `scratch_memory`. -/

/-- `SCRATCH_SIZE`, that is `SIZE_MB(16)`. -/
def SCRATCH_SIZE : Nat := 16 <<< 20

/-- The static variables of the scratch allocator. -/
structure ScratchState where
  scratch_allocated_size : Nat
  scratch_total_size : Nat
  deriving DecidableEq, Repr

/-- The static initialisers: nothing allocated, `SCRATCH_SIZE` bytes in total. -/
def ScratchState.start : ScratchState :=
  { scratch_allocated_size := 0, scratch_total_size := SCRATCH_SIZE }

/-- `ScratchAlloc(size)`: the returned pointer (`none` is `NULL`) and the state after the
call. -/
def ScratchAlloc (st : ScratchState) (size : Nat) : Option Nat × ScratchState :=
  if (st.scratch_allocated_size + size) % 18446744073709551616 > st.scratch_total_size then
    (none, st)
  else if (st.scratch_allocated_size + size) % 18446744073709551616
      < st.scratch_allocated_size then
    (none, st)
  else
    let ptr := st.scratch_allocated_size
    (some ptr, { st with scratch_allocated_size :=
      (st.scratch_allocated_size + size) % 18446744073709551616 })

/-- `ScratchFreeTo(ptr)`; `ptr` is the difference `(char*) ptr - (char*) scratch_memory`
before its conversion to `size_t`. -/
def ScratchFreeTo (st : ScratchState) (ptr : Int) : ScratchState :=
  let new_allocated_size := (ptr % 18446744073709551616).toNat
  if new_allocated_size > st.scratch_allocated_size then st
  else { st with scratch_allocated_size := new_allocated_size }

/-- `ScratchClear()`. -/
def ScratchClear (st : ScratchState) : ScratchState :=
  { st with scratch_allocated_size := 0 }

/-! ## Definitions used in the statements and proofs -/

/-- One swap step of `BitReverse`. -/
def swapStep (n mhi mlo sh : Nat) : Nat := ((n &&& mhi) >>> sh) ||| shl32 (n &&& mlo) sh

/-- The five swap steps of `BitReverse`, before the final shift. -/
def rev32 (n : Nat) : Nat :=
  swapStep (swapStep (swapStep (swapStep (swapStep n 0xFFFF0000 0x0000FFFF 16)
    0xFF00FF00 0x00FF00FF 8) 0xF0F0F0F0 0x0F0F0F0F 4) 0xCCCCCCCC 0x33333333 2)
    0xAAAAAAAA 0x55555555 1

/-- Reversal of the low `q` bits, by recursion on `q` (the index map of the
decimation-in-time recursion). -/
def brev : Nat → Nat → Nat
  | 0, _ => 0
  | q + 1, n => (n % 2) * 2 ^ q + brev q (n / 2)

namespace complex64

variable {K : Type}

/-- With the operations of `std::complex`, `complex64 K` is a commutative ring. -/
instance [CommRing K] : CommRing (complex64 K) where
  add := (· + ·)
  zero := 0
  neg := Neg.neg
  sub := (· - ·)
  mul := (· * ·)
  one := 1
  nsmul := nsmulRec
  zsmul := zsmulRec
  add_assoc a b c := complex64.ext (add_assoc a.re b.re c.re) (add_assoc a.im b.im c.im)
  zero_add a := complex64.ext (zero_add a.re) (zero_add a.im)
  add_zero a := complex64.ext (add_zero a.re) (add_zero a.im)
  add_comm a b := complex64.ext (add_comm a.re b.re) (add_comm a.im b.im)
  neg_add_cancel a := complex64.ext (neg_add_cancel a.re) (neg_add_cancel a.im)
  sub_eq_add_neg a b :=
    complex64.ext (sub_eq_add_neg a.re b.re) (sub_eq_add_neg a.im b.im)
  mul_assoc a b c :=
    complex64.ext
      (show (a.re * b.re - a.im * b.im) * c.re - (a.re * b.im + a.im * b.re) * c.im =
          a.re * (b.re * c.re - b.im * c.im) - a.im * (b.re * c.im + b.im * c.re) by ring)
      (show (a.re * b.re - a.im * b.im) * c.im + (a.re * b.im + a.im * b.re) * c.re =
          a.re * (b.re * c.im + b.im * c.re) + a.im * (b.re * c.re - b.im * c.im) by ring)
  one_mul a :=
    complex64.ext (show 1 * a.re - 0 * a.im = a.re by ring)
      (show 1 * a.im + 0 * a.re = a.im by ring)
  mul_one a :=
    complex64.ext (show a.re * 1 - a.im * 0 = a.re by ring)
      (show a.re * 0 + a.im * 1 = a.im by ring)
  left_distrib a b c :=
    complex64.ext
      (show a.re * (b.re + c.re) - a.im * (b.im + c.im) =
          a.re * b.re - a.im * b.im + (a.re * c.re - a.im * c.im) by ring)
      (show a.re * (b.im + c.im) + a.im * (b.re + c.re) =
          a.re * b.im + a.im * b.re + (a.re * c.im + a.im * c.re) by ring)
  right_distrib a b c :=
    complex64.ext
      (show (a.re + b.re) * c.re - (a.im + b.im) * c.im =
          a.re * c.re - a.im * c.im + (b.re * c.re - b.im * c.im) by ring)
      (show (a.re + b.re) * c.im + (a.im + b.im) * c.re =
          a.re * c.im + a.im * c.re + (b.re * c.im + b.im * c.re) by ring)
  mul_comm a b :=
    complex64.ext (show a.re * b.re - a.im * b.im = b.re * a.re - b.im * a.im by ring)
      (show a.re * b.im + a.im * b.re = b.re * a.im + b.im * a.re by ring)
  zero_mul a :=
    complex64.ext (show 0 * a.re - 0 * a.im = 0 by ring) (show 0 * a.im + 0 * a.re = 0 by ring)
  mul_zero a :=
    complex64.ext (show a.re * 0 - a.im * 0 = 0 by ring) (show a.re * 0 + a.im * 0 = 0 by ring)

end complex64

/-- The embedding of `complex64` over the reals into `ℂ`. -/
def toComplex : complex64 ℝ →+* ℂ where
  toFun z := ⟨z.re, z.im⟩
  map_zero' := rfl
  map_one' := rfl
  map_add' _ _ := rfl
  map_mul' _ _ := Complex.ext (by simp [Complex.mul_re]; rfl) (by simp [Complex.mul_im]; rfl)

section butterfly

variable {K : Type} [Field K]

/-- `o2` is `o1` after the butterflies of one block of half-size `h` at `k`, twiddle `w`. -/
def IsBlockButterfly (w : complex64 K) (h k : Nat) (o1 o2 : Buf K) : Prop :=
  (∀ j, j < h → o2 (k + j) = o1 (k + j) + o1 (k + j + h) * w ^ j ∧
      o2 (k + j + h) = o1 (k + j) - o1 (k + j + h) * w ^ j) ∧
    (∀ i, (i < k ∨ k + 2 * h ≤ i) → o2 i = o1 i)

/-- `o2` is `o1` after a whole stage: `c` blocks of half-size `h`, twiddle `w`. -/
def IsButterfly (w : complex64 K) (h c : Nat) (o1 o2 : Buf K) : Prop :=
  (∀ b, b < c → ∀ j, j < h →
      o2 (b * (2 * h) + j) = o1 (b * (2 * h) + j) + o1 (b * (2 * h) + j + h) * w ^ j ∧
      o2 (b * (2 * h) + j + h) = o1 (b * (2 * h) + j) - o1 (b * (2 * h) + j + h) * w ^ j) ∧
    (∀ i, c * (2 * h) ≤ i → o2 i = o1 i)

/-- One butterfly of the general stage, with the twiddle given. -/
def bfly (k h : Nat) (w : complex64 K) (j : Nat) (o : Buf K) : Buf K :=
  Function.update (Function.update o (k + j) (o (k + j) + o (k + j + h) * w)) (k + j + h)
    (o (k + j) - o (k + j + h) * w)

end butterfly

section invariant

variable {K : Type} [Field K]

/-- After `s` stages, block `b` of size `2^s` holds the size-`2^s` transform, with root
`ζ`, of the samples of `x` at stride `2^q` and offset `brev q b`. -/
def StageInv (x : Buf K) (ζ : complex64 K) (s q : Nat) (o : Buf K) : Prop :=
  ∀ b, b < 2 ^ q → ∀ j, j < 2 ^ s →
    o (b * 2 ^ s + j) = ∑ t ∈ Finset.range (2 ^ s), x (t * 2 ^ q + brev q b) * ζ ^ (j * t)

end invariant

section assemble

variable {K : Type} [Field K]

/-- A family of stage twiddles: `tw s` is the twiddle of the stage of size `2^s`. -/
structure IsTwiddle (tw : Nat → complex64 K) : Prop where
  one : tw 1 = -1
  sq : ∀ s, 1 ≤ s → tw (s + 1) ^ 2 = tw s

end assemble

section top

variable {K : Type} [Field K]

/-- The stage of index `s` of a 1D transform built from its three kinds of stage. -/
def stageOf (st1 st2 : Buf K → Buf K) (body : Nat → Buf K → Buf K) (s : Nat) (o : Buf K) :
    Buf K :=
  if s = 1 then st1 o else if s = 2 then st2 o else body s o

/-- The twiddle `Wm` of the stage `s` of the forward transforms. -/
def fwdWm (PI : K) (cexp : complex64 K → complex64 K) (s : Nat) : complex64 K :=
  let m : Nat := 1 <<< s
  cexp ⟨0, -2 * PI / (m : K)⟩

/-- The twiddle `Wm` of the stage `s` of the inverse transforms. -/
def invWm (PI : K) (cexp : complex64 K → complex64 K) (s : Nat) : complex64 K :=
  let m : Nat := 1 <<< s
  cexp ⟨0, 2 * PI / (m : K)⟩

/-- The twiddle `Wm_2` of the stage `s` of `DFT1D_sse`. -/
def fwdWm2 (PI : K) (cexp : complex64 K → complex64 K) (s : Nat) : complex64 K :=
  let m : Nat := 1 <<< s
  cexp ⟨0, -4 * PI / (m : K)⟩

/-- The twiddle `Wm_2` of the stage `s` of `IDFT1D_sse`. -/
def invWm2 (PI : K) (cexp : complex64 K → complex64 K) (s : Nat) : complex64 K :=
  let m : Nat := 1 <<< s
  cexp ⟨0, 4 * PI / (m : K)⟩

end top

section generic

variable {K : Type} [Field K]

/-- The twiddle family of a transform: `-1`, the unit `w2` of the `m = 4` stage, then
the computed `Wm`. -/
def twOf (w2 : complex64 K) (Wm : Nat → complex64 K) (s : Nat) : complex64 K :=
  if s = 1 then -1 else if s = 2 then w2 else Wm s

end generic

section realSpec

/-- The standard model of `std::exp` on the reals, on purely imaginary arguments. -/
def IsCexp (cexp : complex64 ℝ → complex64 ℝ) : Prop :=
  ∀ θ : ℝ, cexp ⟨0, θ⟩ = ⟨Real.cos θ, Real.sin θ⟩

end realSpec

section twoD

variable {K : Type} [Field K]

/-- What is required of a 1D transform `T` at size `N`: it returns, writes `F inp k` into
cell `k < N` and leaves the cells from `N` on as they were. -/
def Is1DSpec (T : Buf K → Buf K → Int → Except Fault (Buf K)) (Ni : Int) (N : Nat)
    (F : Buf K → Nat → complex64 K) : Prop :=
  ∀ inp out, ∃ res, T inp out Ni = .ok res ∧ (∀ k, k < N → res k = F inp k) ∧
    (∀ i, N ≤ i → res i = out i)

end twoD

section twoDreal

/-- The sum `∑ n < N, inp[n] * ζ^(k*n)` that a 1D transform with last twiddle `ζ`
leaves in cell `k`. -/
def dftSum {K : Type} [Field K] (ζ : complex64 K) (N : Nat) (inp : Buf K) (k : Nat) :
    complex64 K :=
  ∑ n ∈ Finset.range N, inp n * ζ ^ (k * n)

variable (cexp : complex64 ℝ → complex64 ℝ)

end twoDreal

section asserts

variable {K : Type} [Field K]

/-- A 1D transform whose only exits are the size assertion and a normal return: it
fails the assertion when `N > 1 && IsPowerOf2(N)` is false and returns otherwise. -/
def ChecksSize (T : Buf K → Buf K → Int → Except Fault (Buf K)) : Prop :=
  ∀ inp out N,
    (¬ (N > 1 ∧ IsPowerOf2 (toUnsigned N) = true) → T inp out N = .error .assertFail) ∧
    ((N > 1 ∧ IsPowerOf2 (toUnsigned N) = true) → ∃ res, T inp out N = .ok res)

end asserts

section spectrumDefs

variable {K : Type} [LinearOrderedField K]

/-- The state of the generator after `i` draws from the state `g`. -/
def drawState {G : Type} (nd : G → K × G) (g : G) : Nat → G
  | 0 => g
  | i + 1 => (nd (drawState nd g i)).2

/-- The sample `d_i`: the `i`-th draw (from `0`) of a generator started in state `g`. -/
def draw {G : Type} (nd : G → K × G) (g : G) (i : Nat) : K := (nd (drawState nd g i)).1

/-- The value that the body of the loops of `GenerateOceanSpectrum` stores in the cell
`(x, y)`, from the two complex samples `z_a`, `z_b` drawn for the cell; `A` is the
amplitude already divided by `Lx * Ly`. -/
def spectrumCell (PI : K) (sqrt exp : K → K) (cexp : complex64 K → complex64 K)
    (Lx Ly Vx Vy A l t : K) (x y : Nat) (z_a z_b : complex64 K) : complex64 K :=
  let ky := 2 * PI * (y : K) / Ly
  let kx := 2 * PI * (x : K) / Lx
  let h0a := scale (ONE_OVER_SQRT_2 * sqrt (Ph sqrt exp kx ky Vx Vy A l)) z_a
  let h0b := conj (scale (ONE_OVER_SQRT_2 * sqrt (Ph sqrt exp (-kx) (-ky) Vx Vy A l)) z_b)
  let omega := sqrt (9.81 * sqrt (kx * kx + ky * ky))
  h0a * cexp ⟨0, omega * t⟩ + h0b * cexp ⟨0, -omega * t⟩

end spectrumDefs

section twiddleDefs

variable {K : Type} [Field K]

/-- The body of the loop over `j` of a general stage of the scalar transforms, in the
block `k` of the stage of size `m` with twiddle `Wm`; the state is `(out, W)`. -/
def scalarInnerBody (Wm : complex64 K) (m k : Nat) (j : Nat) (st : Buf K × complex64 K) :
    Buf K × complex64 K :=
  let out := st.1
  let W := st.2
  let x0 := out (k + j)
  let x1 := out (k + j + m / 2) * W
  let out := Function.update out (k + j) (x0 + x1)
  let out := Function.update out (k + j + m / 2) (x0 - x1)
  (out, W * Wm)

/-- The state `(out, W)` at the start of the iteration `j` of the loop over `j`, in the
block `k` entered with the array `out`: `W` starts from `1`. -/
def scalarInnerState (Wm : complex64 K) (m k : Nat) (out : Buf K) (j : Nat) :
    Buf K × complex64 K :=
  forLoop 0 j 1 (scalarInnerBody Wm m k) (out, 1)

end twiddleDefs

section roundingOrder

variable {K : Type} [LinearOrderedField K]

/-- What the theorems on the `float` code of `SaveHeightMap` use of the rounding of the
`float` operations: it is monotone and leaves the floats `0`, `1` and `255` as they
are. -/
def IsRounding (fl : K → K) : Prop :=
  (∀ x y : K, x ≤ y → fl x ≤ fl y) ∧ fl 0 = 0 ∧ fl 1 = 1 ∧ fl 255 = 255

end roundingOrder

section heightRangeLemmas

variable {K : Type} [LinearOrderedField K]

/-- One iteration of the height loop on a cell whose height is `h`. -/
def rangeStep (v : Nat → K) (c : Nat) (st : HeightRange K) : HeightRange K :=
  let h := v c
  let st := if (h : WithTop K) < st.min_value then { st with min_value := (h : WithTop K) }
    else st
  let st := if st.max_value < (h : WithBot K) then { st with max_value := (h : WithBot K) }
    else st
  { st with height_map_data := Function.update st.height_map_data c h }

end heightRangeLemmas

section hermitian

/-- The bin of the opposite frequency: `0` for the bin `0`, `N - k` otherwise. -/
def negBin (N k : Nat) : Nat := (N - k) % N

end hermitian

/-! ## Theorems -/

theorem swapStep_testBit (n mhi mlo sh i : Nat) :
    (swapStep n mhi mlo sh).testBit i =
      ((n.testBit (sh + i) && mhi.testBit (sh + i)) ||
        (decide (i < 32) && (decide (sh ≤ i) && (n.testBit (i - sh) && mlo.testBit (i - sh))))) := by
  simp [swapStep, shl32, Nat.testBit_or, Nat.testBit_shiftRight, Nat.testBit_and,
    Nat.testBit_shiftLeft]
  rw [show (4294967296 : Nat) = 2 ^ 32 by norm_num, Nat.testBit_mod_two_pow]
  simp [Nat.testBit_shiftLeft, Nat.testBit_and]

theorem testBit_mask_of_ge (m j : Nat) (hm : m < 4294967296) (hj : 32 ≤ j) :
    m.testBit j = false := by
  apply Nat.testBit_lt_two_pow
  exact lt_of_lt_of_le hm (by
    rw [show (4294967296 : Nat) = 2 ^ 32 by norm_num]
    exact Nat.pow_le_pow_right (by norm_num) hj)

theorem swapStep_testBit_ge (n mhi mlo sh i : Nat) (hm : mhi < 4294967296) (hi : 32 ≤ i) :
    (swapStep n mhi mlo sh).testBit i = false := by
  rw [swapStep_testBit, testBit_mask_of_ge mhi (sh + i) hm (by omega)]
  simp; omega

theorem testBit_mask_hi16 (j : Nat) :
    (0xFFFF0000 : Nat).testBit j = (decide (j < 32) && decide ((j / 16) % 2 = 1)) := by
  by_cases h : j < 32
  · interval_cases j <;> rfl
  · rw [testBit_mask_of_ge _ j (by norm_num) (by omega)]
    simp [h]

theorem testBit_mask_lo16 (j : Nat) :
    (0x0000FFFF : Nat).testBit j = (decide (j < 32) && decide ((j / 16) % 2 = 0)) := by
  by_cases h : j < 32
  · interval_cases j <;> rfl
  · rw [testBit_mask_of_ge _ j (by norm_num) (by omega)]
    simp [h]

theorem testBit_mask_hi8 (j : Nat) :
    (0xFF00FF00 : Nat).testBit j = (decide (j < 32) && decide ((j / 8) % 2 = 1)) := by
  by_cases h : j < 32
  · interval_cases j <;> rfl
  · rw [testBit_mask_of_ge _ j (by norm_num) (by omega)]
    simp [h]

theorem testBit_mask_lo8 (j : Nat) :
    (0x00FF00FF : Nat).testBit j = (decide (j < 32) && decide ((j / 8) % 2 = 0)) := by
  by_cases h : j < 32
  · interval_cases j <;> rfl
  · rw [testBit_mask_of_ge _ j (by norm_num) (by omega)]
    simp [h]

theorem testBit_mask_hi4 (j : Nat) :
    (0xF0F0F0F0 : Nat).testBit j = (decide (j < 32) && decide ((j / 4) % 2 = 1)) := by
  by_cases h : j < 32
  · interval_cases j <;> rfl
  · rw [testBit_mask_of_ge _ j (by norm_num) (by omega)]
    simp [h]

theorem testBit_mask_lo4 (j : Nat) :
    (0x0F0F0F0F : Nat).testBit j = (decide (j < 32) && decide ((j / 4) % 2 = 0)) := by
  by_cases h : j < 32
  · interval_cases j <;> rfl
  · rw [testBit_mask_of_ge _ j (by norm_num) (by omega)]
    simp [h]

theorem testBit_mask_hi2 (j : Nat) :
    (0xCCCCCCCC : Nat).testBit j = (decide (j < 32) && decide ((j / 2) % 2 = 1)) := by
  by_cases h : j < 32
  · interval_cases j <;> rfl
  · rw [testBit_mask_of_ge _ j (by norm_num) (by omega)]
    simp [h]

theorem testBit_mask_lo2 (j : Nat) :
    (0x33333333 : Nat).testBit j = (decide (j < 32) && decide ((j / 2) % 2 = 0)) := by
  by_cases h : j < 32
  · interval_cases j <;> rfl
  · rw [testBit_mask_of_ge _ j (by norm_num) (by omega)]
    simp [h]

theorem testBit_mask_hi1 (j : Nat) :
    (0xAAAAAAAA : Nat).testBit j = (decide (j < 32) && decide ((j / 1) % 2 = 1)) := by
  by_cases h : j < 32
  · interval_cases j <;> rfl
  · rw [testBit_mask_of_ge _ j (by norm_num) (by omega)]
    simp [h]

theorem testBit_mask_lo1 (j : Nat) :
    (0x55555555 : Nat).testBit j = (decide (j < 32) && decide ((j / 1) % 2 = 0)) := by
  by_cases h : j < 32
  · interval_cases j <;> rfl
  · rw [testBit_mask_of_ge _ j (by norm_num) (by omega)]
    simp [h]

theorem swapStep16_testBit (n i : Nat) :
    (swapStep n 0xFFFF0000 0x0000FFFF 16).testBit i =
      (decide (i < 32) && n.testBit (if (i / 16) % 2 = 0 then i + 16 else i - 16)) := by
  by_cases h : i < 32
  · rw [swapStep_testBit, testBit_mask_hi16, testBit_mask_lo16]
    interval_cases i <;> simp
  · rw [swapStep_testBit_ge _ _ _ _ _ (by norm_num) (by omega)]
    simp [h]

theorem swapStep8_testBit (n i : Nat) :
    (swapStep n 0xFF00FF00 0x00FF00FF 8).testBit i =
      (decide (i < 32) && n.testBit (if (i / 8) % 2 = 0 then i + 8 else i - 8)) := by
  by_cases h : i < 32
  · rw [swapStep_testBit, testBit_mask_hi8, testBit_mask_lo8]
    interval_cases i <;> simp
  · rw [swapStep_testBit_ge _ _ _ _ _ (by norm_num) (by omega)]
    simp [h]

theorem swapStep4_testBit (n i : Nat) :
    (swapStep n 0xF0F0F0F0 0x0F0F0F0F 4).testBit i =
      (decide (i < 32) && n.testBit (if (i / 4) % 2 = 0 then i + 4 else i - 4)) := by
  by_cases h : i < 32
  · rw [swapStep_testBit, testBit_mask_hi4, testBit_mask_lo4]
    interval_cases i <;> simp
  · rw [swapStep_testBit_ge _ _ _ _ _ (by norm_num) (by omega)]
    simp [h]

theorem swapStep2_testBit (n i : Nat) :
    (swapStep n 0xCCCCCCCC 0x33333333 2).testBit i =
      (decide (i < 32) && n.testBit (if (i / 2) % 2 = 0 then i + 2 else i - 2)) := by
  by_cases h : i < 32
  · rw [swapStep_testBit, testBit_mask_hi2, testBit_mask_lo2]
    interval_cases i <;> simp
  · rw [swapStep_testBit_ge _ _ _ _ _ (by norm_num) (by omega)]
    simp [h]

theorem swapStep1_testBit (n i : Nat) :
    (swapStep n 0xAAAAAAAA 0x55555555 1).testBit i =
      (decide (i < 32) && n.testBit (if (i / 1) % 2 = 0 then i + 1 else i - 1)) := by
  by_cases h : i < 32
  · rw [swapStep_testBit, testBit_mask_hi1, testBit_mask_lo1]
    interval_cases i <;> simp
  · rw [swapStep_testBit_ge _ _ _ _ _ (by norm_num) (by omega)]
    simp [h]

theorem rev32_testBit (n i : Nat) :
    (rev32 n).testBit i = (decide (i < 32) && n.testBit (31 - i)) := by
  by_cases h : i < 32
  · unfold rev32
    rw [swapStep1_testBit, swapStep2_testBit, swapStep4_testBit, swapStep8_testBit,
      swapStep16_testBit]
    interval_cases i <;> simp
  · unfold rev32
    rw [swapStep_testBit_ge _ _ _ _ _ (by norm_num) (by omega)]
    simp [h]

theorem BitReverse_eq_rev32 (n : Nat) (bits : Int) :
    BitReverse n bits = rev32 n >>> (32 - bits).toNat := rfl

theorem BitReverse_testBit (n p j : Nat) (hp : p ≤ 32) :
    (BitReverse n (p : Int)).testBit j = (decide (j < p) && n.testBit (p - 1 - j)) := by
  have h1 : (32 - (p : Int)).toNat = 32 - p := by omega
  rw [BitReverse_eq_rev32, h1, Nat.testBit_shiftRight, rev32_testBit]
  by_cases hj : j < p
  · have h2 : 31 - (32 - p + j) = p - 1 - j := by omega
    have h3 : 32 - p + j < 32 := by omega
    simp [hj, h2, h3]
  · have h3 : ¬ (32 - p + j < 32) := by omega
    simp [hj, h3]

theorem BitReverse_lt (n p : Nat) (hp : p ≤ 32) : BitReverse n (p : Int) < 2 ^ p := by
  apply Nat.lt_pow_two_of_testBit
  intro i hi
  rw [BitReverse_testBit n p i hp]
  simp; omega

theorem BitReverse_invol (i p : Nat) (hp : p ≤ 32) (hi : i < 2 ^ p) :
    BitReverse (BitReverse i (p : Int)) (p : Int) = i := by
  apply Nat.eq_of_testBit_eq
  intro j
  rw [BitReverse_testBit _ p j hp]
  by_cases hj : j < p
  · rw [BitReverse_testBit _ p _ hp]
    have h2 : p - 1 - (p - 1 - j) = j := by omega
    have h3 : p - 1 - j < p := by omega
    simp [hj, h2, h3]
  · have : i.testBit j = false := by
      apply Nat.testBit_lt_two_pow
      exact lt_of_lt_of_le hi (Nat.pow_le_pow_right (by norm_num) (by omega))
    simp [hj, this]

theorem brev_lt (q n : Nat) : brev q n < 2 ^ q := by
  induction q generalizing n with
  | zero => simp [brev]
  | succ q ih =>
    have h1 := ih (n / 2)
    have h2 : n % 2 < 2 := Nat.mod_lt _ (by norm_num)
    have h3 : n % 2 * 2 ^ q ≤ 1 * 2 ^ q := Nat.mul_le_mul_right _ (by omega)
    simp only [brev, pow_succ]
    omega

theorem brev_testBit (q n j : Nat) :
    (brev q n).testBit j = (decide (j < q) && n.testBit (q - 1 - j)) := by
  induction q generalizing n j with
  | zero => simp [brev]
  | succ q ih =>
    simp only [brev]
    rw [Nat.mul_comm, Nat.testBit_mul_pow_two_add _ (brev_lt q (n / 2))]
    by_cases hj : j < q
    · have e : q + 1 - 1 - j = (q - 1 - j) + 1 := by omega
      have hj' : j < q + 1 := by omega
      rw [if_pos hj, ih, e, Nat.testBit_div_two]
      simp [hj, hj']
    · rw [if_neg hj]
      have hmod : n % 2 = n % 2 ^ 1 := by norm_num
      rw [hmod, Nat.testBit_mod_two_pow]
      by_cases hjq : j = q
      · subst hjq
        simp
      · have h1 : ¬ (j - q < 1) := by omega
        have h2 : ¬ (j < q + 1) := by omega
        simp [h1, h2]

theorem BitReverse_eq_brev (n p : Nat) (hp : p ≤ 32) : BitReverse n (p : Int) = brev p n := by
  apply Nat.eq_of_testBit_eq
  intro j
  rw [BitReverse_testBit n p j hp, brev_testBit]

theorem brev_even (q b : Nat) : brev (q + 1) (2 * b) = brev q b := by
  simp [brev]

theorem brev_odd (q b : Nat) : brev (q + 1) (2 * b + 1) = 2 ^ q + brev q b := by
  have h1 : (2 * b + 1) % 2 = 1 := by omega
  have h2 : (2 * b + 1) / 2 = b := by omega
  simp [brev, h1, h2]

theorem toUnsigned_two_pow (p : Nat) (hp : p ≤ 31) : toUnsigned ((2 : Int) ^ p) = 2 ^ p := by
  interval_cases p <;> rfl

theorem IsPowerOf2_two_pow (p : Nat) (hp : p ≤ 31) : IsPowerOf2 (2 ^ p) = true := by
  interval_cases p <;> rfl

theorem GetPowerOf2_two_pow (p : Nat) (hp : p ≤ 31) : GetPowerOf2 (2 ^ p) = (p : Int) := by
  interval_cases p <;> rfl

theorem fold_succ' {σ : Type} (g : Nat → σ → σ) (c : Nat) (s : σ) :
    Nat.fold g (c + 1) s = g c (Nat.fold g c s) := rfl

theorem fold_shift {σ : Type} (g : Nat → σ → σ) (c : Nat) (s : σ) :
    Nat.fold g (c + 1) s = Nat.fold (fun t => g (t + 1)) c (g 0 s) := by
  induction c with
  | zero => rfl
  | succ c ih => rw [fold_succ', ih]; rfl

theorem forLoopFuel_eq_fold {σ : Type} (body : Nat → σ → σ) (step : Nat) (hstep : 0 < step) :
    ∀ (c fuel i : Nat) (s : σ), c ≤ fuel →
      forLoopFuel fuel i (i + c * step) step body s =
        Nat.fold (fun t s => body (i + t * step) s) c s := by
  intro c
  induction c with
  | zero =>
    intro fuel i s _
    cases fuel <;> simp [forLoopFuel, Nat.fold]
  | succ c ih =>
    intro fuel i s hf
    obtain ⟨f, rfl⟩ : ∃ f, fuel = f + 1 := ⟨fuel - 1, by omega⟩
    have hlt : i < i + (c + 1) * step := by
      have : 0 < (c + 1) * step := Nat.mul_pos (by omega) hstep
      omega
    have hstop : i + (c + 1) * step = (i + step) + c * step := by ring
    rw [forLoopFuel, if_pos hlt, hstop, ih f (i + step) (body i s) (by omega), fold_shift]
    simp only [zero_mul, add_zero]
    congr 1
    funext t s
    congr 1
    ring

/-- A counted loop from `0` with stride `step` runs the body at `0, step, 2*step, ...`. -/
theorem forLoop_eq_fold {σ : Type} (body : Nat → σ → σ) (step c : Nat) (hstep : 0 < step)
    (s : σ) :
    forLoop 0 (c * step) step body s = Nat.fold (fun t s => body (t * step) s) c s := by
  have h := forLoopFuel_eq_fold body step hstep c (c * step) 0 s
    (Nat.le_mul_of_pos_right c hstep)
  simp only [zero_add] at h
  exact h

/-- A unit-stride loop from `a` to `a + c`. -/
theorem forLoop_eq_fold_from {σ : Type} (body : Nat → σ → σ) (a c : Nat) (s : σ) :
    forLoop a (a + c) 1 body s = Nat.fold (fun t s => body (a + t) s) c s := by
  have h := forLoopFuel_eq_fold body 1 (by norm_num) c (a + c) a s (by omega)
  simp only [mul_one] at h
  exact h

theorem forLoop_empty {σ : Type} (body : Nat → σ → σ) (a b step : Nat) (h : b ≤ a) (s : σ) :
    forLoop a b step body s = s := by
  unfold forLoop
  cases b with
  | zero => rfl
  | succ b => rw [forLoopFuel, if_neg (by omega)]

/-- Iterations that own disjoint index sets `S t`, leave the rest of the buffer alone and
read only what they own, act independently. -/
theorem fold_local {α : Type} (body : Nat → (Nat → α) → (Nat → α)) (S : Nat → Nat → Prop)
    (C : Nat)
    (hdisj : ∀ t t' i, t < C → t' < C → S t i → S t' i → t = t')
    (hframe : ∀ t f i, t < C → ¬ S t i → body t f i = f i)
    (hlocal : ∀ t f g, t < C → (∀ i, S t i → f i = g i) → ∀ i, S t i → body t f i = body t g i)
    (c : Nat) (hc : c ≤ C) (f : Nat → α) :
    (∀ t, t < c → ∀ i, S t i → Nat.fold body c f i = body t f i) ∧
      (∀ i, (∀ t, t < c → ¬ S t i) → Nat.fold body c f i = f i) := by
  induction c with
  | zero =>
    exact ⟨fun t ht => absurd ht (Nat.not_lt_zero t), fun i _ => rfl⟩
  | succ c ih =>
    obtain ⟨ih1, ih2⟩ := ih (by omega)
    constructor
    · intro t ht i hi
      rw [fold_succ']
      by_cases htc : t = c
      · subst htc
        apply hlocal t _ _ (by omega) _ i hi
        intro i' hi'
        apply ih2
        intro t' ht' hS
        have := hdisj _ _ _ (by omega) (by omega) hS hi'
        omega
      · rw [hframe c _ i (by omega)]
        · exact ih1 t (by omega) i hi
        · intro hS
          exact htc (hdisj _ _ _ (by omega) (by omega) hi hS)
    · intro i hi
      rw [fold_succ', hframe c _ i (by omega) (hi c (by omega))]
      exact ih2 i (fun t ht => hi t (by omega))

namespace complex64

variable {K : Type}

@[simp] theorem zero_re [Zero K] : (0 : complex64 K).re = 0 := rfl
@[simp] theorem zero_im [Zero K] : (0 : complex64 K).im = 0 := rfl
@[simp] theorem one_re [Zero K] [One K] : (1 : complex64 K).re = 1 := rfl
@[simp] theorem one_im [Zero K] [One K] : (1 : complex64 K).im = 0 := rfl
@[simp] theorem add_re [Add K] (a b : complex64 K) : (a + b).re = a.re + b.re := rfl
@[simp] theorem add_im [Add K] (a b : complex64 K) : (a + b).im = a.im + b.im := rfl
@[simp] theorem sub_re [Sub K] (a b : complex64 K) : (a - b).re = a.re - b.re := rfl
@[simp] theorem sub_im [Sub K] (a b : complex64 K) : (a - b).im = a.im - b.im := rfl
@[simp] theorem neg_re [Neg K] (a : complex64 K) : (-a).re = -a.re := rfl
@[simp] theorem neg_im [Neg K] (a : complex64 K) : (-a).im = -a.im := rfl
@[simp] theorem mul_re [Add K] [Sub K] [Mul K] (a b : complex64 K) :
    (a * b).re = a.re * b.re - a.im * b.im := rfl
@[simp] theorem mul_im [Add K] [Sub K] [Mul K] (a b : complex64 K) :
    (a * b).im = a.re * b.im + a.im * b.re := rfl

end complex64

section butterfly

variable {K : Type} [Field K]

theorem block_unique (m t t' i : Nat) (h1 : t * m ≤ i) (h2 : i < t * m + m)
    (h1' : t' * m ≤ i) (h2' : i < t' * m + m) : t = t' := by
  have e1 : i / m = t := Nat.div_eq_of_lt_le h1 (by rw [Nat.add_mul, one_mul]; exact h2)
  have e2 : i / m = t' := Nat.div_eq_of_lt_le h1' (by rw [Nat.add_mul, one_mul]; exact h2')
  omega

theorem butterfly_of_blocks (w : complex64 K) (h c : Nat) (hh : 0 < h)
    (body : Nat → Buf K → Buf K) (hb : ∀ k o, IsBlockButterfly w h k o (body k o))
    (out : Buf K) :
    IsButterfly w h c out (forLoop 0 (c * (2 * h)) (2 * h) body out) := by
  rw [forLoop_eq_fold _ _ _ (by omega)]
  have key := fold_local (fun t (s : Buf K) => body (t * (2 * h)) s)
    (fun t i => t * (2 * h) ≤ i ∧ i < t * (2 * h) + 2 * h) c
    (fun t t' i _ _ h1 h2 => block_unique (2 * h) t t' i h1.1 h1.2 h2.1 h2.2)
    (fun t f i _ hi => (hb (t * (2 * h)) f).2 i (by omega))
    (by
      intro t f g _ hfg i hi
      beta_reduce at hfg hi ⊢
      obtain ⟨r, rfl⟩ : ∃ r, i = t * (2 * h) + r := ⟨i - t * (2 * h), by omega⟩
      have hr : r < 2 * h := by omega
      by_cases hrh : r < h
      · rw [((hb _ f).1 r hrh).1, ((hb _ g).1 r hrh).1, hfg _ (by omega), hfg _ (by omega)]
      · obtain ⟨j, rfl⟩ : ∃ j, r = j + h := ⟨r - h, by omega⟩
        have hj : j < h := by omega
        rw [← Nat.add_assoc, ((hb _ f).1 j hj).2, ((hb _ g).1 j hj).2, hfg _ (by omega),
          hfg _ (by omega)])
    c le_rfl out
  constructor
  · intro b hbc j hj
    have hbody := (hb (b * (2 * h)) out).1 j hj
    constructor
    · rw [key.1 b hbc _ (by omega)]; exact hbody.1
    · rw [key.1 b hbc _ (by omega)]; exact hbody.2
  · intro i hi
    apply key.2
    intro t ht hS
    have : (t + 1) * (2 * h) ≤ c * (2 * h) := Nat.mul_le_mul_right _ (by omega)
    rw [Nat.add_mul, one_mul] at this
    omega

theorem IsButterfly.unique (w : complex64 K) (h c : Nat) (hh : 0 < h) (o1 o2 o2' : Buf K)
    (h2 : IsButterfly w h c o1 o2) (h2' : IsButterfly w h c o1 o2') : o2 = o2' := by
  funext i
  by_cases hi : c * (2 * h) ≤ i
  · rw [h2.2 i hi, h2'.2 i hi]
  · have hm : 0 < 2 * h := by omega
    have hb : i / (2 * h) < c := by
      rw [Nat.div_lt_iff_lt_mul hm]; omega
    have hdm := Nat.div_add_mod i (2 * h)
    have hr := Nat.mod_lt i hm
    have hi' : i = i / (2 * h) * (2 * h) + i % (2 * h) := by rw [Nat.mul_comm]; omega
    by_cases hrh : i % (2 * h) < h
    · rw [hi', (h2.1 _ hb _ hrh).1, (h2'.1 _ hb _ hrh).1]
    · obtain ⟨j, hj⟩ : ∃ j, i % (2 * h) = j + h := ⟨i % (2 * h) - h, by omega⟩
      have hjh : j < h := by omega
      rw [hi', hj, ← Nat.add_assoc, (h2.1 _ hb _ hjh).2, (h2'.1 _ hb _ hjh).2]

theorem scalarStage2_butterfly (w : complex64 K) (c : Nat) (out : Buf K) :
    IsButterfly w 1 c out (scalarStage2 out (c * 2)) := by
  have h := butterfly_of_blocks w 1 c (by norm_num)
    (fun k (out : Buf K) =>
      let x0 := out k
      let x1 := out (k + 1)
      let out := Function.update out k (x0 + x1)
      Function.update out (k + 1) (x0 - x1))
    (by
      intro k o
      constructor
      · intro j hj
        obtain rfl : j = 0 := by omega
        simp [Function.update_apply]
      · intro i hi
        have h1 : i ≠ k + 1 := by omega
        have h2 : i ≠ k := by omega
        simp [Function.update_apply, h1, h2]) out
  exact h

theorem mul_negI (x : complex64 K) : (⟨x.im, -x.re⟩ : complex64 K) = x * ⟨0, -1⟩ := by
  ext <;> simp

theorem mul_posI (x : complex64 K) : (⟨-x.im, x.re⟩ : complex64 K) = x * ⟨0, 1⟩ := by
  ext <;> simp

theorem DFT1D_scalar_stage4_butterfly (c : Nat) (out : Buf K) :
    IsButterfly (⟨0, -1⟩ : complex64 K) 2 c out (DFT1D_scalar_stage4 out (c * 4)) := by
  refine butterfly_of_blocks (⟨0, -1⟩ : complex64 K) 2 c (by norm_num) _ ?_ out
  intro k o
  constructor
  · intro j hj
    have hj' : j = 0 ∨ j = 1 := by omega
    rcases hj' with rfl | rfl
    · simp [Function.update_apply]
    · simp [Function.update_apply, mul_negI]
  · intro i hi
    have h0 : i ≠ k := by omega
    have h1 : i ≠ k + 1 := by omega
    have h2 : i ≠ k + 2 := by omega
    have h3 : i ≠ k + 3 := by omega
    simp [Function.update_apply, h0, h1, h2, h3]

theorem IDFT1D_scalar_stage4_butterfly (c : Nat) (out : Buf K) :
    IsButterfly (⟨0, 1⟩ : complex64 K) 2 c out (IDFT1D_scalar_stage4 out (c * 4)) := by
  refine butterfly_of_blocks (⟨0, 1⟩ : complex64 K) 2 c (by norm_num) _ ?_ out
  intro k o
  constructor
  · intro j hj
    have hj' : j = 0 ∨ j = 1 := by omega
    rcases hj' with rfl | rfl
    · simp [Function.update_apply]
    · simp [Function.update_apply, mul_posI]
  · intro i hi
    have h0 : i ≠ k := by omega
    have h1 : i ≠ k + 1 := by omega
    have h2 : i ≠ k + 2 := by omega
    have h3 : i ≠ k + 3 := by omega
    simp [Function.update_apply, h0, h1, h2, h3]

theorem scalar_inner_fold (Wm : complex64 K) (k h : Nat) (out : Buf K) (c : Nat) :
    Nat.fold (fun t (st : Buf K × complex64 K) =>
        let out := st.1
        let W := st.2
        let x0 := out (k + t * 1)
        let x1 := out (k + t * 1 + h) * W
        let out := Function.update out (k + t * 1) (x0 + x1)
        let out := Function.update out (k + t * 1 + h) (x0 - x1)
        (out, W * Wm)) c (out, (1 : complex64 K)) =
      (Nat.fold (fun t o => bfly k h (Wm ^ t) t o) c out, Wm ^ c) := by
  induction c with
  | zero => simp [Nat.fold]
  | succ c ih =>
    rw [fold_succ', ih, fold_succ']
    simp [bfly, pow_succ]

theorem bfly_fold_block (Wm : complex64 K) (k h : Nat) (out : Buf K) :
    IsBlockButterfly Wm h k out (Nat.fold (fun t o => bfly k h (Wm ^ t) t o) h out) := by
  have key := fold_local (fun t (o : Buf K) => bfly k h (Wm ^ t) t o)
    (fun t i => i = k + t ∨ i = k + t + h) h
    (fun t t' i ht ht' h1 h2 => by omega)
    (fun t f i _ hi => by
      have h1 : i ≠ k + t := fun e => hi (Or.inl e)
      have h2 : i ≠ k + t + h := fun e => hi (Or.inr e)
      simp [bfly, Function.update_apply, h1, h2])
    (by
      intro t f g ht hfg i hi
      beta_reduce at hfg hi ⊢
      have e1 := hfg (k + t) (Or.inl rfl)
      have e2 := hfg (k + t + h) (Or.inr rfl)
      rcases hi with rfl | rfl
      · have hne : k + t ≠ k + t + h := by omega
        simp [bfly, Function.update_apply, e1, e2, hne]
      · simp [bfly, Function.update_apply, e1, e2])
    h le_rfl out
  constructor
  · intro j hj
    have hne : k + j ≠ k + j + h := by omega
    constructor
    · rw [key.1 j hj _ (Or.inl rfl)]
      simp [bfly, Function.update_apply, hne]
    · rw [key.1 j hj _ (Or.inr rfl)]
      simp [bfly, Function.update_apply]
  · intro i hi
    apply key.2
    intro t ht hS
    omega

theorem scalarStage_butterfly (Wm : complex64 K) (h c : Nat) (hh : 0 < h) (out : Buf K) :
    IsButterfly Wm h c out (scalarStage Wm (2 * h) out (c * (2 * h))) := by
  refine butterfly_of_blocks Wm h c hh _ ?_ out
  intro k o
  have hm : 2 * h / 2 = h := by omega
  rw [hm]
  have e := forLoop_eq_fold (fun j (st : Buf K × complex64 K) =>
      let out := st.1
      let W := st.2
      let x0 := out (k + j)
      let x1 := out (k + j + h) * W
      let out := Function.update out (k + j) (x0 + x1)
      let out := Function.update out (k + j + h) (x0 - x1)
      (out, W * Wm)) 1 h (by norm_num) (o, (1 : complex64 K))
  rw [mul_one] at e
  rw [e, scalar_inner_fold]
  exact bfly_fold_block Wm k h o

end butterfly

section invariant

variable {K : Type} [Field K]

theorem sum_range_even_odd {M : Type} [AddCommMonoid M] (f : Nat → M) (n : Nat) :
    ∑ t ∈ Finset.range (2 * n), f t =
      ∑ t ∈ Finset.range n, f (2 * t) + ∑ t ∈ Finset.range n, f (2 * t + 1) := by
  induction n with
  | zero => simp
  | succ n ih =>
    rw [show 2 * (n + 1) = 2 * n + 1 + 1 by ring, Finset.sum_range_succ, Finset.sum_range_succ,
      ih, Finset.sum_range_succ, Finset.sum_range_succ]
    abel

theorem pow_shift_even {R : Type} [CommRing R] (w : R) (h j t : Nat) (hw : w ^ h = -1) :
    w ^ ((j + h) * (2 * t)) = w ^ (j * (2 * t)) := by
  rw [Nat.add_mul, pow_add, pow_mul w h, hw, Even.neg_one_pow ⟨t, by ring⟩, mul_one]

theorem pow_shift_odd {R : Type} [CommRing R] (w : R) (h j t : Nat) (hw : w ^ h = -1) :
    w ^ ((j + h) * (2 * t + 1)) = -w ^ (j * (2 * t + 1)) := by
  rw [Nat.add_mul, pow_add, pow_mul w h, hw, Odd.neg_one_pow ⟨t, rfl⟩]
  ring

theorem stageInv_zero (x o : Buf K) (ζ : complex64 K) (p : Nat)
    (h : ∀ b, b < 2 ^ p → o b = x (brev p b)) : StageInv x ζ 0 p o := by
  intro b hb j hj
  obtain rfl : j = 0 := by simpa using hj
  simp [h b hb]

theorem stageInv_step (x o1 o2 : Buf K) (w : complex64 K) (s q : Nat)
    (hinv : StageInv x (w ^ 2) s (q + 1) o1) (hbf : IsButterfly w (2 ^ s) (2 ^ q) o1 o2)
    (hw : w ^ (2 ^ s) = -1) : StageInv x w (s + 1) q o2 := by
  intro b hb j' hj'
  have hpq : 2 ^ (q + 1) = 2 * 2 ^ q := by ring
  have hps : 2 ^ (s + 1) = 2 * 2 ^ s := by ring
  have e1 : ∀ j, j < 2 ^ s → o1 (b * (2 * 2 ^ s) + j) =
      ∑ t ∈ Finset.range (2 ^ s), x (2 * t * 2 ^ q + brev q b) * w ^ (j * (2 * t)) := by
    intro j hj
    have h1 := hinv (2 * b) (by omega) j hj
    rw [brev_even] at h1
    rw [show b * (2 * 2 ^ s) + j = 2 * b * 2 ^ s + j by ring, h1]
    apply Finset.sum_congr rfl
    intro t _
    rw [← pow_mul, show t * 2 ^ (q + 1) = 2 * t * 2 ^ q by ring,
      show 2 * (j * t) = j * (2 * t) by ring]
  have e2 : ∀ j, j < 2 ^ s → o1 (b * (2 * 2 ^ s) + j + 2 ^ s) * w ^ j =
      ∑ t ∈ Finset.range (2 ^ s), x ((2 * t + 1) * 2 ^ q + brev q b) * w ^ (j * (2 * t + 1)) := by
    intro j hj
    have h1 := hinv (2 * b + 1) (by omega) j hj
    rw [brev_odd] at h1
    rw [show b * (2 * 2 ^ s) + j + 2 ^ s = (2 * b + 1) * 2 ^ s + j by ring, h1, Finset.sum_mul]
    apply Finset.sum_congr rfl
    intro t _
    rw [← pow_mul, show t * 2 ^ (q + 1) + (2 ^ q + brev q b) = (2 * t + 1) * 2 ^ q + brev q b by ring,
      mul_assoc, ← pow_add, show 2 * (j * t) + j = j * (2 * t + 1) by ring]
  rw [hps, sum_range_even_odd]
  by_cases hj : j' < 2 ^ s
  · rw [(hbf.1 b hb j' hj).1, e1 j' hj, e2 j' hj]
  · obtain ⟨j, rfl⟩ : ∃ j, j' = j + 2 ^ s := ⟨j' - 2 ^ s, by omega⟩
    have hj2 : j < 2 ^ s := by omega
    rw [← Nat.add_assoc, (hbf.1 b hb j hj2).2, e1 j hj2, e2 j hj2, sub_eq_add_neg,
      ← Finset.sum_neg_distrib]
    congr 1
    · apply Finset.sum_congr rfl
      intro t _
      rw [pow_shift_even w _ j t hw]
    · apply Finset.sum_congr rfl
      intro t _
      rw [pow_shift_odd w _ j t hw, mul_neg]

end invariant

section assemble

variable {K : Type} [Field K]

theorem BitReverse_inj (p t t' : Nat) (hp : p ≤ 32) (ht : t < 2 ^ p) (ht' : t' < 2 ^ p)
    (h : BitReverse t (p : Int) = BitReverse t' (p : Int)) : t = t' := by
  rw [← BitReverse_invol t p hp ht, ← BitReverse_invol t' p hp ht', h]

/-- The bit-reversal loop: every cell below `2^p` receives the input sample at the
reversed index, and nothing else is written. -/
theorem bitReverseCopy_spec (inp out : Buf K) (p : Nat) (hp : p ≤ 32) :
    (∀ i, i < 2 ^ p → bitReverseCopy inp out (2 ^ p) (p : Int) (BitReverse i (p : Int)) = inp i) ∧
    (∀ b, b < 2 ^ p → bitReverseCopy inp out (2 ^ p) (p : Int) b = inp (brev p b)) ∧
    (∀ i, 2 ^ p ≤ i → bitReverseCopy inp out (2 ^ p) (p : Int) i = out i) := by
  have e := forLoop_eq_fold (fun i (out : Buf K) =>
    Function.update out (BitReverse i (p : Int)) (inp i)) 1 (2 ^ p) (by norm_num) out
  simp only [mul_one] at e
  have key := fold_local (fun i (out : Buf K) =>
      Function.update out (BitReverse i (p : Int)) (inp i))
    (fun t i => i = BitReverse t (p : Int)) (2 ^ p)
    (fun t t' i ht ht' h1 h2 => BitReverse_inj p t t' hp ht ht' (h1.symm.trans h2))
    (fun t f i _ hi => by simp [Function.update_apply, hi])
    (fun t f g _ _ i hi => by simp [Function.update_apply, hi])
    (2 ^ p) le_rfl out
  have h1 : ∀ i, i < 2 ^ p →
      bitReverseCopy inp out (2 ^ p) (p : Int) (BitReverse i (p : Int)) = inp i := by
    intro i hi
    unfold bitReverseCopy
    rw [e, key.1 i hi _ rfl]
    simp
  refine ⟨h1, ?_, ?_⟩
  · intro b hb
    have hlt := BitReverse_lt b p hp
    have := h1 (BitReverse b (p : Int)) hlt
    rw [BitReverse_invol b p hp hb] at this
    rw [this, BitReverse_eq_brev b p hp]
  · intro i hi
    unfold bitReverseCopy
    rw [e]
    apply key.2
    intro t _ hS
    have := BitReverse_lt t p hp
    omega

theorem IsTwiddle.pow_half {tw : Nat → complex64 K} (h : IsTwiddle tw) (s : Nat) :
    tw (s + 1) ^ (2 ^ s) = -1 := by
  induction s with
  | zero => simpa using h.one
  | succ s ih =>
    rw [pow_succ, Nat.mul_comm, pow_mul, h.sq (s + 1) (by omega), ih]

/-- Stages `1, …, c` applied in order, each satisfying the butterfly relation, establish
the stage invariant for `s = c`. -/
theorem stages_inv (x : Buf K) (tw : Nat → complex64 K) (htw : IsTwiddle tw) (p : Nat)
    (stage : Nat → Buf K → Buf K)
    (hst : ∀ s o, 1 ≤ s → s ≤ p → IsButterfly (tw s) (2 ^ (s - 1)) (2 ^ (p - s)) o (stage s o))
    (o : Buf K) (ho : ∀ b, b < 2 ^ p → o b = x (brev p b)) (c : Nat) (hc : c ≤ p) :
    StageInv x (tw c) c (p - c) (Nat.fold (fun t o => stage (t + 1) o) c o) := by
  induction c with
  | zero => exact stageInv_zero x o _ p ho
  | succ c ih =>
    have ih' := ih (by omega)
    rw [fold_succ']
    have hq : p - c = (p - (c + 1)) + 1 := by omega
    have inv : StageInv x (tw (c + 1) ^ 2) c ((p - (c + 1)) + 1)
        (Nat.fold (fun t o => stage (t + 1) o) c o) := by
      rw [← hq]
      cases c with
      | zero => exact stageInv_zero x o _ p ho
      | succ c' => rw [htw.sq (c' + 1) (by omega)]; exact ih'
    have hbf := hst (c + 1) (Nat.fold (fun t o => stage (t + 1) o) c o) (by omega) hc
    rw [Nat.add_sub_cancel] at hbf
    exact stageInv_step x _ _ (tw (c + 1)) c (p - (c + 1)) inv hbf (htw.pow_half c)

theorem stages_frame (w : Nat → complex64 K) (p : Nat)
    (stage : Nat → Buf K → Buf K)
    (hst : ∀ s o, 1 ≤ s → s ≤ p → IsButterfly (w s) (2 ^ (s - 1)) (2 ^ (p - s)) o (stage s o))
    (o : Buf K) (c : Nat) (hc : c ≤ p) (i : Nat) (hi : 2 ^ p ≤ i) :
    Nat.fold (fun t o => stage (t + 1) o) c o i = o i := by
  induction c with
  | zero => rfl
  | succ c ih =>
    rw [fold_succ', (hst (c + 1) _ (by omega) hc).2 i ?_, ih (by omega)]
    have : 2 ^ (p - (c + 1)) * (2 * 2 ^ (c + 1 - 1)) = 2 ^ p := by
      rw [Nat.add_sub_cancel, ← pow_succ', ← pow_add]
      congr 1
      omega
    omega

/-- The closed form reached after all `p` stages. -/
theorem stages_dft (x : Buf K) (tw : Nat → complex64 K) (htw : IsTwiddle tw) (p : Nat)
    (stage : Nat → Buf K → Buf K)
    (hst : ∀ s o, 1 ≤ s → s ≤ p → IsButterfly (tw s) (2 ^ (s - 1)) (2 ^ (p - s)) o (stage s o))
    (o : Buf K) (ho : ∀ b, b < 2 ^ p → o b = x (brev p b)) (k : Nat) (hk : k < 2 ^ p) :
    Nat.fold (fun t o => stage (t + 1) o) p o k =
      ∑ n ∈ Finset.range (2 ^ p), x n * tw p ^ (k * n) := by
  have h := stages_inv x tw htw p stage hst o ho p le_rfl 0 (by simp) k hk
  simpa [brev] using h

end assemble

section top

variable {K : Type} [Field K]

theorem fold_shift2 {σ : Type} (g : Nat → σ → σ) (c : Nat) (s : σ) :
    Nat.fold g (c + 2) s = Nat.fold (fun t => g (t + 2)) c (g 1 (g 0 s)) := by
  rw [fold_shift, fold_shift]

theorem fold_congr {σ : Type} (g g' : Nat → σ → σ) (c : Nat) (s : σ)
    (h : ∀ t, t < c → ∀ s, g t s = g' t s) : Nat.fold g c s = Nat.fold g' c s := by
  induction c with
  | zero => rfl
  | succ c ih =>
    rw [fold_succ', fold_succ', ih (fun t ht => h t (by omega)), h c (by omega)]

/-- The two unrolled stages followed by the loop over `s` are the stages `1, …, p`. -/
theorem stages_eq_fold (st1 st2 : Buf K → Buf K) (body : Nat → Buf K → Buf K) (p : Nat)
    (hp : 1 ≤ p) (o : Buf K) :
    forLoop 3 (p + 1) 1 body (if 2 ≤ p then st2 (st1 o) else st1 o) =
      Nat.fold (fun t o => stageOf st1 st2 body (t + 1) o) p o := by
  by_cases h2 : 2 ≤ p
  · obtain ⟨c, rfl⟩ : ∃ c, p = c + 2 := ⟨p - 2, by omega⟩
    rw [if_pos h2, show c + 2 + 1 = 3 + c by ring, forLoop_eq_fold_from, fold_shift2]
    simp only [stageOf]
    simp only [zero_add, if_true, Nat.reduceAdd, if_false, OfNat.ofNat_ne_one]
    apply fold_congr
    intro t _ s
    have h1 : t + 2 + 1 ≠ 1 := by omega
    have h2 : t + 2 + 1 ≠ 2 := by omega
    simp only [h1, h2, if_false]
    rw [show 3 + t = t + 2 + 1 by ring]
  · obtain rfl : p = 1 := by omega
    rw [if_neg h2, forLoop_empty _ _ _ _ (by norm_num)]
    rfl

theorem int_two_pow_facts (p : Nat) (hp1 : 1 ≤ p) (hp : p ≤ 30) :
    ((2 : Int) ^ p > 1) ∧ IsPowerOf2 (toUnsigned ((2 : Int) ^ p)) = true ∧
    GetPowerOf2 (toUnsigned ((2 : Int) ^ p)) = (p : Int) ∧ ((2 : Int) ^ p).toNat = 2 ^ p := by
  refine ⟨?_, ?_, ?_, ?_⟩
  · have : (2 : Int) ^ 1 ≤ 2 ^ p := pow_le_pow_right₀ (by norm_num) hp1
    omega
  · rw [toUnsigned_two_pow p (by omega)]; exact IsPowerOf2_two_pow p (by omega)
  · rw [toUnsigned_two_pow p (by omega)]; exact GetPowerOf2_two_pow p (by omega)
  · have : ((2 : Int) ^ p) = ((2 ^ p : Nat) : Int) := by push_cast; rfl
    rw [this, Int.toNat_natCast]

theorem unfold_aux (p : Nat) (hp1 : 1 ≤ p) (hp : p ≤ 30) (st1 st2 : Buf K → Buf K)
    (body : Nat → Buf K → Buf K) (inp out : Buf K) :
    (if ¬ ((2 : Int) ^ p > 1) then Except.error Fault.assertFail
      else if ¬ IsPowerOf2 (toUnsigned ((2 : Int) ^ p)) then Except.error Fault.assertFail
      else
        let q := GetPowerOf2 (toUnsigned ((2 : Int) ^ p))
        let out := bitReverseCopy inp out ((2 : Int) ^ p).toNat q
        let out := if q ≥ 1 then st1 out else out
        let out := if q ≥ 2 then st2 out else out
        Except.ok (forLoop 3 (q + 1).toNat 1 body out)) =
      Except.ok (Nat.fold (fun t o => stageOf st1 st2 body (t + 1) o) p
        (bitReverseCopy inp out (2 ^ p) (p : Int))) := by
  obtain ⟨h1, h2, h3, h4⟩ := int_two_pow_facts p hp1 hp
  have h5 : ((p : Int) + 1).toNat = p + 1 := by omega
  have h6 : (p : Int) ≥ 1 := by omega
  rw [← stages_eq_fold st1 st2 body p hp1]
  simp only [h1, h2, h3, h4, h5, h6, not_true_eq_false, if_false, if_true]
  by_cases hp2 : 2 ≤ p
  · have : (p : Int) ≥ 2 := by omega
    simp only [this, hp2, if_true]
  · have : ¬ (p : Int) ≥ 2 := by omega
    simp only [this, hp2, if_false]

theorem DFT1D_scalar_unfold (PI : K) (cexp : complex64 K → complex64 K) (inp out : Buf K)
    (p : Nat) (hp1 : 1 ≤ p) (hp : p ≤ 30) :
    DFT1D_scalar PI cexp inp out ((2 : Int) ^ p) =
      .ok (Nat.fold (fun t o => stageOf (fun o => scalarStage2 o (2 ^ p))
          (fun o => DFT1D_scalar_stage4 o (2 ^ p))
          (fun s o => scalarStage (fwdWm PI cexp s) (1 <<< s) o (2 ^ p)) (t + 1) o) p
        (bitReverseCopy inp out (2 ^ p) (p : Int))) := by
  rw [← unfold_aux p hp1 hp]
  have h4 := (int_two_pow_facts p hp1 hp).2.2.2
  unfold DFT1D_scalar
  simp only [h4]
  rfl

theorem IDFT1D_scalar_unfold (PI : K) (cexp : complex64 K → complex64 K) (inp out : Buf K)
    (p : Nat) (hp1 : 1 ≤ p) (hp : p ≤ 30) :
    IDFT1D_scalar PI cexp inp out ((2 : Int) ^ p) =
      .ok (Nat.fold (fun t o => stageOf (fun o => scalarStage2 o (2 ^ p))
          (fun o => IDFT1D_scalar_stage4 o (2 ^ p))
          (fun s o => scalarStage (invWm PI cexp s) (1 <<< s) o (2 ^ p)) (t + 1) o) p
        (bitReverseCopy inp out (2 ^ p) (p : Int))) := by
  rw [← unfold_aux p hp1 hp]
  have h4 := (int_two_pow_facts p hp1 hp).2.2.2
  unfold IDFT1D_scalar
  simp only [h4]
  rfl

theorem DFT1D_sse_unfold (PI : K) (cexp : complex64 K → complex64 K) (inp out : Buf K)
    (p : Nat) (hp1 : 1 ≤ p) (hp : p ≤ 30) :
    DFT1D_sse PI cexp inp out ((2 : Int) ^ p) =
      .ok (Nat.fold (fun t o => stageOf (fun o => sseStage2 o (2 ^ p))
          (fun o => sseStage4 (-1) 1 o (2 ^ p))
          (fun s o => sseStage (fwdWm PI cexp s) (fwdWm2 PI cexp s) (1 <<< s) o (2 ^ p))
          (t + 1) o) p
        (bitReverseCopy inp out (2 ^ p) (p : Int))) := by
  rw [← unfold_aux p hp1 hp]
  have h4 := (int_two_pow_facts p hp1 hp).2.2.2
  unfold DFT1D_sse
  simp only [h4]
  rfl

theorem IDFT1D_sse_unfold (PI : K) (cexp : complex64 K → complex64 K) (inp out : Buf K)
    (p : Nat) (hp1 : 1 ≤ p) (hp : p ≤ 30) :
    IDFT1D_sse PI cexp inp out ((2 : Int) ^ p) =
      .ok (Nat.fold (fun t o => stageOf (fun o => sseStage2 o (2 ^ p))
          (fun o => sseStage4 1 (-1) o (2 ^ p))
          (fun s o => sseStage (invWm PI cexp s) (invWm2 PI cexp s) (1 <<< s) o (2 ^ p))
          (t + 1) o) p
        (bitReverseCopy inp out (2 ^ p) (p : Int))) := by
  rw [← unfold_aux p hp1 hp]
  have h4 := (int_two_pow_facts p hp1 hp).2.2.2
  unfold IDFT1D_sse
  simp only [h4]
  rfl

end top

section sse

variable {K : Type} [Field K]

theorem testBit_imm_1_1 : Nat.testBit 1 1 = false := by decide
theorem testBit_imm_3_0 : Nat.testBit 3 0 = true := by decide
theorem testBit_imm_3_1 : Nat.testBit 3 1 = true := by decide
theorem testBit_imm_0_1 : Nat.testBit 0 1 = false := by decide

theorem sseStage2_butterfly (w : complex64 K) (c : Nat) (out : Buf K) :
    IsButterfly w 1 c out (sseStage2 out (c * 2)) := by
  refine butterfly_of_blocks w 1 c (by norm_num) _ ?_ out
  intro k o
  constructor
  · intro j hj
    obtain rfl : j = 0 := by omega
    constructor <;> ext <;>
      simp [Function.update_apply, _mm_loadu_pd, _mm_storeu_pd, _mm_add_pd, _mm_sub_pd]
  · intro i hi
    have h1 : i ≠ k + 1 := by omega
    have h2 : i ≠ k := by omega
    simp [Function.update_apply, h1, h2]

theorem sseStage4_fwd_butterfly (c : Nat) (out : Buf K) :
    IsButterfly (⟨0, -1⟩ : complex64 K) 2 c out (sseStage4 (-1) 1 out (c * 4)) := by
  refine butterfly_of_blocks (⟨0, -1⟩ : complex64 K) 2 c (by norm_num) _ ?_ out
  intro k o
  constructor
  · intro j hj
    have hj' : j = 0 ∨ j = 1 := by omega
    rcases hj' with rfl | rfl <;> constructor <;> ext <;>
      simp [Function.update_apply, _mm_loadu_pd, _mm_storeu_pd, _mm_add_pd, _mm_sub_pd,
        _mm_shuffle_pd, _mm_mul_pd, _mm_set_pd, testBit_imm_1_1]
  · intro i hi
    have h0 : i ≠ k := by omega
    have h1 : i ≠ k + 1 := by omega
    have h2 : i ≠ k + 2 := by omega
    have h3 : i ≠ k + 3 := by omega
    simp [Function.update_apply, h0, h1, h2, h3]

theorem sseStage4_inv_butterfly (c : Nat) (out : Buf K) :
    IsButterfly (⟨0, 1⟩ : complex64 K) 2 c out (sseStage4 1 (-1) out (c * 4)) := by
  refine butterfly_of_blocks (⟨0, 1⟩ : complex64 K) 2 c (by norm_num) _ ?_ out
  intro k o
  constructor
  · intro j hj
    have hj' : j = 0 ∨ j = 1 := by omega
    rcases hj' with rfl | rfl <;> constructor <;> ext <;>
      simp [Function.update_apply, _mm_loadu_pd, _mm_storeu_pd, _mm_add_pd, _mm_sub_pd,
        _mm_shuffle_pd, _mm_mul_pd, _mm_set_pd, testBit_imm_1_1]
  · intro i hi
    have h0 : i ≠ k := by omega
    have h1 : i ≠ k + 1 := by omega
    have h2 : i ≠ k + 2 := by omega
    have h3 : i ≠ k + 3 := by omega
    simp [Function.update_apply, h0, h1, h2, h3]

theorem fold_pairs {σ : Type} (g : Nat → σ → σ) (c : Nat) (s : σ) :
    Nat.fold g (2 * c) s = Nat.fold (fun t s => g (2 * t + 1) (g (2 * t) s)) c s := by
  induction c with
  | zero => rfl
  | succ c ih =>
    rw [show 2 * (c + 1) = 2 * c + 1 + 1 by ring, fold_succ', fold_succ', ih, fold_succ']

set_option maxHeartbeats 1600000 in
theorem sse_inner_fold (Wm Wm_2 : complex64 K) (hW : Wm_2 = Wm * Wm) (k h : Nat)
    (hh : 2 ≤ h) (out : Buf K) (c : Nat) :
    Nat.fold (fun t (st : Buf K × m128d K × m128d K) =>
      let out := st.1
      let W_re := st.2.1
      let W_im := st.2.2
      let x0 := _mm_loadu_pd (out (k + t * 2))
      let x1 := _mm_loadu_pd (out (k + t * 2 + h))
      let x2 := _mm_loadu_pd (out (k + t * 2 + 1))
      let x3 := _mm_loadu_pd (out (k + t * 2 + 1 + h))
      let x02_re := _mm_shuffle_pd x0 x2 0b00
      let x02_im := _mm_shuffle_pd x0 x2 0b11
      let x13_re := _mm_shuffle_pd x1 x3 0b00
      let x13_im := _mm_shuffle_pd x1 x3 0b11
      let x13_i_re := _mm_sub_pd (_mm_mul_pd x13_re W_re) (_mm_mul_pd x13_im W_im)
      let x13_i_im := _mm_add_pd (_mm_mul_pd x13_re W_im) (_mm_mul_pd x13_im W_re)
      let y02_re := _mm_add_pd x02_re x13_i_re
      let y02_im := _mm_add_pd x02_im x13_i_im
      let y13_re := _mm_sub_pd x02_re x13_i_re
      let y13_im := _mm_sub_pd x02_im x13_i_im
      let y0 := _mm_unpacklo_pd y02_re y02_im
      let y1 := _mm_unpacklo_pd y13_re y13_im
      let y2 := _mm_unpackhi_pd y02_re y02_im
      let y3 := _mm_unpackhi_pd y13_re y13_im
      let out := Function.update out (k + t * 2) (_mm_storeu_pd y0)
      let out := Function.update out (k + t * 2 + h) (_mm_storeu_pd y1)
      let out := Function.update out (k + t * 2 + 1) (_mm_storeu_pd y2)
      let out := Function.update out (k + t * 2 + 1 + h) (_mm_storeu_pd y3)
      let new_W_re := _mm_sub_pd (_mm_mul_pd W_re (_mm_set1_pd Wm_2.re))
        (_mm_mul_pd W_im (_mm_set1_pd Wm_2.im))
      let new_W_im := _mm_add_pd (_mm_mul_pd W_re (_mm_set1_pd Wm_2.im))
        (_mm_mul_pd W_im (_mm_set1_pd Wm_2.re))
      (out, new_W_re, new_W_im)) c (out, _mm_set_pd Wm.re 1, _mm_set_pd Wm.im 0) =
    (Nat.fold (fun t o => bfly k h (Wm ^ (2 * t + 1)) (2 * t + 1) (bfly k h (Wm ^ (2 * t)) (2 * t) o))
        c out,
      (⟨(Wm ^ (2 * c)).re, (Wm ^ (2 * c + 1)).re⟩ : m128d K),
      (⟨(Wm ^ (2 * c)).im, (Wm ^ (2 * c + 1)).im⟩ : m128d K)) := by
  induction c with
  | zero => simp [Nat.fold, _mm_set_pd]
  | succ c ih =>
    rw [fold_succ', ih, fold_succ']
    refine Prod.ext ?_ (Prod.ext ?_ ?_)
    · funext i
      have e1 : k + c * 2 = k + 2 * c := by ring
      have e2 : k + 2 * c + 1 + h = k + (2 * c + 1) + h := by ring
      have n1 : k + 2 * c + 1 ≠ k + 2 * c + h := by omega
      have n2 : k + 2 * c + 1 ≠ k + 2 * c := by omega
      have n3 : k + 2 * c + 1 + h ≠ k + 2 * c + h := by omega
      have n4 : k + 2 * c + 1 + h ≠ k + 2 * c := by omega
      simp only [bfly, e1, Function.update_apply, n1, n2, n3, n4, if_false, ← Nat.add_assoc]
      split_ifs <;> rfl
    · have p1 : Wm ^ (2 * (c + 1)) = Wm ^ (2 * c) * (Wm * Wm) := by ring
      have p2 : Wm ^ (2 * (c + 1) + 1) = Wm ^ (2 * c + 1) * (Wm * Wm) := by ring
      dsimp only
      rw [p1, p2, hW]
      ext <;> simp [_mm_sub_pd, _mm_mul_pd, _mm_set1_pd]
    · have p1 : Wm ^ (2 * (c + 1)) = Wm ^ (2 * c) * (Wm * Wm) := by ring
      have p2 : Wm ^ (2 * (c + 1) + 1) = Wm ^ (2 * c + 1) * (Wm * Wm) := by ring
      dsimp only
      rw [p1, p2, hW]
      ext <;> simp [_mm_add_pd, _mm_mul_pd, _mm_set1_pd]

theorem sseStage_butterfly (Wm Wm_2 : complex64 K) (hW : Wm_2 = Wm * Wm) (g c : Nat)
    (hg : 0 < g) (out : Buf K) :
    IsButterfly Wm (2 * g) c out (sseStage Wm Wm_2 (2 * (2 * g)) out (c * (2 * (2 * g)))) := by
  refine butterfly_of_blocks Wm (2 * g) c (by omega) _ ?_ out
  intro k o
  have hm : 2 * (2 * g) / 2 = g * 2 := by omega
  rw [hm, forLoop_eq_fold _ 2 g (by norm_num)]
  have e := sse_inner_fold Wm Wm_2 hW k (g * 2) (by omega) o g
  rw [e]
  dsimp only
  rw [← fold_pairs (fun t o => bfly k (g * 2) (Wm ^ t) t o) g o, Nat.mul_comm g 2]
  exact bfly_fold_block Wm k (2 * g) o

/-- In exact arithmetic the SSE general stage is the scalar general stage. -/
theorem sseStage_eq_scalarStage (Wm Wm_2 : complex64 K) (hW : Wm_2 = Wm * Wm) (g c : Nat)
    (hg : 0 < g) (out : Buf K) :
    sseStage Wm Wm_2 (2 * (2 * g)) out (c * (2 * (2 * g))) =
      scalarStage Wm (2 * (2 * g)) out (c * (2 * (2 * g))) :=
  IsButterfly.unique Wm (2 * g) c (by omega) out _ _
    (sseStage_butterfly Wm Wm_2 hW g c hg out) (scalarStage_butterfly Wm (2 * g) c (by omega) out)

theorem sseStage2_eq_scalarStage2 (c : Nat) (out : Buf K) :
    sseStage2 out (c * 2) = scalarStage2 out (c * 2) :=
  IsButterfly.unique 1 1 c (by norm_num) out _ _
    (sseStage2_butterfly 1 c out) (scalarStage2_butterfly 1 c out)

theorem sseStage4_fwd_eq (c : Nat) (out : Buf K) :
    sseStage4 (-1) 1 out (c * 4) = DFT1D_scalar_stage4 out (c * 4) :=
  IsButterfly.unique _ 2 c (by norm_num) out _ _
    (sseStage4_fwd_butterfly c out) (DFT1D_scalar_stage4_butterfly c out)

theorem sseStage4_inv_eq (c : Nat) (out : Buf K) :
    sseStage4 1 (-1) out (c * 4) = IDFT1D_scalar_stage4 out (c * 4) :=
  IsButterfly.unique _ 2 c (by norm_num) out _ _
    (sseStage4_inv_butterfly c out) (IDFT1D_scalar_stage4_butterfly c out)

end sse

section generic

variable {K : Type} [Field K]

theorem two_pow_split (p s : Nat) (hs : s ≤ p) : 2 ^ p = 2 ^ (p - s) * 2 ^ s := by
  rw [← pow_add]; congr 1; omega

theorem shl_one (s : Nat) : 1 <<< s = 2 ^ s := by
  rw [Nat.shiftLeft_eq, one_mul]

theorem stageOf_butterfly (tw : Nat → complex64 K) (p : Nat) (st1 st2 : Buf K → Buf K)
    (body : Nat → Buf K → Buf K)
    (h1 : ∀ o, IsButterfly (tw 1) 1 (2 ^ (p - 1)) o (st1 o))
    (h2 : 2 ≤ p → ∀ o, IsButterfly (tw 2) 2 (2 ^ (p - 2)) o (st2 o))
    (h3 : ∀ s o, 3 ≤ s → s ≤ p → IsButterfly (tw s) (2 ^ (s - 1)) (2 ^ (p - s)) o (body s o)) :
    ∀ s o, 1 ≤ s → s ≤ p →
      IsButterfly (tw s) (2 ^ (s - 1)) (2 ^ (p - s)) o (stageOf st1 st2 body s o) := by
  intro s o hs1 hsp
  unfold stageOf
  by_cases e1 : s = 1
  · subst e1; simpa using h1 o
  · by_cases e2 : s = 2
    · subst e2; simpa using h2 hsp o
    · rw [if_neg e1, if_neg e2]; exact h3 s o (by omega) hsp

theorem scalar_stages_butterfly (tw Wm : Nat → complex64 K) (p : Nat)
    (st2 : Nat → Buf K → Buf K) (hst2 : ∀ c o, IsButterfly (tw 2) 2 c o (st2 (c * 4) o))
    (h3 : ∀ s, 3 ≤ s → s ≤ p → tw s = Wm s) :
    ∀ s o, 1 ≤ s → s ≤ p →
      IsButterfly (tw s) (2 ^ (s - 1)) (2 ^ (p - s)) o
        (stageOf (fun o => scalarStage2 o (2 ^ p)) (fun o => st2 (2 ^ p) o)
          (fun s o => scalarStage (Wm s) (1 <<< s) o (2 ^ p)) s o) := by
  intro s o hs1 hsp
  apply stageOf_butterfly tw p _ _ _ _ _ _ s o hs1 hsp
  · intro o
    have := scalarStage2_butterfly (tw 1) (2 ^ (p - 1)) o
    rwa [← pow_succ, show p - 1 + 1 = p by omega] at this
  · intro hp2 o
    have := hst2 (2 ^ (p - 2)) o
    rwa [show (4 : Nat) = 2 ^ 2 by norm_num, ← pow_add, show p - 2 + 2 = p by omega] at this
  · intro s o hs3 hsp
    have := scalarStage_butterfly (Wm s) (2 ^ (s - 1)) (2 ^ (p - s)) (by positivity) o
    rw [← pow_succ', show s - 1 + 1 = s by omega, ← two_pow_split p s hsp] at this
    rw [shl_one, h3 s hs3 hsp]
    exact this

theorem sse_stages_butterfly (tw Wm Wm2 : Nat → complex64 K) (p : Nat)
    (st2 : Nat → Buf K → Buf K) (hst2 : ∀ c o, IsButterfly (tw 2) 2 c o (st2 (c * 4) o))
    (h3 : ∀ s, 3 ≤ s → s ≤ p → tw s = Wm s)
    (hW : ∀ s, 3 ≤ s → s ≤ p → Wm2 s = Wm s * Wm s) :
    ∀ s o, 1 ≤ s → s ≤ p →
      IsButterfly (tw s) (2 ^ (s - 1)) (2 ^ (p - s)) o
        (stageOf (fun o => sseStage2 o (2 ^ p)) (fun o => st2 (2 ^ p) o)
          (fun s o => sseStage (Wm s) (Wm2 s) (1 <<< s) o (2 ^ p)) s o) := by
  intro s o hs1 hsp
  apply stageOf_butterfly tw p _ _ _ _ _ _ s o hs1 hsp
  · intro o
    have := sseStage2_butterfly (tw 1) (2 ^ (p - 1)) o
    rwa [← pow_succ, show p - 1 + 1 = p by omega] at this
  · intro hp2 o
    have := hst2 (2 ^ (p - 2)) o
    rwa [show (4 : Nat) = 2 ^ 2 by norm_num, ← pow_add, show p - 2 + 2 = p by omega] at this
  · intro s o hs3 hsp
    have := sseStage_butterfly (Wm s) (Wm2 s) (hW s hs3 hsp) (2 ^ (s - 2)) (2 ^ (p - s))
      (by positivity) o
    rw [← pow_succ', ← pow_succ', show s - 2 + 1 + 1 = s by omega, ← two_pow_split p s hsp,
      show s - 2 + 1 = s - 1 by omega] at this
    rw [shl_one, h3 s hs3 hsp]
    exact this

/-- What a run of `p` butterfly stages with twiddles `tw` leaves in the buffer. -/
theorem transform_spec (tw : Nat → complex64 K) (htw : IsTwiddle tw) (p : Nat) (hp : p ≤ 32)
    (stage : Nat → Buf K → Buf K)
    (hst : ∀ s o, 1 ≤ s → s ≤ p → IsButterfly (tw s) (2 ^ (s - 1)) (2 ^ (p - s)) o (stage s o))
    (inp out : Buf K) :
    (∀ k, k < 2 ^ p →
      Nat.fold (fun t o => stage (t + 1) o) p (bitReverseCopy inp out (2 ^ p) (p : Int)) k =
        ∑ n ∈ Finset.range (2 ^ p), inp n * tw p ^ (k * n)) ∧
    (∀ i, 2 ^ p ≤ i →
      Nat.fold (fun t o => stage (t + 1) o) p (bitReverseCopy inp out (2 ^ p) (p : Int)) i =
        out i) := by
  obtain ⟨_, hb, hf⟩ := bitReverseCopy_spec inp out p hp
  constructor
  · intro k hk
    exact stages_dft inp tw htw p stage hst _ hb k hk
  · intro i hi
    rw [stages_frame tw p stage hst _ p le_rfl i hi, hf i hi]

/-- Two stage functions that satisfy the same butterfly relations give the same buffer. -/
theorem fold_stage_unique (tw : Nat → complex64 K) (p : Nat)
    (stage stage' : Nat → Buf K → Buf K)
    (hst : ∀ s o, 1 ≤ s → s ≤ p → IsButterfly (tw s) (2 ^ (s - 1)) (2 ^ (p - s)) o (stage s o))
    (hst' : ∀ s o, 1 ≤ s → s ≤ p →
      IsButterfly (tw s) (2 ^ (s - 1)) (2 ^ (p - s)) o (stage' s o))
    (o : Buf K) :
    Nat.fold (fun t o => stage (t + 1) o) p o = Nat.fold (fun t o => stage' (t + 1) o) p o := by
  apply fold_congr
  intro t ht o
  exact IsButterfly.unique (tw (t + 1)) _ _ (by positivity) o _ _
    (hst (t + 1) o (by omega) (by omega)) (hst' (t + 1) o (by omega) (by omega))

/-- In exact arithmetic `DFT1D_sse` and `DFT1D_scalar` leave the same buffer, provided
`Wm_2 = Wm * Wm` in every general stage. -/
theorem DFT1D_sse_eq_scalar_of (PI : K) (cexp : complex64 K → complex64 K) (inp out : Buf K)
    (p : Nat) (hp1 : 1 ≤ p) (hp : p ≤ 30)
    (hW : ∀ s, 3 ≤ s → s ≤ p → fwdWm2 PI cexp s = fwdWm PI cexp s * fwdWm PI cexp s) :
    DFT1D_sse PI cexp inp out ((2 : Int) ^ p) = DFT1D_scalar PI cexp inp out ((2 : Int) ^ p) := by
  rw [DFT1D_sse_unfold PI cexp inp out p hp1 hp, DFT1D_scalar_unfold PI cexp inp out p hp1 hp]
  congr 1
  have h3 : ∀ s, 3 ≤ s → s ≤ p → twOf (⟨0, -1⟩ : complex64 K) (fwdWm PI cexp) s = fwdWm PI cexp s := by
    intro s h _; simp [twOf, show s ≠ 1 by omega, show s ≠ 2 by omega]
  exact fold_stage_unique (twOf ⟨0, -1⟩ (fwdWm PI cexp)) p _ _
    (sse_stages_butterfly _ (fwdWm PI cexp) (fwdWm2 PI cexp) p (fun N o => sseStage4 (-1) 1 o N)
      (fun c o => sseStage4_fwd_butterfly c o) h3 hW)
    (scalar_stages_butterfly _ (fwdWm PI cexp) p (fun N o => DFT1D_scalar_stage4 o N)
      (fun c o => DFT1D_scalar_stage4_butterfly c o) h3) _

/-- The inverse counterpart of `DFT1D_sse_eq_scalar_of`. -/
theorem IDFT1D_sse_eq_scalar_of (PI : K) (cexp : complex64 K → complex64 K) (inp out : Buf K)
    (p : Nat) (hp1 : 1 ≤ p) (hp : p ≤ 30)
    (hW : ∀ s, 3 ≤ s → s ≤ p → invWm2 PI cexp s = invWm PI cexp s * invWm PI cexp s) :
    IDFT1D_sse PI cexp inp out ((2 : Int) ^ p) =
      IDFT1D_scalar PI cexp inp out ((2 : Int) ^ p) := by
  rw [IDFT1D_sse_unfold PI cexp inp out p hp1 hp, IDFT1D_scalar_unfold PI cexp inp out p hp1 hp]
  congr 1
  have h3 : ∀ s, 3 ≤ s → s ≤ p → twOf (⟨0, 1⟩ : complex64 K) (invWm PI cexp) s = invWm PI cexp s := by
    intro s h _; simp [twOf, show s ≠ 1 by omega, show s ≠ 2 by omega]
  exact fold_stage_unique (twOf ⟨0, 1⟩ (invWm PI cexp)) p _ _
    (sse_stages_butterfly _ (invWm PI cexp) (invWm2 PI cexp) p (fun N o => sseStage4 1 (-1) o N)
      (fun c o => sseStage4_inv_butterfly c o) h3 hW)
    (scalar_stages_butterfly _ (invWm PI cexp) p (fun N o => IDFT1D_scalar_stage4 o N)
      (fun c o => IDFT1D_scalar_stage4_butterfly c o) h3) _

end generic

section real

theorem toComplex_injective : Function.Injective toComplex := by
  intro a b h
  have h1 := congrArg Complex.re h
  have h2 := congrArg Complex.im h
  exact complex64.ext h1 h2

theorem toComplex_mk (a b : ℝ) : toComplex ⟨a, b⟩ = (⟨a, b⟩ : ℂ) := rfl

theorem toComplex_cis (θ : ℝ) :
    toComplex ⟨Real.cos θ, Real.sin θ⟩ = Complex.exp (θ * Complex.I) := by
  apply Complex.ext
  · rw [Complex.exp_ofReal_mul_I_re]; rfl
  · rw [Complex.exp_ofReal_mul_I_im]; rfl

/-- The angle `2π / 2^s` of the stage of size `2^s`. -/
theorem cast_shl (s : Nat) : ((1 <<< s : Nat) : ℝ) = 2 ^ s := by
  rw [shl_one]; push_cast; rfl

variable (cexp : complex64 ℝ → complex64 ℝ)

theorem toComplex_fwdWm (hexp : ∀ θ : ℝ, cexp ⟨0, θ⟩ = ⟨Real.cos θ, Real.sin θ⟩) (s : Nat) :
    toComplex (fwdWm Real.pi cexp s) = Complex.exp (-(2 * Real.pi * Complex.I) / 2 ^ s) := by
  unfold fwdWm
  simp only []
  rw [hexp, toComplex_cis, cast_shl]
  congr 1
  push_cast
  ring

theorem toComplex_invWm (hexp : ∀ θ : ℝ, cexp ⟨0, θ⟩ = ⟨Real.cos θ, Real.sin θ⟩) (s : Nat) :
    toComplex (invWm Real.pi cexp s) = Complex.exp ((2 * Real.pi * Complex.I) / 2 ^ s) := by
  unfold invWm
  simp only []
  rw [hexp, toComplex_cis, cast_shl]
  congr 1
  push_cast
  ring

theorem toComplex_fwdWm2 (hexp : ∀ θ : ℝ, cexp ⟨0, θ⟩ = ⟨Real.cos θ, Real.sin θ⟩) (s : Nat) :
    toComplex (fwdWm2 Real.pi cexp s) = Complex.exp (-(4 * Real.pi * Complex.I) / 2 ^ s) := by
  unfold fwdWm2
  simp only []
  rw [hexp, toComplex_cis, cast_shl]
  congr 1
  push_cast
  ring

theorem toComplex_invWm2 (hexp : ∀ θ : ℝ, cexp ⟨0, θ⟩ = ⟨Real.cos θ, Real.sin θ⟩) (s : Nat) :
    toComplex (invWm2 Real.pi cexp s) = Complex.exp ((4 * Real.pi * Complex.I) / 2 ^ s) := by
  unfold invWm2
  simp only []
  rw [hexp, toComplex_cis, cast_shl]
  congr 1
  push_cast
  ring

theorem fwdWm2_eq (hexp : ∀ θ : ℝ, cexp ⟨0, θ⟩ = ⟨Real.cos θ, Real.sin θ⟩) (s : Nat) :
    fwdWm2 Real.pi cexp s = fwdWm Real.pi cexp s * fwdWm Real.pi cexp s := by
  apply toComplex_injective
  rw [map_mul, toComplex_fwdWm2 cexp hexp, toComplex_fwdWm cexp hexp, ← Complex.exp_add]
  congr 1
  ring

theorem invWm2_eq (hexp : ∀ θ : ℝ, cexp ⟨0, θ⟩ = ⟨Real.cos θ, Real.sin θ⟩) (s : Nat) :
    invWm2 Real.pi cexp s = invWm Real.pi cexp s * invWm Real.pi cexp s := by
  apply toComplex_injective
  rw [map_mul, toComplex_invWm2 cexp hexp, toComplex_invWm cexp hexp, ← Complex.exp_add]
  congr 1
  ring

theorem exp_neg_pi_I : Complex.exp (-(2 * Real.pi * Complex.I) / 2 ^ 1) = -1 := by
  rw [show -(2 * (Real.pi : ℂ) * Complex.I) / 2 ^ 1 = -(Real.pi * Complex.I) by ring,
    Complex.exp_neg, Complex.exp_pi_mul_I]
  norm_num

theorem exp_pos_pi_I : Complex.exp ((2 * Real.pi * Complex.I) / 2 ^ 1) = -1 := by
  rw [show (2 * (Real.pi : ℂ) * Complex.I) / 2 ^ 1 = Real.pi * Complex.I by ring,
    Complex.exp_pi_mul_I]

theorem exp_neg_half_pi_I : Complex.exp (-(2 * Real.pi * Complex.I) / 2 ^ 2) = -Complex.I := by
  rw [show -(2 * (Real.pi : ℂ) * Complex.I) / 2 ^ 2 = ((-(Real.pi / 2) : ℝ) : ℂ) * Complex.I by
    push_cast; ring]
  apply Complex.ext
  · rw [Complex.exp_ofReal_mul_I_re]; simp
  · rw [Complex.exp_ofReal_mul_I_im]; simp

theorem exp_pos_half_pi_I : Complex.exp ((2 * Real.pi * Complex.I) / 2 ^ 2) = Complex.I := by
  rw [show (2 * (Real.pi : ℂ) * Complex.I) / 2 ^ 2 = (((Real.pi / 2) : ℝ) : ℂ) * Complex.I by
    push_cast; ring]
  apply Complex.ext
  · rw [Complex.exp_ofReal_mul_I_re]; simp
  · rw [Complex.exp_ofReal_mul_I_im]; simp

theorem toComplex_twOf_fwd (hexp : ∀ θ : ℝ, cexp ⟨0, θ⟩ = ⟨Real.cos θ, Real.sin θ⟩) (s : Nat)
    (hs : 1 ≤ s) :
    toComplex (twOf ⟨0, -1⟩ (fwdWm Real.pi cexp) s) =
      Complex.exp (-(2 * Real.pi * Complex.I) / 2 ^ s) := by
  unfold twOf
  by_cases e1 : s = 1
  · subst e1
    rw [if_pos rfl, exp_neg_pi_I, map_neg, map_one]
  · by_cases e2 : s = 2
    · subst e2
      rw [if_neg e1, if_pos rfl, exp_neg_half_pi_I, toComplex_mk]
      apply Complex.ext <;> simp
    · rw [if_neg e1, if_neg e2, toComplex_fwdWm cexp hexp]

theorem toComplex_twOf_inv (hexp : ∀ θ : ℝ, cexp ⟨0, θ⟩ = ⟨Real.cos θ, Real.sin θ⟩) (s : Nat)
    (hs : 1 ≤ s) :
    toComplex (twOf ⟨0, 1⟩ (invWm Real.pi cexp) s) =
      Complex.exp ((2 * Real.pi * Complex.I) / 2 ^ s) := by
  unfold twOf
  by_cases e1 : s = 1
  · subst e1
    rw [if_pos rfl, exp_pos_pi_I, map_neg, map_one]
  · by_cases e2 : s = 2
    · subst e2
      rw [if_neg e1, if_pos rfl, exp_pos_half_pi_I, toComplex_mk]
      apply Complex.ext <;> simp
    · rw [if_neg e1, if_neg e2, toComplex_invWm cexp hexp]

theorem isTwiddle_fwd (hexp : ∀ θ : ℝ, cexp ⟨0, θ⟩ = ⟨Real.cos θ, Real.sin θ⟩) :
    IsTwiddle (twOf ⟨0, -1⟩ (fwdWm Real.pi cexp)) := by
  constructor
  · rfl
  · intro s hs
    apply toComplex_injective
    rw [map_pow, toComplex_twOf_fwd cexp hexp (s + 1) (by omega),
      toComplex_twOf_fwd cexp hexp s hs, sq, ← Complex.exp_add]
    congr 1
    rw [pow_succ]
    field_simp
    ring

theorem isTwiddle_inv (hexp : ∀ θ : ℝ, cexp ⟨0, θ⟩ = ⟨Real.cos θ, Real.sin θ⟩) :
    IsTwiddle (twOf ⟨0, 1⟩ (invWm Real.pi cexp)) := by
  constructor
  · rfl
  · intro s hs
    apply toComplex_injective
    rw [map_pow, toComplex_twOf_inv cexp hexp (s + 1) (by omega),
      toComplex_twOf_inv cexp hexp s hs, sq, ← Complex.exp_add]
    congr 1
    rw [pow_succ]
    field_simp
    ring

end real

section spec1D

variable {K : Type} [Field K]

/-- The forward scalar transform returns, and leaves in `out[0..2^p)` the sums
`∑ in[n] * tw^(k*n)` for the twiddle `tw` of its last stage; the rest of `out` is
untouched. -/
theorem DFT1D_scalar_spec_of (PI : K) (cexp : complex64 K → complex64 K)
    (htw : IsTwiddle (twOf ⟨0, -1⟩ (fwdWm PI cexp))) (p : Nat) (hp1 : 1 ≤ p) (hp : p ≤ 30)
    (inp out : Buf K) :
    ∃ res, DFT1D_scalar PI cexp inp out ((2 : Int) ^ p) = .ok res ∧
      (∀ k, k < 2 ^ p →
        res k = ∑ n ∈ Finset.range (2 ^ p), inp n * twOf ⟨0, -1⟩ (fwdWm PI cexp) p ^ (k * n)) ∧
      (∀ i, 2 ^ p ≤ i → res i = out i) := by
  refine ⟨_, DFT1D_scalar_unfold PI cexp inp out p hp1 hp, ?_⟩
  have h3 : ∀ s, 3 ≤ s → s ≤ p →
      twOf (⟨0, -1⟩ : complex64 K) (fwdWm PI cexp) s = fwdWm PI cexp s := by
    intro s h _; simp [twOf, show s ≠ 1 by omega, show s ≠ 2 by omega]
  exact transform_spec _ htw p (by omega) _
    (scalar_stages_butterfly _ (fwdWm PI cexp) p (fun N o => DFT1D_scalar_stage4 o N)
      (fun c o => DFT1D_scalar_stage4_butterfly c o) h3) inp out

/-- The inverse counterpart of `DFT1D_scalar_spec_of`. -/
theorem IDFT1D_scalar_spec_of (PI : K) (cexp : complex64 K → complex64 K)
    (htw : IsTwiddle (twOf ⟨0, 1⟩ (invWm PI cexp))) (p : Nat) (hp1 : 1 ≤ p) (hp : p ≤ 30)
    (inp out : Buf K) :
    ∃ res, IDFT1D_scalar PI cexp inp out ((2 : Int) ^ p) = .ok res ∧
      (∀ k, k < 2 ^ p →
        res k = ∑ n ∈ Finset.range (2 ^ p), inp n * twOf ⟨0, 1⟩ (invWm PI cexp) p ^ (k * n)) ∧
      (∀ i, 2 ^ p ≤ i → res i = out i) := by
  refine ⟨_, IDFT1D_scalar_unfold PI cexp inp out p hp1 hp, ?_⟩
  have h3 : ∀ s, 3 ≤ s → s ≤ p →
      twOf (⟨0, 1⟩ : complex64 K) (invWm PI cexp) s = invWm PI cexp s := by
    intro s h _; simp [twOf, show s ≠ 1 by omega, show s ≠ 2 by omega]
  exact transform_spec _ htw p (by omega) _
    (scalar_stages_butterfly _ (invWm PI cexp) p (fun N o => IDFT1D_scalar_stage4 o N)
      (fun c o => IDFT1D_scalar_stage4_butterfly c o) h3) inp out

end spec1D

section realSpec

/-- The kernel `exp(-i·2π·n·k/N)` of the forward transform. -/
theorem fwd_kernel (p k n : Nat) :
    Complex.exp (-(2 * Real.pi * Complex.I) / 2 ^ p) ^ (k * n) =
      Complex.exp (-(Complex.I * 2 * Real.pi * n * k / (2 : ℂ) ^ p)) := by
  rw [← Complex.exp_nat_mul]
  congr 1
  push_cast
  ring

/-- The kernel `exp(+i·2π·n·k/N)` of the inverse transform. -/
theorem inv_kernel (p k n : Nat) :
    Complex.exp ((2 * Real.pi * Complex.I) / 2 ^ p) ^ (k * n) =
      Complex.exp (Complex.I * 2 * Real.pi * n * k / (2 : ℂ) ^ p) := by
  rw [← Complex.exp_nat_mul]
  congr 1
  push_cast
  ring

theorem DFT1D_scalar_real (cexp : complex64 ℝ → complex64 ℝ) (hexp : IsCexp cexp) (p : Nat)
    (hp1 : 1 ≤ p) (hp : p ≤ 30) (inp out : Buf ℝ) :
    ∃ res, DFT1D_scalar Real.pi cexp inp out ((2 : Int) ^ p) = .ok res ∧
      (∀ k, k < 2 ^ p → toComplex (res k) =
        ∑ n ∈ Finset.range (2 ^ p), toComplex (inp n) *
          Complex.exp (-(Complex.I * 2 * Real.pi * n * k / (2 : ℂ) ^ p))) ∧
      (∀ i, 2 ^ p ≤ i → res i = out i) := by
  obtain ⟨res, h1, h2, h3⟩ :=
    DFT1D_scalar_spec_of Real.pi cexp (isTwiddle_fwd cexp hexp) p hp1 hp inp out
  refine ⟨res, h1, ?_, h3⟩
  intro k hk
  rw [h2 k hk, map_sum]
  apply Finset.sum_congr rfl
  intro n _
  rw [map_mul, map_pow, toComplex_twOf_fwd cexp hexp p hp1, fwd_kernel]

theorem IDFT1D_scalar_real (cexp : complex64 ℝ → complex64 ℝ) (hexp : IsCexp cexp) (p : Nat)
    (hp1 : 1 ≤ p) (hp : p ≤ 30) (inp out : Buf ℝ) :
    ∃ res, IDFT1D_scalar Real.pi cexp inp out ((2 : Int) ^ p) = .ok res ∧
      (∀ k, k < 2 ^ p → toComplex (res k) =
        ∑ n ∈ Finset.range (2 ^ p), toComplex (inp n) *
          Complex.exp (Complex.I * 2 * Real.pi * n * k / (2 : ℂ) ^ p)) ∧
      (∀ i, 2 ^ p ≤ i → res i = out i) := by
  obtain ⟨res, h1, h2, h3⟩ :=
    IDFT1D_scalar_spec_of Real.pi cexp (isTwiddle_inv cexp hexp) p hp1 hp inp out
  refine ⟨res, h1, ?_, h3⟩
  intro k hk
  rw [h2 k hk, map_sum]
  apply Finset.sum_congr rfl
  intro n _
  rw [map_mul, map_pow, toComplex_twOf_inv cexp hexp p hp1, inv_kernel]

end realSpec

section roundtrip

/-- Orthogonality of the characters of `ℤ/N`: the inverse kernel against the forward
kernel sums to `N` on the diagonal and to `0` off it. -/
theorem root_orthogonal (N : Nat) (ζ : ℂ) (hζ : IsPrimitiveRoot ζ N) (j n : Nat)
    (hj : j < N) (hn : n < N) :
    ∑ k ∈ Finset.range N, ζ⁻¹ ^ (k * n) * ζ ^ (j * k) = if n = j then (N : ℂ) else 0 := by
  have hN : 0 < N := by omega
  have hζ0 : ζ ≠ 0 := hζ.ne_zero (by omega)
  have e : ∀ k, ζ⁻¹ ^ (k * n) * ζ ^ (j * k) = (ζ⁻¹ ^ n * ζ ^ j) ^ k := by
    intro k
    rw [mul_pow, ← pow_mul, ← pow_mul, Nat.mul_comm n k]
  simp only [e]
  by_cases hnj : n = j
  · subst hnj
    rw [if_pos rfl]
    have : ζ⁻¹ ^ n * ζ ^ n = 1 := by
      rw [inv_pow, inv_mul_cancel₀ (pow_ne_zero _ hζ0)]
    rw [this]
    simp
  · rw [if_neg hnj]
    have hne : ζ⁻¹ ^ n * ζ ^ j ≠ 1 := by
      intro h
      apply hnj
      have h' : ζ ^ j = ζ ^ n := by
        have := congrArg (fun z => ζ ^ n * z) h
        simp only [mul_one, inv_pow, ← mul_assoc, mul_inv_cancel₀ (pow_ne_zero n hζ0),
          one_mul] at this
        exact this
      exact (hζ.pow_inj hj hn h').symm
    have hpow : (ζ⁻¹ ^ n * ζ ^ j) ^ N = 1 := by
      rw [mul_pow, ← pow_mul, ← pow_mul, Nat.mul_comm n N, Nat.mul_comm j N, pow_mul, pow_mul,
        inv_pow, hζ.pow_eq_one]
      simp
    rw [geom_sum_eq hne, hpow, sub_self, zero_div]

/-- An unnormalised inverse transform applied to an unnormalised forward transform
multiplies by `N`. -/
theorem roundtrip_sum (N : Nat) (ζ : ℂ) (hζ : IsPrimitiveRoot ζ N) (X Y : Nat → ℂ)
    (hY : ∀ k, k < N → Y k = ∑ n ∈ Finset.range N, X n * ζ⁻¹ ^ (k * n)) (j : Nat) (hj : j < N) :
    ∑ k ∈ Finset.range N, Y k * ζ ^ (j * k) = N * X j := by
  have e1 : ∑ k ∈ Finset.range N, Y k * ζ ^ (j * k) =
      ∑ k ∈ Finset.range N, ∑ n ∈ Finset.range N, X n * (ζ⁻¹ ^ (k * n) * ζ ^ (j * k)) := by
    apply Finset.sum_congr rfl
    intro k hk
    rw [hY k (Finset.mem_range.mp hk), Finset.sum_mul]
    apply Finset.sum_congr rfl
    intro n _
    ring
  rw [e1, Finset.sum_comm]
  have e2 : ∀ n ∈ Finset.range N,
      ∑ k ∈ Finset.range N, X n * (ζ⁻¹ ^ (k * n) * ζ ^ (j * k)) =
        if n = j then (N : ℂ) * X j else 0 := by
    intro n hn
    rw [← Finset.mul_sum, root_orthogonal N ζ hζ j n hj (Finset.mem_range.mp hn)]
    split_ifs with h
    · subst h; ring
    · ring
  rw [Finset.sum_congr rfl e2, Finset.sum_ite_eq' (Finset.range N) j]
  simp [hj]

theorem primitive_root_two_pow (p : Nat) :
    IsPrimitiveRoot (Complex.exp ((2 * Real.pi * Complex.I) / 2 ^ p)) (2 ^ p) := by
  have h := Complex.isPrimitiveRoot_exp (2 ^ p) (by positivity)
  push_cast at h
  exact h

theorem fwd_root_eq_inv (p : Nat) :
    Complex.exp (-(2 * Real.pi * Complex.I) / 2 ^ p) =
      (Complex.exp ((2 * Real.pi * Complex.I) / 2 ^ p))⁻¹ := by
  rw [← Complex.exp_neg, neg_div]

end roundtrip

section twoD

variable {K : Type} [Field K]

theorem forLoopEFuel_ok {σ : Type} (body : Nat → σ → Except Fault σ) (g : Nat → σ → σ)
    (h : ∀ i s, body i s = .ok (g i s)) (fuel a b step : Nat) (s : σ) :
    forLoopEFuel fuel a b step body s = .ok (forLoopFuel fuel a b step g s) := by
  induction fuel generalizing a s with
  | zero => rfl
  | succ f ih =>
    rw [forLoopEFuel, forLoopFuel]
    by_cases hab : a < b
    · rw [if_pos hab, if_pos hab, h]
      exact ih _ _
    · rw [if_neg hab, if_neg hab]

theorem forLoopE_ok {σ : Type} (body : Nat → σ → Except Fault σ) (g : Nat → σ → σ)
    (h : ∀ i s, body i s = .ok (g i s)) (a b step : Nat) (s : σ) :
    forLoopE a b step body s = .ok (forLoop a b step g s) :=
  forLoopEFuel_ok body g h b a b step s

/-- The row loops of the 2D transforms: `M` rows of length `N`. -/
theorem rows_spec (T : Buf K → Buf K → Int → Except Fault (Buf K)) (Ni : Int) (N M : Nat)
    (F : Buf K → Nat → complex64 K) (hT : Is1DSpec T Ni N F) (src aux : Buf K) :
    ∃ aux', forLoopE 0 M 1 (fun n aux => callAt T src aux (n * N) Ni) aux = .ok aux' ∧
      (∀ n, n < M → ∀ k, k < N → aux' (n * N + k) = F (ptrAdd src (n * N)) k) := by
  choose R hR using hT
  have hbody : ∀ n (aux : Buf K), callAt T src aux (n * N) Ni =
      .ok (ptrStore aux (n * N) (R (ptrAdd src (n * N)) (ptrAdd aux (n * N)))) := by
    intro n aux
    unfold callAt
    rw [(hR _ _).1]
    rfl
  refine ⟨_, forLoopE_ok _ _ hbody 0 M 1 aux, ?_⟩
  have e := forLoop_eq_fold (fun n (aux : Buf K) =>
    ptrStore aux (n * N) (R (ptrAdd src (n * N)) (ptrAdd aux (n * N)))) 1 M (by norm_num) aux
  simp only [mul_one] at e
  rw [e]
  by_cases hN : N = 0
  · intro n _ k hk; omega
  have key := fold_local (fun n (aux : Buf K) =>
      ptrStore aux (n * N) (R (ptrAdd src (n * N)) (ptrAdd aux (n * N))))
    (fun t i => t * N ≤ i ∧ i < t * N + N) M
    (fun t t' i _ _ h1 h2 => block_unique N t t' i h1.1 h1.2 h2.1 h2.2)
    (by
      intro t f i _ hi
      simp only [ptrStore]
      split_ifs with h
      · rw [(hR _ _).2.2 _ (by omega)]
        simp only [ptrAdd]
        congr 1
        omega
      · rfl)
    (by
      intro t f g _ _ i hi
      simp only [ptrStore]
      rw [if_pos hi.1, if_pos hi.1, (hR _ _).2.1 _ (by omega), (hR _ _).2.1 _ (by omega)])
    M le_rfl aux
  intro n hn k hk
  rw [key.1 n hn _ (by omega)]
  simp only [ptrStore]
  rw [if_pos (by omega), Nat.add_sub_cancel_left, (hR _ _).2.1 _ hk]

/-- `Transpose` writes the transposed grid. -/
theorem Transpose_spec (inp out : Buf K) (N1 N2 : Nat) (n1 n2 : Nat) (h1 : n1 < N1)
    (h2 : n2 < N2) : Transpose inp out N1 N2 (n2 * N1 + n1) = inp (n1 * N2 + n2) := by
  unfold Transpose
  have e1 := forLoop_eq_fold (fun n1 (out : Buf K) =>
    forLoop 0 N2 1 (fun n2 out =>
      Function.update out (n2 * N1 + n1) (inp (n1 * N2 + n2))) out) 1 N1 (by norm_num) out
  simp only [mul_one] at e1
  rw [e1]
  have inner : ∀ (m : Nat) (o : Buf K), m < N1 →
      (∀ n2, n2 < N2 → forLoop 0 N2 1 (fun n2 out =>
        Function.update out (n2 * N1 + m) (inp (m * N2 + n2))) o (n2 * N1 + m) =
          inp (m * N2 + n2)) ∧
      (∀ i, (∀ n2, n2 < N2 → i ≠ n2 * N1 + m) → forLoop 0 N2 1 (fun n2 out =>
        Function.update out (n2 * N1 + m) (inp (m * N2 + n2))) o i = o i) := by
    intro m o hm
    have e2 := forLoop_eq_fold (fun n2 (out : Buf K) =>
      Function.update out (n2 * N1 + m) (inp (m * N2 + n2))) 1 N2 (by norm_num) o
    simp only [mul_one] at e2
    rw [e2]
    have key := fold_local (fun n2 (out : Buf K) =>
        Function.update out (n2 * N1 + m) (inp (m * N2 + n2)))
      (fun t i => i = t * N1 + m) N2
      (fun t t' i _ _ h1 h2 => by
        have : t * N1 = t' * N1 := by omega
        exact Nat.eq_of_mul_eq_mul_right (by omega) this)
      (fun t f i _ hi => by simp [Function.update_apply, hi])
      (fun t f g _ _ i hi => by simp [Function.update_apply, hi])
      N2 le_rfl o
    constructor
    · intro n2 hn2
      rw [key.1 n2 hn2 _ rfl]
      simp
    · intro i hi
      exact key.2 i (fun t ht => hi t ht)
  have key := fold_local (fun n1 (out : Buf K) =>
      forLoop 0 N2 1 (fun n2 out =>
        Function.update out (n2 * N1 + n1) (inp (n1 * N2 + n2))) out)
    (fun t i => ∃ n2, n2 < N2 ∧ i = n2 * N1 + t) N1
    (by
      intro t t' i ht ht' ⟨a, _, ha⟩ ⟨b, _, hb⟩
      have h := congrArg (· % N1) (ha.symm.trans hb)
      simp only [Nat.mul_comm _ N1] at h
      rwa [Nat.mul_add_mod, Nat.mul_add_mod, Nat.mod_eq_of_lt ht, Nat.mod_eq_of_lt ht'] at h)
    (by
      intro t f i ht hi
      exact (inner t f ht).2 i (fun n2 hn2 e => hi ⟨n2, hn2, e⟩))
    (by
      intro t f g ht _ i ⟨a, ha, hi⟩
      subst hi
      beta_reduce
      rw [(inner t f ht).1 a ha, (inner t g ht).1 a ha])
    N1 le_rfl out
  rw [key.1 n1 h1 _ ⟨n2, h2, rfl⟩]
  exact (inner n1 out h1).1 n2 h2

end twoD

section twoD

variable {K : Type} [Field K]

/-- The 2D transform built on a 1D transform `T`: the column transform `F1` of the row
transforms `F2`. -/
theorem transform2D_spec (T : Buf K → Buf K → Int → Except Fault (Buf K)) (N1i N2i : Int)
    (N1 N2 : Nat) (h1 : N1i.toNat = N1) (h2 : N2i.toNat = N2) (hov : ¬ (N1i * N2i < -2147483648 ∨ 2147483647 < N1i * N2i)) (hpos : ¬ (N1i * N2i < 0))
    (F1 F2 : Buf K → Nat → complex64 K) (hT1 : Is1DSpec T N1i N1 F1)
    (hT2 : Is1DSpec T N2i N2 F2)
    (hF1 : ∀ a b k, (∀ n, n < N1 → a n = b n) → F1 a k = F1 b k) (inp out : Buf K) :
    ∃ res, transform2D T inp out N1i N2i = .ok res ∧
      ∀ k1, k1 < N1 → ∀ k2, k2 < N2 →
        res (k1 * N2 + k2) = F1 (fun n1 => F2 (ptrAdd inp (n1 * N2)) k2) k1 := by
  obtain ⟨aux1, e1, r1⟩ := rows_spec T N2i N2 N1 F2 hT2 inp (fun _ => 0)
  obtain ⟨aux2, e2, r2⟩ := rows_spec T N1i N1 N2 F1 hT1 (Transpose aux1 out N1 N2) aux1
  refine ⟨Transpose aux2 (Transpose aux1 out N1 N2) N2 N1, ?_, ?_⟩
  · unfold transform2D
    rw [if_neg hov, if_neg hpos]
    simp only [h1, h2]
    rw [e1]
    simp only [Except.bind]
    rw [e2]
  · intro k1 hk1 k2 hk2
    rw [Transpose_spec aux2 _ N2 N1 k2 k1 hk2 hk1, r2 k2 hk2 k1 hk1]
    apply hF1
    intro n hn
    simp only [ptrAdd]
    rw [Transpose_spec aux1 out N1 N2 n k2 hn hk2, r1 n hn k2 hk2]

end twoD

section claims1D

/-- C1: for every `N = 2^p`, `1 ≤ p` (`p ≤ 30`, as `N` is an `int`), with `π` and the
exponential exact, `DFT1D_scalar(in, out, N)` returns and leaves
`out[k] = ∑ n < N, in[n] * exp(-i·2π·n·k/N)` for every `k < N`: the unnormalised forward
DFT with the negative sign. -/
theorem DFT1D_scalar_forward_dft (cexp : complex64 ℝ → complex64 ℝ) (hexp : IsCexp cexp)
    (p : Nat) (hp1 : 1 ≤ p) (hp : p ≤ 30) (inp out : Buf ℝ) :
    ∃ res, DFT1D_scalar Real.pi cexp inp out ((2 : Int) ^ p) = .ok res ∧
      ∀ k, k < 2 ^ p → toComplex (res k) =
        ∑ n ∈ Finset.range (2 ^ p), toComplex (inp n) *
          Complex.exp (-(Complex.I * 2 * Real.pi * n * k / (2 : ℂ) ^ p)) := by
  obtain ⟨res, h1, h2, _⟩ := DFT1D_scalar_real cexp hexp p hp1 hp inp out
  exact ⟨res, h1, h2⟩

theorem DFT1D_scalar_forward_dft_witness :
    ∃ res, DFT1D_scalar Real.pi
        (fun z => ⟨Real.exp z.re * Real.cos z.im, Real.exp z.re * Real.sin z.im⟩)
        (fun n => ⟨n, 1⟩) (fun _ => 0) ((2 : Int) ^ 3) = .ok res ∧
      ∀ k, k < 2 ^ 3 → toComplex (res k) =
        ∑ n ∈ Finset.range (2 ^ 3), toComplex ((fun n => (⟨n, 1⟩ : complex64 ℝ)) n) *
          Complex.exp (-(Complex.I * 2 * Real.pi * n * k / (2 : ℂ) ^ 3)) :=
  DFT1D_scalar_forward_dft _ (fun θ => by simp) 3 (by decide) (by decide) _ _

/-- C2: for every `N = 2^p`, `1 ≤ p` (`p ≤ 30`, as `N` is an `int`), with `π` and the
exponential exact, `IDFT1D_scalar(in, out, N)` returns and leaves
`out[k] = ∑ n < N, in[n] * exp(+i·2π·n·k/N)` for every `k < N`: the unnormalised inverse
DFT, positive sign and no factor `1/N`. -/
theorem IDFT1D_scalar_inverse_dft (cexp : complex64 ℝ → complex64 ℝ) (hexp : IsCexp cexp)
    (p : Nat) (hp1 : 1 ≤ p) (hp : p ≤ 30) (inp out : Buf ℝ) :
    ∃ res, IDFT1D_scalar Real.pi cexp inp out ((2 : Int) ^ p) = .ok res ∧
      ∀ k, k < 2 ^ p → toComplex (res k) =
        ∑ n ∈ Finset.range (2 ^ p), toComplex (inp n) *
          Complex.exp (Complex.I * 2 * Real.pi * n * k / (2 : ℂ) ^ p) := by
  obtain ⟨res, h1, h2, _⟩ := IDFT1D_scalar_real cexp hexp p hp1 hp inp out
  exact ⟨res, h1, h2⟩

theorem IDFT1D_scalar_inverse_dft_witness :
    ∃ res, IDFT1D_scalar Real.pi
        (fun z => ⟨Real.exp z.re * Real.cos z.im, Real.exp z.re * Real.sin z.im⟩)
        (fun n => ⟨1, n⟩) (fun _ => 0) ((2 : Int) ^ 3) = .ok res ∧
      ∀ k, k < 2 ^ 3 → toComplex (res k) =
        ∑ n ∈ Finset.range (2 ^ 3), toComplex ((fun n => (⟨1, n⟩ : complex64 ℝ)) n) *
          Complex.exp (Complex.I * 2 * Real.pi * n * k / (2 : ℂ) ^ 3) :=
  IDFT1D_scalar_inverse_dft _ (fun θ => by simp) 3 (by decide) (by decide) _ _

/-- C6: for every power of two `N = 2^p > 1` and every input, `DFT1D_sse` and
`DFT1D_scalar` both return, with the same output array, in exact arithmetic. -/
theorem DFT1D_sse_eq_DFT1D_scalar (cexp : complex64 ℝ → complex64 ℝ) (hexp : IsCexp cexp)
    (p : Nat) (hp1 : 1 ≤ p) (hp : p ≤ 30) (inp out : Buf ℝ) :
    ∃ res, DFT1D_scalar Real.pi cexp inp out ((2 : Int) ^ p) = .ok res ∧
      DFT1D_sse Real.pi cexp inp out ((2 : Int) ^ p) = .ok res := by
  obtain ⟨res, h1, _⟩ := DFT1D_scalar_real cexp hexp p hp1 hp inp out
  refine ⟨res, h1, ?_⟩
  rw [DFT1D_sse_eq_scalar_of Real.pi cexp inp out p hp1 hp
    (fun s _ _ => fwdWm2_eq cexp hexp s), h1]

theorem DFT1D_sse_eq_DFT1D_scalar_witness :
    ∃ res, DFT1D_scalar Real.pi
        (fun z => ⟨Real.exp z.re * Real.cos z.im, Real.exp z.re * Real.sin z.im⟩)
        (fun n => ⟨n, 1⟩) (fun _ => 0) ((2 : Int) ^ 4) = .ok res ∧
      DFT1D_sse Real.pi
        (fun z => ⟨Real.exp z.re * Real.cos z.im, Real.exp z.re * Real.sin z.im⟩)
        (fun n => ⟨n, 1⟩) (fun _ => 0) ((2 : Int) ^ 4) = .ok res :=
  DFT1D_sse_eq_DFT1D_scalar _ (fun θ => by simp) 4 (by decide) (by decide) _ _

/-- C7: for every power of two `N = 2^p > 1` and every input, `IDFT1D_sse` and
`IDFT1D_scalar` both return, with the same output array, in exact arithmetic; this
includes the unrolled `m = 4` stage with the lane constants `(-1, +1)`. -/
theorem IDFT1D_sse_eq_IDFT1D_scalar (cexp : complex64 ℝ → complex64 ℝ) (hexp : IsCexp cexp)
    (p : Nat) (hp1 : 1 ≤ p) (hp : p ≤ 30) (inp out : Buf ℝ) :
    ∃ res, IDFT1D_scalar Real.pi cexp inp out ((2 : Int) ^ p) = .ok res ∧
      IDFT1D_sse Real.pi cexp inp out ((2 : Int) ^ p) = .ok res := by
  obtain ⟨res, h1, _⟩ := IDFT1D_scalar_real cexp hexp p hp1 hp inp out
  refine ⟨res, h1, ?_⟩
  rw [IDFT1D_sse_eq_scalar_of Real.pi cexp inp out p hp1 hp
    (fun s _ _ => invWm2_eq cexp hexp s), h1]

theorem IDFT1D_sse_eq_IDFT1D_scalar_witness :
    ∃ res, IDFT1D_scalar Real.pi
        (fun z => ⟨Real.exp z.re * Real.cos z.im, Real.exp z.re * Real.sin z.im⟩)
        (fun n => ⟨n, 1⟩) (fun _ => 0) ((2 : Int) ^ 4) = .ok res ∧
      IDFT1D_sse Real.pi
        (fun z => ⟨Real.exp z.re * Real.cos z.im, Real.exp z.re * Real.sin z.im⟩)
        (fun n => ⟨n, 1⟩) (fun _ => 0) ((2 : Int) ^ 4) = .ok res :=
  IDFT1D_sse_eq_IDFT1D_scalar _ (fun θ => by simp) 4 (by decide) (by decide) _ _

/-- C8: bit reversal is self-inverse: for `1 ≤ p ≤ 32` and `i < 2^p`,
`BitReverse(BitReverse(i, p), p) = i`. -/
theorem BitReverse_self_inverse (i p : Nat) (hp1 : 1 ≤ p) (hp : p ≤ 32) (hi : i < 2 ^ p) :
    BitReverse (BitReverse i (p : Int)) (p : Int) = i :=
  BitReverse_invol i p hp hi

theorem BitReverse_self_inverse_witness :
    BitReverse (BitReverse 11 ((5 : Nat) : Int)) ((5 : Nat) : Int) = 11 :=
  BitReverse_self_inverse 11 5 (by decide) (by decide) (by decide)

/-- C9: for `1 ≤ p ≤ 32` and `i < 2^p`, bit `j < p` of `BitReverse(i, p)` is bit
`p-1-j` of `i` and no bit from `p` on is set; and for `N = 2^p` an `int`,
`GetPowerOf2(N) = p` and the first loop of the 1D transforms leaves
`out[BitReverse(i, p)] = in[i]`. -/
theorem BitReverse_reverses_low_bits {K : Type} [Field K] (i p : Nat) (hp1 : 1 ≤ p) (hp : p ≤ 32)
    (hi : i < 2 ^ p) :
    (∀ j, j < p → (BitReverse i (p : Int)).testBit j = i.testBit (p - 1 - j)) ∧
    (∀ j, p ≤ j → (BitReverse i (p : Int)).testBit j = false) ∧
    (p ≤ 30 → GetPowerOf2 (toUnsigned ((2 : Int) ^ p)) = (p : Int) ∧
      ∀ inp out : Buf K,
        bitReverseCopy inp out ((2 : Int) ^ p).toNat (GetPowerOf2 (toUnsigned ((2 : Int) ^ p)))
          (BitReverse i (GetPowerOf2 (toUnsigned ((2 : Int) ^ p)))) = inp i) := by
  refine ⟨?_, ?_, ?_⟩
  · intro j hj
    rw [BitReverse_testBit i p j hp]
    simp [hj]
  · intro j hj
    rw [BitReverse_testBit i p j hp]
    simp [Nat.not_lt.mpr hj]
  · intro h30
    obtain ⟨_, _, h3, h4⟩ := int_two_pow_facts p hp1 h30
    refine ⟨h3, ?_⟩
    intro inp out
    rw [h3, h4]
    exact (bitReverseCopy_spec inp out p hp).1 i hi

theorem BitReverse_reverses_low_bits_witness :
    (∀ j, j < 3 → (BitReverse 6 ((3 : Nat) : Int)).testBit j = Nat.testBit 6 (3 - 1 - j)) ∧
    (∀ j, 3 ≤ j → (BitReverse 6 ((3 : Nat) : Int)).testBit j = false) ∧
    (3 ≤ 30 → GetPowerOf2 (toUnsigned ((2 : Int) ^ 3)) = ((3 : Nat) : Int) ∧
      ∀ inp out : Buf ℚ,
        bitReverseCopy inp out ((2 : Int) ^ 3).toNat (GetPowerOf2 (toUnsigned ((2 : Int) ^ 3)))
          (BitReverse 6 (GetPowerOf2 (toUnsigned ((2 : Int) ^ 3)))) = inp 6) :=
  BitReverse_reverses_low_bits 6 3 (by decide) (by decide) (by decide)

end claims1D

section roundtrip2

theorem toComplex_re (z : complex64 ℝ) : (toComplex z).re = z.re := rfl

theorem toComplex_im (z : complex64 ℝ) : (toComplex z).im = z.im := rfl

/-- Scaling a sample by `c`, seen in `ℂ`. -/
theorem toComplex_scale (c : ℝ) (z : complex64 ℝ) :
    toComplex ⟨c * z.re, c * z.im⟩ = (c : ℂ) * toComplex z := by
  apply Complex.ext
  · simp [toComplex_re]
  · simp [toComplex_re, toComplex_im]

/-- The round trip in the form of the kernels of the transforms: the inverse sum of a
forward sum is `2^p` times the signal. -/
theorem roundtrip_exp (p : Nat) (X Y : Nat → ℂ)
    (hY : ∀ k, k < 2 ^ p → Y k = ∑ n ∈ Finset.range (2 ^ p), X n *
      Complex.exp (-(Complex.I * 2 * Real.pi * n * k / (2 : ℂ) ^ p)))
    (j : Nat) (hj : j < 2 ^ p) :
    ∑ k ∈ Finset.range (2 ^ p), Y k *
      Complex.exp (Complex.I * 2 * Real.pi * k * j / (2 : ℂ) ^ p) = (2 : ℂ) ^ p * X j := by
  have h := roundtrip_sum (2 ^ p) _ (primitive_root_two_pow p) X Y (by
    intro k hk
    rw [hY k hk]
    apply Finset.sum_congr rfl
    intro n _
    rw [← fwd_root_eq_inv, fwd_kernel]) j hj
  simp only [inv_kernel] at h
  rw [h]
  push_cast
  rfl

end roundtrip2

section claimsRoundtrip

/-- C3: the 1D round trip: for every power of two `N = 2^p > 1` and every `x`, in exact
arithmetic `DFT1D_scalar` returns some `y`, `IDFT1D_scalar` on `y` returns some `z`, and
`z[j] = N * x[j]` for every `j < N`. -/
theorem IDFT1D_scalar_DFT1D_scalar_roundtrip (cexp : complex64 ℝ → complex64 ℝ)
    (hexp : IsCexp cexp) (p : Nat) (hp1 : 1 ≤ p) (hp : p ≤ 30) (x out1 out2 : Buf ℝ) :
    ∃ y z, DFT1D_scalar Real.pi cexp x out1 ((2 : Int) ^ p) = .ok y ∧
      IDFT1D_scalar Real.pi cexp y out2 ((2 : Int) ^ p) = .ok z ∧
      ∀ j, j < 2 ^ p → z j = ⟨2 ^ p * (x j).re, 2 ^ p * (x j).im⟩ := by
  obtain ⟨y, hy1, hy2, _⟩ := DFT1D_scalar_real cexp hexp p hp1 hp x out1
  obtain ⟨z, hz1, hz2, _⟩ := IDFT1D_scalar_real cexp hexp p hp1 hp y out2
  refine ⟨y, z, hy1, hz1, ?_⟩
  intro j hj
  apply toComplex_injective
  rw [hz2 j hj, toComplex_scale,
    roundtrip_exp p (fun n => toComplex (x n)) (fun k => toComplex (y k)) hy2 j hj]
  push_cast
  rfl

theorem IDFT1D_scalar_DFT1D_scalar_roundtrip_witness :
    ∃ y z, DFT1D_scalar Real.pi
        (fun z => ⟨Real.exp z.re * Real.cos z.im, Real.exp z.re * Real.sin z.im⟩)
        (fun n => ⟨n, 1⟩) (fun _ => 0) ((2 : Int) ^ 3) = .ok y ∧
      IDFT1D_scalar Real.pi
        (fun z => ⟨Real.exp z.re * Real.cos z.im, Real.exp z.re * Real.sin z.im⟩)
        y (fun _ => 0) ((2 : Int) ^ 3) = .ok z ∧
      ∀ j, j < 2 ^ 3 → z j =
        ⟨2 ^ 3 * ((fun n => (⟨n, 1⟩ : complex64 ℝ)) j).re,
          2 ^ 3 * ((fun n => (⟨n, 1⟩ : complex64 ℝ)) j).im⟩ :=
  IDFT1D_scalar_DFT1D_scalar_roundtrip _ (fun θ => by simp) 3 (by decide) (by decide) _ _ _

end claimsRoundtrip

section twoDreal

theorem dftSum_congr {K : Type} [Field K] (ζ : complex64 K) (N : Nat) (a b : Buf K) (k : Nat)
    (h : ∀ n, n < N → a n = b n) : dftSum ζ N a k = dftSum ζ N b k := by
  unfold dftSum
  apply Finset.sum_congr rfl
  intro n hn
  rw [h n (Finset.mem_range.mp hn)]

/-- The sizes of a 2D grid of `2^p1 × 2^p2` cells whose cell count is an `int`. -/
theorem grid_size_facts (p1 p2 : Nat) (h : p1 + p2 ≤ 30) :
    ¬ ((2 : Int) ^ p1 * (2 : Int) ^ p2 < -2147483648 ∨
      2147483647 < (2 : Int) ^ p1 * (2 : Int) ^ p2) ∧
    ¬ ((2 : Int) ^ p1 * (2 : Int) ^ p2 < 0) := by
  have h1 : (2 : Int) ^ p1 * (2 : Int) ^ p2 = 2 ^ (p1 + p2) := by rw [pow_add]
  have h2 : (2 : Int) ^ (p1 + p2) ≤ 2 ^ 30 := pow_le_pow_right₀ (by norm_num) h
  have h3 : (0 : Int) < 2 ^ (p1 + p2) := by positivity
  rw [h1]
  constructor
  · rintro (h | h) <;> omega
  · omega

/-- The 2D transforms built on `DFT1D_scalar`-like transforms `T` with last twiddles `ζ1`
(size `2^p1`) and `ζ2` (size `2^p2`): the nested sums over the rows and the columns. -/
theorem transform2D_dftSum {K : Type} [Field K]
    (T : Buf K → Buf K → Int → Except Fault (Buf K)) (p1 p2 : Nat) (h : p1 + p2 ≤ 30)
    (ζ1 ζ2 : complex64 K)
    (hT1 : Is1DSpec T ((2 : Int) ^ p1) (2 ^ p1) (dftSum ζ1 (2 ^ p1)))
    (hT2 : Is1DSpec T ((2 : Int) ^ p2) (2 ^ p2) (dftSum ζ2 (2 ^ p2))) (inp out : Buf K) :
    ∃ res, transform2D T inp out ((2 : Int) ^ p1) ((2 : Int) ^ p2) = .ok res ∧
      ∀ k1, k1 < 2 ^ p1 → ∀ k2, k2 < 2 ^ p2 →
        res (k1 * 2 ^ p2 + k2) =
          ∑ n1 ∈ Finset.range (2 ^ p1),
            (∑ n2 ∈ Finset.range (2 ^ p2), inp (n1 * 2 ^ p2 + n2) * ζ2 ^ (k2 * n2)) *
              ζ1 ^ (k1 * n1) := by
  have e1 : ((2 : Int) ^ p1).toNat = 2 ^ p1 := by
    have : ((2 : Int) ^ p1) = ((2 ^ p1 : Nat) : Int) := by push_cast; rfl
    rw [this, Int.toNat_natCast]
  have e2 : ((2 : Int) ^ p2).toNat = 2 ^ p2 := by
    have : ((2 : Int) ^ p2) = ((2 ^ p2 : Nat) : Int) := by push_cast; rfl
    rw [this, Int.toNat_natCast]
  obtain ⟨hov, hpos⟩ := grid_size_facts p1 p2 h
  obtain ⟨res, hr, hres⟩ := transform2D_spec T _ _ (2 ^ p1) (2 ^ p2) e1 e2 hov hpos
    (dftSum ζ1 (2 ^ p1)) (dftSum ζ2 (2 ^ p2)) hT1 hT2
    (fun a b k hab => dftSum_congr ζ1 _ a b k hab) inp out
  refine ⟨res, hr, ?_⟩
  intro k1 hk1 k2 hk2
  rw [hres k1 hk1 k2 hk2]
  rfl

variable (cexp : complex64 ℝ → complex64 ℝ)

theorem is1DSpec_DFT1D_scalar (hexp : IsCexp cexp) (p : Nat) (hp1 : 1 ≤ p) (hp : p ≤ 30) :
    Is1DSpec (DFT1D_scalar Real.pi cexp) ((2 : Int) ^ p) (2 ^ p)
      (dftSum (twOf ⟨0, -1⟩ (fwdWm Real.pi cexp) p) (2 ^ p)) :=
  fun inp out => DFT1D_scalar_spec_of Real.pi cexp (isTwiddle_fwd cexp hexp) p hp1 hp inp out

theorem is1DSpec_IDFT1D_scalar (hexp : IsCexp cexp) (p : Nat) (hp1 : 1 ≤ p) (hp : p ≤ 30) :
    Is1DSpec (IDFT1D_scalar Real.pi cexp) ((2 : Int) ^ p) (2 ^ p)
      (dftSum (twOf ⟨0, 1⟩ (invWm Real.pi cexp) p) (2 ^ p)) :=
  fun inp out => IDFT1D_scalar_spec_of Real.pi cexp (isTwiddle_inv cexp hexp) p hp1 hp inp out

/-- The forward 2D transform returns the column transforms of the row transforms. -/
theorem DFT2D_scalar_real (hexp : IsCexp cexp) (p1 p2 : Nat) (h1 : 1 ≤ p1) (h2 : 1 ≤ p2)
    (h : p1 + p2 ≤ 30) (inp out : Buf ℝ) :
    ∃ res, DFT2D_scalar Real.pi cexp inp out ((2 : Int) ^ p1) ((2 : Int) ^ p2) = .ok res ∧
      ∀ k1, k1 < 2 ^ p1 → ∀ k2, k2 < 2 ^ p2 →
        toComplex (res (k1 * 2 ^ p2 + k2)) =
          ∑ n1 ∈ Finset.range (2 ^ p1),
            (∑ n2 ∈ Finset.range (2 ^ p2), toComplex (inp (n1 * 2 ^ p2 + n2)) *
              Complex.exp (-(Complex.I * 2 * Real.pi * n2 * k2 / (2 : ℂ) ^ p2))) *
              Complex.exp (-(Complex.I * 2 * Real.pi * n1 * k1 / (2 : ℂ) ^ p1)) := by
  obtain ⟨res, hr, hres⟩ := transform2D_dftSum (DFT1D_scalar Real.pi cexp) p1 p2 h _ _
    (is1DSpec_DFT1D_scalar cexp hexp p1 h1 (by omega))
    (is1DSpec_DFT1D_scalar cexp hexp p2 h2 (by omega)) inp out
  refine ⟨res, hr, ?_⟩
  intro k1 hk1 k2 hk2
  rw [hres k1 hk1 k2 hk2, map_sum]
  apply Finset.sum_congr rfl
  intro n1 _
  rw [map_mul, map_pow, toComplex_twOf_fwd cexp hexp p1 h1, fwd_kernel, map_sum]
  congr 1
  apply Finset.sum_congr rfl
  intro n2 _
  rw [map_mul, map_pow, toComplex_twOf_fwd cexp hexp p2 h2, fwd_kernel]

/-- The inverse 2D transform returns the column transforms of the row transforms. -/
theorem IDFT2D_scalar_real (hexp : IsCexp cexp) (p1 p2 : Nat) (h1 : 1 ≤ p1) (h2 : 1 ≤ p2)
    (h : p1 + p2 ≤ 30) (inp out : Buf ℝ) :
    ∃ res, IDFT2D_scalar Real.pi cexp inp out ((2 : Int) ^ p1) ((2 : Int) ^ p2) = .ok res ∧
      ∀ k1, k1 < 2 ^ p1 → ∀ k2, k2 < 2 ^ p2 →
        toComplex (res (k1 * 2 ^ p2 + k2)) =
          ∑ n1 ∈ Finset.range (2 ^ p1),
            (∑ n2 ∈ Finset.range (2 ^ p2), toComplex (inp (n1 * 2 ^ p2 + n2)) *
              Complex.exp (Complex.I * 2 * Real.pi * n2 * k2 / (2 : ℂ) ^ p2)) *
              Complex.exp (Complex.I * 2 * Real.pi * n1 * k1 / (2 : ℂ) ^ p1) := by
  obtain ⟨res, hr, hres⟩ := transform2D_dftSum (IDFT1D_scalar Real.pi cexp) p1 p2 h _ _
    (is1DSpec_IDFT1D_scalar cexp hexp p1 h1 (by omega))
    (is1DSpec_IDFT1D_scalar cexp hexp p2 h2 (by omega)) inp out
  refine ⟨res, hr, ?_⟩
  intro k1 hk1 k2 hk2
  rw [hres k1 hk1 k2 hk2, map_sum]
  apply Finset.sum_congr rfl
  intro n1 _
  rw [map_mul, map_pow, toComplex_twOf_inv cexp hexp p1 h1, inv_kernel, map_sum]
  congr 1
  apply Finset.sum_congr rfl
  intro n2 _
  rw [map_mul, map_pow, toComplex_twOf_inv cexp hexp p2 h2, inv_kernel]

/-- The nested sums of the 2D transforms as one double sum. -/
theorem nested_eq_double (N1 N2 : Nat) (X : Nat → Nat → ℂ) (a : Nat → ℂ) (b : Nat → ℂ) :
    ∑ n1 ∈ Finset.range N1, (∑ n2 ∈ Finset.range N2, X n1 n2 * Complex.exp (b n2)) *
        Complex.exp (a n1) =
      ∑ n1 ∈ Finset.range N1, ∑ n2 ∈ Finset.range N2,
        X n1 n2 * Complex.exp (a n1 + b n2) := by
  apply Finset.sum_congr rfl
  intro n1 _
  rw [Finset.sum_mul]
  apply Finset.sum_congr rfl
  intro n2 _
  rw [Complex.exp_add]
  ring

end twoDreal

section roundtrip2D

/-- The 2D round trip on the kernels: the nested inverse sums of the nested forward sums
are `2^p1 * 2^p2` times the signal. -/
theorem roundtrip_exp2 (p1 p2 : Nat) (X Y : Nat → ℂ)
    (hY : ∀ k1, k1 < 2 ^ p1 → ∀ k2, k2 < 2 ^ p2 → Y (k1 * 2 ^ p2 + k2) =
      ∑ n1 ∈ Finset.range (2 ^ p1),
        (∑ n2 ∈ Finset.range (2 ^ p2), X (n1 * 2 ^ p2 + n2) *
          Complex.exp (-(Complex.I * 2 * Real.pi * n2 * k2 / (2 : ℂ) ^ p2))) *
          Complex.exp (-(Complex.I * 2 * Real.pi * n1 * k1 / (2 : ℂ) ^ p1)))
    (j1 j2 : Nat) (hj1 : j1 < 2 ^ p1) (hj2 : j2 < 2 ^ p2) :
    ∑ k1 ∈ Finset.range (2 ^ p1),
        (∑ k2 ∈ Finset.range (2 ^ p2), Y (k1 * 2 ^ p2 + k2) *
          Complex.exp (Complex.I * 2 * Real.pi * k2 * j2 / (2 : ℂ) ^ p2)) *
          Complex.exp (Complex.I * 2 * Real.pi * k1 * j1 / (2 : ℂ) ^ p1) =
      (2 : ℂ) ^ p1 * ((2 : ℂ) ^ p2 * X (j1 * 2 ^ p2 + j2)) := by
  have step : ∀ k2, k2 < 2 ^ p2 →
      ∑ k1 ∈ Finset.range (2 ^ p1), Y (k1 * 2 ^ p2 + k2) *
        Complex.exp (Complex.I * 2 * Real.pi * k1 * j1 / (2 : ℂ) ^ p1) =
      (2 : ℂ) ^ p1 * ∑ n2 ∈ Finset.range (2 ^ p2), X (j1 * 2 ^ p2 + n2) *
        Complex.exp (-(Complex.I * 2 * Real.pi * n2 * k2 / (2 : ℂ) ^ p2)) :=
    fun k2 hk2 => roundtrip_exp p1
      (fun n1 => ∑ n2 ∈ Finset.range (2 ^ p2), X (n1 * 2 ^ p2 + n2) *
        Complex.exp (-(Complex.I * 2 * Real.pi * n2 * k2 / (2 : ℂ) ^ p2)))
      (fun k1 => Y (k1 * 2 ^ p2 + k2)) (fun k1 hk1 => hY k1 hk1 k2 hk2) j1 hj1
  have swap : ∑ k1 ∈ Finset.range (2 ^ p1),
        (∑ k2 ∈ Finset.range (2 ^ p2), Y (k1 * 2 ^ p2 + k2) *
          Complex.exp (Complex.I * 2 * Real.pi * k2 * j2 / (2 : ℂ) ^ p2)) *
          Complex.exp (Complex.I * 2 * Real.pi * k1 * j1 / (2 : ℂ) ^ p1) =
      ∑ k2 ∈ Finset.range (2 ^ p2),
        (∑ k1 ∈ Finset.range (2 ^ p1), Y (k1 * 2 ^ p2 + k2) *
          Complex.exp (Complex.I * 2 * Real.pi * k1 * j1 / (2 : ℂ) ^ p1)) *
          Complex.exp (Complex.I * 2 * Real.pi * k2 * j2 / (2 : ℂ) ^ p2) := by
    simp only [Finset.sum_mul]
    rw [Finset.sum_comm]
    apply Finset.sum_congr rfl
    intro k2 _
    apply Finset.sum_congr rfl
    intro k1 _
    ring
  rw [swap]
  have e : ∀ k2 ∈ Finset.range (2 ^ p2),
      (∑ k1 ∈ Finset.range (2 ^ p1), Y (k1 * 2 ^ p2 + k2) *
          Complex.exp (Complex.I * 2 * Real.pi * k1 * j1 / (2 : ℂ) ^ p1)) *
          Complex.exp (Complex.I * 2 * Real.pi * k2 * j2 / (2 : ℂ) ^ p2) =
      (2 : ℂ) ^ p1 * ((∑ n2 ∈ Finset.range (2 ^ p2), X (j1 * 2 ^ p2 + n2) *
        Complex.exp (-(Complex.I * 2 * Real.pi * n2 * k2 / (2 : ℂ) ^ p2))) *
          Complex.exp (Complex.I * 2 * Real.pi * k2 * j2 / (2 : ℂ) ^ p2)) := by
    intro k2 hk2
    rw [step k2 (Finset.mem_range.mp hk2)]
    ring
  rw [Finset.sum_congr rfl e, ← Finset.mul_sum]
  congr 1
  exact roundtrip_exp p2 (fun n2 => X (j1 * 2 ^ p2 + n2))
    (fun k2 => ∑ n2 ∈ Finset.range (2 ^ p2), X (j1 * 2 ^ p2 + n2) *
        Complex.exp (-(Complex.I * 2 * Real.pi * n2 * k2 / (2 : ℂ) ^ p2)))
    (fun k2 _ => rfl) j2 hj2

end roundtrip2D

section claims2D

/-- C4: separability of the 2D transforms: for all powers of two `N1 = 2^p1 > 1` and
`N2 = 2^p2 > 1` (the cell count `N1*N2` an `int`) and every row-major grid,
`DFT2D_scalar` returns and leaves in `out[k1*N2+k2]` the 1D forward transform along each
column of the 1D forward transforms of the rows, which is the double sum
`∑ n1 n2, in[n1*N2+n2] * exp(-i·2π·(n1·k1/N1 + n2·k2/N2))`; and `IDFT2D_scalar` does the
same with the positive sign. -/
theorem DFT2D_scalar_separable (cexp : complex64 ℝ → complex64 ℝ) (hexp : IsCexp cexp)
    (p1 p2 : Nat) (h1 : 1 ≤ p1) (h2 : 1 ≤ p2) (h : p1 + p2 ≤ 30) (inp out : Buf ℝ) :
    (∃ res, DFT2D_scalar Real.pi cexp inp out ((2 : Int) ^ p1) ((2 : Int) ^ p2) = .ok res ∧
      ∀ k1, k1 < 2 ^ p1 → ∀ k2, k2 < 2 ^ p2 →
        toComplex (res (k1 * 2 ^ p2 + k2)) =
          ∑ n1 ∈ Finset.range (2 ^ p1),
            (∑ n2 ∈ Finset.range (2 ^ p2), toComplex (inp (n1 * 2 ^ p2 + n2)) *
              Complex.exp (-(Complex.I * 2 * Real.pi * n2 * k2 / (2 : ℂ) ^ p2))) *
              Complex.exp (-(Complex.I * 2 * Real.pi * n1 * k1 / (2 : ℂ) ^ p1)) ∧
        toComplex (res (k1 * 2 ^ p2 + k2)) =
          ∑ n1 ∈ Finset.range (2 ^ p1), ∑ n2 ∈ Finset.range (2 ^ p2),
            toComplex (inp (n1 * 2 ^ p2 + n2)) *
              Complex.exp (-(Complex.I * 2 * Real.pi *
                (n1 * k1 / (2 : ℂ) ^ p1 + n2 * k2 / (2 : ℂ) ^ p2)))) ∧
    (∃ res, IDFT2D_scalar Real.pi cexp inp out ((2 : Int) ^ p1) ((2 : Int) ^ p2) = .ok res ∧
      ∀ k1, k1 < 2 ^ p1 → ∀ k2, k2 < 2 ^ p2 →
        toComplex (res (k1 * 2 ^ p2 + k2)) =
          ∑ n1 ∈ Finset.range (2 ^ p1),
            (∑ n2 ∈ Finset.range (2 ^ p2), toComplex (inp (n1 * 2 ^ p2 + n2)) *
              Complex.exp (Complex.I * 2 * Real.pi * n2 * k2 / (2 : ℂ) ^ p2)) *
              Complex.exp (Complex.I * 2 * Real.pi * n1 * k1 / (2 : ℂ) ^ p1) ∧
        toComplex (res (k1 * 2 ^ p2 + k2)) =
          ∑ n1 ∈ Finset.range (2 ^ p1), ∑ n2 ∈ Finset.range (2 ^ p2),
            toComplex (inp (n1 * 2 ^ p2 + n2)) *
              Complex.exp (Complex.I * 2 * Real.pi *
                (n1 * k1 / (2 : ℂ) ^ p1 + n2 * k2 / (2 : ℂ) ^ p2))) := by
  constructor
  · obtain ⟨res, hr, hres⟩ := DFT2D_scalar_real cexp hexp p1 p2 h1 h2 h inp out
    refine ⟨res, hr, fun k1 hk1 k2 hk2 => ⟨hres k1 hk1 k2 hk2, ?_⟩⟩
    rw [hres k1 hk1 k2 hk2, nested_eq_double]
    apply Finset.sum_congr rfl
    intro n1 _
    apply Finset.sum_congr rfl
    intro n2 _
    congr 2
    ring
  · obtain ⟨res, hr, hres⟩ := IDFT2D_scalar_real cexp hexp p1 p2 h1 h2 h inp out
    refine ⟨res, hr, fun k1 hk1 k2 hk2 => ⟨hres k1 hk1 k2 hk2, ?_⟩⟩
    rw [hres k1 hk1 k2 hk2, nested_eq_double]
    apply Finset.sum_congr rfl
    intro n1 _
    apply Finset.sum_congr rfl
    intro n2 _
    congr 2
    ring

theorem DFT2D_scalar_separable_witness :
    (∃ res, DFT2D_scalar Real.pi
        (fun z => ⟨Real.exp z.re * Real.cos z.im, Real.exp z.re * Real.sin z.im⟩)
        (fun n => ⟨n, 1⟩) (fun _ => 0) ((2 : Int) ^ 1) ((2 : Int) ^ 2) = .ok res) ∧
    (∃ res, IDFT2D_scalar Real.pi
        (fun z => ⟨Real.exp z.re * Real.cos z.im, Real.exp z.re * Real.sin z.im⟩)
        (fun n => ⟨n, 1⟩) (fun _ => 0) ((2 : Int) ^ 1) ((2 : Int) ^ 2) = .ok res) :=
  have h := DFT2D_scalar_separable _ (fun θ => by simp) 1 2 (by decide) (by decide)
    (by decide) (fun n => ⟨n, 1⟩) (fun _ => 0)
  ⟨h.1.imp fun _ hr => hr.1, h.2.imp fun _ hr => hr.1⟩

/-- C5: the 2D round trip: for all powers of two `N1 = 2^p1 > 1`, `N2 = 2^p2 > 1` (the
cell count `N1*N2` an `int`) and every grid `x`, in exact arithmetic `DFT2D_scalar`
returns some `y`, `IDFT2D_scalar` on `y` returns some `z`, and
`z[j1*N2+j2] = (N1*N2) * x[j1*N2+j2]` for every cell. -/
theorem IDFT2D_scalar_DFT2D_scalar_roundtrip (cexp : complex64 ℝ → complex64 ℝ)
    (hexp : IsCexp cexp) (p1 p2 : Nat) (h1 : 1 ≤ p1) (h2 : 1 ≤ p2) (h : p1 + p2 ≤ 30)
    (x out1 out2 : Buf ℝ) :
    ∃ y z, DFT2D_scalar Real.pi cexp x out1 ((2 : Int) ^ p1) ((2 : Int) ^ p2) = .ok y ∧
      IDFT2D_scalar Real.pi cexp y out2 ((2 : Int) ^ p1) ((2 : Int) ^ p2) = .ok z ∧
      ∀ j1, j1 < 2 ^ p1 → ∀ j2, j2 < 2 ^ p2 →
        z (j1 * 2 ^ p2 + j2) =
          ⟨(2 ^ p1 * 2 ^ p2) * (x (j1 * 2 ^ p2 + j2)).re,
            (2 ^ p1 * 2 ^ p2) * (x (j1 * 2 ^ p2 + j2)).im⟩ := by
  obtain ⟨y, hy1, hy2⟩ := DFT2D_scalar_real cexp hexp p1 p2 h1 h2 h x out1
  obtain ⟨z, hz1, hz2⟩ := IDFT2D_scalar_real cexp hexp p1 p2 h1 h2 h y out2
  refine ⟨y, z, hy1, hz1, ?_⟩
  intro j1 hj1 j2 hj2
  apply toComplex_injective
  rw [hz2 j1 hj1 j2 hj2, toComplex_scale,
    roundtrip_exp2 p1 p2 (fun n => toComplex (x n)) (fun k => toComplex (y k)) hy2 j1 j2 hj1 hj2]
  push_cast
  ring

theorem IDFT2D_scalar_DFT2D_scalar_roundtrip_witness :
    ∃ y z, DFT2D_scalar Real.pi
        (fun z => ⟨Real.exp z.re * Real.cos z.im, Real.exp z.re * Real.sin z.im⟩)
        (fun n => ⟨n, 1⟩) (fun _ => 0) ((2 : Int) ^ 1) ((2 : Int) ^ 2) = .ok y ∧
      IDFT2D_scalar Real.pi
        (fun z => ⟨Real.exp z.re * Real.cos z.im, Real.exp z.re * Real.sin z.im⟩)
        y (fun _ => 0) ((2 : Int) ^ 1) ((2 : Int) ^ 2) = .ok z ∧
      z (1 * 2 ^ 2 + 3) = ⟨(2 ^ 1 * 2 ^ 2) * (7 : ℝ), (2 ^ 1 * 2 ^ 2) * (1 : ℝ)⟩ :=
  have h := IDFT2D_scalar_DFT2D_scalar_roundtrip _ (fun θ => by simp) 1 2 (by decide)
    (by decide) (by decide) (fun n => ⟨n, 1⟩) (fun _ => 0) (fun _ => 0)
  let ⟨y, z, hy, hz, hj⟩ := h
  ⟨y, z, hy, hz, by simpa using hj 1 (by decide) 3 (by decide)⟩

end claims2D

section powerOfTwo

/-- A positive number with `n & (n - 1) = 0` is a power of two. -/
theorem pow_two_of_and_pred (n : Nat) (hn : 0 < n) (h : n &&& (n - 1) = 0) :
    ∃ a, n = 2 ^ a := by
  induction n using Nat.strong_induction_on with
  | _ n ih =>
    have key : (n / 2) &&& ((n - 1) / 2) = 0 := by
      apply Nat.eq_of_testBit_eq
      intro i
      rw [Nat.testBit_and, ← Nat.testBit_succ, ← Nat.testBit_succ, ← Nat.testBit_and, h]
      simp
    rcases Nat.even_or_odd' n with ⟨m, rfl | rfl⟩
    · have hm : 0 < m := by omega
      have e1 : 2 * m / 2 = m := by omega
      have e2 : (2 * m - 1) / 2 = m - 1 := by omega
      rw [e1, e2] at key
      obtain ⟨a, ha⟩ := ih m (by omega) hm key
      exact ⟨a + 1, by rw [ha, pow_succ]; ring⟩
    · have e1 : (2 * m + 1) / 2 = m := by omega
      have e2 : (2 * m + 1 - 1) / 2 = m := by omega
      rw [e1, e2, Nat.and_self] at key
      subst key
      exact ⟨0, rfl⟩

/-- The value of `n - 1` on `unsigned int`, for `n ≠ 0`. -/
theorem wrap_pred (n : Nat) (hn : 0 < n) (h32 : n < 4294967296) :
    (n + 4294967295) % 4294967296 = n - 1 := by
  omega

/-- On 32-bit values `IsPowerOf2` holds exactly of the powers of two. -/
theorem IsPowerOf2_iff (n : Nat) (h32 : n < 4294967296) :
    IsPowerOf2 n = true ↔ ∃ a, n = 2 ^ a := by
  constructor
  · intro h
    unfold IsPowerOf2 at h
    simp only [Bool.and_eq_true, bne_iff_ne, ne_eq, beq_iff_eq] at h
    have hn : 0 < n := Nat.pos_of_ne_zero h.1
    rw [wrap_pred n hn h32] at h
    exact pow_two_of_and_pred n hn h.2
  · rintro ⟨a, rfl⟩
    have ha : a ≤ 31 := by
      by_contra hc
      have : (2 : Nat) ^ 32 ≤ 2 ^ a := Nat.pow_le_pow_right (by norm_num) (by omega)
      omega
    exact IsPowerOf2_two_pow a ha

/-- An `int` passes the size test of the transforms and of `ValidateOceanParams`,
`IsPowerOf2(N) && N > 1`, exactly when it is a power of two greater than `1`. -/
theorem valid_size_iff (N : Int) (hlo : -2147483648 ≤ N) (hhi : N ≤ 2147483647) :
    (N > 1 ∧ IsPowerOf2 (toUnsigned N) = true) ↔ ((∃ a : Nat, N = 2 ^ a) ∧ 1 < N) := by
  constructor
  · rintro ⟨h1, h2⟩
    have e : toUnsigned N = N.toNat := by unfold toUnsigned; omega
    rw [e] at h2
    obtain ⟨a, ha⟩ := (IsPowerOf2_iff N.toNat (by omega)).1 h2
    refine ⟨⟨a, ?_⟩, h1⟩
    have : (N.toNat : Int) = N := Int.toNat_of_nonneg (by omega)
    rw [← this, ha]
    push_cast
    rfl
  · rintro ⟨⟨a, rfl⟩, h1⟩
    have ha : a ≤ 30 := by
      by_contra hc
      have : (2 : Int) ^ 31 ≤ 2 ^ a := pow_le_pow_right₀ (by norm_num) (by omega)
      omega
    have ha1 : 1 ≤ a := by
      rcases Nat.eq_zero_or_pos a with rfl | h
      · simp at h1
      · exact h
    exact ⟨h1, (int_two_pow_facts a ha1 ha).2.1⟩

end powerOfTwo

section validate

variable {K : Type} [LinearOrderedField K]

/-- The three tests of `ValidateOceanParams` set the bits 0, 1 and 2 and nothing else. -/
theorem ValidateOceanParams_bits (params : OceanParams K) :
    ((ValidateOceanParams params).testBit 0 =
      (!IsPowerOf2 (toUnsigned params.Nx) || !IsPowerOf2 (toUnsigned params.Ny)
        || decide (params.Nx ≤ 1) || decide (params.Ny ≤ 1))) ∧
    ((ValidateOceanParams params).testBit 1 =
      (decide (params.Lx ≤ 0) || decide (params.Ly ≤ 0))) ∧
    ((ValidateOceanParams params).testBit 2 =
      (decide (params.Vx = 0) && decide (params.Vy = 0))) ∧
    ValidateOceanParams params < 8 := by
  unfold ValidateOceanParams
  cases hg : (!IsPowerOf2 (toUnsigned params.Nx) || !IsPowerOf2 (toUnsigned params.Ny)
        || decide (params.Nx ≤ 1) || decide (params.Ny ≤ 1)) <;>
  cases hs : (decide (params.Lx ≤ 0) || decide (params.Ly ≤ 0)) <;>
  cases hw : (decide (params.Vx = 0) && decide (params.Vy = 0)) <;>
  simp only [Bool.false_eq_true, if_false, if_true] <;>
  decide

/-- The grid test of `ValidateOceanParams` passes exactly when both dimensions are powers
of two greater than `1`. -/
theorem grid_test_iff (Nx Ny : Int) (hx : -2147483648 ≤ Nx ∧ Nx ≤ 2147483647)
    (hy : -2147483648 ≤ Ny ∧ Ny ≤ 2147483647) :
    (!IsPowerOf2 (toUnsigned Nx) || !IsPowerOf2 (toUnsigned Ny)
        || decide (Nx ≤ 1) || decide (Ny ≤ 1)) = false ↔
      (((∃ a : Nat, Nx = 2 ^ a) ∧ 1 < Nx) ∧ ((∃ b : Nat, Ny = 2 ^ b) ∧ 1 < Ny)) := by
  rw [← valid_size_iff Nx hx.1 hx.2, ← valid_size_iff Ny hy.1 hy.2]
  simp only [Bool.or_eq_false_iff, Bool.not_eq_false', decide_eq_false_iff_not, not_le, gt_iff_lt]
  tauto

/-- No bit above bit 2 is set in a number below `8`. -/
theorem testBit_of_lt_eight (v j : Nat) (hv : v < 8) (hj : 3 ≤ j) : v.testBit j = false := by
  apply Nat.testBit_lt_two_pow
  have : (2 : Nat) ^ 3 ≤ 2 ^ j := Nat.pow_le_pow_right (by norm_num) hj
  omega

/-- A number below `8` is `0` exactly when its bits 0, 1 and 2 are clear. -/
theorem eq_zero_iff_bits (v : Nat) (hv : v < 8) :
    v = 0 ↔ (v.testBit 0 = false ∧ v.testBit 1 = false ∧ v.testBit 2 = false) := by
  interval_cases v <;> decide

/-- The null result of `ValidateOceanParams`. -/
theorem ValidateOceanParams_zero_iff (params : OceanParams K)
    (hx : -2147483648 ≤ params.Nx ∧ params.Nx ≤ 2147483647)
    (hy : -2147483648 ≤ params.Ny ∧ params.Ny ≤ 2147483647) :
    ValidateOceanParams params = 0 ↔
      (((∃ a : Nat, params.Nx = 2 ^ a) ∧ 1 < params.Nx) ∧
        ((∃ b : Nat, params.Ny = 2 ^ b) ∧ 1 < params.Ny)) ∧
      (0 < params.Lx ∧ 0 < params.Ly) ∧ ¬ (params.Vx = 0 ∧ params.Vy = 0) := by
  obtain ⟨b0, b1, b2, hlt⟩ := ValidateOceanParams_bits params
  rw [eq_zero_iff_bits _ hlt, b0, b1, b2, grid_test_iff _ _ hx hy]
  simp only [Bool.or_eq_false_iff, decide_eq_false_iff_not, not_le, Bool.and_eq_false_imp,
    decide_eq_true_eq, not_and]

end validate

section claimsValidate

variable {K : Type} [LinearOrderedField K]

/-- C10: `ValidateOceanParams` returns `0` if and only if `Nx` and `Ny` are powers of two
greater than `1`, `Lx > 0`, `Ly > 0` and `(Vx, Vy) ≠ (0, 0)`; with `Nx = 3` the
invalid-grid-size flag is set; and `{32, 32, 1000, 1000, 31, 0}` returns `0` whatever
the other fields. -/
theorem ValidateOceanParams_returns_zero_iff (params : OceanParams K)
    (hx : -2147483648 ≤ params.Nx ∧ params.Nx ≤ 2147483647)
    (hy : -2147483648 ≤ params.Ny ∧ params.Ny ≤ 2147483647) :
    (ValidateOceanParams params = 0 ↔
      ((∃ a : Nat, params.Nx = 2 ^ a) ∧ 1 < params.Nx) ∧
      ((∃ b : Nat, params.Ny = 2 ^ b) ∧ 1 < params.Ny) ∧
      0 < params.Lx ∧ 0 < params.Ly ∧ ¬ (params.Vx = 0 ∧ params.Vy = 0)) ∧
    (params.Nx = 3 →
      ValidateOceanParams params &&& OCEAN_PARAM_ERROR_INVALID_GRID_SIZE =
        OCEAN_PARAM_ERROR_INVALID_GRID_SIZE) ∧
    (∀ A l t : K, ∀ seed : Nat,
      ValidateOceanParams (K := K)
        { Nx := 32, Ny := 32, Lx := 1000, Ly := 1000, Vx := 31, Vy := 0,
          A := A, l := l, t := t, seed := seed } = 0) := by
  refine ⟨?_, ?_, ?_⟩
  · rw [ValidateOceanParams_zero_iff params hx hy]
    tauto
  · intro h3
    obtain ⟨b0, _, _, hlt⟩ := ValidateOceanParams_bits params
    have hb : (ValidateOceanParams params).testBit 0 = true := by
      rw [b0, h3]
      simp [toUnsigned, IsPowerOf2]
    revert hb
    generalize ValidateOceanParams params = v at hlt
    intro hb
    interval_cases v <;> first | rfl | (exact absurd hb (by decide))
  · intro A l t seed
    rw [ValidateOceanParams_zero_iff _ (by norm_num) (by norm_num)]
    refine ⟨⟨⟨⟨5, by norm_num⟩, by norm_num⟩, ⟨⟨5, by norm_num⟩, by norm_num⟩⟩,
      ⟨by norm_num, by norm_num⟩, ?_⟩
    rintro ⟨h, _⟩
    norm_num at h

theorem ValidateOceanParams_returns_zero_iff_witness :
    ValidateOceanParams (InitOceanTool_params ℚ) = 0 ∧
    ValidateOceanParams (K := ℚ)
      { Nx := 3, Ny := 32, Lx := 1000, Ly := 1000, Vx := 31, Vy := 0,
        A := 10, l := 1, t := 0, seed := 0 } &&&
        OCEAN_PARAM_ERROR_INVALID_GRID_SIZE = OCEAN_PARAM_ERROR_INVALID_GRID_SIZE :=
  ⟨(ValidateOceanParams_returns_zero_iff (InitOceanTool_params ℚ) (by decide)
      (by decide)).2.2 10 1 0 0,
    (ValidateOceanParams_returns_zero_iff (K := ℚ)
      { Nx := 3, Ny := 32, Lx := 1000, Ly := 1000, Vx := 31, Vy := 0,
        A := 10, l := 1, t := 0, seed := 0 } (by decide) (by decide)).2.1 rfl⟩

/-- C11: the result of `ValidateOceanParams` is a mask of three independent flags: bit 0
is set exactly when a grid dimension is not a power of two greater than `1`, bit 1
exactly when `Lx ≤ 0` or `Ly ≤ 0`, bit 2 exactly when `Vx = 0` and `Vy = 0`; no other
bit is ever set, and `A`, `l`, `t` and `seed` do not affect the result. -/
theorem ValidateOceanParams_flags (params : OceanParams K)
    (hx : -2147483648 ≤ params.Nx ∧ params.Nx ≤ 2147483647)
    (hy : -2147483648 ≤ params.Ny ∧ params.Ny ≤ 2147483647) :
    ((ValidateOceanParams params).testBit 0 = true ↔
      ¬ (((∃ a : Nat, params.Nx = 2 ^ a) ∧ 1 < params.Nx) ∧
        ((∃ b : Nat, params.Ny = 2 ^ b) ∧ 1 < params.Ny))) ∧
    ((ValidateOceanParams params).testBit 1 = true ↔ (params.Lx ≤ 0 ∨ params.Ly ≤ 0)) ∧
    ((ValidateOceanParams params).testBit 2 = true ↔ (params.Vx = 0 ∧ params.Vy = 0)) ∧
    (∀ j, 3 ≤ j → (ValidateOceanParams params).testBit j = false) ∧
    (∀ A l t : K, ∀ seed : Nat,
      ValidateOceanParams { params with A := A, l := l, t := t, seed := seed } =
        ValidateOceanParams params) := by
  obtain ⟨b0, b1, b2, hlt⟩ := ValidateOceanParams_bits params
  refine ⟨?_, ?_, ?_, ?_, ?_⟩
  · rw [← grid_test_iff _ _ hx hy, b0]
    simp only [Bool.not_eq_false]
  · rw [b1]
    simp
  · rw [b2]
    simp
  · intro j hj
    exact testBit_of_lt_eight _ j hlt hj
  · intro A l t seed
    rfl

theorem ValidateOceanParams_flags_witness :
    (ValidateOceanParams (K := ℚ)
      { Nx := 0, Ny := 32, Lx := -1, Ly := 1000, Vx := 0, Vy := 0,
        A := 10, l := 1, t := 0, seed := 0 }).testBit 1 = true ↔
      ((-1 : ℚ) ≤ 0 ∨ (1000 : ℚ) ≤ 0) :=
  (ValidateOceanParams_flags (K := ℚ)
    { Nx := 0, Ny := 32, Lx := -1, Ly := 1000, Vx := 0, Vy := 0,
      A := 10, l := 1, t := 0, seed := 0 } (by decide) (by decide)).2.1

end claimsValidate

section asserts

variable {K : Type} [Field K]

theorem DFT1D_scalar_checksSize (PI : K) (cexp : complex64 K → complex64 K) :
    ChecksSize (DFT1D_scalar PI cexp) := by
  intro inp out N
  unfold DFT1D_scalar
  by_cases h1 : N > 1 <;> by_cases h2 : IsPowerOf2 (toUnsigned N) = true <;> simp [h1, h2]

theorem IDFT1D_scalar_checksSize (PI : K) (cexp : complex64 K → complex64 K) :
    ChecksSize (IDFT1D_scalar PI cexp) := by
  intro inp out N
  unfold IDFT1D_scalar
  by_cases h1 : N > 1 <;> by_cases h2 : IsPowerOf2 (toUnsigned N) = true <;> simp [h1, h2]

theorem DFT1D_sse_checksSize (PI : K) (cexp : complex64 K → complex64 K) :
    ChecksSize (DFT1D_sse PI cexp) := by
  intro inp out N
  unfold DFT1D_sse
  by_cases h1 : N > 1 <;> by_cases h2 : IsPowerOf2 (toUnsigned N) = true <;> simp [h1, h2]

theorem IDFT1D_sse_checksSize (PI : K) (cexp : complex64 K → complex64 K) :
    ChecksSize (IDFT1D_sse PI cexp) := by
  intro inp out N
  unfold IDFT1D_sse
  by_cases h1 : N > 1 <;> by_cases h2 : IsPowerOf2 (toUnsigned N) = true <;> simp [h1, h2]

/-- The outcome of a size-checking 1D transform in terms of powers of two. -/
theorem ChecksSize.outcome {T : Buf K → Buf K → Int → Except Fault (Buf K)}
    (hT : ChecksSize T) (inp out : Buf K) (N : Int) (hlo : -2147483648 ≤ N)
    (hhi : N ≤ 2147483647) :
    (T inp out N = .error .assertFail ↔ (N ≤ 1 ∨ ¬ ∃ a : Nat, N = 2 ^ a)) ∧
    (((∃ a : Nat, N = 2 ^ a) ∧ 1 < N) → ∃ res, T inp out N = .ok res) := by
  have hv := valid_size_iff N hlo hhi
  obtain ⟨hbad, hgood⟩ := hT inp out N
  constructor
  · constructor
    · intro he
      by_contra hc
      push_neg at hc
      obtain ⟨res, hr⟩ := hgood (hv.2 ⟨hc.2, hc.1⟩)
      rw [hr] at he
      cases he
    · intro h
      apply hbad
      rw [hv]
      rintro ⟨ha, h1⟩
      rcases h with h | h
      · omega
      · exact h ha
  · intro h
    exact hgood (hv.2 h)

/-- A loop with a first iteration that aborts, aborts. -/
theorem forLoopE_first_error {σ : Type} (body : Nat → σ → Except Fault σ) (stop : Nat) (s : σ)
    (e : Fault) (hstop : 0 < stop) (h : body 0 s = .error e) :
    forLoopE 0 stop 1 body s = .error e := by
  unfold forLoopE
  obtain ⟨k, rfl⟩ : ∃ k, stop = k + 1 := ⟨stop - 1, by omega⟩
  rw [forLoopEFuel, if_pos hstop, h]

/-- A loop of calls of a transform at a valid size runs to its end. -/
theorem rows_ok (T : Buf K → Buf K → Int → Except Fault (Buf K)) (hT : ChecksSize T) (N : Int)
    (hN : N > 1 ∧ IsPowerOf2 (toUnsigned N) = true) (M : Nat) (src aux : Buf K) :
    ∃ aux', forLoopE 0 M 1 (fun n aux => callAt T src aux (n * N.toNat) N) aux = .ok aux' := by
  have hex : ∀ inp out, ∃ res, T inp out N = .ok res := fun inp out => (hT inp out N).2 hN
  choose R hR using hex
  refine ⟨_, forLoopE_ok _ (fun n aux => ptrStore aux (n * N.toNat)
    (R (ptrAdd src (n * N.toNat)) (ptrAdd aux (n * N.toNat)))) ?_ 0 M 1 aux⟩
  intro n a
  unfold callAt
  rw [hR]
  rfl

/-- The 2D transforms do not test their sizes: with the cell count in `[0, 2^31)`, one
size positive and one size not valid, a 1D call fails its assertion. -/
theorem transform2D_assert (T : Buf K → Buf K → Int → Except Fault (Buf K))
    (hT : ChecksSize T) (inp out : Buf K) (N1 N2 : Int)
    (hov : 0 ≤ N1 * N2 ∧ N1 * N2 ≤ 2147483647) (hpos : 0 < N1 ∨ 0 < N2)
    (hbad : ¬ ((N1 > 1 ∧ IsPowerOf2 (toUnsigned N1) = true) ∧
      (N2 > 1 ∧ IsPowerOf2 (toUnsigned N2) = true))) :
    transform2D T inp out N1 N2 = .error .assertFail := by
  unfold transform2D
  rw [if_neg (by omega), if_neg (by omega)]
  by_cases v2 : N2 > 1 ∧ IsPowerOf2 (toUnsigned N2) = true
  · have v1 : ¬ (N1 > 1 ∧ IsPowerOf2 (toUnsigned N1) = true) := fun h => hbad ⟨h, v2⟩
    obtain ⟨aux1, h1⟩ := rows_ok T hT N2 v2 N1.toNat inp (fun _ => 0)
    simp only []
    rw [h1]
    simp only [Except.bind]
    rw [forLoopE_first_error _ N2.toNat aux1 .assertFail (by omega)]
    unfold callAt
    rw [(hT _ _ N1).1 v1]
    rfl
  · by_cases h1 : 0 < N1
    · simp only []
      rw [forLoopE_first_error _ N1.toNat _ .assertFail (by omega)]
      · rfl
      · unfold callAt
        rw [(hT _ _ N2).1 v2]
        rfl
    · have h2 : 0 < N2 := by omega
      have e1 : N1.toNat = 0 := by omega
      have v1 : ¬ (N1 > 1 ∧ IsPowerOf2 (toUnsigned N1) = true) := fun h => by omega
      simp only [e1]
      have e0 : forLoopE 0 0 1 (fun n1 aux => callAt T inp aux (n1 * N2.toNat) N2)
          (fun _ => (0 : complex64 K)) = .ok (fun _ => 0) := rfl
      rw [e0]
      simp only [Except.bind]
      rw [forLoopE_first_error _ N2.toNat _ .assertFail (by omega)]
      unfold callAt
      rw [(hT _ _ N1).1 v1]
      rfl

/-- With both sizes at most `0` no 1D transform is called and the 2D call returns. -/
theorem transform2D_nonpos (T : Buf K → Buf K → Int → Except Fault (Buf K))
    (inp out : Buf K) (N1 N2 : Int) (h1 : N1 ≤ 0) (h2 : N2 ≤ 0)
    (hov : N1 * N2 ≤ 2147483647) : transform2D T inp out N1 N2 = .ok out := by
  have hnn : 0 ≤ N1 * N2 := Int.mul_nonneg_of_nonpos_of_nonpos h1 h2
  have e1 : N1.toNat = 0 := by omega
  have e2 : N2.toNat = 0 := by omega
  unfold transform2D
  rw [if_neg (by omega), if_neg (by omega)]
  simp only [e1, e2]
  rfl

end asserts

section claimsAssert

variable {K : Type} [Field K]

/-- C13: each 1D transform (`DFT1D_scalar`, `IDFT1D_scalar`, `DFT1D_sse`, `IDFT1D_sse`)
fails its assertion if and only if `N ≤ 1` or `N` is not a power of two, and for every
power of two `N > 1` it returns. -/
theorem transforms1D_assert_iff (PI : K) (cexp : complex64 K → complex64 K) (inp out : Buf K)
    (N : Int) (hlo : -2147483648 ≤ N) (hhi : N ≤ 2147483647) :
    ((DFT1D_scalar PI cexp inp out N = .error .assertFail ↔
        (N ≤ 1 ∨ ¬ ∃ a : Nat, N = 2 ^ a)) ∧
      (((∃ a : Nat, N = 2 ^ a) ∧ 1 < N) → ∃ res, DFT1D_scalar PI cexp inp out N = .ok res)) ∧
    ((IDFT1D_scalar PI cexp inp out N = .error .assertFail ↔
        (N ≤ 1 ∨ ¬ ∃ a : Nat, N = 2 ^ a)) ∧
      (((∃ a : Nat, N = 2 ^ a) ∧ 1 < N) → ∃ res, IDFT1D_scalar PI cexp inp out N = .ok res)) ∧
    ((DFT1D_sse PI cexp inp out N = .error .assertFail ↔
        (N ≤ 1 ∨ ¬ ∃ a : Nat, N = 2 ^ a)) ∧
      (((∃ a : Nat, N = 2 ^ a) ∧ 1 < N) → ∃ res, DFT1D_sse PI cexp inp out N = .ok res)) ∧
    ((IDFT1D_sse PI cexp inp out N = .error .assertFail ↔
        (N ≤ 1 ∨ ¬ ∃ a : Nat, N = 2 ^ a)) ∧
      (((∃ a : Nat, N = 2 ^ a) ∧ 1 < N) → ∃ res, IDFT1D_sse PI cexp inp out N = .ok res)) :=
  ⟨(DFT1D_scalar_checksSize PI cexp).outcome inp out N hlo hhi,
    (IDFT1D_scalar_checksSize PI cexp).outcome inp out N hlo hhi,
    (DFT1D_sse_checksSize PI cexp).outcome inp out N hlo hhi,
    (IDFT1D_sse_checksSize PI cexp).outcome inp out N hlo hhi⟩

theorem transforms1D_assert_iff_witness :
    DFT1D_scalar (3 : ℚ) (fun z => z) (fun n => ⟨n, 0⟩) (fun _ => 0) 1 = .error .assertFail ∧
    ∃ res, IDFT1D_sse (3 : ℚ) (fun z => z) (fun n => ⟨n, 0⟩) (fun _ => 0) 8 = .ok res :=
  ⟨(transforms1D_assert_iff (3 : ℚ) (fun z => z) (fun n => ⟨n, 0⟩) (fun _ => 0) 1
      (by decide) (by decide)).1.1.2 (Or.inl (by decide)),
    (transforms1D_assert_iff (3 : ℚ) (fun z => z) (fun n => ⟨n, 0⟩) (fun _ => 0) 8
      (by decide) (by decide)).2.2.2.2 ⟨⟨3, by norm_num⟩, by decide⟩⟩

/-- C14, as the code has it: the 2D transforms test no size themselves.  With the cell
count `N1*N2` in `[0, 2^31)`: when at least one of `N1`, `N2` is positive and at least one
is not a power of two greater than `1`, each 2D transform ends in the assertion failure
of a 1D call; when both are at most `0` no 1D transform is called and each 2D transform
returns normally, leaving `out` as it was. -/
theorem transforms2D_assert_of_positive (PI : K) (cexp : complex64 K → complex64 K)
    (inp out : Buf K) (N1 N2 : Int)
    (h1 : -2147483648 ≤ N1 ∧ N1 ≤ 2147483647) (h2 : -2147483648 ≤ N2 ∧ N2 ≤ 2147483647)
    (hov : N1 * N2 ≤ 2147483647) :
    ((0 < N1 ∨ 0 < N2) → 0 ≤ N1 * N2 →
      ¬ (((∃ a : Nat, N1 = 2 ^ a) ∧ 1 < N1) ∧ ((∃ b : Nat, N2 = 2 ^ b) ∧ 1 < N2)) →
      DFT2D_scalar PI cexp inp out N1 N2 = .error .assertFail ∧
      IDFT2D_scalar PI cexp inp out N1 N2 = .error .assertFail ∧
      DFT2D_sse PI cexp inp out N1 N2 = .error .assertFail ∧
      IDFT2D_sse PI cexp inp out N1 N2 = .error .assertFail) ∧
    (N1 ≤ 0 → N2 ≤ 0 →
      DFT2D_scalar PI cexp inp out N1 N2 = .ok out ∧
      IDFT2D_scalar PI cexp inp out N1 N2 = .ok out ∧
      DFT2D_sse PI cexp inp out N1 N2 = .ok out ∧
      IDFT2D_sse PI cexp inp out N1 N2 = .ok out) := by
  constructor
  · intro hpos hnn hbad
    have hb : ¬ ((N1 > 1 ∧ IsPowerOf2 (toUnsigned N1) = true) ∧
        (N2 > 1 ∧ IsPowerOf2 (toUnsigned N2) = true)) := by
      rw [valid_size_iff N1 h1.1 h1.2, valid_size_iff N2 h2.1 h2.2]
      exact hbad
    exact ⟨transform2D_assert _ (DFT1D_scalar_checksSize PI cexp) inp out N1 N2 ⟨hnn, hov⟩ hpos hb,
      transform2D_assert _ (IDFT1D_scalar_checksSize PI cexp) inp out N1 N2 ⟨hnn, hov⟩ hpos hb,
      transform2D_assert _ (DFT1D_sse_checksSize PI cexp) inp out N1 N2 ⟨hnn, hov⟩ hpos hb,
      transform2D_assert _ (IDFT1D_sse_checksSize PI cexp) inp out N1 N2 ⟨hnn, hov⟩ hpos hb⟩
  · intro hn1 hn2
    exact ⟨transform2D_nonpos _ inp out N1 N2 hn1 hn2 hov,
      transform2D_nonpos _ inp out N1 N2 hn1 hn2 hov,
      transform2D_nonpos _ inp out N1 N2 hn1 hn2 hov,
      transform2D_nonpos _ inp out N1 N2 hn1 hn2 hov⟩

theorem transforms2D_assert_of_positive_witness :
    DFT2D_scalar (3 : ℚ) (fun z => z) (fun n => ⟨n, 0⟩) (fun _ => 0) 3 4 =
      .error .assertFail :=
  ((transforms2D_assert_of_positive (3 : ℚ) (fun z => z) (fun n => ⟨n, 0⟩) (fun _ => 0) 3 4
    (by decide) (by decide) (by decide)).1 (Or.inl (by decide)) (by decide)
    (fun h => absurd h.1.1 (by
      rintro ⟨a, ha⟩
      have h2 : a < 2 := by
        by_contra hc
        have : (2 : Int) ^ 2 ≤ 2 ^ a := pow_le_pow_right₀ (by norm_num) (by omega)
        omega
      interval_cases a <;> simp at ha))).1

/-- The sizes `(0, 0)` are not powers of two greater than `1`, and `DFT2D_scalar` returns
normally on them: no assertion is reached. -/
theorem DFT2D_scalar_zero_sizes_return :
    ¬ ((∃ a : Nat, (0 : Int) = 2 ^ a) ∧ 1 < (0 : Int)) ∧
    DFT2D_scalar (3 : ℚ) (fun z => z) (fun n => ⟨n, 0⟩) (fun _ => 0) 0 0 =
      .ok (fun _ => 0) :=
  ⟨fun h => absurd h.2 (by decide), rfl⟩

end claimsAssert

section raster

theorem fold_add {σ : Type} (f : Nat → σ → σ) (a b : Nat) (s : σ) :
    Nat.fold f (a + b) s = Nat.fold (fun x => f (a + x)) b (Nat.fold f a s) := by
  induction b with
  | zero => rfl
  | succ b ih => rw [← Nat.add_assoc, fold_succ', fold_succ', ih]

/-- Two nested counted loops over `y < M` and `x < N` are one loop over the cells
`c = y * N + x` in raster order. -/
theorem nested_fold_flat {σ : Type} (g : Nat → Nat → σ → σ) (N M : Nat) (s : σ) :
    Nat.fold (fun y s => Nat.fold (fun x s => g y x s) N s) M s =
      Nat.fold (fun c s => g (c / N) (c % N) s) (M * N) s := by
  induction M with
  | zero => rw [Nat.zero_mul]; rfl
  | succ M ih =>
    rw [fold_succ', ih, Nat.succ_mul, fold_add]
    apply fold_congr
    intro x hx s
    have hN : 0 < N := by omega
    have e1 : (M * N + x) / N = M := by
      rw [Nat.mul_comm, Nat.mul_add_div hN, Nat.div_eq_of_lt hx, Nat.add_zero]
    have e2 : (M * N + x) % N = x := by
      rw [Nat.mul_comm, Nat.mul_add_mod, Nat.mod_eq_of_lt hx]
    rw [e1, e2]

/-- The same for the loops of the code. -/
theorem nested_forLoop_flat {σ : Type} (g : Nat → Nat → σ → σ) (N M : Nat) (s : σ) :
    forLoop 0 M 1 (fun y s => forLoop 0 N 1 (fun x s => g y x s) s) s =
      Nat.fold (fun c s => g (c / N) (c % N) s) (M * N) s := by
  have e1 := forLoop_eq_fold (fun y s => forLoop 0 N 1 (fun x s => g y x s) s) 1 M
    (by norm_num) s
  simp only [mul_one] at e1
  rw [e1, ← nested_fold_flat]
  apply fold_congr
  intro y _ s
  have e2 := forLoop_eq_fold (fun x s => g y x s) 1 N (by norm_num) s
  simp only [mul_one] at e2
  exact e2

/-- A loop that writes cell `c` at iteration `c` from a state that it advances: cell
`j < n` holds the value computed in the state after `j` advances. -/
theorem fill_fold_state {β G : Type} (val : Nat → G → β) (next : G → G) (n : Nat)
    (b : Nat → β) (g : G) :
    Nat.fold (fun c (st : (Nat → β) × G) => (Function.update st.1 c (val c st.2), next st.2))
        n (b, g) =
      (fun j => if j < n then val j (next^[j] g) else b j, next^[n] g) := by
  induction n with
  | zero =>
    apply Prod.ext
    · funext j; simp [Nat.fold]
    · rfl
  | succ n ih =>
    rw [fold_succ', ih]
    apply Prod.ext
    · funext j
      simp only [Function.update_apply]
      by_cases hj : j = n
      · subst hj; simp
      · by_cases hlt : j < n
        · have : j < n + 1 := by omega
          simp [hj, hlt, this]
        · have : ¬ j < n + 1 := by omega
          simp [hj, hlt, this]
    · simp only [Function.iterate_succ_apply']

/-- A loop that writes cell `c` at iteration `c`. -/
theorem fill_fold {β : Type} (val : Nat → β) (n : Nat) (b : Nat → β) :
    Nat.fold (fun c (h : Nat → β) => Function.update h c (val c)) n b =
      fun j => if j < n then val j else b j := by
  induction n with
  | zero => funext j; simp [Nat.fold]
  | succ n ih =>
    rw [fold_succ', ih]
    funext j
    simp only [Function.update_apply]
    by_cases hj : j = n
    · subst hj; simp
    · by_cases hlt : j < n
      · have : j < n + 1 := by omega
        simp [hj, hlt, this]
      · have : ¬ j < n + 1 := by omega
        simp [hj, hlt, this]

/-- The coordinates of the cell `y * N + x`. -/
theorem cell_coords (N x y : Nat) (hx : x < N) :
    (y * N + x) / N = y ∧ (y * N + x) % N = x := by
  have hN : 0 < N := by omega
  constructor
  · rw [Nat.mul_comm, Nat.mul_add_div hN, Nat.div_eq_of_lt hx, Nat.add_zero]
  · rw [Nat.mul_comm, Nat.mul_add_mod, Nat.mod_eq_of_lt hx]

end raster

section spectrumLemmas

variable {K : Type} [LinearOrderedField K]

/-- Four draws at a time. -/
theorem iterate_four_draws {G : Type} (nd : G → K × G) (g : G) (j : Nat) :
    (fun g => (nd (nd (nd (nd g).2).2).2).2)^[j] g = drawState nd g (4 * j) := by
  induction j with
  | zero => rfl
  | succ j ih =>
    rw [Function.iterate_succ_apply', ih]
    rfl

/-- The array that `GenerateOceanSpectrum` leaves: cell `j` of the `Nx * Ny` cells holds
the value of the loop body for `x = j % Nx`, `y = j / Nx` and the draws `4j, …, 4j+3`;
the rest of the array is as it was. -/
theorem GenerateOceanSpectrum_eq {G : Type} (PI : K) (sqrt exp : K → K)
    (cexp : complex64 K → complex64 K) (mt19937 : Nat → G) (nd : G → K × G)
    (spectrum : Buf K) (seed : Nat) (Nx Ny : Int) (Lx Ly Vx Vy A l t : K) :
    GenerateOceanSpectrum PI sqrt exp cexp mt19937 nd spectrum seed Nx Ny Lx Ly Vx Vy A l t =
      fun j => if j < Ny.toNat * Nx.toNat then
        spectrumCell PI sqrt exp cexp Lx Ly Vx Vy (A / (Lx * Ly)) l t
          (j % Nx.toNat) (j / Nx.toNat)
          ⟨draw nd (mt19937 seed) (4 * j), draw nd (mt19937 seed) (4 * j + 1)⟩
          ⟨draw nd (mt19937 seed) (4 * j + 2), draw nd (mt19937 seed) (4 * j + 3)⟩
      else spectrum j := by
  have e0 : GenerateOceanSpectrum PI sqrt exp cexp mt19937 nd spectrum seed Nx Ny Lx Ly Vx Vy
      A l t =
      (forLoop 0 Ny.toNat 1 (fun y (st : Buf K × G) =>
        forLoop 0 Nx.toNat 1 (fun x (st : Buf K × G) =>
          (Function.update st.1 (y * Nx.toNat + x)
            (spectrumCell PI sqrt exp cexp Lx Ly Vx Vy (A / (Lx * Ly)) l t x y
              ⟨(nd st.2).1, (nd (nd st.2).2).1⟩
              ⟨(nd (nd (nd st.2).2).2).1, (nd (nd (nd (nd st.2).2).2).2).1⟩),
            (nd (nd (nd (nd st.2).2).2).2).2)) st) (spectrum, mt19937 seed)).1 := rfl
  rw [e0, nested_forLoop_flat (fun y x (st : Buf K × G) =>
    (Function.update st.1 (y * Nx.toNat + x)
      (spectrumCell PI sqrt exp cexp Lx Ly Vx Vy (A / (Lx * Ly)) l t x y
        ⟨(nd st.2).1, (nd (nd st.2).2).1⟩
        ⟨(nd (nd (nd st.2).2).2).1, (nd (nd (nd (nd st.2).2).2).2).1⟩),
      (nd (nd (nd (nd st.2).2).2).2).2))]
  simp only [Nat.div_add_mod']
  rw [fill_fold_state (fun c g =>
      spectrumCell PI sqrt exp cexp Lx Ly Vx Vy (A / (Lx * Ly)) l t
        (c % Nx.toNat) (c / Nx.toNat)
        ⟨(nd g).1, (nd (nd g).2).1⟩
        ⟨(nd (nd (nd g).2).2).1, (nd (nd (nd (nd g).2).2).2).1⟩)
    (fun g => (nd (nd (nd (nd g).2).2).2).2)]
  funext j
  simp only [iterate_four_draws]
  rfl

/-- The cell `(x, y)` of the array that `GenerateOceanSpectrum` leaves. -/
theorem GenerateOceanSpectrum_at {G : Type} (PI : K) (sqrt exp : K → K)
    (cexp : complex64 K → complex64 K) (mt19937 : Nat → G) (nd : G → K × G)
    (spectrum : Buf K) (seed : Nat) (Nx Ny : Int) (Lx Ly Vx Vy A l t : K) (x y : Nat)
    (hx : (x : Int) < Nx) (hy : (y : Int) < Ny) :
    GenerateOceanSpectrum PI sqrt exp cexp mt19937 nd spectrum seed Nx Ny Lx Ly Vx Vy A l t
        (y * Nx.toNat + x) =
      spectrumCell PI sqrt exp cexp Lx Ly Vx Vy (A / (Lx * Ly)) l t x y
        ⟨draw nd (mt19937 seed) (4 * (y * Nx.toNat + x)),
          draw nd (mt19937 seed) (4 * (y * Nx.toNat + x) + 1)⟩
        ⟨draw nd (mt19937 seed) (4 * (y * Nx.toNat + x) + 2),
          draw nd (mt19937 seed) (4 * (y * Nx.toNat + x) + 3)⟩ := by
  have hx' : x < Nx.toNat := by omega
  have hy' : y < Ny.toNat := by omega
  have hlt : y * Nx.toNat + x < Ny.toNat * Nx.toNat := by
    have : (y + 1) * Nx.toNat ≤ Ny.toNat * Nx.toNat := Nat.mul_le_mul_right _ hy'
    rw [Nat.succ_mul] at this
    omega
  obtain ⟨e1, e2⟩ := cell_coords Nx.toNat x y hx'
  rw [GenerateOceanSpectrum_eq]
  simp only [hlt, if_true, e1, e2]

end spectrumLemmas

section claimsUpdate

variable {K : Type} [LinearOrderedField K]

/-- C12: in both generate actions of `UpdateOceanTool`, when `ValidateOceanParams` of the
pending parameters is not `0`, `GenerateOcean` is not called, `params` and
`pending_params` (its seed included) are unchanged and `ocean_param_errors` is the
returned mask; when it is `0`, `params` is `pending_params` (with the new seed in the
first action) at the time `GenerateOcean` is called. -/
theorem UpdateOceanTool_generate_guard (rd : Nat) (tool : OceanToolState K) :
    (ValidateOceanParams tool.pending_params ≠ 0 →
      ((UpdateOceanTool_generateNewSeed rd tool).generate_calls = tool.generate_calls ∧
        (UpdateOceanTool_generateNewSeed rd tool).params = tool.params ∧
        (UpdateOceanTool_generateNewSeed rd tool).pending_params = tool.pending_params ∧
        (UpdateOceanTool_generateNewSeed rd tool).ocean_param_errors =
          ValidateOceanParams tool.pending_params) ∧
      ((UpdateOceanTool_regenerate tool).generate_calls = tool.generate_calls ∧
        (UpdateOceanTool_regenerate tool).params = tool.params ∧
        (UpdateOceanTool_regenerate tool).pending_params = tool.pending_params ∧
        (UpdateOceanTool_regenerate tool).ocean_param_errors =
          ValidateOceanParams tool.pending_params) ∧
      (∀ new_seed regenerate : Bool,
        (UpdateOceanTool_generate new_seed regenerate rd tool).generate_calls =
          tool.generate_calls ∧
        (UpdateOceanTool_generate new_seed regenerate rd tool).params = tool.params)) ∧
    (ValidateOceanParams tool.pending_params = 0 →
      ((UpdateOceanTool_generateNewSeed rd tool).params =
          { tool.pending_params with seed := rd } ∧
        (UpdateOceanTool_generateNewSeed rd tool).pending_params =
          { tool.pending_params with seed := rd } ∧
        (UpdateOceanTool_generateNewSeed rd tool).generate_calls =
          tool.generate_calls ++ [{ tool.pending_params with seed := rd }] ∧
        (UpdateOceanTool_generateNewSeed rd tool).ocean_param_errors = 0) ∧
      ((UpdateOceanTool_regenerate tool).params = tool.pending_params ∧
        (UpdateOceanTool_regenerate tool).pending_params = tool.pending_params ∧
        (UpdateOceanTool_regenerate tool).generate_calls =
          tool.generate_calls ++ [tool.pending_params] ∧
        (UpdateOceanTool_regenerate tool).ocean_param_errors = 0)) := by
  constructor
  · intro h
    have e1 : UpdateOceanTool_generateNewSeed rd tool =
        { tool with ocean_param_errors := ValidateOceanParams tool.pending_params } := by
      unfold UpdateOceanTool_generateNewSeed
      simp only [h, if_false]
    have e2 : UpdateOceanTool_regenerate tool =
        { tool with ocean_param_errors := ValidateOceanParams tool.pending_params } := by
      unfold UpdateOceanTool_regenerate
      simp only [h, if_false]
    have e3 : UpdateOceanTool_regenerate
        { tool with ocean_param_errors := ValidateOceanParams tool.pending_params } =
        { tool with ocean_param_errors := ValidateOceanParams tool.pending_params } := by
      unfold UpdateOceanTool_regenerate
      simp only [h, if_false]
    refine ⟨by rw [e1]; exact ⟨rfl, rfl, rfl, rfl⟩, by rw [e2]; exact ⟨rfl, rfl, rfl, rfl⟩, ?_⟩
    intro b1 b2
    unfold UpdateOceanTool_generate
    cases b1 <;> cases b2 <;> simp [e1, e2, e3]
  · intro h
    constructor
    · unfold UpdateOceanTool_generateNewSeed
      simp only [h, if_true]
      exact ⟨rfl, rfl, rfl, rfl⟩
    · unfold UpdateOceanTool_regenerate
      simp only [h, if_true]
      exact ⟨rfl, rfl, rfl, rfl⟩

end claimsUpdate

section claimsPh

/-- C15: `Ph(kx, ky, Vx, Vy, A, l) = 0` whenever `(kx, ky) = (0, 0)` or
`(Vx, Vy) = (0, 0)`, whatever the other arguments. -/
theorem Ph_eq_zero (kx ky Vx Vy A l : ℝ) :
    Ph Real.sqrt Real.exp 0 0 Vx Vy A l = 0 ∧ Ph Real.sqrt Real.exp kx ky 0 0 A l = 0 := by
  constructor
  · unfold Ph
    simp
  · unfold Ph
    simp

/-- The squared length of a vector other than `(0, 0)` is positive. -/
theorem sq_len_pos (a b : ℝ) (h : ¬ (a = 0 ∧ b = 0)) : 0 < a * a + b * b := by
  rcases lt_or_eq_of_le (add_nonneg (mul_self_nonneg a) (mul_self_nonneg b)) with h1 | h1
  · exact h1
  · exact absurd (mul_self_add_mul_self_eq_zero.mp h1.symm) h

/-- C16: for `k ≠ (0, 0)` and `V ≠ (0, 0)`, in exact real arithmetic
`Ph = A * exp(-1/(|k|^2 L^2)) / |k|^4 * (khat·Vhat)^2 * exp(-|k|^2 l^2)` with
`L = |V|^2 / 9.81` and `khat`, `Vhat` the unit vectors of `k` and `V`. -/
theorem Ph_formula (kx ky Vx Vy A l : ℝ) (hk : ¬ (kx = 0 ∧ ky = 0))
    (hV : ¬ (Vx = 0 ∧ Vy = 0)) :
    Ph Real.sqrt Real.exp kx ky Vx Vy A l =
      A * Real.exp (-1 / (Real.sqrt (kx ^ 2 + ky ^ 2) ^ 2 *
          (Real.sqrt (Vx ^ 2 + Vy ^ 2) ^ 2 / 9.81) ^ 2)) /
        Real.sqrt (kx ^ 2 + ky ^ 2) ^ 4 *
        (kx / Real.sqrt (kx ^ 2 + ky ^ 2) * (Vx / Real.sqrt (Vx ^ 2 + Vy ^ 2)) +
          ky / Real.sqrt (kx ^ 2 + ky ^ 2) * (Vy / Real.sqrt (Vx ^ 2 + Vy ^ 2))) ^ 2 *
        Real.exp (-(Real.sqrt (kx ^ 2 + ky ^ 2) ^ 2 * l ^ 2)) := by
  have hk2 := sq_len_pos kx ky hk
  have hV2 := sq_len_pos Vx Vy hV
  have ek : kx ^ 2 + ky ^ 2 = kx * kx + ky * ky := by ring
  have eV : Vx ^ 2 + Vy ^ 2 = Vx * Vx + Vy * Vy := by ring
  have sk : Real.sqrt (kx * kx + ky * ky) ^ 2 = kx * kx + ky * ky := Real.sq_sqrt hk2.le
  have sV : Real.sqrt (Vx * Vx + Vy * Vy) ^ 2 = Vx * Vx + Vy * Vy := Real.sq_sqrt hV2.le
  have sk4 : Real.sqrt (kx * kx + ky * ky) ^ 4 =
      (kx * kx + ky * ky) * (kx * kx + ky * ky) := by
    rw [show (4 : ℕ) = 2 * 2 from rfl, pow_mul, sk]
    ring
  have nk : Real.sqrt (kx * kx + ky * ky) ≠ 0 := (Real.sqrt_pos.mpr hk2).ne'
  have nV : Real.sqrt (Vx * Vx + Vy * Vy) ≠ 0 := (Real.sqrt_pos.mpr hV2).ne'
  unfold Ph
  simp only []
  rw [if_neg nk, if_neg nV, ek, eV, sk, sV, sk4, abs_mul_abs_self]
  have e1 : -1 / ((kx * kx + ky * ky) * ((Vx * Vx + Vy * Vy) / 9.81) *
      ((Vx * Vx + Vy * Vy) / 9.81)) =
      -1 / ((kx * kx + ky * ky) * ((Vx * Vx + Vy * Vy) / 9.81) ^ 2) := by ring
  have e2 : -(kx * kx + ky * ky) * l * l = -((kx * kx + ky * ky) * l ^ 2) := by ring
  rw [e1, e2]
  ring

theorem Ph_formula_witness :
    Ph Real.sqrt Real.exp 3 4 31 0 10 1 =
      10 * Real.exp (-1 / (Real.sqrt (3 ^ 2 + 4 ^ 2) ^ 2 *
          (Real.sqrt (31 ^ 2 + 0 ^ 2) ^ 2 / 9.81) ^ 2)) /
        Real.sqrt (3 ^ 2 + 4 ^ 2) ^ 4 *
        (3 / Real.sqrt (3 ^ 2 + 4 ^ 2) * (31 / Real.sqrt (31 ^ 2 + 0 ^ 2)) +
          4 / Real.sqrt (3 ^ 2 + 4 ^ 2) * (0 / Real.sqrt (31 ^ 2 + 0 ^ 2))) ^ 2 *
        Real.exp (-(Real.sqrt (3 ^ 2 + 4 ^ 2) ^ 2 * 1 ^ 2)) :=
  Ph_formula 3 4 31 0 10 1 (fun h => absurd h.1 (by norm_num))
    (fun h => absurd h.1 (by norm_num))

end claimsPh

section claimsSpectrum

variable {K : Type} [LinearOrderedField K]

/-- C17: for every cell `0 ≤ x < Nx`, `0 ≤ y < Ny`, `GenerateOceanSpectrum` stores
`spectrum[y*Nx + x] = h0a * exp(i·w·t) + h0b * exp(-i·w·t)` with
`k = (2π·x/Lx, 2π·y/Ly)`, `w = sqrt(9.81·|k|)`,
`h0a = ONE_OVER_SQRT_2 * sqrt(Ph(k)) * xi_a`,
`h0b = conj(ONE_OVER_SQRT_2 * sqrt(Ph(-k)) * xi_b)`, `Ph` taken with the amplitude
`A / (Lx * Ly)` and `xi_a`, `xi_b` the samples drawn for the cell; at `t = 0`, with
`exp(0) = 1`, this is `h0a + h0b`. -/
theorem GenerateOceanSpectrum_cell_formula {G : Type} (PI : K) (sqrt exp : K → K)
    (cexp : complex64 K → complex64 K) (mt19937 : Nat → G) (nd : G → K × G)
    (spectrum : Buf K) (seed : Nat) (Nx Ny : Int) (Lx Ly Vx Vy A l t : K) (x y : Nat)
    (hx : (x : Int) < Nx) (hy : (y : Int) < Ny) :
    ∃ xi_a xi_b : complex64 K,
      xi_a = ⟨draw nd (mt19937 seed) (4 * (y * Nx.toNat + x)),
        draw nd (mt19937 seed) (4 * (y * Nx.toNat + x) + 1)⟩ ∧
      xi_b = ⟨draw nd (mt19937 seed) (4 * (y * Nx.toNat + x) + 2),
        draw nd (mt19937 seed) (4 * (y * Nx.toNat + x) + 3)⟩ ∧
      ∀ kx ky w : K, ∀ h0a h0b : complex64 K,
        kx = 2 * PI * (x : K) / Lx → ky = 2 * PI * (y : K) / Ly →
        w = sqrt (9.81 * sqrt (kx * kx + ky * ky)) →
        h0a = scale (ONE_OVER_SQRT_2 * sqrt (Ph sqrt exp kx ky Vx Vy (A / (Lx * Ly)) l)) xi_a →
        h0b = conj (scale
          (ONE_OVER_SQRT_2 * sqrt (Ph sqrt exp (-kx) (-ky) Vx Vy (A / (Lx * Ly)) l)) xi_b) →
        GenerateOceanSpectrum PI sqrt exp cexp mt19937 nd spectrum seed Nx Ny Lx Ly Vx Vy A l t
            (y * Nx.toNat + x) =
          h0a * cexp ⟨0, w * t⟩ + h0b * cexp ⟨0, -(w * t)⟩ ∧
        (t = 0 → cexp ⟨0, 0⟩ = 1 →
          GenerateOceanSpectrum PI sqrt exp cexp mt19937 nd spectrum seed Nx Ny Lx Ly Vx Vy A l t
            (y * Nx.toNat + x) = h0a + h0b) := by
  refine ⟨_, _, rfl, rfl, ?_⟩
  intro kx ky w h0a h0b ekx eky ew ea eb
  have key : GenerateOceanSpectrum PI sqrt exp cexp mt19937 nd spectrum seed Nx Ny Lx Ly Vx Vy
      A l t (y * Nx.toNat + x) = h0a * cexp ⟨0, w * t⟩ + h0b * cexp ⟨0, -(w * t)⟩ := by
    rw [GenerateOceanSpectrum_at PI sqrt exp cexp mt19937 nd spectrum seed Nx Ny Lx Ly Vx Vy
      A l t x y hx hy, ea, eb, ew, ekx, eky]
    unfold spectrumCell
    simp only [neg_mul]
  refine ⟨key, ?_⟩
  intro ht h1
  rw [key, ht]
  simp only [mul_zero, neg_zero]
  rw [h1]
  apply complex64.ext <;> simp

theorem GenerateOceanSpectrum_cell_formula_witness :
    ∃ xi_a xi_b : complex64 ℚ,
      xi_a = ⟨13, 14⟩ ∧ xi_b = ⟨15, 16⟩ ∧
      ∀ kx ky w : ℚ, ∀ h0a h0b : complex64 ℚ,
        kx = 2 * 3 * ((1 : Nat) : ℚ) / 1000 → ky = 2 * 3 * ((1 : Nat) : ℚ) / 1000 →
        w = (fun x => x) (9.81 * (fun x => x) (kx * kx + ky * ky)) →
        h0a = scale (ONE_OVER_SQRT_2 *
          (fun x => x) (Ph (fun x => x) (fun _ => 1) kx ky 31 0 (10 / (1000 * 1000)) 1)) xi_a →
        h0b = conj (scale (ONE_OVER_SQRT_2 *
          (fun x => x) (Ph (fun x => x) (fun _ => 1) (-kx) (-ky) 31 0 (10 / (1000 * 1000)) 1))
            xi_b) →
        GenerateOceanSpectrum (3 : ℚ) (fun x => x) (fun _ => 1) (fun _ => 1) (fun s => s + 1)
            (fun g => ((g : ℚ), g + 1)) (fun _ => 0) 0 2 2 1000 1000 31 0 10 1 0
            (1 * (2 : Int).toNat + 1) =
          h0a * (fun _ => 1) (⟨0, w * 0⟩ : complex64 ℚ) +
            h0b * (fun _ => 1) (⟨0, -(w * 0)⟩ : complex64 ℚ) ∧
        ((0 : ℚ) = 0 → (fun _ => 1) (⟨0, 0⟩ : complex64 ℚ) = (1 : complex64 ℚ) →
          GenerateOceanSpectrum (3 : ℚ) (fun x => x) (fun _ => 1) (fun _ => 1) (fun s => s + 1)
            (fun g => ((g : ℚ), g + 1)) (fun _ => 0) 0 2 2 1000 1000 31 0 10 1 0
            (1 * (2 : Int).toNat + 1) = h0a + h0b) :=
  GenerateOceanSpectrum_cell_formula (3 : ℚ) (fun x => x) (fun _ => 1) (fun _ => 1)
    (fun s => s + 1) (fun g => ((g : ℚ), g + 1)) (fun _ => 0) 0 2 2 1000 1000 31 0 10 1 0 1 1
    (by decide) (by decide)

/-- C18: the draws are consumed in raster order, four per cell: with `d_i` the `i`-th
sample of the generator seeded with `seed`, the cell `c = y*Nx + x` is computed from
`xi_a = (d_{4c}, d_{4c+1})` and `xi_b = (d_{4c+2}, d_{4c+3})`, whatever `Lx`, `Ly`, `V`,
`A`, `l` and `t`, and from no other draw: a generator with the same four samples at
these places gives the same cell. -/
theorem GenerateOceanSpectrum_draw_order {G : Type} (PI : K) (sqrt exp : K → K)
    (cexp : complex64 K → complex64 K) (mt19937 : Nat → G) (nd : G → K × G)
    (spectrum : Buf K) (seed : Nat) (Nx Ny : Int) (Lx Ly Vx Vy A l t : K) (x y : Nat)
    (hx : (x : Int) < Nx) (hy : (y : Int) < Ny) :
    GenerateOceanSpectrum PI sqrt exp cexp mt19937 nd spectrum seed Nx Ny Lx Ly Vx Vy A l t
        (y * Nx.toNat + x) =
      spectrumCell PI sqrt exp cexp Lx Ly Vx Vy (A / (Lx * Ly)) l t x y
        ⟨draw nd (mt19937 seed) (4 * (y * Nx.toNat + x)),
          draw nd (mt19937 seed) (4 * (y * Nx.toNat + x) + 1)⟩
        ⟨draw nd (mt19937 seed) (4 * (y * Nx.toNat + x) + 2),
          draw nd (mt19937 seed) (4 * (y * Nx.toNat + x) + 3)⟩ ∧
    ∀ (G' : Type) (mt19937' : Nat → G') (nd' : G' → K × G'),
      (∀ i, i < 4 → draw nd' (mt19937' seed) (4 * (y * Nx.toNat + x) + i) =
        draw nd (mt19937 seed) (4 * (y * Nx.toNat + x) + i)) →
      GenerateOceanSpectrum PI sqrt exp cexp mt19937' nd' spectrum seed Nx Ny Lx Ly Vx Vy A l t
          (y * Nx.toNat + x) =
        GenerateOceanSpectrum PI sqrt exp cexp mt19937 nd spectrum seed Nx Ny Lx Ly Vx Vy A l t
          (y * Nx.toNat + x) := by
  refine ⟨GenerateOceanSpectrum_at PI sqrt exp cexp mt19937 nd spectrum seed Nx Ny Lx Ly Vx Vy
    A l t x y hx hy, ?_⟩
  intro G' mt' nd' h
  rw [GenerateOceanSpectrum_at PI sqrt exp cexp mt19937 nd spectrum seed Nx Ny Lx Ly Vx Vy
      A l t x y hx hy,
    GenerateOceanSpectrum_at PI sqrt exp cexp mt' nd' spectrum seed Nx Ny Lx Ly Vx Vy
      A l t x y hx hy]
  have h0 := h 0 (by norm_num)
  have h1 := h 1 (by norm_num)
  have h2 := h 2 (by norm_num)
  have h3 := h 3 (by norm_num)
  rw [Nat.add_zero] at h0
  rw [h0, h1, h2, h3]

theorem GenerateOceanSpectrum_draw_order_witness :
    GenerateOceanSpectrum (3 : ℚ) (fun x => x) (fun _ => 1) (fun _ => 1) (fun s => s + 1)
        (fun g => ((g : ℚ), g + 1)) (fun _ => 0) 0 2 2 1000 1000 31 0 10 1 0
        (1 * (2 : Int).toNat + 1) =
      spectrumCell (3 : ℚ) (fun x => x) (fun _ => 1) (fun _ => 1) 1000 1000 31 0
        (10 / (1000 * 1000)) 1 0 1 1 ⟨13, 14⟩ ⟨15, 16⟩ :=
  (GenerateOceanSpectrum_draw_order (3 : ℚ) (fun x => x) (fun _ => 1) (fun _ => 1)
    (fun s => s + 1) (fun g => ((g : ℚ), g + 1)) (fun _ => 0) 0 2 2 1000 1000 31 0 10 1 0 1 1
    (by decide) (by decide)).1

/-- C19: `GenerateOceanSpectrum` is deterministic: the generator is built from `seed`
inside the call, and every cell of the `Nx * Ny` cells of the array is a function of the
arguments alone, whatever the array held before the call. -/
theorem GenerateOceanSpectrum_deterministic {G : Type} (PI : K) (sqrt exp : K → K)
    (cexp : complex64 K → complex64 K) (mt19937 : Nat → G) (nd : G → K × G)
    (spectrum1 spectrum2 : Buf K) (seed : Nat) (Nx Ny : Int) (Lx Ly Vx Vy A l t : K) (c : Nat)
    (hc : c < Ny.toNat * Nx.toNat) :
    GenerateOceanSpectrum PI sqrt exp cexp mt19937 nd spectrum1 seed Nx Ny Lx Ly Vx Vy A l t c =
      GenerateOceanSpectrum PI sqrt exp cexp mt19937 nd spectrum2 seed Nx Ny Lx Ly Vx Vy A l t
        c := by
  rw [GenerateOceanSpectrum_eq, GenerateOceanSpectrum_eq]
  simp only [hc, if_true]

theorem GenerateOceanSpectrum_deterministic_witness :
    GenerateOceanSpectrum (3 : ℚ) (fun x => x) (fun _ => 1) (fun _ => 1) (fun s => s + 1)
        (fun g => ((g : ℚ), g + 1)) (fun _ => 0) 0 2 2 1000 1000 31 0 10 1 0 3 =
      GenerateOceanSpectrum (3 : ℚ) (fun x => x) (fun _ => 1) (fun _ => 1) (fun s => s + 1)
        (fun g => ((g : ℚ), g + 1)) (fun n => ⟨n, 7⟩) 0 2 2 1000 1000 31 0 10 1 0 3 :=
  GenerateOceanSpectrum_deterministic (3 : ℚ) (fun x => x) (fun _ => 1) (fun _ => 1)
    (fun s => s + 1) (fun g => ((g : ℚ), g + 1)) (fun _ => 0) (fun n => ⟨n, 7⟩) 0 2 2 1000 1000
    31 0 10 1 0 3 (by decide)

end claimsSpectrum

section heights

/-- A 2D transform on valid sizes, the cell count an `int`, returns. -/
theorem transform2D_ok {K : Type} [Field K] (T : Buf K → Buf K → Int → Except Fault (Buf K))
    (hT : ChecksSize T) (inp out : Buf K) (N1 N2 : Int)
    (h1 : N1 > 1 ∧ IsPowerOf2 (toUnsigned N1) = true)
    (h2 : N2 > 1 ∧ IsPowerOf2 (toUnsigned N2) = true) (hov : N1 * N2 ≤ 2147483647) :
    ∃ res, transform2D T inp out N1 N2 = .ok res := by
  have hpos : 0 < N1 * N2 := Int.mul_pos (by omega) (by omega)
  obtain ⟨aux1, e1⟩ := rows_ok T hT N2 h2 N1.toNat inp (fun _ => 0)
  obtain ⟨aux2, e2⟩ := rows_ok T hT N1 h1 N2.toNat (Transpose aux1 out N1.toNat N2.toNat) aux1
  refine ⟨Transpose aux2 (Transpose aux1 out N1.toNat N2.toNat) N2.toNat N1.toNat, ?_⟩
  unfold transform2D
  rw [if_neg (by omega), if_neg (by omega)]
  simp only []
  rw [e1]
  simp only [Except.bind]
  rw [e2]

/-- The loops of `GenerateOcean` that fill `height_map_data`. -/
theorem height_loops_eq {K : Type} (v : Nat → K) (N M : Nat) (h0 : Nat → K) :
    forLoop 0 M 1 (fun y h =>
        forLoop 0 N 1 (fun x h => Function.update h (y * N + x) (v (y * N + x))) h) h0 =
      fun j => if j < M * N then v j else h0 j := by
  rw [nested_forLoop_flat (fun y x (h : Nat → K) =>
    Function.update h (y * N + x) (v (y * N + x)))]
  simp only [Nat.div_add_mod']
  exact fill_fold v (M * N) h0

/-- The magnitude `std::abs` of a `complex64` over the reals is the modulus in `ℂ`. -/
theorem cabs_eq_abs (z : complex64 ℝ) : cabs Real.sqrt z = Complex.abs (toComplex z) := by
  unfold cabs
  rw [Complex.abs_apply, Complex.normSq_apply]
  rfl

/-- The parameters of `InitOceanTool` are valid. -/
theorem ValidateOceanParams_init (K : Type) [LinearOrderedField K] :
    ValidateOceanParams (InitOceanTool_params K) = 0 := by
  have hN : (InitOceanTool_params K).Nx = 32 ∧ (InitOceanTool_params K).Ny = 32 := ⟨rfl, rfl⟩
  rw [ValidateOceanParams_zero_iff _ (by rw [hN.1]; decide) (by rw [hN.2]; decide)]
  refine ⟨⟨⟨⟨5, by rw [hN.1]; rfl⟩, by rw [hN.1]; decide⟩,
    ⟨⟨5, by rw [hN.2]; rfl⟩, by rw [hN.2]; decide⟩⟩, ⟨?_, ?_⟩, ?_⟩
  · norm_num [InitOceanTool_params]
  · norm_num [InitOceanTool_params]
  · rintro ⟨h, _⟩
    norm_num [InitOceanTool_params] at h

end heights

section twiddle

variable {K : Type} [Field K]

theorem forLoop_unit_eq_fold {σ : Type} (body : Nat → σ → σ) (c : Nat) (s : σ) :
    forLoop 0 c 1 body s = Nat.fold body c s := by
  have h := forLoop_eq_fold body 1 c (by norm_num) s
  simp only [mul_one] at h
  exact h

/-- A unit-stride loop run up to `j` and then from `j` on. -/
theorem forLoop_split {σ : Type} (body : Nat → σ → σ) (j n : Nat) (hj : j ≤ n) (s : σ) :
    forLoop 0 n 1 body s = forLoop j n 1 body (forLoop 0 j 1 body s) := by
  obtain ⟨c, rfl⟩ : ∃ c, n = j + c := ⟨n - j, by omega⟩
  rw [forLoop_unit_eq_fold, forLoop_unit_eq_fold, forLoop_eq_fold_from, fold_add]

/-- A general stage is the loop over the blocks `k` of the loop over `j`, entered in every
block with `W = 1`. -/
theorem scalarStage_eq_inner (Wm : complex64 K) (m : Nat) (out : Buf K) (N : Nat) :
    scalarStage Wm m out N =
      forLoop 0 N m (fun k out =>
        (forLoop 0 (m / 2) 1 (scalarInnerBody Wm m k) (out, 1)).1) out := rfl

theorem scalarInnerState_succ (Wm : complex64 K) (m k : Nat) (out : Buf K) (j : Nat) :
    scalarInnerState Wm m k out (j + 1) =
      scalarInnerBody Wm m k j (scalarInnerState Wm m k out j) := by
  unfold scalarInnerState
  rw [forLoop_unit_eq_fold, forLoop_unit_eq_fold, fold_succ']

/-- The recurrence `W *= Wm` from `W = 1` gives `W = Wm ^ j` at the start of the
iteration `j`. -/
theorem scalarInnerState_W (Wm : complex64 K) (m k : Nat) (out : Buf K) (j : Nat) :
    (scalarInnerState Wm m k out j).2 = Wm ^ j := by
  induction j with
  | zero => rfl
  | succ j ih =>
    rw [scalarInnerState_succ, pow_succ, ← ih]
    rfl

/-- The butterfly of the iteration `j`. -/
theorem scalarInnerBody_butterfly (Wm : complex64 K) (m k j : Nat) (hm : 0 < m / 2)
    (st : Buf K × complex64 K) :
    (scalarInnerBody Wm m k j st).1 (k + j) = st.1 (k + j) + st.2 * st.1 (k + j + m / 2) ∧
    (scalarInnerBody Wm m k j st).1 (k + j + m / 2) =
      st.1 (k + j) - st.2 * st.1 (k + j + m / 2) := by
  have hne : k + j ≠ k + j + m / 2 := by omega
  unfold scalarInnerBody
  constructor
  · simp only [Function.update_apply, hne, if_false, if_true]
    rw [mul_comm]
  · simp only [Function.update_apply, if_true]
    rw [mul_comm]

theorem shl_half_pos (s : Nat) (hs : 1 ≤ s) : 0 < (1 <<< s) / 2 := by
  rw [shl_one]
  obtain ⟨q, rfl⟩ : ∃ q, s = q + 1 := ⟨s - 1, by omega⟩
  rw [pow_succ, Nat.mul_div_cancel _ (by norm_num)]
  positivity

theorem toComplex_fwdWm_pow (cexp : complex64 ℝ → complex64 ℝ) (hexp : IsCexp cexp)
    (s j : Nat) :
    toComplex (fwdWm Real.pi cexp s ^ j) =
      Complex.exp (-(Complex.I * 2 * Real.pi * j / (2 : ℂ) ^ s)) := by
  rw [map_pow, toComplex_fwdWm cexp hexp, ← Complex.exp_nat_mul]
  congr 1
  ring

theorem toComplex_invWm_pow (cexp : complex64 ℝ → complex64 ℝ) (hexp : IsCexp cexp)
    (s j : Nat) :
    toComplex (invWm Real.pi cexp s ^ j) =
      Complex.exp (Complex.I * 2 * Real.pi * j / (2 : ℂ) ^ s) := by
  rw [map_pow, toComplex_invWm cexp hexp, ← Complex.exp_nat_mul]
  congr 1
  ring

/-- The invariant of the loop over `j` in a stage with twiddle `Wm`. -/
theorem inner_invariant (Wm : complex64 K) (m k j : Nat) (hm : 0 < m / 2) (hj : j < m / 2)
    (out : Buf K) :
    (forLoop 0 (m / 2) 1 (scalarInnerBody Wm m k) (out, 1) =
      forLoop j (m / 2) 1 (scalarInnerBody Wm m k) (scalarInnerState Wm m k out j)) ∧
    (scalarInnerState Wm m k out j).2 = Wm ^ j ∧
    (scalarInnerState Wm m k out (j + 1)).1 (k + j) =
      (scalarInnerState Wm m k out j).1 (k + j) +
        Wm ^ j * (scalarInnerState Wm m k out j).1 (k + j + m / 2) ∧
    (scalarInnerState Wm m k out (j + 1)).1 (k + j + m / 2) =
      (scalarInnerState Wm m k out j).1 (k + j) -
        Wm ^ j * (scalarInnerState Wm m k out j).1 (k + j + m / 2) := by
  have hb := scalarInnerBody_butterfly Wm m k j hm (scalarInnerState Wm m k out j)
  rw [scalarInnerState_W] at hb
  refine ⟨forLoop_split _ j (m / 2) (by omega) _, scalarInnerState_W Wm m k out j, ?_, ?_⟩
  · rw [scalarInnerState_succ]; exact hb.1
  · rw [scalarInnerState_succ]; exact hb.2

end twiddle

section claimsTwiddle

/-- C29: the twiddle recurrence of the general stages (`s ≥ 3`, `m = 2^s`) of
`DFT1D_scalar` and `IDFT1D_scalar`: `W` is `1` on entry to each block `k`; at the start of
the iteration `j < m/2`, `W = Wm^j = exp(∓i·2π·j/m)` (minus in the forward, plus in the
inverse transform); and the iteration leaves `out[k+j] = x0 + W*x1` and
`out[k+j+m/2] = x0 - W*x1`. -/
theorem scalarStage_twiddle_recurrence (cexp : complex64 ℝ → complex64 ℝ) (hexp : IsCexp cexp)
    (s k j : Nat) (hs : 3 ≤ s) (hj : j < (1 <<< s) / 2) (out : Buf ℝ) :
    (∀ N, scalarStage (fwdWm Real.pi cexp s) (1 <<< s) out N =
      forLoop 0 N (1 <<< s) (fun k out =>
        (forLoop 0 ((1 <<< s) / 2) 1 (scalarInnerBody (fwdWm Real.pi cexp s) (1 <<< s) k)
          (out, 1)).1) out) ∧
    (forLoop 0 ((1 <<< s) / 2) 1 (scalarInnerBody (fwdWm Real.pi cexp s) (1 <<< s) k) (out, 1) =
      forLoop j ((1 <<< s) / 2) 1 (scalarInnerBody (fwdWm Real.pi cexp s) (1 <<< s) k)
        (scalarInnerState (fwdWm Real.pi cexp s) (1 <<< s) k out j)) ∧
    (scalarInnerState (fwdWm Real.pi cexp s) (1 <<< s) k out j).2 = fwdWm Real.pi cexp s ^ j ∧
    toComplex (scalarInnerState (fwdWm Real.pi cexp s) (1 <<< s) k out j).2 =
      Complex.exp (-(Complex.I * 2 * Real.pi * j / (2 : ℂ) ^ s)) ∧
    (scalarInnerState (fwdWm Real.pi cexp s) (1 <<< s) k out (j + 1)).1 (k + j) =
      (scalarInnerState (fwdWm Real.pi cexp s) (1 <<< s) k out j).1 (k + j) +
        (scalarInnerState (fwdWm Real.pi cexp s) (1 <<< s) k out j).2 *
          (scalarInnerState (fwdWm Real.pi cexp s) (1 <<< s) k out j).1
            (k + j + (1 <<< s) / 2) ∧
    (scalarInnerState (fwdWm Real.pi cexp s) (1 <<< s) k out (j + 1)).1
        (k + j + (1 <<< s) / 2) =
      (scalarInnerState (fwdWm Real.pi cexp s) (1 <<< s) k out j).1 (k + j) -
        (scalarInnerState (fwdWm Real.pi cexp s) (1 <<< s) k out j).2 *
          (scalarInnerState (fwdWm Real.pi cexp s) (1 <<< s) k out j).1
            (k + j + (1 <<< s) / 2) ∧
    (∀ N, scalarStage (invWm Real.pi cexp s) (1 <<< s) out N =
      forLoop 0 N (1 <<< s) (fun k out =>
        (forLoop 0 ((1 <<< s) / 2) 1 (scalarInnerBody (invWm Real.pi cexp s) (1 <<< s) k)
          (out, 1)).1) out) ∧
    (forLoop 0 ((1 <<< s) / 2) 1 (scalarInnerBody (invWm Real.pi cexp s) (1 <<< s) k) (out, 1) =
      forLoop j ((1 <<< s) / 2) 1 (scalarInnerBody (invWm Real.pi cexp s) (1 <<< s) k)
        (scalarInnerState (invWm Real.pi cexp s) (1 <<< s) k out j)) ∧
    (scalarInnerState (invWm Real.pi cexp s) (1 <<< s) k out j).2 = invWm Real.pi cexp s ^ j ∧
    toComplex (scalarInnerState (invWm Real.pi cexp s) (1 <<< s) k out j).2 =
      Complex.exp (Complex.I * 2 * Real.pi * j / (2 : ℂ) ^ s) ∧
    (scalarInnerState (invWm Real.pi cexp s) (1 <<< s) k out (j + 1)).1 (k + j) =
      (scalarInnerState (invWm Real.pi cexp s) (1 <<< s) k out j).1 (k + j) +
        (scalarInnerState (invWm Real.pi cexp s) (1 <<< s) k out j).2 *
          (scalarInnerState (invWm Real.pi cexp s) (1 <<< s) k out j).1
            (k + j + (1 <<< s) / 2) ∧
    (scalarInnerState (invWm Real.pi cexp s) (1 <<< s) k out (j + 1)).1
        (k + j + (1 <<< s) / 2) =
      (scalarInnerState (invWm Real.pi cexp s) (1 <<< s) k out j).1 (k + j) -
        (scalarInnerState (invWm Real.pi cexp s) (1 <<< s) k out j).2 *
          (scalarInnerState (invWm Real.pi cexp s) (1 <<< s) k out j).1
            (k + j + (1 <<< s) / 2) := by
  have hm := shl_half_pos s (by omega)
  obtain ⟨f1, f2, f3, f4⟩ := inner_invariant (fwdWm Real.pi cexp s) (1 <<< s) k j hm hj out
  obtain ⟨i1, i2, i3, i4⟩ := inner_invariant (invWm Real.pi cexp s) (1 <<< s) k j hm hj out
  refine ⟨fun N => scalarStage_eq_inner _ _ _ N, f1, f2, ?_, ?_, ?_,
    fun N => scalarStage_eq_inner _ _ _ N, i1, i2, ?_, ?_, ?_⟩
  · rw [f2]; exact toComplex_fwdWm_pow cexp hexp s j
  · rw [f2]; exact f3
  · rw [f2]; exact f4
  · rw [i2]; exact toComplex_invWm_pow cexp hexp s j
  · rw [i2]; exact i3
  · rw [i2]; exact i4

theorem scalarStage_twiddle_recurrence_witness :
    toComplex (scalarInnerState
      (fwdWm Real.pi
        (fun z => ⟨Real.exp z.re * Real.cos z.im, Real.exp z.re * Real.sin z.im⟩) 3)
      (1 <<< 3) 8 (fun n => ⟨n, 1⟩) 2).2 =
      Complex.exp (-(Complex.I * 2 * Real.pi * (2 : Nat) / (2 : ℂ) ^ 3)) :=
  (scalarStage_twiddle_recurrence
    (fun z => ⟨Real.exp z.re * Real.cos z.im, Real.exp z.re * Real.sin z.im⟩)
    (fun θ => by simp) 3 8 2 (by decide) (by decide) (fun n => ⟨n, 1⟩)).2.2.2.1

end claimsTwiddle

section unrolled

variable {K : Type} [Field K]

/-- The `m = 2` block is the general stage of size `2`, whatever its twiddle `Wm` (only
`Wm^0 = 1` is used). -/
theorem scalarStage2_eq_scalarStage (Wm : complex64 K) (c : Nat) (out : Buf K) :
    scalarStage2 out (c * 2) = scalarStage Wm 2 out (c * 2) :=
  IsButterfly.unique Wm 1 c (by norm_num) out _ _ (scalarStage2_butterfly Wm c out)
    (scalarStage_butterfly Wm 1 c (by norm_num) out)

/-- The `m = 4` block of `DFT1D_scalar` is the general stage of size `4` with `Wm = -i`. -/
theorem DFT1D_scalar_stage4_eq_scalarStage (c : Nat) (out : Buf K) :
    DFT1D_scalar_stage4 out (c * 4) = scalarStage ⟨0, -1⟩ 4 out (c * 4) :=
  IsButterfly.unique ⟨0, -1⟩ 2 c (by norm_num) out _ _ (DFT1D_scalar_stage4_butterfly c out)
    (scalarStage_butterfly ⟨0, -1⟩ 2 c (by norm_num) out)

/-- The `m = 4` block of `IDFT1D_scalar` is the general stage of size `4` with `Wm = +i`. -/
theorem IDFT1D_scalar_stage4_eq_scalarStage (c : Nat) (out : Buf K) :
    IDFT1D_scalar_stage4 out (c * 4) = scalarStage ⟨0, 1⟩ 4 out (c * 4) :=
  IsButterfly.unique ⟨0, 1⟩ 2 c (by norm_num) out _ _ (IDFT1D_scalar_stage4_butterfly c out)
    (scalarStage_butterfly ⟨0, 1⟩ 2 c (by norm_num) out)

theorem fwdWm_one (cexp : complex64 ℝ → complex64 ℝ) (hexp : IsCexp cexp) :
    fwdWm Real.pi cexp 1 = -1 := by
  apply toComplex_injective
  rw [toComplex_fwdWm cexp hexp, exp_neg_pi_I, map_neg, map_one]

theorem invWm_one (cexp : complex64 ℝ → complex64 ℝ) (hexp : IsCexp cexp) :
    invWm Real.pi cexp 1 = -1 := by
  apply toComplex_injective
  rw [toComplex_invWm cexp hexp, exp_pos_pi_I, map_neg, map_one]

theorem toComplex_negI : toComplex ⟨0, -1⟩ = -Complex.I := by
  apply Complex.ext <;> simp [toComplex_re, toComplex_im]

theorem toComplex_posI : toComplex ⟨0, 1⟩ = Complex.I := by
  apply Complex.ext <;> simp [toComplex_re, toComplex_im]

theorem fwdWm_two (cexp : complex64 ℝ → complex64 ℝ) (hexp : IsCexp cexp) :
    fwdWm Real.pi cexp 2 = ⟨0, -1⟩ := by
  apply toComplex_injective
  rw [toComplex_fwdWm cexp hexp, exp_neg_half_pi_I, toComplex_negI]

theorem invWm_two (cexp : complex64 ℝ → complex64 ℝ) (hexp : IsCexp cexp) :
    invWm Real.pi cexp 2 = ⟨0, 1⟩ := by
  apply toComplex_injective
  rw [toComplex_invWm cexp hexp, exp_pos_half_pi_I, toComplex_posI]

end unrolled

section claimsUnrolled

/-- C30: the two unrolled stages are the general stage run for `s = 1` and `s = 2`: the
`m = 2` block and the `m = 4` block of `DFT1D_scalar` (of `IDFT1D_scalar`) leave the array
that the general stage loop leaves with `m = 2^s` and `Wm = exp(∓i·2π/m)`, which is `-1`
for `s = 1` and `-i` (`+i`) for `s = 2`, so the twiddles are `1` and `-i` (`+i`), and
`x3 * W` is `(x3.imag, -x3.real)` in the forward and `(-x3.imag, x3.real)` in the inverse
transform. -/
theorem unrolled_stages_eq_general (cexp : complex64 ℝ → complex64 ℝ) (hexp : IsCexp cexp)
    (c : Nat) (out : Buf ℝ) (x3 : complex64 ℝ) :
    scalarStage2 out (c * 2) = scalarStage (fwdWm Real.pi cexp 1) (1 <<< 1) out (c * 2) ∧
    DFT1D_scalar_stage4 out (c * 4) =
      scalarStage (fwdWm Real.pi cexp 2) (1 <<< 2) out (c * 4) ∧
    scalarStage2 out (c * 2) = scalarStage (invWm Real.pi cexp 1) (1 <<< 1) out (c * 2) ∧
    IDFT1D_scalar_stage4 out (c * 4) =
      scalarStage (invWm Real.pi cexp 2) (1 <<< 2) out (c * 4) ∧
    fwdWm Real.pi cexp 1 ^ 0 = 1 ∧ invWm Real.pi cexp 1 ^ 0 = 1 ∧
    fwdWm Real.pi cexp 2 ^ 0 = 1 ∧ fwdWm Real.pi cexp 2 ^ 1 = ⟨0, -1⟩ ∧
    invWm Real.pi cexp 2 ^ 0 = 1 ∧ invWm Real.pi cexp 2 ^ 1 = ⟨0, 1⟩ ∧
    x3 * fwdWm Real.pi cexp 2 = ⟨x3.im, -x3.re⟩ ∧
    x3 * invWm Real.pi cexp 2 = ⟨-x3.im, x3.re⟩ := by
  refine ⟨scalarStage2_eq_scalarStage _ c out, ?_, scalarStage2_eq_scalarStage _ c out, ?_,
    pow_zero _, pow_zero _, pow_zero _, ?_, pow_zero _, ?_, ?_, ?_⟩
  · rw [fwdWm_two cexp hexp]; exact DFT1D_scalar_stage4_eq_scalarStage c out
  · rw [invWm_two cexp hexp]; exact IDFT1D_scalar_stage4_eq_scalarStage c out
  · rw [pow_one, fwdWm_two cexp hexp]
  · rw [pow_one, invWm_two cexp hexp]
  · rw [fwdWm_two cexp hexp, ← mul_negI]
  · rw [invWm_two cexp hexp, ← mul_posI]

theorem unrolled_stages_eq_general_witness :
    DFT1D_scalar_stage4 (fun n => (⟨n, 1⟩ : complex64 ℝ)) (2 * 4) =
      scalarStage (fwdWm Real.pi
        (fun z => ⟨Real.exp z.re * Real.cos z.im, Real.exp z.re * Real.sin z.im⟩) 2)
        (1 <<< 2) (fun n => ⟨n, 1⟩) (2 * 4) :=
  (unrolled_stages_eq_general
    (fun z => ⟨Real.exp z.re * Real.cos z.im, Real.exp z.re * Real.sin z.im⟩)
    (fun θ => by simp) 2 (fun n => ⟨n, 1⟩) 0).2.1

end claimsUnrolled

section normalLemmas

variable {K : Type} [LinearOrderedField K]

@[simp] theorem Vector3.add_x (a b : Vector3 K) : (Vector3.add id a b).x = a.x + b.x := rfl
@[simp] theorem Vector3.add_y (a b : Vector3 K) : (Vector3.add id a b).y = a.y + b.y := rfl
@[simp] theorem Vector3.add_z (a b : Vector3 K) : (Vector3.add id a b).z = a.z + b.z := rfl
@[simp] theorem Vector3.smul_x (s : K) (v : Vector3 K) :
    (Vector3.mul_left id s v).x = s * v.x := rfl
@[simp] theorem Vector3.smul_y (s : K) (v : Vector3 K) :
    (Vector3.mul_left id s v).y = s * v.y := rfl
@[simp] theorem Vector3.smul_z (s : K) (v : Vector3 K) :
    (Vector3.mul_left id s v).z = s * v.z := rfl
@[simp] theorem Vector3.mul_x (v : Vector3 K) (s : K) :
    (Vector3.mul_right id v s).x = v.x * s := rfl
@[simp] theorem Vector3.mul_y (v : Vector3 K) (s : K) :
    (Vector3.mul_right id v s).y = v.y * s := rfl
@[simp] theorem Vector3.mul_z (v : Vector3 K) (s : K) :
    (Vector3.mul_right id v s).z = v.z * s := rfl

/-- The cross product of the tangent and the bitangent of a cell. -/
theorem cross_tangents {K : Type} [LinearOrderedField K] (gx gy : K) :
    Math.Cross id (⟨1, 0, gx⟩ : Vector3 K) ⟨0, 1, gy⟩ = ⟨-gx, -gy, 1⟩ := by
  unfold Math.Cross
  ext <;> simp

/-- The length of the cross product is `sqrt(gx^2 + gy^2 + 1)`, at least `1`. -/
theorem length_cross (gx gy : ℝ) :
    Math.Length id Real.sqrt (⟨-gx, -gy, 1⟩ : Vector3 ℝ) = Real.sqrt (gx ^ 2 + gy ^ 2 + 1) ∧
    1 ≤ Real.sqrt (gx ^ 2 + gy ^ 2 + 1) := by
  constructor
  · unfold Math.Length
    simp only [id_eq]
    congr 1
    ring
  · rw [Real.one_le_sqrt]
    nlinarith [sq_nonneg gx, sq_nonneg gy]

/-- `Math::Normalize` on the cross product takes its second branch. -/
theorem normalize_cross (gx gy : ℝ) :
    Math.Normalize id Real.sqrt (⟨-gx, -gy, 1⟩ : Vector3 ℝ) =
      ⟨-gx / Real.sqrt (gx ^ 2 + gy ^ 2 + 1), -gy / Real.sqrt (gx ^ 2 + gy ^ 2 + 1),
        1 / Real.sqrt (gx ^ 2 + gy ^ 2 + 1)⟩ := by
  obtain ⟨h1, h2⟩ := length_cross gx gy
  unfold Math.Normalize
  simp only [id_eq]
  rw [h1, if_neg (by norm_num; linarith)]
  ext
  · simp only [Vector3.smul_x]; ring
  · simp only [Vector3.smul_y]; ring
  · simp only [Vector3.smul_z]; ring

/-- The vector stored for a cell. -/
theorem GenerateOcean_normal_eq (gx gy : ℝ) :
    GenerateOcean_normal id Real.sqrt gx gy =
      ⟨(-gx / Real.sqrt (gx ^ 2 + gy ^ 2 + 1) + 1) * 0.5,
        (-gy / Real.sqrt (gx ^ 2 + gy ^ 2 + 1) + 1) * 0.5,
        (1 / Real.sqrt (gx ^ 2 + gy ^ 2 + 1) + 1) * 0.5⟩ := by
  unfold GenerateOcean_normal
  simp only []
  rw [cross_tangents, normalize_cross]
  rfl

/-- The cells of `normal_map_data` after the loops of `GenerateOcean`. -/
theorem GenerateOcean_normal_map_at {K : Type} [LinearOrderedField K] (fl sqrt : K → K)
    (Nx Ny : Int) (grad_x grad_y : Nat → K) (x y : Nat) (hx : (x : Int) < Nx)
    (hy : (y : Int) < Ny) :
    GenerateOcean_normal_map fl sqrt Nx Ny grad_x grad_y (y * Nx.toNat + x) =
      GenerateOcean_normal fl sqrt (grad_x (y * Nx.toNat + x)) (grad_y (y * Nx.toNat + x)) := by
  have hx' : x < Nx.toNat := by omega
  have hy' : y < Ny.toNat := by omega
  have hlt : y * Nx.toNat + x < Ny.toNat * Nx.toNat := by
    have : (y + 1) * Nx.toNat ≤ Ny.toNat * Nx.toNat := Nat.mul_le_mul_right _ hy'
    rw [Nat.succ_mul] at this
    omega
  unfold GenerateOcean_normal_map
  rw [height_loops_eq (fun j => GenerateOcean_normal fl sqrt (grad_x j) (grad_y j))]
  simp only [hlt, if_true]

/-- A component of the unit normal is between `-1` and `1`. -/
theorem component_bounds (g s : ℝ) (hs : 1 ≤ s) (hg : |g| ≤ s) :
    0 ≤ (-g / s + 1) * 0.5 ∧ (-g / s + 1) * 0.5 ≤ 1 := by
  have hpos : 0 < s := by linarith
  have h1 : -g / s ≤ 1 := by rw [div_le_one hpos]; linarith [neg_abs_le g]
  have h2 : -1 ≤ -g / s := by rw [le_div_iff₀ hpos]; linarith [le_abs_self g]
  constructor <;> norm_num <;> linarith

theorem abs_le_len (a b : ℝ) : |a| ≤ Real.sqrt (a ^ 2 + b ^ 2 + 1) := by
  apply Real.abs_le_sqrt
  nlinarith [sq_nonneg b]

theorem abs_le_len_right (a b : ℝ) : |b| ≤ Real.sqrt (a ^ 2 + b ^ 2 + 1) := by
  apply Real.abs_le_sqrt
  nlinarith [sq_nonneg a]

/-- The three components of the stored vector are in range. -/
theorem normal_components (gx gy : ℝ) :
    (0 ≤ (GenerateOcean_normal id Real.sqrt gx gy).x ∧
      (GenerateOcean_normal id Real.sqrt gx gy).x ≤ 1) ∧
    (0 ≤ (GenerateOcean_normal id Real.sqrt gx gy).y ∧
      (GenerateOcean_normal id Real.sqrt gx gy).y ≤ 1) ∧
    (1 / 2 < (GenerateOcean_normal id Real.sqrt gx gy).z ∧
      (GenerateOcean_normal id Real.sqrt gx gy).z ≤ 1) := by
  obtain ⟨-, h2⟩ := length_cross gx gy
  have hs : 0 < Real.sqrt (gx ^ 2 + gy ^ 2 + 1) := by linarith
  rw [GenerateOcean_normal_eq]
  refine ⟨component_bounds gx _ h2 (abs_le_len gx gy),
    component_bounds gy _ h2 (abs_le_len_right gx gy), ?_, ?_⟩
  · show 1 / 2 < (1 / Real.sqrt (gx ^ 2 + gy ^ 2 + 1) + 1) * 0.5
    have : 0 < 1 / Real.sqrt (gx ^ 2 + gy ^ 2 + 1) := by positivity
    rw [show (0.5 : ℝ) = 1 / 2 by norm_num]
    linarith
  · show (1 / Real.sqrt (gx ^ 2 + gy ^ 2 + 1) + 1) * 0.5 ≤ 1
    have : 1 / Real.sqrt (gx ^ 2 + gy ^ 2 + 1) ≤ 1 := by
      rw [div_le_one hs]; exact h2
    rw [show (0.5 : ℝ) = 1 / 2 by norm_num]
    linarith

/-- A loop that writes the three floats of cell `c` at iteration `c`. -/
theorem fill3_fold {β : Type} (a b d : β) (n : Nat) (h0 : Nat → β) :
    Nat.fold (fun c (h : Nat → β) =>
        Function.update (Function.update (Function.update h (c * 3 + 0) a) (c * 3 + 1) b)
          (c * 3 + 2) d) n h0 =
      fun j => if j < n * 3 then (if j % 3 = 0 then a else if j % 3 = 1 then b else d)
        else h0 j := by
  induction n with
  | zero => funext j; simp [Nat.fold]
  | succ n ih =>
    rw [fold_succ', ih]
    funext j
    simp only [Function.update_apply, Nat.add_zero]
    by_cases h2 : j = n * 3 + 2
    · subst h2
      have e1 : (n * 3 + 2) % 3 = 2 := by omega
      have e2 : n * 3 + 2 < (n + 1) * 3 := by omega
      simp [e1, e2]
    · by_cases h1 : j = n * 3 + 1
      · subst h1
        have e1 : (n * 3 + 1) % 3 = 1 := by omega
        have e2 : n * 3 + 1 < (n + 1) * 3 := by omega
        simp [e1, e2]
      · by_cases h0 : j = n * 3
        · subst h0
          have e1 : (n * 3) % 3 = 0 := by omega
          have e2 : n * 3 < (n + 1) * 3 := by omega
          simp [e1, e2]
        · by_cases hlt : j < n * 3
          · have : j < (n + 1) * 3 := by omega
            simp [h2, h1, h0, hlt, this]
          · have : ¬ j < (n + 1) * 3 := by omega
            simp [h2, h1, h0, hlt, this]

/-- The three floats that `ResizeTextures` leaves in a cell of `normal_map_data`. -/
theorem ResizeTextures_normal_map_data_at {K : Type} [LinearOrderedField K] (Nx Ny : Int)
    (x y : Nat) (hx : (x : Int) < Nx) (hy : (y : Int) < Ny) :
    (ResizeTextures_normal_map_data Nx Ny ((y * Nx.toNat + x) * 3 + 0) : K) = 0.5 ∧
    (ResizeTextures_normal_map_data Nx Ny ((y * Nx.toNat + x) * 3 + 1) : K) = 0.5 ∧
    (ResizeTextures_normal_map_data Nx Ny ((y * Nx.toNat + x) * 3 + 2) : K) = 1.0 := by
  have hx' : x < Nx.toNat := by omega
  have hy' : y < Ny.toNat := by omega
  have hlt : y * Nx.toNat + x < Ny.toNat * Nx.toNat := by
    have : (y + 1) * Nx.toNat ≤ Ny.toNat * Nx.toNat := Nat.mul_le_mul_right _ hy'
    rw [Nat.succ_mul] at this
    omega
  unfold ResizeTextures_normal_map_data
  rw [nested_forLoop_flat (fun y x (h : Nat → K) =>
    Function.update (Function.update (Function.update h ((y * Nx.toNat + x) * 3 + 0) 0.5)
      ((y * Nx.toNat + x) * 3 + 1) 0.5) ((y * Nx.toNat + x) * 3 + 2) 1.0)]
  simp only [Nat.div_add_mod']
  rw [fill3_fold]
  have a0 : ((y * Nx.toNat + x) * 3 + 0) % 3 = 0 := by omega
  have a1 : ((y * Nx.toNat + x) * 3 + 1) % 3 = 1 := by omega
  have a2 : ((y * Nx.toNat + x) * 3 + 2) % 3 = 2 := by omega
  have b0 : (y * Nx.toNat + x) * 3 + 0 < Ny.toNat * Nx.toNat * 3 := by omega
  have b1 : (y * Nx.toNat + x) * 3 + 1 < Ny.toNat * Nx.toNat * 3 := by omega
  have b2 : (y * Nx.toNat + x) * 3 + 2 < Ny.toNat * Nx.toNat * 3 := by omega
  simp only [a0, a1, a2, b0, b1, b2, if_true]
  simp

end normalLemmas

section claimsNormal

/-- C24, in exact arithmetic (every `float` operation gives the exact real result: the
rounding `fl` is the identity and `sqrt` the real square root): for every pair of real
gradients `(gx, gy)` the normal of a cell is
`normalize(cross((1,0,gx),(0,1,gy))) = (-gx, -gy, 1)/sqrt(gx^2 + gy^2 + 1)`: the cross
product has length at least `1`, so `Math::Normalize` does not take its near-zero branch,
the normal has length `1`, and the value stored is `(normal + (1,1,1)) * 0.5`. -/
theorem GenerateOcean_normal_unit (gx gy : ℝ) :
    Math.Cross id (⟨1, 0, gx⟩ : Vector3 ℝ) ⟨0, 1, gy⟩ = ⟨-gx, -gy, 1⟩ ∧
    1 ≤ Math.Length id Real.sqrt (Math.Cross id (⟨1, 0, gx⟩ : Vector3 ℝ) ⟨0, 1, gy⟩) ∧
    ¬ (Math.Length id Real.sqrt (Math.Cross id (⟨1, 0, gx⟩ : Vector3 ℝ) ⟨0, 1, gy⟩) < 1e-7) ∧
    Math.Normalize id Real.sqrt (Math.Cross id (⟨1, 0, gx⟩ : Vector3 ℝ) ⟨0, 1, gy⟩) =
      ⟨-gx / Real.sqrt (gx ^ 2 + gy ^ 2 + 1), -gy / Real.sqrt (gx ^ 2 + gy ^ 2 + 1),
        1 / Real.sqrt (gx ^ 2 + gy ^ 2 + 1)⟩ ∧
    Math.Length id Real.sqrt
      (Math.Normalize id Real.sqrt (Math.Cross id (⟨1, 0, gx⟩ : Vector3 ℝ) ⟨0, 1, gy⟩)) = 1 ∧
    GenerateOcean_normal id Real.sqrt gx gy =
      Vector3.mul_right id (Vector3.add id
        (Math.Normalize id Real.sqrt (Math.Cross id (⟨1, 0, gx⟩ : Vector3 ℝ) ⟨0, 1, gy⟩))
        (⟨1, 1, 1⟩ : Vector3 ℝ)) (0.5 : ℝ) ∧
    GenerateOcean_normal id Real.sqrt gx gy =
      ⟨(-gx / Real.sqrt (gx ^ 2 + gy ^ 2 + 1) + 1) / 2,
        (-gy / Real.sqrt (gx ^ 2 + gy ^ 2 + 1) + 1) / 2,
        (1 / Real.sqrt (gx ^ 2 + gy ^ 2 + 1) + 1) / 2⟩ ∧
    ∀ (Nx Ny : Int) (grad_x grad_y : Nat → ℝ) (x y : Nat), (x : Int) < Nx → (y : Int) < Ny →
      grad_x (y * Nx.toNat + x) = gx → grad_y (y * Nx.toNat + x) = gy →
      GenerateOcean_normal_map id Real.sqrt Nx Ny grad_x grad_y (y * Nx.toNat + x) =
        GenerateOcean_normal id Real.sqrt gx gy := by
  obtain ⟨h1, h2⟩ := length_cross gx gy
  have hs : 0 < Real.sqrt (gx ^ 2 + gy ^ 2 + 1) := by linarith
  have hsq : Real.sqrt (gx ^ 2 + gy ^ 2 + 1) ^ 2 = gx ^ 2 + gy ^ 2 + 1 :=
    Real.sq_sqrt (by nlinarith [sq_nonneg gx, sq_nonneg gy])
  refine ⟨cross_tangents gx gy, ?_, ?_, ?_, ?_, rfl, ?_, ?_⟩
  · rw [cross_tangents, h1]; exact h2
  · rw [cross_tangents, h1]; norm_num; linarith
  · rw [cross_tangents, normalize_cross]
  · rw [cross_tangents, normalize_cross]
    unfold Math.Length
    simp only [id_eq]
    have e : -gx / Real.sqrt (gx ^ 2 + gy ^ 2 + 1) * (-gx / Real.sqrt (gx ^ 2 + gy ^ 2 + 1)) +
        -gy / Real.sqrt (gx ^ 2 + gy ^ 2 + 1) * (-gy / Real.sqrt (gx ^ 2 + gy ^ 2 + 1)) +
        1 / Real.sqrt (gx ^ 2 + gy ^ 2 + 1) * (1 / Real.sqrt (gx ^ 2 + gy ^ 2 + 1)) = 1 := by
      have hne : Real.sqrt (gx ^ 2 + gy ^ 2 + 1) ≠ 0 := ne_of_gt hs
      rw [div_mul_div_comm, div_mul_div_comm, div_mul_div_comm, ← add_div, ← add_div,
        ← pow_two (Real.sqrt (gx ^ 2 + gy ^ 2 + 1)), hsq, div_eq_one_iff_eq (by
          nlinarith [sq_nonneg gx, sq_nonneg gy])]
      ring
    rw [e, Real.sqrt_one]
  · rw [GenerateOcean_normal_eq]
    ext <;> norm_num <;> ring
  · intro Nx Ny grad_x grad_y x y hx hy e1 e2
    rw [GenerateOcean_normal_map_at id Real.sqrt Nx Ny grad_x grad_y x y hx hy, e1, e2]

/-- C25, in exact arithmetic (every `float` operation gives the exact real result: the
rounding `fl` is the identity and `sqrt` the real square root): every component of every
stored normal-map vector lies in `[0, 1]` and the third component in `(1/2, 1]`, whatever
the real gradients; a cell with zero gradient stores `(0.5, 0.5, 1)`, which is what
`ResizeTextures` writes in the three floats of every cell. -/
theorem GenerateOcean_normal_range (gx gy : ℝ) :
    (0 ≤ (GenerateOcean_normal id Real.sqrt gx gy).x ∧
      (GenerateOcean_normal id Real.sqrt gx gy).x ≤ 1) ∧
    (0 ≤ (GenerateOcean_normal id Real.sqrt gx gy).y ∧
      (GenerateOcean_normal id Real.sqrt gx gy).y ≤ 1) ∧
    (1 / 2 < (GenerateOcean_normal id Real.sqrt gx gy).z ∧
      (GenerateOcean_normal id Real.sqrt gx gy).z ≤ 1) ∧
    GenerateOcean_normal id Real.sqrt 0 0 = (⟨0.5, 0.5, 1⟩ : Vector3 ℝ) ∧
    (∀ (Nx Ny : Int) (grad_x grad_y : Nat → ℝ) (x y : Nat), (x : Int) < Nx → (y : Int) < Ny →
      (0 ≤ (GenerateOcean_normal_map id Real.sqrt Nx Ny grad_x grad_y (y * Nx.toNat + x)).x ∧
        (GenerateOcean_normal_map id Real.sqrt Nx Ny grad_x grad_y (y * Nx.toNat + x)).x ≤ 1) ∧
      (0 ≤ (GenerateOcean_normal_map id Real.sqrt Nx Ny grad_x grad_y (y * Nx.toNat + x)).y ∧
        (GenerateOcean_normal_map id Real.sqrt Nx Ny grad_x grad_y (y * Nx.toNat + x)).y ≤ 1) ∧
      (1 / 2 < (GenerateOcean_normal_map id Real.sqrt Nx Ny grad_x grad_y (y * Nx.toNat + x)).z ∧
        (GenerateOcean_normal_map id Real.sqrt Nx Ny grad_x grad_y (y * Nx.toNat + x)).z ≤ 1)) ∧
    (∀ (Nx Ny : Int) (x y : Nat), (x : Int) < Nx → (y : Int) < Ny →
      (ResizeTextures_normal_map_data Nx Ny ((y * Nx.toNat + x) * 3 + 0) : ℝ) =
        (GenerateOcean_normal id Real.sqrt 0 0).x ∧
      (ResizeTextures_normal_map_data Nx Ny ((y * Nx.toNat + x) * 3 + 1) : ℝ) =
        (GenerateOcean_normal id Real.sqrt 0 0).y ∧
      (ResizeTextures_normal_map_data Nx Ny ((y * Nx.toNat + x) * 3 + 2) : ℝ) =
        (GenerateOcean_normal id Real.sqrt 0 0).z) := by
  have hzero : GenerateOcean_normal id Real.sqrt 0 0 = (⟨0.5, 0.5, 1⟩ : Vector3 ℝ) := by
    rw [GenerateOcean_normal_eq]
    have : Real.sqrt (0 ^ 2 + 0 ^ 2 + 1) = 1 := by norm_num
    rw [this]
    ext <;> norm_num
  refine ⟨(normal_components gx gy).1, (normal_components gx gy).2.1,
    (normal_components gx gy).2.2, hzero, ?_, ?_⟩
  · intro Nx Ny grad_x grad_y x y hx hy
    rw [GenerateOcean_normal_map_at id Real.sqrt Nx Ny grad_x grad_y x y hx hy]
    exact normal_components _ _
  · intro Nx Ny x y hx hy
    obtain ⟨h0, h1, h2⟩ := ResizeTextures_normal_map_data_at (K := ℝ) Nx Ny x y hx hy
    rw [h0, h1, h2, hzero]
    exact ⟨rfl, rfl, by norm_num⟩

end claimsNormal

section exportLemmas

/-- A loop that appends the bytes `g c` at iteration `c`. -/
theorem append_fold {β : Type} (g : Nat → List β) (n : Nat) (fp : List β) :
    Nat.fold (fun c (fp : List β) => fp ++ g c) n fp = fp ++ (List.range n).flatMap g := by
  induction n with
  | zero => simp [Nat.fold]
  | succ n ih =>
    rw [fold_succ', ih, List.range_succ, List.flatMap_append, List.append_assoc]
    simp

/-- Two nested loops that append the bytes of the cell `y * N + x`. -/
theorem append_loops {β : Type} (g : Nat → List β) (N M : Nat) (fp : List β) :
    forLoop 0 M 1 (fun y fp => forLoop 0 N 1 (fun x fp => fp ++ g (y * N + x)) fp) fp =
      fp ++ (List.range (M * N)).flatMap g := by
  rw [nested_forLoop_flat (fun y x (fp : List β) => fp ++ g (y * N + x))]
  simp only [Nat.div_add_mod']
  exact append_fold g (M * N) fp

theorem flatMap_one {β : Type} (a : Nat → β) (n : Nat) :
    (List.range n).flatMap (fun c => [a c]) = (List.range n).map a := by
  induction n with
  | zero => rfl
  | succ n ih => rw [List.range_succ, List.flatMap_append, List.map_append, ih]; rfl

theorem flatMap_three_length {β : Type} (a b d : Nat → β) (n : Nat) :
    ((List.range n).flatMap (fun c => [a c, b c, d c])).length = 3 * n := by
  induction n with
  | zero => rfl
  | succ n ih =>
    rw [List.range_succ, List.flatMap_append, List.length_append, ih]
    simp
    omega

/-- The three bytes of the cell `c` in a list of three bytes a cell. -/
theorem flatMap_three_get {β : Type} (a b d : Nat → β) (n c : Nat) (hc : c < n) :
    ((List.range n).flatMap (fun c => [a c, b c, d c]))[3 * c]? = some (a c) ∧
    ((List.range n).flatMap (fun c => [a c, b c, d c]))[3 * c + 1]? = some (b c) ∧
    ((List.range n).flatMap (fun c => [a c, b c, d c]))[3 * c + 2]? = some (d c) := by
  induction n with
  | zero => omega
  | succ n ih =>
    rw [List.range_succ, List.flatMap_append]
    by_cases h : c < n
    · obtain ⟨h0, h1, h2⟩ := ih h
      have hl := flatMap_three_length a b d n
      refine ⟨?_, ?_, ?_⟩
      · rw [List.getElem?_append_left (by omega)]; exact h0
      · rw [List.getElem?_append_left (by omega)]; exact h1
      · rw [List.getElem?_append_left (by omega)]; exact h2
    · have e : c = n := by omega
      subst e
      have hl := flatMap_three_length a b d c
      refine ⟨?_, ?_, ?_⟩
      · rw [List.getElem?_append_right (by omega), hl]; simp
      · rw [List.getElem?_append_right (by omega), hl]
        have : 3 * c + 1 - 3 * c = 1 := by omega
        rw [this]; simp
      · rw [List.getElem?_append_right (by omega), hl]
        have : 3 * c + 2 - 3 * c = 2 := by omega
        rw [this]; simp

/-- The eighteen bytes of the header. -/
theorem writeHeader_eq (image_type pixel_depth : Nat) (width height : Int) :
    writeHeader [] image_type pixel_depth width height =
      [0, 0, image_type % 256, 0, 0, 0, 0, 0, 0, 0, 0, 0,
        (width % 65536).toNat % 256, (width % 65536).toNat / 256,
        (height % 65536).toNat % 256, (height % 65536).toNat / 256, pixel_depth % 256, 0] := by
  simp [writeHeader, fwrite8, fwrite16]

/-- A `GLubyte` is below `256`. -/
theorem toGLubyte_lt {K : Type} [LinearOrderedField K] [FloorRing K] (v : K) :
    toGLubyte v < 256 := by
  unfold toGLubyte
  have := Int.emod_lt_of_pos (if 0 ≤ v then ⌊v⌋ else ⌈v⌉) (by norm_num : (0 : Int) < 256)
  have := Int.emod_nonneg (if 0 ≤ v then ⌊v⌋ else ⌈v⌉) (by norm_num : (256 : Int) ≠ 0)
  omega

/-- The file that `SaveHeightMap` writes: the header, then one byte a cell in raster
order. -/
theorem SaveHeightMap_eq {K : Type} [LinearOrderedField K] [FloorRing K] (fl : K → K)
    (min_value max_value : K) (width height : Int) (pixels : Nat → K) :
    SaveHeightMap fl min_value max_value width height pixels =
      writeHeader [] 3 8 width height ++
        (List.range (height.toNat * width.toNat)).map
          (fun c => SaveHeightMap_byte fl min_value max_value (pixels c)) := by
  unfold SaveHeightMap
  simp only [fwrite8]
  rw [append_loops (fun c => [SaveHeightMap_byte fl min_value max_value (pixels c) % 256]),
    flatMap_one]
  congr 1
  apply List.map_congr_left
  intro c _
  apply Nat.mod_eq_of_lt
  unfold SaveHeightMap_byte
  exact toGLubyte_lt _

/-- The file that `SaveNormalMap` writes: the header, then three bytes a cell in raster
order. -/
theorem SaveNormalMap_eq (width height : Int) (pixels : Nat → Nat) :
    SaveNormalMap width height pixels =
      writeHeader [] 2 24 width height ++
        (List.range (height.toNat * width.toNat)).flatMap
          (fun c => [pixels (c * 4 + 2) % 256, pixels (c * 4 + 1) % 256,
            pixels (c * 4 + 0) % 256]) := by
  unfold SaveNormalMap
  simp only [fwrite8, List.append_assoc, List.singleton_append, List.cons_append,
    List.nil_append]
  rw [append_loops (fun c => [pixels (c * 4 + 2) % 256, pixels (c * 4 + 1) % 256,
    pixels (c * 4 + 0) % 256])]

theorem writeHeader_length (image_type pixel_depth : Nat) (width height : Int) :
    (writeHeader [] image_type pixel_depth width height).length = 18 := by
  rw [writeHeader_eq]; rfl

end exportLemmas

section claimsExport

/-- C26: both export routines write the eighteen header bytes `0, 0, image_type,
0,0,0,0,0, 0,0, 0,0`, the width in two bytes, the height in two bytes, `pixel_depth`, `0`,
with `image_type = 3`, `pixel_depth = 8` in `SaveHeightMap` and `image_type = 2`,
`pixel_depth = 24` in `SaveNormalMap`; the pixels follow row by row, in increasing `y`
and increasing `x` within a row: the file is the header followed by the bytes of the
cells `c = y * width + x` in increasing `c`, `width * height` bytes for the height map
and `3 * width * height` bytes for the normal map; this holds whatever the rounding `fl`
of the `float` operations that give a byte of the height map. -/
theorem export_header_and_order {K : Type} [LinearOrderedField K] [FloorRing K]
    (fl : K → K) (min_value max_value : K) (width height : Int) (heights : Nat → K)
    (rgba : Nat → Nat) :
    (SaveHeightMap fl min_value max_value width height heights).take 18 =
      [0, 0, 3, 0, 0, 0, 0, 0, 0, 0, 0, 0,
        (width % 65536).toNat % 256, (width % 65536).toNat / 256,
        (height % 65536).toNat % 256, (height % 65536).toNat / 256, 8, 0] ∧
    (SaveNormalMap width height rgba).take 18 =
      [0, 0, 2, 0, 0, 0, 0, 0, 0, 0, 0, 0,
        (width % 65536).toNat % 256, (width % 65536).toNat / 256,
        (height % 65536).toNat % 256, (height % 65536).toNat / 256, 24, 0] ∧
    (SaveHeightMap fl min_value max_value width height heights).drop 18 =
      (List.range (height.toNat * width.toNat)).map
        (fun c => SaveHeightMap_byte fl min_value max_value (heights c)) ∧
    (SaveNormalMap width height rgba).drop 18 =
      (List.range (height.toNat * width.toNat)).flatMap
        (fun c => [rgba (c * 4 + 2) % 256, rgba (c * 4 + 1) % 256, rgba (c * 4 + 0) % 256]) ∧
    (SaveHeightMap fl min_value max_value width height heights).length =
      18 + width.toNat * height.toNat ∧
    (SaveNormalMap width height rgba).length = 18 + 3 * width.toNat * height.toNat ∧
    (∀ x y : Nat, (x : Int) < width → (y : Int) < height →
      (SaveHeightMap fl min_value max_value width height heights)[18 + (y * width.toNat + x)]? =
        some (SaveHeightMap_byte fl min_value max_value (heights (y * width.toNat + x)))) ∧
    (∀ x y : Nat, (x : Int) < width → (y : Int) < height →
      ((SaveNormalMap width height rgba).drop (18 + 3 * (y * width.toNat + x))).take 3 =
        [rgba ((y * width.toNat + x) * 4 + 2) % 256, rgba ((y * width.toNat + x) * 4 + 1) % 256,
          rgba ((y * width.toNat + x) * 4 + 0) % 256]) := by
  have hh := writeHeader_length 3 8 width height
  have hn := writeHeader_length 2 24 width height
  have cell : ∀ x y : Nat, (x : Int) < width → (y : Int) < height →
      y * width.toNat + x < height.toNat * width.toNat := by
    intro x y hx hy
    have hx' : x < width.toNat := by omega
    have hy' : y < height.toNat := by omega
    have : (y + 1) * width.toNat ≤ height.toNat * width.toNat := Nat.mul_le_mul_right _ hy'
    rw [Nat.succ_mul] at this
    omega
  refine ⟨?_, ?_, ?_, ?_, ?_, ?_, ?_, ?_⟩
  · rw [SaveHeightMap_eq, List.take_left' hh, writeHeader_eq]
  · rw [SaveNormalMap_eq, List.take_left' hn, writeHeader_eq]
  · rw [SaveHeightMap_eq, List.drop_left' hh]
  · rw [SaveNormalMap_eq, List.drop_left' hn]
  · rw [SaveHeightMap_eq, List.length_append, hh, List.length_map, List.length_range,
      Nat.mul_comm]
  · rw [SaveNormalMap_eq, List.length_append, hn, flatMap_three_length, Nat.mul_assoc,
      Nat.mul_comm width.toNat]
  · intro x y hx hy
    rw [SaveHeightMap_eq, List.getElem?_append_right (by omega), hh, Nat.add_sub_cancel_left,
      List.getElem?_map, List.getElem?_range (cell x y hx hy)]
    rfl
  · intro x y hx hy
    obtain ⟨g0, g1, g2⟩ := flatMap_three_get (fun c => rgba (c * 4 + 2) % 256)
      (fun c => rgba (c * 4 + 1) % 256) (fun c => rgba (c * 4 + 0) % 256) _ _ (cell x y hx hy)
    rw [SaveNormalMap_eq]
    apply List.ext_getElem?
    intro i
    rw [List.getElem?_take]
    by_cases hi : i < 3
    · rw [if_pos hi, List.getElem?_drop, List.getElem?_append_right (by omega), hn]
      have e : 18 + 3 * (y * width.toNat + x) + i - 18 = 3 * (y * width.toNat + x) + i := by
        omega
      rw [e]
      interval_cases i
      · simpa using g0
      · simpa using g1
      · simpa using g2
    · rw [if_neg hi]
      symm
      rw [List.getElem?_eq_none_iff]
      simp
      omega

end claimsExport

section roundingOrder

variable {K : Type} [LinearOrderedField K]

/-- Exact arithmetic is a rounding. -/
theorem isRounding_id : IsRounding (id : K → K) :=
  ⟨fun _ _ h => h, rfl, rfl, rfl⟩

/-- The range that `SaveHeightMap` divides by is positive. -/
theorem height_range_pos (fl : K → K) (hfl : IsRounding fl) (min_value max_value : K)
    (h : min_value ≤ max_value) :
    0 < (if fl (max_value - min_value) = 0 then 1 else fl (max_value - min_value)) := by
  obtain ⟨mono, f0, -, -⟩ := hfl
  have h0 : 0 ≤ fl (max_value - min_value) :=
    le_of_eq_of_le f0.symm (mono _ _ (by linarith))
  by_cases hz : fl (max_value - min_value) = 0
  · rw [if_pos hz]
    exact one_pos
  · rw [if_neg hz]
    exact lt_of_le_of_ne h0 (Ne.symm hz)

/-- The scaled height of a pixel between the bounds, as the `float` code computes it, is
in `[0, 255]`. -/
theorem scaled_range (fl : K → K) (hfl : IsRounding fl) (min_value max_value p : K)
    (h1 : min_value ≤ p) (h2 : p ≤ max_value) :
    0 ≤ fl (fl (fl (p - min_value) /
      (if fl (max_value - min_value) = 0 then 1 else fl (max_value - min_value))) * 255) ∧
    fl (fl (fl (p - min_value) /
      (if fl (max_value - min_value) = 0 then 1 else fl (max_value - min_value))) * 255)
      ≤ 255 := by
  have hr := height_range_pos fl hfl min_value max_value (le_trans h1 h2)
  obtain ⟨mono, f0, f1, f255⟩ := hfl
  have a0 : 0 ≤ fl (p - min_value) :=
    le_of_eq_of_le f0.symm (mono _ _ (by linarith))
  have a1 : fl (p - min_value) ≤ fl (max_value - min_value) := mono _ _ (by linarith)
  have q0 : 0 ≤ fl (p - min_value) /
      (if fl (max_value - min_value) = 0 then 1 else fl (max_value - min_value)) :=
    div_nonneg a0 hr.le
  have q1 : fl (p - min_value) /
      (if fl (max_value - min_value) = 0 then 1 else fl (max_value - min_value)) ≤ 1 := by
    rw [div_le_one hr]
    by_cases hz : fl (max_value - min_value) = 0
    · rw [if_pos hz]
      linarith
    · rw [if_neg hz]
      exact a1
  have r0 : 0 ≤ fl (fl (p - min_value) /
      (if fl (max_value - min_value) = 0 then 1 else fl (max_value - min_value))) :=
    le_of_eq_of_le f0.symm (mono _ _ q0)
  have r1 : fl (fl (p - min_value) /
      (if fl (max_value - min_value) = 0 then 1 else fl (max_value - min_value))) ≤ 1 :=
    le_of_le_of_eq (mono _ _ q1) f1
  constructor
  · exact le_of_eq_of_le f0.symm (mono _ _ (by linarith))
  · exact le_of_le_of_eq (mono _ _ (by linarith)) f255

end roundingOrder

section byteLemmas

variable {K : Type} [LinearOrderedField K] [FloorRing K]

/-- The conversion to `GLubyte` of a value in `[0, 255]` is its integer part. -/
theorem toGLubyte_of_range (v : K) (h0 : 0 ≤ v) (h1 : v ≤ 255) :
    toGLubyte v = ⌊v⌋.toNat ∧ ⌊v⌋.toNat ≤ 255 := by
  have f0 : 0 ≤ ⌊v⌋ := Int.floor_nonneg.mpr h0
  have f1 : ⌊v⌋ ≤ 255 := by
    have := Int.floor_le_floor h1
    rwa [show ((255 : K)) = ((255 : Int) : K) by norm_num, Int.floor_intCast] at this
  unfold toGLubyte
  rw [if_pos h0, Int.emod_eq_of_lt f0 (by omega)]
  exact ⟨rfl, by omega⟩

/-- The byte of a pixel between the bounds is the integer part of the scaled height. -/
theorem SaveHeightMap_byte_eq (fl : K → K) (hfl : IsRounding fl) (min_value max_value p : K)
    (h1 : min_value ≤ p) (h2 : p ≤ max_value) :
    SaveHeightMap_byte fl min_value max_value p =
      ⌊fl (fl (fl (p - min_value) /
        (if fl (max_value - min_value) = 0 then 1 else fl (max_value - min_value))) *
          255)⌋.toNat ∧
    SaveHeightMap_byte fl min_value max_value p ≤ 255 := by
  obtain ⟨a, b⟩ := scaled_range fl hfl min_value max_value p h1 h2
  obtain ⟨e, l⟩ := toGLubyte_of_range _ a b
  unfold SaveHeightMap_byte
  simp only []
  exact ⟨e, e ▸ l⟩

end byteLemmas

section claimsBytes

/-- C27, as the code has it: for `min_value ≤ p ≤ max_value` and every rounding `fl` of
the `float` operations that is monotone and exact at `0`, `1` and `255` (the rounding to
the nearest `float` and the exact arithmetic are two such), `SaveHeightMap` writes for
the height `p` the byte `trunc(fl(fl(fl(p - min_value) / range) * 255))`, where `range`
is `fl(max_value - min_value)`, or `1` when that is `0`: the scaled value is in
`[0, 255]`, so its truncation is its floor and the byte is at most `255`; `min_value`
gives `0`; `max_value` gives `255` when the range is not `0`; the byte does not decrease
when `p` grows; when `max_value = min_value` the byte is `0`, so the file of a constant
field holds zero bytes only after the header; and in exact arithmetic (`fl` the
identity) the byte is `trunc(255 * (p - min_value) / range)`. -/
theorem SaveHeightMap_byte_spec {K : Type} [LinearOrderedField K] [FloorRing K]
    (fl : K → K) (hfl : IsRounding fl) (min_value max_value p : K) (h1 : min_value ≤ p)
    (h2 : p ≤ max_value) :
    (0 ≤ fl (fl (fl (p - min_value) /
        (if fl (max_value - min_value) = 0 then 1 else fl (max_value - min_value))) * 255) ∧
      fl (fl (fl (p - min_value) /
        (if fl (max_value - min_value) = 0 then 1 else fl (max_value - min_value))) * 255)
        ≤ 255) ∧
    SaveHeightMap_byte fl min_value max_value p =
      ⌊fl (fl (fl (p - min_value) /
        (if fl (max_value - min_value) = 0 then 1 else fl (max_value - min_value))) *
          255)⌋.toNat ∧
    SaveHeightMap_byte fl min_value max_value p ≤ 255 ∧
    SaveHeightMap_byte fl min_value max_value min_value = 0 ∧
    (fl (max_value - min_value) ≠ 0 →
      SaveHeightMap_byte fl min_value max_value max_value = 255) ∧
    (∀ q : K, min_value ≤ q → q ≤ p →
      SaveHeightMap_byte fl min_value max_value q ≤
        SaveHeightMap_byte fl min_value max_value p) ∧
    (max_value = min_value → SaveHeightMap_byte fl min_value max_value p = 0) ∧
    (max_value = min_value → ∀ (width height : Int) (pixels : Nat → K),
      (∀ c, pixels c = p) →
      (SaveHeightMap fl min_value max_value width height pixels).drop 18 =
        List.replicate (height.toNat * width.toNat) 0) ∧
    SaveHeightMap_byte id min_value max_value p =
      ⌊255 * (p - min_value) /
        (if max_value - min_value = 0 then 1 else max_value - min_value)⌋.toNat := by
  have hmm : min_value ≤ max_value := le_trans h1 h2
  have hr := height_range_pos fl hfl min_value max_value hmm
  obtain ⟨e, l⟩ := SaveHeightMap_byte_eq fl hfl min_value max_value p h1 h2
  have hmin : SaveHeightMap_byte fl min_value max_value min_value = 0 := by
    rw [(SaveHeightMap_byte_eq fl hfl min_value max_value min_value le_rfl hmm).1]
    obtain ⟨-, f0, -, -⟩ := hfl
    rw [sub_self, f0, zero_div, f0, zero_mul, f0]
    simp
  have hdeg : max_value = min_value → SaveHeightMap_byte fl min_value max_value p = 0 := by
    intro hd
    have hp : p = min_value := le_antisymm (hd ▸ h2) h1
    rw [hp]; exact hmin
  refine ⟨scaled_range fl hfl min_value max_value p h1 h2, e, l, hmin, ?_, ?_, hdeg, ?_, ?_⟩
  · intro hne
    rw [(SaveHeightMap_byte_eq fl hfl min_value max_value max_value hmm le_rfl).1]
    obtain ⟨-, -, f1, f255⟩ := hfl
    rw [if_neg hne, div_self hne, f1, one_mul, f255,
      show ((255 : K)) = ((255 : Int) : K) by norm_num, Int.floor_intCast]
    rfl
  · intro q hq1 hq2
    rw [(SaveHeightMap_byte_eq fl hfl min_value max_value q hq1 (le_trans hq2 h2)).1, e]
    obtain ⟨mono, -, -, -⟩ := hfl
    apply Int.toNat_le_toNat
    apply Int.floor_le_floor
    apply mono
    apply mul_le_mul_of_nonneg_right _ (by norm_num)
    apply mono
    apply div_le_div_of_nonneg_right _ hr.le
    apply mono
    linarith
  · intro hd width height pixels hc
    rw [SaveHeightMap_eq, List.drop_left' (writeHeader_length 3 8 width height)]
    apply List.ext_getElem?
    intro i
    rw [List.getElem?_map, List.getElem?_replicate]
    by_cases hi : i < height.toNat * width.toNat
    · rw [List.getElem?_range hi, if_pos hi, Option.map_some', hc, hdeg hd]
    · rw [if_neg hi, List.getElem?_eq_none_iff.mpr (by simpa using hi)]
      rfl
  · rw [(SaveHeightMap_byte_eq id isRounding_id min_value max_value p h1 h2).1]
    simp only [id_eq]
    rw [mul_div_assoc, mul_comm]

/-- C28: `SaveNormalMap` writes each pixel as three bytes, blue, green, red: for the pixel
`(x, y)` of the buffer of four bytes a pixel, the three bytes that follow the header and
the earlier pixels are the bytes at the offsets `(y * width + x) * 4 + 2`, `+ 1`, `+ 0`, in
that order; the byte at the offset `+ 3` is never written, the file being the same for
two buffers that differ in those bytes only. -/
theorem SaveNormalMap_pixel_bytes (width height : Int) (pixels : Nat → Nat)
    (hb : ∀ i, pixels i < 256) :
    (∀ x y : Nat, (x : Int) < width → (y : Int) < height →
      (SaveNormalMap width height pixels)[18 + 3 * (y * width.toNat + x)]? =
        some (pixels ((y * width.toNat + x) * 4 + 2)) ∧
      (SaveNormalMap width height pixels)[18 + 3 * (y * width.toNat + x) + 1]? =
        some (pixels ((y * width.toNat + x) * 4 + 1)) ∧
      (SaveNormalMap width height pixels)[18 + 3 * (y * width.toNat + x) + 2]? =
        some (pixels ((y * width.toNat + x) * 4 + 0))) ∧
    (SaveNormalMap width height pixels).length = 18 + 3 * (height.toNat * width.toNat) ∧
    (∀ pixels2 : Nat → Nat, (∀ i, i % 4 ≠ 3 → pixels2 i = pixels i) →
      SaveNormalMap width height pixels2 = SaveNormalMap width height pixels) := by
  have hn := writeHeader_length 2 24 width height
  refine ⟨?_, ?_, ?_⟩
  · intro x y hx hy
    have cell : y * width.toNat + x < height.toNat * width.toNat := by
      have hx' : x < width.toNat := by omega
      have hy' : y < height.toNat := by omega
      have : (y + 1) * width.toNat ≤ height.toNat * width.toNat := Nat.mul_le_mul_right _ hy'
      rw [Nat.succ_mul] at this
      omega
    obtain ⟨g0, g1, g2⟩ := flatMap_three_get (fun c => pixels (c * 4 + 2) % 256)
      (fun c => pixels (c * 4 + 1) % 256) (fun c => pixels (c * 4 + 0) % 256) _ _ cell
    simp only [Nat.mod_eq_of_lt (hb _)] at g0 g1 g2
    rw [SaveNormalMap_eq]
    simp only [Nat.mod_eq_of_lt (hb _)]
    refine ⟨?_, ?_, ?_⟩
    · rw [List.getElem?_append_right (by omega), hn, Nat.add_sub_cancel_left]; exact g0
    · rw [List.getElem?_append_right (by omega), hn,
        show 18 + 3 * (y * width.toNat + x) + 1 - 18 = 3 * (y * width.toNat + x) + 1 by omega]
      exact g1
    · rw [List.getElem?_append_right (by omega), hn,
        show 18 + 3 * (y * width.toNat + x) + 2 - 18 = 3 * (y * width.toNat + x) + 2 by omega]
      exact g2
  · rw [SaveNormalMap_eq, List.length_append, hn, flatMap_three_length]
  · intro pixels2 h
    rw [SaveNormalMap_eq, SaveNormalMap_eq]
    congr 1
    apply List.flatMap_congr
    intro c _
    rw [h (c * 4 + 2) (by omega), h (c * 4 + 1) (by omega), h (c * 4 + 0) (by omega)]

theorem SaveNormalMap_pixel_bytes_witness :
    (SaveNormalMap 2 1 (fun i => i % 256))[18 + 3 * (0 * (2 : Int).toNat + 1)]? =
      some ((fun i => i % 256) ((0 * (2 : Int).toNat + 1) * 4 + 2)) :=
  ((SaveNormalMap_pixel_bytes 2 1 (fun i => i % 256)
    (fun i => Nat.mod_lt i (by decide))).1 1 0 (by decide) (by decide)).1

end claimsBytes

section pairLemmas

/-- A loop that writes cell `c` of two arrays at iteration `c`. -/
theorem fill_fold_pair {β γ : Type} (u : Nat → β) (v : Nat → γ) (n : Nat) (a : Nat → β)
    (b : Nat → γ) :
    Nat.fold (fun c (st : (Nat → β) × (Nat → γ)) =>
        (Function.update st.1 c (u c), Function.update st.2 c (v c))) n (a, b) =
      (fun j => if j < n then u j else a j, fun j => if j < n then v j else b j) := by
  induction n with
  | zero =>
    apply Prod.ext
    · funext j; simp [Nat.fold]
    · funext j; simp [Nat.fold]
  | succ n ih =>
    rw [fold_succ', ih]
    apply Prod.ext
    · funext j
      simp only [Function.update_apply]
      by_cases hj : j = n
      · subst hj; simp
      · by_cases hlt : j < n
        · have : j < n + 1 := by omega
          simp [hj, hlt, this]
        · have : ¬ j < n + 1 := by omega
          simp [hj, hlt, this]
    · funext j
      simp only [Function.update_apply]
      by_cases hj : j = n
      · subst hj; simp
      · by_cases hlt : j < n
        · have : j < n + 1 := by omega
          simp [hj, hlt, this]
        · have : ¬ j < n + 1 := by omega
          simp [hj, hlt, this]

/-- Two nested loops that write the cell `y * N + x` of two arrays. -/
theorem pair_loops_eq {β γ : Type} (u : Nat → Nat → β) (v : Nat → Nat → γ) (N M : Nat)
    (a : Nat → β) (b : Nat → γ) :
    forLoop 0 M 1 (fun y (st : (Nat → β) × (Nat → γ)) =>
        forLoop 0 N 1 (fun x (st : (Nat → β) × (Nat → γ)) =>
          (Function.update st.1 (y * N + x) (u y x), Function.update st.2 (y * N + x) (v y x)))
          st) (a, b) =
      (fun j => if j < M * N then u (j / N) (j % N) else a j,
        fun j => if j < M * N then v (j / N) (j % N) else b j) := by
  rw [nested_forLoop_flat (fun y x (st : (Nat → β) × (Nat → γ)) =>
    (Function.update st.1 (y * N + x) (u y x), Function.update st.2 (y * N + x) (v y x)))]
  simp only [Nat.div_add_mod']
  exact fill_fold_pair (fun j => u (j / N) (j % N)) (fun j => v (j / N) (j % N)) (M * N) a b

/-- The cell `y * N + x` is inside a grid of `M` rows of `N` cells. -/
theorem cell_lt (N M x y : Nat) (hx : x < N) (hy : y < M) : y * N + x < M * N := by
  have : (y + 1) * N ≤ M * N := Nat.mul_le_mul_right _ hy
  rw [Nat.succ_mul] at this
  omega

/-- The left neighbour `(x - 1 + N) % N` of the code is `x - 1` modulo `N`. -/
theorem tmod_left (N : Int) (x : Nat) (hx : (x : Int) < N) :
    Int.tmod ((x : Int) - 1 + N) N = ((x : Int) - 1) % N ∧
    0 ≤ ((x : Int) - 1) % N ∧ ((x : Int) - 1) % N < N ∧
    (x = 0 → ((x : Int) - 1) % N = N - 1) ∧ (0 < x → ((x : Int) - 1) % N = (x : Int) - 1) := by
  have hN : 0 < N := by omega
  have e : Int.tmod ((x : Int) - 1 + N) N = ((x : Int) - 1) % N := by
    rw [Int.tmod_eq_emod (by omega) (by omega), Int.add_emod_self]
  refine ⟨e, Int.emod_nonneg _ (by omega), Int.emod_lt_of_pos _ hN, ?_, ?_⟩
  · intro h0
    subst h0
    have e0 : (((0 : Nat) : Int) - 1) % N = (((0 : Nat) : Int) - 1 + N) % N :=
      Int.add_emod_self.symm
    rw [e0, Int.emod_eq_of_lt (by omega) (by omega)]
    omega
  · intro h0
    exact Int.emod_eq_of_lt (by omega) (by omega)

/-- The right neighbour `(x + 1) % N` of the code. -/
theorem tmod_right (N : Int) (x : Nat) (hx : (x : Int) < N) :
    Int.tmod ((x : Int) + 1) N = ((x : Int) + 1) % N ∧
    0 ≤ ((x : Int) + 1) % N ∧ ((x : Int) + 1) % N < N ∧
    ((x : Int) = N - 1 → ((x : Int) + 1) % N = 0) ∧
    ((x : Int) < N - 1 → ((x : Int) + 1) % N = (x : Int) + 1) := by
  have hN : 0 < N := by omega
  refine ⟨Int.tmod_eq_emod (by omega) (by omega), Int.emod_nonneg _ (by omega),
    Int.emod_lt_of_pos _ hN, ?_, ?_⟩
  · intro h0
    rw [h0, Int.sub_add_cancel, Int.emod_self]
  · intro h0
    exact Int.emod_eq_of_lt (by omega) (by omega)

/-- The cells of the two arrays that the finite-difference branch fills. -/
theorem GenerateOcean_gradients_fd_at {K : Type} [LinearOrderedField K] (Nx Ny : Int)
    (Lx Ly : K) (h : Nat → K) (x y : Nat) (hx : (x : Int) < Nx) (hy : (y : Int) < Ny) :
    (GenerateOcean_gradients_fd Nx Ny Lx Ly h).1 (y * Nx.toNat + x) =
      (h ((y : Int) * Nx + ((x : Int) + 1) % Nx).toNat -
        h ((y : Int) * Nx + ((x : Int) - 1) % Nx).toNat) / (2 * Lx / (Nx : K)) ∧
    (GenerateOcean_gradients_fd Nx Ny Lx Ly h).2 (y * Nx.toNat + x) =
      (h ((((y : Int) + 1) % Ny) * Nx + (x : Int)).toNat -
        h ((((y : Int) - 1) % Ny) * Nx + (x : Int)).toNat) / (2 * Ly / (Ny : K)) := by
  have hx' : x < Nx.toNat := by omega
  have hy' : y < Ny.toNat := by omega
  have hlt := cell_lt Nx.toNat Ny.toNat x y hx' hy'
  obtain ⟨c1, c2⟩ := cell_coords Nx.toNat x y hx'
  unfold GenerateOcean_gradients_fd
  simp only []
  rw [pair_loops_eq
    (fun y x => (h ((y : Int) * Nx + Int.tmod ((x : Int) + 1) Nx).toNat -
      h ((y : Int) * Nx + Int.tmod ((x : Int) - 1 + Nx) Nx).toNat) / (2 * Lx / (Nx : K)))
    (fun y x => (h (Int.tmod ((y : Int) + 1) Ny * Nx + (x : Int)).toNat -
      h (Int.tmod ((y : Int) - 1 + Ny) Ny * Nx + (x : Int)).toNat) / (2 * Ly / (Ny : K)))]
  simp only [hlt, if_true, c1, c2]
  rw [(tmod_left Nx x hx).1, (tmod_right Nx x hx).1, (tmod_left Ny y hy).1,
    (tmod_right Ny y hy).1]
  exact ⟨rfl, rfl⟩

end pairLemmas

section claimsFiniteDifference

/-- C21: in finite-difference mode, for every cell `(x, y)` of the grid,
`grad_x[y*Nx+x] = (h[y*Nx + (x+1) mod Nx] - h[y*Nx + (x-1) mod Nx]) / (2*Lx/Nx)` and
`grad_y[y*Nx+x] = (h[((y+1) mod Ny)*Nx + x] - h[((y-1) mod Ny)*Nx + x]) / (2*Ly/Ny)`, the
neighbours wrapping around at the borders (column `Nx-1` for `x = 0`, column `0` for
`x = Nx-1`, and the same for the rows), and every neighbour index is inside the grid. -/
theorem GenerateOcean_finite_difference {K : Type} [LinearOrderedField K] (Nx Ny : Int)
    (Lx Ly : K) (h : Nat → K) (x y : Nat) (hx : (x : Int) < Nx) (hy : (y : Int) < Ny) :
    (GenerateOcean_gradients_fd Nx Ny Lx Ly h).1 (y * Nx.toNat + x) =
      (h ((y : Int) * Nx + ((x : Int) + 1) % Nx).toNat -
        h ((y : Int) * Nx + ((x : Int) - 1) % Nx).toNat) / (2 * Lx / (Nx : K)) ∧
    (GenerateOcean_gradients_fd Nx Ny Lx Ly h).2 (y * Nx.toNat + x) =
      (h ((((y : Int) + 1) % Ny) * Nx + (x : Int)).toNat -
        h ((((y : Int) - 1) % Ny) * Nx + (x : Int)).toNat) / (2 * Ly / (Ny : K)) ∧
    (x = 0 → ((x : Int) - 1) % Nx = Nx - 1) ∧ ((x : Int) = Nx - 1 → ((x : Int) + 1) % Nx = 0) ∧
    (y = 0 → ((y : Int) - 1) % Ny = Ny - 1) ∧ ((y : Int) = Ny - 1 → ((y : Int) + 1) % Ny = 0) ∧
    (0 < x → ((x : Int) - 1) % Nx = (x : Int) - 1) ∧
    ((x : Int) < Nx - 1 → ((x : Int) + 1) % Nx = (x : Int) + 1) ∧
    (0 < y → ((y : Int) - 1) % Ny = (y : Int) - 1) ∧
    ((y : Int) < Ny - 1 → ((y : Int) + 1) % Ny = (y : Int) + 1) ∧
    (0 ≤ (y : Int) * Nx + ((x : Int) + 1) % Nx ∧
      (y : Int) * Nx + ((x : Int) + 1) % Nx < Nx * Ny) ∧
    (0 ≤ (y : Int) * Nx + ((x : Int) - 1) % Nx ∧
      (y : Int) * Nx + ((x : Int) - 1) % Nx < Nx * Ny) ∧
    (0 ≤ (((y : Int) + 1) % Ny) * Nx + (x : Int) ∧
      (((y : Int) + 1) % Ny) * Nx + (x : Int) < Nx * Ny) ∧
    (0 ≤ (((y : Int) - 1) % Ny) * Nx + (x : Int) ∧
      (((y : Int) - 1) % Ny) * Nx + (x : Int) < Nx * Ny) := by
  obtain ⟨g1, g2⟩ := GenerateOcean_gradients_fd_at Nx Ny Lx Ly h x y hx hy
  obtain ⟨-, l0, l1, l2, l3⟩ := tmod_left Nx x hx
  obtain ⟨-, r0, r1, r2, r3⟩ := tmod_right Nx x hx
  obtain ⟨-, b0, b1, b2, b3⟩ := tmod_left Ny y hy
  obtain ⟨-, t0, t1, t2, t3⟩ := tmod_right Ny y hy
  have inside : ∀ a b : Int, 0 ≤ a → a < Ny → 0 ≤ b → b < Nx →
      0 ≤ a * Nx + b ∧ a * Nx + b < Nx * Ny := by
    intro a b ha0 ha1 hb0 hb1
    constructor
    · nlinarith
    · nlinarith
  exact ⟨g1, g2, l2, r2, b2, t2, l3, r3, b3, t3,
    inside _ _ (by omega) hy r0 r1, inside _ _ (by omega) hy l0 l1,
    inside _ _ t0 t1 (by omega) hx, inside _ _ b0 b1 (by omega) hx⟩

theorem GenerateOcean_finite_difference_witness :
    (GenerateOcean_gradients_fd 4 2 (8 : ℚ) 2 (fun i => (i : ℚ))).1 (1 * (4 : Int).toNat + 0) =
      ((fun i : Nat => (i : ℚ)) (((1 : Nat) : Int) * 4 + (((0 : Nat) : Int) + 1) % 4).toNat -
        (fun i : Nat => (i : ℚ)) (((1 : Nat) : Int) * 4 + (((0 : Nat) : Int) - 1) % 4).toNat) /
          (2 * 8 / ((4 : Int) : ℚ)) :=
  (GenerateOcean_finite_difference 4 2 (8 : ℚ) 2 (fun i => (i : ℚ)) 0 1 (by decide)
    (by decide)).1

end claimsFiniteDifference

section spectralLemmas

/-- A loop that replaces cell `c` by `f` of its value at iteration `c`. -/
theorem map_fold {β : Type} (f : Nat → β → β) (n : Nat) (b : Nat → β) :
    Nat.fold (fun c (h : Nat → β) => Function.update h c (f c (h c))) n b =
      fun j => if j < n then f j (b j) else b j := by
  induction n with
  | zero => funext j; simp [Nat.fold]
  | succ n ih =>
    rw [fold_succ', ih]
    funext j
    simp only [Function.update_apply]
    by_cases hj : j = n
    · subst hj; simp
    · by_cases hlt : j < n
      · have : j < n + 1 := by omega
        simp [hj, hlt, this]
      · have : ¬ j < n + 1 := by omega
        simp [hj, hlt, this]

/-- Two nested loops that replace the cell `y * N + x` by `f` of its value. -/
theorem map_loops_eq {β : Type} (f : β → β) (N M : Nat) (b : Nat → β) :
    forLoop 0 M 1 (fun y h =>
        forLoop 0 N 1 (fun x h => Function.update h (y * N + x) (f (h (y * N + x)))) h) b =
      fun j => if j < M * N then f (b j) else b j := by
  rw [nested_forLoop_flat (fun y x (h : Nat → β) =>
    Function.update h (y * N + x) (f (h (y * N + x))))]
  simp only [Nat.div_add_mod']
  exact map_fold (fun _ => f) (M * N) b

variable {K : Type} [LinearOrderedField K]

/-- The product `spectrum * k * I` of the code is `i * k * spectrum`. -/
theorem scaleR_mul_I (z : complex64 K) (k : K) :
    scaleR z k * (⟨0, 1⟩ : complex64 K) = (⟨0, 1⟩ : complex64 K) * ⟨k, 0⟩ * z := by
  apply complex64.ext
  · show z.re * k * 0 - z.im * k * 1 = (0 * k - 1 * 0) * z.re - (0 * 0 + 1 * k) * z.im
    ring
  · show z.re * k * 1 + z.im * k * 0 = (0 * k - 1 * 0) * z.im + (0 * 0 + 1 * k) * z.re
    ring

/-- The wavenumber of a bin below and above the middle of an axis. -/
theorem wavenumber_eq (PI : K) (j : Nat) (N : Int) (L : K) (hN : 0 ≤ N) :
    ((j : Int) < N / 2 → wavenumber PI j N L = 2 * PI * (j : K) / L) ∧
    ((j : Int) > N / 2 → wavenumber PI j N L = 2 * PI * ((j : K) - (N : K)) / L) ∧
    ((j : Int) = N / 2 → wavenumber PI j N L = 0) := by
  have e : Int.tdiv N 2 = N / 2 := Int.tdiv_eq_ediv hN (by norm_num)
  unfold wavenumber
  simp only [e]
  refine ⟨?_, ?_, ?_⟩
  · intro h
    rw [if_pos h]
  · intro h
    rw [if_neg (by omega), if_pos h]
    push_cast
    rfl
  · intro h
    rw [if_neg (by omega), if_neg (by omega)]

/-- A 2D transform of the grid of `GenerateOcean`, scalar or SSE, returns. -/
theorem grid_transform_ok (USE_SIMD : Bool) (PI : K) (cexp : complex64 K → complex64 K)
    (Nx Ny : Int) (hNx : Nx > 1 ∧ IsPowerOf2 (toUnsigned Nx) = true)
    (hNy : Ny > 1 ∧ IsPowerOf2 (toUnsigned Ny) = true) (hcells : Nx * Ny ≤ 2147483647)
    (inp out : Buf K) :
    (∃ res, (if USE_SIMD then DFT2D_sse PI cexp inp out Ny Nx
      else DFT2D_scalar PI cexp inp out Ny Nx) = .ok res) ∧
    (∃ res, (if USE_SIMD then IDFT2D_sse PI cexp inp out Ny Nx
      else IDFT2D_scalar PI cexp inp out Ny Nx) = .ok res) := by
  have hcomm : Ny * Nx ≤ 2147483647 := by rw [Int.mul_comm]; exact hcells
  cases USE_SIMD
  · exact ⟨transform2D_ok _ (DFT1D_scalar_checksSize PI cexp) _ _ _ _ hNy hNx hcomm,
      transform2D_ok _ (IDFT1D_scalar_checksSize PI cexp) _ _ _ _ hNy hNx hcomm⟩
  · exact ⟨transform2D_ok _ (DFT1D_sse_checksSize PI cexp) _ _ _ _ hNy hNx hcomm,
      transform2D_ok _ (IDFT1D_sse_checksSize PI cexp) _ _ _ _ hNy hNx hcomm⟩

/-- The buffers of the spectral branch of `GenerateOcean`, one after the other, on a grid
of `NY` rows of `NX` cells. -/
theorem GenerateOcean_gradients_spectral_eq (USE_SIMD : Bool) (PI : K) (sqrt : K → K)
    (cexp : complex64 K → complex64 K) (Nx Ny : Int) (NX NY : Nat) (hNX : Nx.toNat = NX)
    (hNY : Ny.toNat = NY) (Lx Ly : K) (signal : Buf K) (S Sx Sy : Buf K)
    (hS : (if USE_SIMD then
        DFT2D_sse PI cexp (fun j => if j < NY * NX then
          (⟨cabs sqrt (signal j), 0⟩ : complex64 K) else 0) (fun _ => 0) Ny Nx
      else DFT2D_scalar PI cexp (fun j => if j < NY * NX then
          (⟨cabs sqrt (signal j), 0⟩ : complex64 K) else 0) (fun _ => 0) Ny Nx) = .ok S)
    (hSx : (if USE_SIMD then
        IDFT2D_sse PI cexp (fun j => if j < NY * NX then
          scaleR (if j < NY * NX then divR (S j) ((Nx * Ny : Int) : K) else S j)
            (wavenumber PI (j % NX) Nx Lx) * (⟨0, 1⟩ : complex64 K) else 0)
          (fun _ => 0) Ny Nx
      else IDFT2D_scalar PI cexp (fun j => if j < NY * NX then
          scaleR (if j < NY * NX then divR (S j) ((Nx * Ny : Int) : K) else S j)
            (wavenumber PI (j % NX) Nx Lx) * (⟨0, 1⟩ : complex64 K) else 0)
          (fun _ => 0) Ny Nx) = .ok Sx)
    (hSy : (if USE_SIMD then
        IDFT2D_sse PI cexp (fun j => if j < NY * NX then
          scaleR (if j < NY * NX then divR (S j) ((Nx * Ny : Int) : K) else S j)
            (wavenumber PI (j / NX) Ny Ly) * (⟨0, 1⟩ : complex64 K) else 0)
          (fun _ => 0) Ny Nx
      else IDFT2D_scalar PI cexp (fun j => if j < NY * NX then
          scaleR (if j < NY * NX then divR (S j) ((Nx * Ny : Int) : K) else S j)
            (wavenumber PI (j / NX) Ny Ly) * (⟨0, 1⟩ : complex64 K) else 0)
          (fun _ => 0) Ny Nx) = .ok Sy) :
    GenerateOcean_gradients_spectral USE_SIMD PI sqrt cexp Nx Ny Lx Ly signal =
      .ok (fun j => if j < NY * NX then (Sx j).re else 0,
        fun j => if j < NY * NX then (Sy j).re else 0) := by
  subst hNX hNY
  unfold GenerateOcean_gradients_spectral
  simp only []
  rw [height_loops_eq (fun j => (⟨cabs sqrt (signal j), 0⟩ : complex64 K)), hS]
  simp only [Except.bind]
  rw [map_loops_eq (fun z => divR z ((Nx * Ny : Int) : K))]
  rw [pair_loops_eq
    (fun y x => scaleR ((fun j => if j < Ny.toNat * Nx.toNat then
      divR (S j) ((Nx * Ny : Int) : K) else S j) (y * Nx.toNat + x))
      (wavenumber PI x Nx Lx) * (⟨0, 1⟩ : complex64 K))
    (fun y x => scaleR ((fun j => if j < Ny.toNat * Nx.toNat then
      divR (S j) ((Nx * Ny : Int) : K) else S j) (y * Nx.toNat + x))
      (wavenumber PI y Ny Ly) * (⟨0, 1⟩ : complex64 K))]
  simp only [Nat.div_add_mod']
  rw [hSx]
  simp only [Except.bind]
  rw [hSy]
  simp only [Except.bind]
  rw [pair_loops_eq (fun y x => (Sx (y * Nx.toNat + x)).re)
    (fun y x => (Sy (y * Nx.toNat + x)).re)]
  simp only [Nat.div_add_mod']

end spectralLemmas

section claimsSpectral

/-- C22: in spectral-differentiation mode, on a grid of valid sizes (the cell count an
`int`), the branch returns `grad_x = Re(IDFT2D(G_x))` and `grad_y = Re(IDFT2D(G_y))`,
where `G_x[y*Nx+x] = i*kx(x)*H[y*Nx+x]`, `G_y[y*Nx+x] = i*ky(y)*H[y*Nx+x]`,
`H = DFT2D(height)/(Nx*Ny)`, the heights being the magnitudes of the signal, and the
wavenumber of the bin `j` of an axis of `N` bins and extent `L` is `2*pi*j/L` for
`j < N/2` and `2*pi*(j-N)/L` for `j > N/2`. -/
theorem GenerateOcean_spectral_gradient {K : Type} [LinearOrderedField K] (USE_SIMD : Bool)
    (PI : K) (sqrt : K → K) (cexp : complex64 K → complex64 K) (Nx Ny : Int) (Lx Ly : K)
    (signal : Buf K) (hNx : Nx > 1 ∧ IsPowerOf2 (toUnsigned Nx) = true)
    (hNy : Ny > 1 ∧ IsPowerOf2 (toUnsigned Ny) = true) (hcells : Nx * Ny ≤ 2147483647) :
    ∃ (height S G_x G_y Sx Sy : Buf K) (grad : (Nat → K) × (Nat → K)),
      GenerateOcean_gradients_spectral USE_SIMD PI sqrt cexp Nx Ny Lx Ly signal = .ok grad ∧
      (if USE_SIMD then DFT2D_sse PI cexp height (fun _ => 0) Ny Nx
        else DFT2D_scalar PI cexp height (fun _ => 0) Ny Nx) = .ok S ∧
      (if USE_SIMD then IDFT2D_sse PI cexp G_x (fun _ => 0) Ny Nx
        else IDFT2D_scalar PI cexp G_x (fun _ => 0) Ny Nx) = .ok Sx ∧
      (if USE_SIMD then IDFT2D_sse PI cexp G_y (fun _ => 0) Ny Nx
        else IDFT2D_scalar PI cexp G_y (fun _ => 0) Ny Nx) = .ok Sy ∧
      (∀ x y : Nat, (x : Int) < Nx → (y : Int) < Ny →
        height (y * Nx.toNat + x) = ⟨cabs sqrt (signal (y * Nx.toNat + x)), 0⟩ ∧
        G_x (y * Nx.toNat + x) =
          (⟨0, 1⟩ : complex64 K) * ⟨wavenumber PI x Nx Lx, 0⟩ *
            divR (S (y * Nx.toNat + x)) ((Nx * Ny : Int) : K) ∧
        G_y (y * Nx.toNat + x) =
          (⟨0, 1⟩ : complex64 K) * ⟨wavenumber PI y Ny Ly, 0⟩ *
            divR (S (y * Nx.toNat + x)) ((Nx * Ny : Int) : K) ∧
        grad.1 (y * Nx.toNat + x) = (Sx (y * Nx.toNat + x)).re ∧
        grad.2 (y * Nx.toNat + x) = (Sy (y * Nx.toNat + x)).re) ∧
      (∀ j : Nat, Ny.toNat * Nx.toNat ≤ j → height j = 0 ∧ G_x j = 0 ∧ G_y j = 0) ∧
      (∀ x : Nat, ((x : Int) < Nx / 2 → wavenumber PI x Nx Lx = 2 * PI * (x : K) / Lx) ∧
        ((x : Int) > Nx / 2 → wavenumber PI x Nx Lx = 2 * PI * ((x : K) - (Nx : K)) / Lx)) ∧
      (∀ y : Nat, ((y : Int) < Ny / 2 → wavenumber PI y Ny Ly = 2 * PI * (y : K) / Ly) ∧
        ((y : Int) > Ny / 2 → wavenumber PI y Ny Ly = 2 * PI * ((y : K) - (Ny : K)) / Ly)) := by
  obtain ⟨S, hS⟩ := (grid_transform_ok USE_SIMD PI cexp Nx Ny hNx hNy hcells
    (fun j => if j < Ny.toNat * Nx.toNat then
      (⟨cabs sqrt (signal j), 0⟩ : complex64 K) else 0) (fun _ => 0)).1
  obtain ⟨Sx, hSx⟩ := (grid_transform_ok USE_SIMD PI cexp Nx Ny hNx hNy hcells
    (fun j => if j < Ny.toNat * Nx.toNat then
      scaleR (if j < Ny.toNat * Nx.toNat then divR (S j) ((Nx * Ny : Int) : K) else S j)
        (wavenumber PI (j % Nx.toNat) Nx Lx) * (⟨0, 1⟩ : complex64 K) else 0) (fun _ => 0)).2
  obtain ⟨Sy, hSy⟩ := (grid_transform_ok USE_SIMD PI cexp Nx Ny hNx hNy hcells
    (fun j => if j < Ny.toNat * Nx.toNat then
      scaleR (if j < Ny.toNat * Nx.toNat then divR (S j) ((Nx * Ny : Int) : K) else S j)
        (wavenumber PI (j / Nx.toNat) Ny Ly) * (⟨0, 1⟩ : complex64 K) else 0) (fun _ => 0)).2
  refine ⟨_, S, _, _, Sx, Sy, _,
    GenerateOcean_gradients_spectral_eq USE_SIMD PI sqrt cexp Nx Ny _ _ rfl rfl Lx Ly signal
      S Sx Sy hS hSx hSy, hS, hSx, hSy, ?_, ?_, ?_, ?_⟩
  · intro x y hx hy
    have hx' : x < Nx.toNat := by omega
    have hy' : y < Ny.toNat := by omega
    have hlt := cell_lt Nx.toNat Ny.toNat x y hx' hy'
    obtain ⟨c1, c2⟩ := cell_coords Nx.toNat x y hx'
    refine ⟨?_, ?_, ?_, ?_, ?_⟩
    · simp only [hlt, if_true]
    · simp only [hlt, if_true, c2]
      exact scaleR_mul_I _ _
    · simp only [hlt, if_true, c1]
      exact scaleR_mul_I _ _
    · simp only [hlt, if_true]
    · simp only [hlt, if_true]
  · intro j hj
    have hn : ¬ j < Ny.toNat * Nx.toNat := by omega
    refine ⟨?_, ?_, ?_⟩ <;> simp only [hn, if_false]
  · intro x
    exact ⟨(wavenumber_eq PI x Nx Lx (by omega)).1, (wavenumber_eq PI x Nx Lx (by omega)).2.1⟩
  · intro y
    exact ⟨(wavenumber_eq PI y Ny Ly (by omega)).1, (wavenumber_eq PI y Ny Ly (by omega)).2.1⟩

theorem GenerateOcean_spectral_gradient_witness :
    ∃ grad : (Nat → ℚ) × (Nat → ℚ),
      GenerateOcean_gradients_spectral false (3 : ℚ) (fun v => v) (fun z => z) 4 2 8 2
        (fun j => ⟨j, 0⟩) = .ok grad :=
  let ⟨_, _, _, _, _, _, grad, h, _⟩ := GenerateOcean_spectral_gradient false (3 : ℚ)
    (fun v => v) (fun z => z) 4 2 8 2 (fun j => ⟨j, 0⟩) ⟨by decide, by decide⟩
    ⟨by decide, by decide⟩ (by decide)
  ⟨grad, h⟩

end claimsSpectral

section sinusoidMath

/-- Orthogonality of the characters in the form of the kernels of the transforms. -/
theorem orth_exp (p q k : Nat) (hq : q < 2 ^ p) (hk : k < 2 ^ p) :
    ∑ n ∈ Finset.range (2 ^ p),
      Complex.exp (Complex.I * 2 * Real.pi * n * q / (2 : ℂ) ^ p) *
        Complex.exp (-(Complex.I * 2 * Real.pi * n * k / (2 : ℂ) ^ p)) =
      if k = q then (2 : ℂ) ^ p else 0 := by
  have h := root_orthogonal (2 ^ p) _ (primitive_root_two_pow p) q k hq hk
  rw [← fwd_root_eq_inv] at h
  simp only [fwd_kernel, inv_kernel] at h
  push_cast at h
  rw [← h]
  apply Finset.sum_congr rfl
  intro n _
  rw [mul_comm]
  congr 2
  all_goals ring

/-- The character of the frequency `N - m` is the conjugate of that of `m`. -/
theorem exp_wrap (p m n : Nat) (hm : m ≤ 2 ^ p) :
    Complex.exp (Complex.I * 2 * Real.pi * n * ((2 ^ p - m : Nat) : ℂ) / (2 : ℂ) ^ p) =
      Complex.exp (-(Complex.I * 2 * Real.pi * n * m / (2 : ℂ) ^ p)) := by
  have hne : ((2 : ℂ) ^ p) ≠ 0 := pow_ne_zero _ (by norm_num)
  have e : Complex.I * 2 * Real.pi * n * ((2 ^ p - m : Nat) : ℂ) / (2 : ℂ) ^ p =
      -(Complex.I * 2 * Real.pi * n * m / (2 : ℂ) ^ p) + n * (2 * Real.pi * Complex.I) := by
    rw [Nat.cast_sub hm]
    push_cast
    field_simp
    ring
  rw [e, Complex.exp_add, Complex.exp_nat_mul_two_pi_mul_I, mul_one]

end sinusoidMath

section sinusoidSums

end sinusoidSums

section sinusoidCode

variable (cexp : complex64 ℝ → complex64 ℝ)

theorem is1DSpec_DFT1D_sse (hexp : IsCexp cexp) (p : Nat) (hp1 : 1 ≤ p) (hp : p ≤ 30) :
    Is1DSpec (DFT1D_sse Real.pi cexp) ((2 : Int) ^ p) (2 ^ p)
      (dftSum (twOf ⟨0, -1⟩ (fwdWm Real.pi cexp) p) (2 ^ p)) := by
  intro inp out
  rw [DFT1D_sse_eq_scalar_of Real.pi cexp inp out p hp1 hp (fun s _ _ => fwdWm2_eq cexp hexp s)]
  exact is1DSpec_DFT1D_scalar cexp hexp p hp1 hp inp out

theorem is1DSpec_IDFT1D_sse (hexp : IsCexp cexp) (p : Nat) (hp1 : 1 ≤ p) (hp : p ≤ 30) :
    Is1DSpec (IDFT1D_sse Real.pi cexp) ((2 : Int) ^ p) (2 ^ p)
      (dftSum (twOf ⟨0, 1⟩ (invWm Real.pi cexp) p) (2 ^ p)) := by
  intro inp out
  rw [IDFT1D_sse_eq_scalar_of Real.pi cexp inp out p hp1 hp
    (fun s _ _ => invWm2_eq cexp hexp s)]
  exact is1DSpec_IDFT1D_scalar cexp hexp p hp1 hp inp out

/-- The forward 2D transform, scalar or SSE, as nested sums. -/
theorem grid_DFT2D_real (USE_SIMD : Bool) (hexp : IsCexp cexp) (p1 p2 : Nat) (h1 : 1 ≤ p1)
    (h2 : 1 ≤ p2) (h : p1 + p2 ≤ 30) (inp out : Buf ℝ) :
    ∃ res, (if USE_SIMD then DFT2D_sse Real.pi cexp inp out ((2 : Int) ^ p1) ((2 : Int) ^ p2)
        else DFT2D_scalar Real.pi cexp inp out ((2 : Int) ^ p1) ((2 : Int) ^ p2)) = .ok res ∧
      ∀ k1, k1 < 2 ^ p1 → ∀ k2, k2 < 2 ^ p2 →
        toComplex (res (k1 * 2 ^ p2 + k2)) =
          ∑ n1 ∈ Finset.range (2 ^ p1),
            (∑ n2 ∈ Finset.range (2 ^ p2), toComplex (inp (n1 * 2 ^ p2 + n2)) *
              Complex.exp (-(Complex.I * 2 * Real.pi * n2 * k2 / (2 : ℂ) ^ p2))) *
              Complex.exp (-(Complex.I * 2 * Real.pi * n1 * k1 / (2 : ℂ) ^ p1)) := by
  cases USE_SIMD
  · exact DFT2D_scalar_real cexp hexp p1 p2 h1 h2 h inp out
  · obtain ⟨res, hr, hres⟩ := transform2D_dftSum (DFT1D_sse Real.pi cexp) p1 p2 h _ _
      (is1DSpec_DFT1D_sse cexp hexp p1 h1 (by omega))
      (is1DSpec_DFT1D_sse cexp hexp p2 h2 (by omega)) inp out
    refine ⟨res, hr, ?_⟩
    intro k1 hk1 k2 hk2
    rw [hres k1 hk1 k2 hk2, map_sum]
    apply Finset.sum_congr rfl
    intro n1 _
    rw [map_mul, map_pow, toComplex_twOf_fwd cexp hexp p1 h1, fwd_kernel, map_sum]
    congr 1
    apply Finset.sum_congr rfl
    intro n2 _
    rw [map_mul, map_pow, toComplex_twOf_fwd cexp hexp p2 h2, fwd_kernel]

/-- The inverse 2D transform, scalar or SSE, as nested sums. -/
theorem grid_IDFT2D_real (USE_SIMD : Bool) (hexp : IsCexp cexp) (p1 p2 : Nat) (h1 : 1 ≤ p1)
    (h2 : 1 ≤ p2) (h : p1 + p2 ≤ 30) (inp out : Buf ℝ) :
    ∃ res, (if USE_SIMD then IDFT2D_sse Real.pi cexp inp out ((2 : Int) ^ p1) ((2 : Int) ^ p2)
        else IDFT2D_scalar Real.pi cexp inp out ((2 : Int) ^ p1) ((2 : Int) ^ p2)) = .ok res ∧
      ∀ k1, k1 < 2 ^ p1 → ∀ k2, k2 < 2 ^ p2 →
        toComplex (res (k1 * 2 ^ p2 + k2)) =
          ∑ n1 ∈ Finset.range (2 ^ p1),
            (∑ n2 ∈ Finset.range (2 ^ p2), toComplex (inp (n1 * 2 ^ p2 + n2)) *
              Complex.exp (Complex.I * 2 * Real.pi * n2 * k2 / (2 : ℂ) ^ p2)) *
              Complex.exp (Complex.I * 2 * Real.pi * n1 * k1 / (2 : ℂ) ^ p1) := by
  cases USE_SIMD
  · exact IDFT2D_scalar_real cexp hexp p1 p2 h1 h2 h inp out
  · obtain ⟨res, hr, hres⟩ := transform2D_dftSum (IDFT1D_sse Real.pi cexp) p1 p2 h _ _
      (is1DSpec_IDFT1D_sse cexp hexp p1 h1 (by omega))
      (is1DSpec_IDFT1D_sse cexp hexp p2 h2 (by omega)) inp out
    refine ⟨res, hr, ?_⟩
    intro k1 hk1 k2 hk2
    rw [hres k1 hk1 k2 hk2, map_sum]
    apply Finset.sum_congr rfl
    intro n1 _
    rw [map_mul, map_pow, toComplex_twOf_inv cexp hexp p1 h1, inv_kernel, map_sum]
    congr 1
    apply Finset.sum_congr rfl
    intro n2 _
    rw [map_mul, map_pow, toComplex_twOf_inv cexp hexp p2 h2, inv_kernel]

theorem two_pow_toNat (p : Nat) : ((2 : Int) ^ p).toNat = 2 ^ p := by
  have : ((2 : Int) ^ p) = ((2 ^ p : Nat) : Int) := by push_cast; rfl
  rw [this, Int.toNat_natCast]

theorem toComplex_divR (z : complex64 ℝ) (d : ℝ) : toComplex (divR z d) = toComplex z / d := by
  apply Complex.ext
  · rw [Complex.div_ofReal_re]; rfl
  · rw [Complex.div_ofReal_im]; rfl

theorem toComplex_scaleR (z : complex64 ℝ) (k : ℝ) :
    toComplex (scaleR z k) = toComplex z * k := by
  apply Complex.ext
  · rw [Complex.mul_re]; simp [toComplex_re, toComplex_im, scaleR]
  · rw [Complex.mul_im]; simp [toComplex_re, toComplex_im, scaleR]

end sinusoidCode

section sinusoidDifference

end sinusoidDifference

section claimsSinusoid

end claimsSinusoid

section claimsScratch

/-- C39: the scratch allocator over 64-bit unsigned sizes.  For every state with
`scratch_allocated_size ≤ scratch_total_size` and every request `size`, `ScratchAlloc`
succeeds exactly when `allocated + size ≤ total` as unbounded integers, and a sum that
wraps is rejected; on success it returns the old allocated size as the offset and adds
`size` to it, on failure it returns `NULL` and leaves the state as it was; `ScratchAlloc`,
`ScratchFreeTo` and `ScratchClear` keep `allocated ≤ total` (and leave the total alone),
`ScratchFreeTo` ignores a pointer above the allocation mark and moves the mark to a
pointer at or below it. -/
theorem ScratchAlloc_bounds (st : ScratchState) (size : Nat)
    (hinv : st.scratch_allocated_size ≤ st.scratch_total_size)
    (htotal : st.scratch_total_size < 2 ^ 64) (hsize : size < 2 ^ 64) :
    (((ScratchAlloc st size).1 ≠ none) ↔
        st.scratch_allocated_size + size ≤ st.scratch_total_size) ∧
      (2 ^ 64 ≤ st.scratch_allocated_size + size → ScratchAlloc st size = (none, st)) ∧
      (st.scratch_allocated_size + size ≤ st.scratch_total_size →
        ScratchAlloc st size = (some st.scratch_allocated_size,
          { scratch_allocated_size := st.scratch_allocated_size + size,
            scratch_total_size := st.scratch_total_size })) ∧
      (st.scratch_total_size < st.scratch_allocated_size + size →
        ScratchAlloc st size = (none, st)) ∧
      ((ScratchAlloc st size).2.scratch_allocated_size ≤
          (ScratchAlloc st size).2.scratch_total_size ∧
        (ScratchAlloc st size).2.scratch_total_size = st.scratch_total_size) ∧
      (∀ ptr : Int,
        (ScratchFreeTo st ptr).scratch_allocated_size ≤
            (ScratchFreeTo st ptr).scratch_total_size ∧
          (ScratchFreeTo st ptr).scratch_total_size = st.scratch_total_size ∧
          ((st.scratch_allocated_size : Int) < ptr → ptr < 2 ^ 64 →
            ScratchFreeTo st ptr = st) ∧
          (0 ≤ ptr → ptr ≤ (st.scratch_allocated_size : Int) →
            ScratchFreeTo st ptr =
              { scratch_allocated_size := ptr.toNat,
                scratch_total_size := st.scratch_total_size })) ∧
      ((ScratchClear st).scratch_allocated_size ≤ (ScratchClear st).scratch_total_size ∧
        (ScratchClear st).scratch_total_size = st.scratch_total_size) := by
  obtain ⟨a, T⟩ := st
  dsimp only at hinv htotal ⊢
  have key : a + size ≤ T → (a + size) % 18446744073709551616 = a + size := fun h =>
    Nat.mod_eq_of_lt (by omega)
  have wrap : T < a + size → (T < (a + size) % 18446744073709551616 ∨
      (a + size) % 18446744073709551616 < a) := by
    intro h
    omega
  have hsucc : a + size ≤ T → ScratchAlloc ⟨a, T⟩ size = (some a, ⟨a + size, T⟩) := by
    intro h
    unfold ScratchAlloc
    dsimp only
    rw [key h, if_neg (by omega), if_neg (by omega)]
  have hfail : T < a + size → ScratchAlloc ⟨a, T⟩ size = (none, ⟨a, T⟩) := by
    intro h
    unfold ScratchAlloc
    dsimp only
    rcases wrap h with h1 | h1
    · rw [if_pos h1]
    · by_cases h2 : (a + size) % 18446744073709551616 > T
      · rw [if_pos h2]
      · rw [if_neg h2, if_pos h1]
  refine ⟨?_, ?_, hsucc, hfail, ?_, ?_, ?_⟩
  · constructor
    · intro h
      by_contra hc
      rw [hfail (by omega)] at h
      exact h rfl
    · intro h
      rw [hsucc h]
      simp
  · intro h
    exact hfail (by omega)
  · by_cases h : a + size ≤ T
    · rw [hsucc h]
      exact ⟨h, rfl⟩
    · rw [hfail (by omega)]
      exact ⟨hinv, rfl⟩
  · intro ptr
    refine ⟨?_, ?_, ?_, ?_⟩
    · unfold ScratchFreeTo
      simp only
      split_ifs with h
      · exact hinv
      · dsimp only
        omega
    · unfold ScratchFreeTo
      simp only
      split_ifs <;> rfl
    · intro h1 h2
      unfold ScratchFreeTo
      dsimp only
      have e : ptr % 18446744073709551616 = ptr := Int.emod_eq_of_lt (by omega) (by omega)
      rw [e, if_pos (by omega)]
    · intro h1 h2
      unfold ScratchFreeTo
      dsimp only
      have e : ptr % 18446744073709551616 = ptr := Int.emod_eq_of_lt h1 (by omega)
      rw [e, if_neg (by omega)]
  · exact ⟨Nat.zero_le _, rfl⟩

theorem ScratchAlloc_bounds_witness :
    ScratchAlloc ⟨16777000, SCRATCH_SIZE⟩ 216 = (some 16777000, ⟨16777216, SCRATCH_SIZE⟩) ∧
      ScratchAlloc ⟨16777000, SCRATCH_SIZE⟩ 217 = (none, ⟨16777000, SCRATCH_SIZE⟩) ∧
      ScratchAlloc ⟨16777000, SCRATCH_SIZE⟩ 18446744073709551000 =
        (none, ⟨16777000, SCRATCH_SIZE⟩) :=
  let h := ScratchAlloc_bounds ⟨16777000, SCRATCH_SIZE⟩ 216 (by decide) (by decide) (by decide)
  let h2 := ScratchAlloc_bounds ⟨16777000, SCRATCH_SIZE⟩ 217 (by decide) (by decide)
    (by decide)
  let h3 := ScratchAlloc_bounds ⟨16777000, SCRATCH_SIZE⟩ 18446744073709551000 (by decide)
    (by decide) (by decide)
  ⟨h.2.2.1 (by decide), h2.2.2.2.1 (by decide), h3.2.1 (by decide)⟩

end claimsScratch

section matrixLemmas

variable {K : Type} [LinearOrderedField K]

/-- The entries of a product of two matrices. -/
theorem Matrix4.mul_def (m1 m2 : Matrix4 K) :
    m1 * m2 =
      { _11 := m1._11 * m2._11 + m1._12 * m2._21 + m1._13 * m2._31 + m1._14 * m2._41
        _12 := m1._11 * m2._12 + m1._12 * m2._22 + m1._13 * m2._32 + m1._14 * m2._42
        _13 := m1._11 * m2._13 + m1._12 * m2._23 + m1._13 * m2._33 + m1._14 * m2._43
        _14 := m1._11 * m2._14 + m1._12 * m2._24 + m1._13 * m2._34 + m1._14 * m2._44
        _21 := m1._21 * m2._11 + m1._22 * m2._21 + m1._23 * m2._31 + m1._24 * m2._41
        _22 := m1._21 * m2._12 + m1._22 * m2._22 + m1._23 * m2._32 + m1._24 * m2._42
        _23 := m1._21 * m2._13 + m1._22 * m2._23 + m1._23 * m2._33 + m1._24 * m2._43
        _24 := m1._21 * m2._14 + m1._22 * m2._24 + m1._23 * m2._34 + m1._24 * m2._44
        _31 := m1._31 * m2._11 + m1._32 * m2._21 + m1._33 * m2._31 + m1._34 * m2._41
        _32 := m1._31 * m2._12 + m1._32 * m2._22 + m1._33 * m2._32 + m1._34 * m2._42
        _33 := m1._31 * m2._13 + m1._32 * m2._23 + m1._33 * m2._33 + m1._34 * m2._43
        _34 := m1._31 * m2._14 + m1._32 * m2._24 + m1._33 * m2._34 + m1._34 * m2._44
        _41 := m1._41 * m2._11 + m1._42 * m2._21 + m1._43 * m2._31 + m1._44 * m2._41
        _42 := m1._41 * m2._12 + m1._42 * m2._22 + m1._43 * m2._32 + m1._44 * m2._42
        _43 := m1._41 * m2._13 + m1._42 * m2._23 + m1._43 * m2._33 + m1._44 * m2._43
        _44 := m1._41 * m2._14 + m1._42 * m2._24 + m1._43 * m2._34 + m1._44 * m2._44 } :=
  rfl

/-- The product of the perspective matrix and the matrix of `MakePerspectiveInverse`,
entry by entry. -/
theorem perspective_product (l r b t z_near z_far : K) (hlr : l ≠ r) (hbt : b ≠ t)
    (hn : z_near ≠ 0) (hf : z_far ≠ 0) (hnf : z_near ≠ z_far) :
    Matrix4.MakePerspective l r b t z_near z_far *
        Matrix4.MakePerspectiveInverse l r b t z_near z_far =
      { _11 := 1, _12 := 0, _13 := 0, _14 := 0
        _21 := 0, _22 := 1, _23 := (t + b) / (t - b), _24 := -((t + b) / (t - b))
        _31 := 0, _32 := 0, _33 := 1, _34 := 0
        _41 := 0, _42 := 0, _43 := 0, _44 := 1 } := by
  have h1 : r - l ≠ 0 := sub_ne_zero.mpr (Ne.symm hlr)
  have h2 : t - b ≠ 0 := sub_ne_zero.mpr (Ne.symm hbt)
  have h3 : z_near - z_far ≠ 0 := sub_ne_zero.mpr hnf
  rw [Matrix4.mul_def]
  simp only [Matrix4.MakePerspective, Matrix4.MakePerspectiveInverse, Matrix4.zeroInit]
  ext <;> dsimp only <;> field_simp <;> ring

end matrixLemmas

section claimsMatrix

variable {K : Type} [LinearOrderedField K]

/-- C37: for all `l ≠ r`, `b ≠ t` and non-zero `z_near ≠ z_far`, in exact arithmetic the
product `MakePerspective(l, r, b, t, z_near, z_far) * MakePerspectiveInverse(l, r, b, t,
z_near, z_far)` is the identity in every entry except `_23` and `_24`, where it is
`(t + b)/(t - b)` and `-(t + b)/(t - b)`: `MakePerspectiveInverse` stores
`(t + b)/(2*z_near)` in `_23`, where the inverse has it in `_24`.  The product is
`Matrix4::MakeIdentity()` exactly when `t + b = 0`, as in the symmetric frustum of the
four-argument overload. -/
theorem MakePerspective_mul_MakePerspectiveInverse (l r b t z_near z_far : K) (hlr : l ≠ r)
    (hbt : b ≠ t) (hn : z_near ≠ 0) (hf : z_far ≠ 0) (hnf : z_near ≠ z_far) :
    Matrix4.MakePerspective l r b t z_near z_far *
        Matrix4.MakePerspectiveInverse l r b t z_near z_far =
      { _11 := 1, _12 := 0, _13 := 0, _14 := 0
        _21 := 0, _22 := 1, _23 := (t + b) / (t - b), _24 := -((t + b) / (t - b))
        _31 := 0, _32 := 0, _33 := 1, _34 := 0
        _41 := 0, _42 := 0, _43 := 0, _44 := 1 } ∧
      (Matrix4.MakePerspective l r b t z_near z_far *
          Matrix4.MakePerspectiveInverse l r b t z_near z_far = Matrix4.MakeIdentity ↔
        t + b = 0) := by
  have h2 : t - b ≠ 0 := sub_ne_zero.mpr (Ne.symm hbt)
  have hp := perspective_product l r b t z_near z_far hlr hbt hn hf hnf
  refine ⟨hp, ?_⟩
  rw [hp]
  constructor
  · intro h
    have e := congrArg Matrix4._23 h
    simp only [Matrix4.MakeIdentity, Matrix4.zeroInit] at e
    rcases div_eq_zero_iff.mp e with e1 | e1
    · exact e1
    · exact absurd e1 h2
  · intro h
    rw [h]
    simp [Matrix4.MakeIdentity, Matrix4.zeroInit]

theorem MakePerspective_mul_MakePerspectiveInverse_witness :
    Matrix4.MakePerspective (-2 : ℚ) 2 (-1) 1 1 3 *
        Matrix4.MakePerspectiveInverse (-2 : ℚ) 2 (-1) 1 1 3 = Matrix4.MakeIdentity :=
  (MakePerspective_mul_MakePerspectiveInverse (-2 : ℚ) 2 (-1) 1 1 3 (by norm_num)
    (by norm_num) (by norm_num) (by norm_num) (by norm_num)).2.mpr (by norm_num)

/-- C37, failing input: on the frustum `l = -1, r = 1, b = 0, t = 2, z_near = 1,
z_far = 2` the hypotheses hold and the product is not the identity: its entries `_23`
and `_24` are `1` and `-1`. -/
theorem MakePerspectiveInverse_not_inverse :
    ((-1 : ℚ) ≠ 1 ∧ (0 : ℚ) ≠ 2 ∧ (1 : ℚ) ≠ 0 ∧ (2 : ℚ) ≠ 0 ∧ (1 : ℚ) ≠ 2) ∧
      Matrix4.MakePerspective (-1 : ℚ) 1 0 2 1 2 *
          Matrix4.MakePerspectiveInverse (-1 : ℚ) 1 0 2 1 2 ≠ Matrix4.MakeIdentity ∧
      (Matrix4.MakePerspective (-1 : ℚ) 1 0 2 1 2 *
          Matrix4.MakePerspectiveInverse (-1 : ℚ) 1 0 2 1 2)._23 = 1 ∧
      (Matrix4.MakePerspective (-1 : ℚ) 1 0 2 1 2 *
          Matrix4.MakePerspectiveInverse (-1 : ℚ) 1 0 2 1 2)._24 = -1 := by
  have hp := perspective_product (-1 : ℚ) 1 0 2 1 2 (by norm_num) (by norm_num)
    (by norm_num) (by norm_num) (by norm_num)
  refine ⟨by norm_num, ?_, ?_, ?_⟩
  · intro h
    have e := congrArg Matrix4._23 h
    rw [hp] at e
    norm_num [Matrix4.MakeIdentity, Matrix4.zeroInit] at e
  · rw [hp]
    norm_num
  · rw [hp]
    norm_num

/-- C38: for every position, every unit quaternion `orientation` and every
`scale ≠ 0`, in exact arithmetic `MakeWorldToLocalMatrix(position, orientation, scale) *
MakeLocalToWorldMatrix(position, orientation, scale)` is `Matrix4::MakeIdentity()`. -/
theorem MakeWorldToLocalMatrix_mul_MakeLocalToWorldMatrix (position : Vector3 K)
    (orientation : Quaternion K) (scale : K)
    (hunit : orientation.x ^ 2 + orientation.y ^ 2 + orientation.z ^ 2 +
      orientation.w ^ 2 = 1)
    (hscale : scale ≠ 0) :
    MakeWorldToLocalMatrix position orientation scale *
        MakeLocalToWorldMatrix position orientation scale = Matrix4.MakeIdentity := by
  obtain ⟨px, py, pz⟩ := position
  obtain ⟨x, y, z, w⟩ := orientation
  dsimp only at hunit
  have hs : 1 / scale * scale = 1 := one_div_mul_cancel hscale
  have hneg : (-(⟨px, py, pz⟩ : Vector3 K)) = ⟨-px, -py, -pz⟩ := rfl
  rw [Matrix4.mul_def]
  simp only [MakeWorldToLocalMatrix, MakeLocalToWorldMatrix, Matrix4.MakeIdentity,
    Matrix4.zeroInit, hneg]
  generalize 1 / scale = s at hs
  ext <;> dsimp only
  · linear_combination (4 * (y ^ 2 + z ^ 2)) * hunit +
      ((1 - (2 * y * y + 2 * z * z)) * (1 - (2 * y * y + 2 * z * z)) + (2 * x * y + 2 * w * z) * (2 * x * y + 2 * w * z) + (2 * x * z - 2 * w * y) * (2 * x * z - 2 * w * y)) * hs
  · linear_combination (-(4 * x * y)) * hunit +
      ((1 - (2 * y * y + 2 * z * z)) * (2 * x * y - 2 * w * z) + (2 * x * y + 2 * w * z) * (1 - (2 * x * x + 2 * z * z)) + (2 * x * z - 2 * w * y) * (2 * y * z + 2 * w * x)) * hs
  · linear_combination (-(4 * x * z)) * hunit +
      ((1 - (2 * y * y + 2 * z * z)) * (2 * x * z + 2 * w * y) + (2 * x * y + 2 * w * z) * (2 * y * z - 2 * w * x) + (2 * x * z - 2 * w * y) * (1 - (2 * x * x + 2 * y * y))) * hs
  · ring
  · linear_combination (-(4 * x * y)) * hunit +
      ((2 * x * y - 2 * w * z) * (1 - (2 * y * y + 2 * z * z)) + (1 - (2 * x * x + 2 * z * z)) * (2 * x * y + 2 * w * z) + (2 * y * z + 2 * w * x) * (2 * x * z - 2 * w * y)) * hs
  · linear_combination (4 * (x ^ 2 + z ^ 2)) * hunit +
      ((2 * x * y - 2 * w * z) * (2 * x * y - 2 * w * z) + (1 - (2 * x * x + 2 * z * z)) * (1 - (2 * x * x + 2 * z * z)) + (2 * y * z + 2 * w * x) * (2 * y * z + 2 * w * x)) * hs
  · linear_combination (-(4 * y * z)) * hunit +
      ((2 * x * y - 2 * w * z) * (2 * x * z + 2 * w * y) + (1 - (2 * x * x + 2 * z * z)) * (2 * y * z - 2 * w * x) + (2 * y * z + 2 * w * x) * (1 - (2 * x * x + 2 * y * y))) * hs
  · ring
  · linear_combination (-(4 * x * z)) * hunit +
      ((2 * x * z + 2 * w * y) * (1 - (2 * y * y + 2 * z * z)) + (2 * y * z - 2 * w * x) * (2 * x * y + 2 * w * z) + (1 - (2 * x * x + 2 * y * y)) * (2 * x * z - 2 * w * y)) * hs
  · linear_combination (-(4 * y * z)) * hunit +
      ((2 * x * z + 2 * w * y) * (2 * x * y - 2 * w * z) + (2 * y * z - 2 * w * x) * (1 - (2 * x * x + 2 * z * z)) + (1 - (2 * x * x + 2 * y * y)) * (2 * y * z + 2 * w * x)) * hs
  · linear_combination (4 * (x ^ 2 + y ^ 2)) * hunit +
      ((2 * x * z + 2 * w * y) * (2 * x * z + 2 * w * y) + (2 * y * z - 2 * w * x) * (2 * y * z - 2 * w * x) + (1 - (2 * x * x + 2 * y * y)) * (1 - (2 * x * x + 2 * y * y))) * hs
  · ring
  · ring
  · ring
  · ring
  · ring

theorem MakeWorldToLocalMatrix_mul_MakeLocalToWorldMatrix_witness :
    MakeWorldToLocalMatrix (⟨1, 2, 3⟩ : Vector3 ℚ) ⟨1 / 2, 1 / 2, 1 / 2, 1 / 2⟩ 2 *
        MakeLocalToWorldMatrix (⟨1, 2, 3⟩ : Vector3 ℚ) ⟨1 / 2, 1 / 2, 1 / 2, 1 / 2⟩ 2 =
      Matrix4.MakeIdentity :=
  MakeWorldToLocalMatrix_mul_MakeLocalToWorldMatrix (⟨1, 2, 3⟩ : Vector3 ℚ)
    ⟨1 / 2, 1 / 2, 1 / 2, 1 / 2⟩ 2 (by norm_num) (by norm_num)

end claimsMatrix

section gridFlag

/-- An `int` is a power of two greater than `1` exactly when it is `2^a` with
`1 ≤ a ≤ 30`. -/
theorem pow_two_range (N : Int) (hhi : N ≤ 2147483647) :
    ((∃ a : Nat, N = 2 ^ a) ∧ 1 < N) ↔ ∃ a : Nat, (1 ≤ a ∧ a ≤ 30) ∧ N = 2 ^ a := by
  constructor
  · rintro ⟨⟨a, rfl⟩, h1⟩
    refine ⟨a, ⟨?_, ?_⟩, rfl⟩
    · rcases Nat.eq_zero_or_pos a with rfl | h
      · simp at h1
      · exact h
    · by_contra hc
      have : (2 : Int) ^ 31 ≤ 2 ^ a := pow_le_pow_right₀ (by norm_num) (by omega)
      omega
  · rintro ⟨a, ⟨h1, _⟩, rfl⟩
    refine ⟨⟨a, rfl⟩, ?_⟩
    have : (2 : Int) ^ 1 ≤ 2 ^ a := pow_le_pow_right₀ (by norm_num) h1
    omega

/-- A flag of a mask below `8` is clear exactly when its bit is. -/
theorem and_one_eq_zero_iff (v : Nat) : v &&& 1 = 0 ↔ v.testBit 0 = false := by
  rw [Nat.and_one_is_mod, Nat.testBit_zero]
  simp

end gridFlag

section claimsGridFlag

variable {K : Type} [LinearOrderedField K]

/-- C31: for every pair of 32-bit signed integers `(Nx, Ny)`, zero and negative values
included, `ValidateOceanParams` leaves the invalid-grid-size flag clear if and only if
`Nx = 2^a` and `Ny = 2^b` for some `a, b` in `[1, 30]`; `IsPowerOf2` sees a negative
value after its conversion to unsigned, where `-2^31` is the power of two `2^31`, and
the flag is set all the same for `Nx = -2^31`. -/
theorem ValidateOceanParams_grid_flag (params : OceanParams K)
    (hx : -2147483648 ≤ params.Nx ∧ params.Nx ≤ 2147483647)
    (hy : -2147483648 ≤ params.Ny ∧ params.Ny ≤ 2147483647) :
    (ValidateOceanParams params &&& OCEAN_PARAM_ERROR_INVALID_GRID_SIZE = 0 ↔
      ∃ a b : Nat, (1 ≤ a ∧ a ≤ 30) ∧ (1 ≤ b ∧ b ≤ 30) ∧
        params.Nx = 2 ^ a ∧ params.Ny = 2 ^ b) ∧
    (toUnsigned (-2147483648) = 2 ^ 31 ∧ IsPowerOf2 (toUnsigned (-2147483648)) = true) ∧
    (params.Nx = -2147483648 →
      ValidateOceanParams params &&& OCEAN_PARAM_ERROR_INVALID_GRID_SIZE =
        OCEAN_PARAM_ERROR_INVALID_GRID_SIZE) := by
  obtain ⟨b0, _, _, hlt⟩ := ValidateOceanParams_bits params
  have hflag : ValidateOceanParams params &&& OCEAN_PARAM_ERROR_INVALID_GRID_SIZE = 0 ↔
      ∃ a b : Nat, (1 ≤ a ∧ a ≤ 30) ∧ (1 ≤ b ∧ b ≤ 30) ∧
        params.Nx = 2 ^ a ∧ params.Ny = 2 ^ b := by
    rw [show OCEAN_PARAM_ERROR_INVALID_GRID_SIZE = 1 from rfl, and_one_eq_zero_iff, b0,
      grid_test_iff _ _ hx hy, pow_two_range _ hx.2, pow_two_range _ hy.2]
    constructor
    · rintro ⟨⟨a, ha, ea⟩, ⟨b, hb, eb⟩⟩
      exact ⟨a, b, ha, hb, ea, eb⟩
    · rintro ⟨a, b, ha, hb, ea, eb⟩
      exact ⟨⟨a, ha, ea⟩, ⟨b, hb, eb⟩⟩
  refine ⟨hflag, ⟨by decide, by decide⟩, ?_⟩
  intro hN
  have hne : ¬ (ValidateOceanParams params &&& OCEAN_PARAM_ERROR_INVALID_GRID_SIZE = 0) := by
    rw [hflag]
    rintro ⟨a, b, _, _, ea, _⟩
    rw [hN] at ea
    have : (0 : Int) < 2 ^ a := by positivity
    omega
  rw [show OCEAN_PARAM_ERROR_INVALID_GRID_SIZE = 1 from rfl] at hne ⊢
  rw [Nat.and_one_is_mod] at hne ⊢
  omega

theorem ValidateOceanParams_grid_flag_witness :
    ValidateOceanParams (K := ℚ)
      { Nx := -2147483648, Ny := 32, Lx := 1000, Ly := 1000, Vx := 31, Vy := 0,
        A := 10, l := 1, t := 0, seed := 0 } &&&
        OCEAN_PARAM_ERROR_INVALID_GRID_SIZE = OCEAN_PARAM_ERROR_INVALID_GRID_SIZE ∧
    ValidateOceanParams (K := ℚ)
      { Nx := 2, Ny := 1073741824, Lx := 1000, Ly := 1000, Vx := 31, Vy := 0,
        A := 10, l := 1, t := 0, seed := 0 } &&&
        OCEAN_PARAM_ERROR_INVALID_GRID_SIZE = 0 :=
  ⟨(ValidateOceanParams_grid_flag (K := ℚ)
      { Nx := -2147483648, Ny := 32, Lx := 1000, Ly := 1000, Vx := 31, Vy := 0,
        A := 10, l := 1, t := 0, seed := 0 } (by decide) (by decide)).2.2 rfl,
    (ValidateOceanParams_grid_flag (K := ℚ)
      { Nx := 2, Ny := 1073741824, Lx := 1000, Ly := 1000, Vx := 31, Vy := 0,
        A := 10, l := 1, t := 0, seed := 0 } (by decide) (by decide)).1.mpr
      ⟨1, 30, by decide, by decide, by decide, by decide⟩⟩

end claimsGridFlag

section conjugation

/-- The conjugate of a sample, seen in `ℂ`. -/
theorem toComplex_conj (z : complex64 ℝ) :
    toComplex (conj z) = (starRingEnd ℂ) (toComplex z) := by
  apply Complex.ext
  · simp [toComplex_re, conj]
  · simp [toComplex_im, conj]

/-- The conjugate of the forward kernel is the inverse kernel. -/
theorem conj_fwd_kernel (p n k : Nat) :
    (starRingEnd ℂ) (Complex.exp (-(Complex.I * 2 * Real.pi * n * k / (2 : ℂ) ^ p))) =
      Complex.exp (Complex.I * 2 * Real.pi * n * k / (2 : ℂ) ^ p) := by
  rw [← Complex.exp_conj]
  congr 1
  simp only [map_neg, map_div₀, map_mul, map_pow, Complex.conj_I, Complex.conj_ofReal,
    Complex.conj_natCast, map_ofNat]
  ring

end conjugation

section claimsConjugation

/-- C33: the inverse transform is the conjugate of the forward transform of the
conjugate: for every `N = 2^p > 1` in the range of `int` and every complex `x` of length
`N`, in exact arithmetic both `IDFT1D_scalar(x)` and `DFT1D_scalar(conj(x))` return, and
`IDFT1D_scalar(x)[k] = conj(DFT1D_scalar(conj(x))[k])` for every `k < N`. -/
theorem IDFT1D_scalar_eq_conj_DFT1D_scalar (cexp : complex64 ℝ → complex64 ℝ)
    (hexp : IsCexp cexp) (p : Nat) (hp1 : 1 ≤ p) (hp : p ≤ 30) (x out out' : Buf ℝ) :
    ∃ ri rf : Buf ℝ,
      IDFT1D_scalar Real.pi cexp x out ((2 : Int) ^ p) = .ok ri ∧
      DFT1D_scalar Real.pi cexp (fun n => conj (x n)) out' ((2 : Int) ^ p) = .ok rf ∧
      ∀ k, k < 2 ^ p → ri k = conj (rf k) := by
  obtain ⟨ri, hi1, hi2, _⟩ := IDFT1D_scalar_real cexp hexp p hp1 hp x out
  obtain ⟨rf, hf1, hf2, _⟩ :=
    DFT1D_scalar_real cexp hexp p hp1 hp (fun n => conj (x n)) out'
  refine ⟨ri, rf, hi1, hf1, ?_⟩
  intro k hk
  apply toComplex_injective
  rw [toComplex_conj, hi2 k hk, hf2 k hk, map_sum]
  apply Finset.sum_congr rfl
  intro n _
  rw [map_mul, conj_fwd_kernel, toComplex_conj, Complex.conj_conj]

theorem IDFT1D_scalar_eq_conj_DFT1D_scalar_witness :
    ∃ ri rf : Buf ℝ,
      IDFT1D_scalar Real.pi
        (fun z => ⟨Real.exp z.re * Real.cos z.im, Real.exp z.re * Real.sin z.im⟩)
        (fun n => ⟨n, 1⟩) (fun _ => 0) ((2 : Int) ^ 3) = .ok ri ∧
      DFT1D_scalar Real.pi
        (fun z => ⟨Real.exp z.re * Real.cos z.im, Real.exp z.re * Real.sin z.im⟩)
        (fun n => conj ((fun n : Nat => (⟨n, 1⟩ : complex64 ℝ)) n)) (fun _ => 0)
        ((2 : Int) ^ 3) = .ok rf ∧
      ∀ k, k < 2 ^ 3 → ri k = conj (rf k) :=
  IDFT1D_scalar_eq_conj_DFT1D_scalar
    (fun z => ⟨Real.exp z.re * Real.cos z.im, Real.exp z.re * Real.sin z.im⟩)
    (fun θ => by simp) 3 (by decide) (by decide) (fun n => ⟨n, 1⟩) (fun _ => 0) (fun _ => 0)

end claimsConjugation

section heightRangeLemmas

variable {K : Type} [LinearOrderedField K]

/-- The two loops of `GenerateOcean_height_range` are one loop over the cells. -/
theorem GenerateOcean_height_range_eq (sqrt : K → K) (Nx Ny : Int) (signal : Buf K)
    (h0 : Nat → K) :
    GenerateOcean_height_range sqrt Nx Ny signal h0 =
      Nat.fold (rangeStep (fun c => cabs sqrt (signal c))) (Ny.toNat * Nx.toNat)
        { min_value := ⊤, max_value := ⊥, height_map_data := h0 } := by
  refine (nested_forLoop_flat (fun y x (st : HeightRange K) =>
    rangeStep (fun c => cabs sqrt (signal c)) (y * Nx.toNat + x) st) Nx.toNat Ny.toNat
    { min_value := ⊤, max_value := ⊥, height_map_data := h0 }).trans ?_
  simp only [Nat.div_add_mod']

/-- The state of the height loop after `n + 1` cells: the running minimum and maximum
are finite, they bound the heights of the cells seen and are heights of such cells. -/
theorem rangeStep_fold (v : Nat → K) (h0 : Nat → K) (n : Nat) :
    ∃ mn mx : K,
      (Nat.fold (rangeStep v) (n + 1) ⟨⊤, ⊥, h0⟩).min_value = (mn : WithTop K) ∧
      (Nat.fold (rangeStep v) (n + 1) ⟨⊤, ⊥, h0⟩).max_value = (mx : WithBot K) ∧
      (∀ c, c < n + 1 → mn ≤ v c ∧ v c ≤ mx) ∧
      (∃ c, c < n + 1 ∧ v c = mn) ∧ (∃ c, c < n + 1 ∧ v c = mx) := by
  induction n with
  | zero =>
    refine ⟨v 0, v 0, ?_, ?_, ?_, ⟨0, by omega, rfl⟩, ⟨0, by omega, rfl⟩⟩
    · show (rangeStep v 0 ⟨⊤, ⊥, h0⟩).min_value = _
      unfold rangeStep
      simp only [WithTop.coe_lt_top, if_true, WithBot.bot_lt_coe]
    · show (rangeStep v 0 ⟨⊤, ⊥, h0⟩).max_value = _
      unfold rangeStep
      simp only [WithTop.coe_lt_top, if_true, WithBot.bot_lt_coe]
    · intro c hc
      have : c = 0 := by omega
      subst this
      exact ⟨le_refl _, le_refl _⟩
  | succ n ih =>
    obtain ⟨mn, mx, e1, e2, hb, ⟨c1, hc1, a1⟩, ⟨c2, hc2, a2⟩⟩ := ih
    rw [fold_succ']
    generalize Nat.fold (rangeStep v) (n + 1) ⟨⊤, ⊥, h0⟩ = st at e1 e2
    obtain ⟨smin, smax, sh⟩ := st
    dsimp only at e1 e2
    subst e1 e2
    refine ⟨min (v (n + 1)) mn, max (v (n + 1)) mx, ?_, ?_, ?_, ?_, ?_⟩
    · unfold rangeStep
      dsimp only
      by_cases h : v (n + 1) < mn
      · rw [if_pos (WithTop.coe_lt_coe.mpr h), min_eq_left (le_of_lt h)]
        split_ifs <;> rfl
      · rw [if_neg (fun hc => h (WithTop.coe_lt_coe.mp hc)), min_eq_right (not_lt.mp h)]
        split_ifs <;> rfl
    · unfold rangeStep
      dsimp only
      by_cases h : mx < v (n + 1)
      · have e : (if (↑(v (n + 1)) : WithTop K) < ↑mn then
            ({ min_value := ↑(v (n + 1)), max_value := ↑mx, height_map_data := sh } :
              HeightRange K)
            else { min_value := ↑mn, max_value := ↑mx, height_map_data := sh }).max_value =
            (mx : WithBot K) := by
          split_ifs <;> rfl
        rw [e, if_pos (WithBot.coe_lt_coe.mpr h), max_eq_left (le_of_lt h)]
      · have e : (if (↑(v (n + 1)) : WithTop K) < ↑mn then
            ({ min_value := ↑(v (n + 1)), max_value := ↑mx, height_map_data := sh } :
              HeightRange K)
            else { min_value := ↑mn, max_value := ↑mx, height_map_data := sh }).max_value =
            (mx : WithBot K) := by
          split_ifs <;> rfl
        rw [e, if_neg (fun hc => h (WithBot.coe_lt_coe.mp hc)), max_eq_right (not_lt.mp h)]
        split_ifs <;> rfl
    · intro c hc
      by_cases e : c = n + 1
      · subst e
        exact ⟨min_le_left _ _, le_max_left _ _⟩
      · obtain ⟨b1, b2⟩ := hb c (by omega)
        exact ⟨le_trans (min_le_right _ _) b1, le_trans b2 (le_max_right _ _)⟩
    · rcases min_choice (v (n + 1)) mn with h | h
      · exact ⟨n + 1, by omega, h.symm⟩
      · exact ⟨c1, by omega, by rw [h, a1]⟩
    · rcases max_choice (v (n + 1)) mx with h | h
      · exact ⟨n + 1, by omega, h.symm⟩
      · exact ⟨c2, by omega, by rw [h, a2]⟩

/-- The height map that the height loop leaves. -/
theorem rangeStep_fold_heights (v : Nat → K) (st : HeightRange K) (n : Nat) :
    (Nat.fold (rangeStep v) n st).height_map_data =
      fun j => if j < n then v j else st.height_map_data j := by
  induction n with
  | zero => funext j; simp [Nat.fold]
  | succ n ih =>
    rw [fold_succ']
    have e : ∀ s : HeightRange K, (rangeStep v n s).height_map_data =
        Function.update s.height_map_data n (v n) := by
      intro s
      unfold rangeStep
      dsimp only
      split_ifs <;> rfl
    rw [e, ih]
    funext j
    simp only [Function.update_apply]
    by_cases hj : j = n
    · subst hj; simp
    · by_cases hlt : j < n
      · have : j < n + 1 := by omega
        simp [hj, hlt, this]
      · have : ¬ j < n + 1 := by omega
        simp [hj, hlt, this]

end heightRangeLemmas

section heightRangeBounds

/-- The height loop on a grid of `Nx > 0` by `Ny > 0` cells and a signal of real and
imaginary parts that are numbers: the bounds it leaves are finite, they are the least and
the greatest of the heights `|signal[c]|`, and `0 ≤ min_value ≤ max_value`. -/
theorem height_range_bounds (Nx Ny : Int) (hx : 0 < Nx) (hy : 0 < Ny) (signal : Buf ℝ)
    (height_map_data : Nat → ℝ) :
    ∃ min_value max_value : ℝ,
      (GenerateOcean_height_range Real.sqrt Nx Ny signal height_map_data).min_value =
        (min_value : WithTop ℝ) ∧
      (GenerateOcean_height_range Real.sqrt Nx Ny signal height_map_data).max_value =
        (max_value : WithBot ℝ) ∧
      (∀ c, c < Ny.toNat * Nx.toNat →
        (GenerateOcean_height_range Real.sqrt Nx Ny signal height_map_data).height_map_data c =
          cabs Real.sqrt (signal c) ∧
        min_value ≤
          (GenerateOcean_height_range Real.sqrt Nx Ny signal height_map_data).height_map_data c ∧
        (GenerateOcean_height_range Real.sqrt Nx Ny signal height_map_data).height_map_data c ≤
          max_value) ∧
      (∃ c, c < Ny.toNat * Nx.toNat ∧
        (GenerateOcean_height_range Real.sqrt Nx Ny signal height_map_data).height_map_data c =
          min_value) ∧
      (∃ c, c < Ny.toNat * Nx.toNat ∧
        (GenerateOcean_height_range Real.sqrt Nx Ny signal height_map_data).height_map_data c =
          max_value) ∧
      0 ≤ min_value ∧ min_value ≤ max_value := by
  have hcells : 0 < Ny.toNat * Nx.toNat := Nat.mul_pos (by omega) (by omega)
  obtain ⟨n, hn⟩ : ∃ n, Ny.toNat * Nx.toNat = n + 1 := ⟨Ny.toNat * Nx.toNat - 1, by omega⟩
  rw [GenerateOcean_height_range_eq, hn]
  obtain ⟨mn, mx, e1, e2, hb, ⟨c1, hc1, a1⟩, ⟨c2, hc2, a2⟩⟩ :=
    rangeStep_fold (fun c => cabs Real.sqrt (signal c)) height_map_data n
  have hh : ∀ c, c < n + 1 →
      (Nat.fold (rangeStep (fun c => cabs Real.sqrt (signal c))) (n + 1)
        ⟨⊤, ⊥, height_map_data⟩).height_map_data c = cabs Real.sqrt (signal c) := by
    intro c hc
    rw [rangeStep_fold_heights]
    simp only [hc, if_true]
  refine ⟨mn, mx, e1, e2, ?_, ⟨c1, hc1, ?_⟩, ⟨c2, hc2, ?_⟩, ?_, ?_⟩
  · intro c hc
    rw [hh c hc]
    exact ⟨rfl, hb c hc⟩
  · rw [hh c1 hc1]
    exact a1
  · rw [hh c2 hc2]
    exact a2
  · rw [← a1]
    exact Real.sqrt_nonneg _
  · exact le_trans (hb 0 (by omega)).1 (hb 0 (by omega)).2

end heightRangeBounds

section subscripts

/-- An invariant of a counted loop: `Q` holds of every value of the counter, `I` of
every state. -/
theorem forLoopFuel_invariant {σ : Type} (I : σ → Prop) (Q : Nat → Prop)
    (body : Nat → σ → σ) (step stop : Nat) (hQ : ∀ t, Q t → Q (t + step))
    (hbody : ∀ t s, Q t → t < stop → I s → I (body t s)) :
    ∀ (fuel i : Nat) (s : σ), Q i → I s → I (forLoopFuel fuel i stop step body s) := by
  intro fuel
  induction fuel with
  | zero =>
    intro i s _ hs
    exact hs
  | succ fuel ih =>
    intro i s hi hs
    rw [forLoopFuel]
    by_cases h : i < stop
    · rw [if_pos h]
      exact ih (i + step) (body i s) (hQ i hi) (hbody i s hi h hs)
    · rw [if_neg h]
      exact hs

/-- The same for `forLoop`. -/
theorem forLoop_invariant {σ : Type} (I : σ → Prop) (Q : Nat → Prop)
    (body : Nat → σ → σ) (start stop step : Nat) (hQ : ∀ t, Q t → Q (t + step))
    (hbody : ∀ t s, Q t → t < stop → I s → I (body t s)) (s : σ) (h0 : Q start) (hs : I s) :
    I (forLoop start stop step body s) :=
  forLoopFuel_invariant I Q body step stop hQ hbody stop start s h0 hs

/-- A block of `m` cells that starts at a multiple of `m` below a multiple of `m`
ends at or below it. -/
theorem block_fits (m k N : Nat) (hk : m ∣ k) (hN : m ∣ N) (h : k < N) : k + m ≤ N := by
  obtain ⟨a, rfl⟩ := hk
  obtain ⟨b, rfl⟩ := hN
  have hab : a < b := by
    by_contra hc
    have : m * b ≤ m * a := Nat.mul_le_mul_left m (not_lt.mp hc)
    omega
  have : m * (a + 1) ≤ m * b := Nat.mul_le_mul_left m hab
  rw [Nat.mul_succ] at this
  exact this

/-- The list that a loop appends to holds what it held and what the iterations add. -/
theorem mem_fold_append {α : Type} (f : Nat → List α) (n : Nat) (acc : List α) (x : α) :
    x ∈ Nat.fold (fun t acc => acc ++ f t) n acc ↔ x ∈ acc ∨ ∃ t, t < n ∧ x ∈ f t := by
  induction n with
  | zero => simp [Nat.fold]
  | succ n ih =>
    rw [fold_succ', List.mem_append, ih]
    constructor
    · rintro ((h | ⟨t, ht, hx⟩) | h)
      · exact Or.inl h
      · exact Or.inr ⟨t, by omega, hx⟩
      · exact Or.inr ⟨n, by omega, h⟩
    · rintro (h | ⟨t, ht, hx⟩)
      · exact Or.inl (Or.inl h)
      · by_cases e : t = n
        · subst e
          exact Or.inr hx
        · exact Or.inl (Or.inr ⟨t, by omega, hx⟩)

/-- The list of the values `f 0, …, f (n - 1)` that a loop appends one by one. -/
theorem fold_append_map (f : Nat → Nat) (n : Nat) :
    Nat.fold (fun t acc => acc ++ [f t]) n [] = (List.range n).map f := by
  induction n with
  | zero => rfl
  | succ n ih => rw [fold_succ', ih, List.range_succ, List.map_append, List.map_singleton]

/-- The subscripts of the `m = 2` block of a transform of even size are below the size. -/
theorem stage2_subscripts_lt (N : Nat) (hN : 2 ∣ N) : ∀ x ∈ stage2_subscripts N, x < N := by
  unfold stage2_subscripts
  apply forLoop_invariant (fun acc : List Nat => ∀ x ∈ acc, x < N) (fun k => 2 ∣ k)
  · intro t ht
    omega
  · intro k acc hk hlt hacc x hx
    rw [List.mem_append] at hx
    rcases hx with hx | hx
    · exact hacc x hx
    · simp only [List.mem_cons, List.mem_singleton, List.not_mem_nil, or_false] at hx
      omega
  · exact Nat.dvd_zero 2
  · intro x hx
    exact absurd hx (List.not_mem_nil x)

/-- Every cell of a transform of even size is a subscript of the `m = 2` block. -/
theorem mem_stage2_subscripts (c x : Nat) (hx : x < c * 2) : x ∈ stage2_subscripts (c * 2) := by
  unfold stage2_subscripts
  rw [forLoop_eq_fold _ 2 c (by norm_num),
    mem_fold_append (fun t => [t * 2, t * 2 + 1, t * 2, t * 2 + 1])]
  refine Or.inr ⟨x / 2, by omega, ?_⟩
  simp only [List.mem_cons, List.mem_singleton, List.not_mem_nil, or_false]
  omega

/-- The subscripts of the `m = 4` block of a transform whose size is a multiple of `4`. -/
theorem stage4_subscripts_lt (N : Nat) (hN : 4 ∣ N) : ∀ x ∈ stage4_subscripts N, x < N := by
  unfold stage4_subscripts
  apply forLoop_invariant (fun acc : List Nat => ∀ x ∈ acc, x < N) (fun k => 4 ∣ k)
  · intro t ht
    omega
  · intro k acc hk hlt hacc x hx
    rw [List.mem_append] at hx
    rcases hx with hx | hx
    · exact hacc x hx
    · simp only [List.mem_cons, List.mem_singleton, List.not_mem_nil, or_false] at hx
      omega
  · exact Nat.dvd_zero 4
  · intro x hx
    exact absurd hx (List.not_mem_nil x)

/-- The subscripts of a general stage of the scalar transforms, for an even stage size
that divides the size of the transform. -/
theorem scalarStage_subscripts_lt (m N : Nat) (hm : 2 ∣ m) (hN : m ∣ N) :
    ∀ x ∈ scalarStage_subscripts m N, x < N := by
  unfold scalarStage_subscripts
  apply forLoop_invariant (fun acc : List Nat => ∀ x ∈ acc, x < N) (fun k => m ∣ k)
  · intro t ht
    exact Dvd.dvd.add ht (dvd_refl m)
  · intro k acc hk hlt hacc
    have hfit := block_fits m k N hk hN hlt
    apply forLoop_invariant (fun acc : List Nat => ∀ x ∈ acc, x < N) (fun _ => True)
    · intro _ _
      trivial
    · intro j acc _ hj hacc x hx
      rw [List.mem_append] at hx
      rcases hx with hx | hx
      · exact hacc x hx
      · simp only [List.mem_cons, List.mem_singleton, List.not_mem_nil, or_false] at hx
        omega
    · trivial
    · exact hacc
  · exact Nat.dvd_zero m
  · intro x hx
    exact absurd hx (List.not_mem_nil x)

/-- The subscripts of a general stage of the SSE transforms, for a stage size that is a
multiple of `4` and divides the size of the transform. -/
theorem sseStage_subscripts_lt (m N : Nat) (hm : 4 ∣ m) (hN : m ∣ N) :
    ∀ x ∈ sseStage_subscripts m N, x < N := by
  unfold sseStage_subscripts
  apply forLoop_invariant (fun acc : List Nat => ∀ x ∈ acc, x < N) (fun k => m ∣ k)
  · intro t ht
    exact Dvd.dvd.add ht (dvd_refl m)
  · intro k acc hk hlt hacc
    have hfit := block_fits m k N hk hN hlt
    apply forLoop_invariant (fun acc : List Nat => ∀ x ∈ acc, x < N) (fun j => 2 ∣ j)
    · intro t ht
      omega
    · intro j acc hj2 hj hacc x hx
      rw [List.mem_append] at hx
      rcases hx with hx | hx
      · exact hacc x hx
      · simp only [List.mem_cons, List.mem_singleton, List.not_mem_nil, or_false] at hx
        omega
    · exact Nat.dvd_zero 2
    · exact hacc
  · exact Nat.dvd_zero m
  · intro x hx
    exact absurd hx (List.not_mem_nil x)

/-- The butterfly stages of a transform of size `2^p` as a loop over the three kinds of
stage. -/
theorem stages_subscripts_eq (sse : Bool) (p : Nat) (hp1 : 1 ≤ p) (hp : p ≤ 30) :
    stages_subscripts sse ((2 : Int) ^ p) =
      forLoop 3 (p + 1) 1 (fun s acc =>
        acc ++ (if sse then sseStage_subscripts (1 <<< s) (2 ^ p)
          else scalarStage_subscripts (1 <<< s) (2 ^ p)))
        (if 2 ≤ p then stage2_subscripts (2 ^ p) ++ stage4_subscripts (2 ^ p)
          else stage2_subscripts (2 ^ p)) := by
  unfold stages_subscripts
  rw [toUnsigned_two_pow p (by omega), GetPowerOf2_two_pow p (by omega), two_pow_toNat]
  have e1 : ((p : Int) ≥ 1) := by omega
  have e3 : ((p : Int) + 1).toNat = p + 1 := by omega
  simp only [e1, if_true, e3]
  by_cases h2 : 2 ≤ p
  · have e2 : ((p : Int) ≥ 2) := by omega
    simp only [e2, h2, if_true]
  · have e2 : ¬ ((p : Int) ≥ 2) := by omega
    simp only [e2, h2, if_false]

/-- The subscripts of the butterfly stages of a transform of size `2^p` are the cells
below `2^p`. -/
theorem mem_stages_subscripts (sse : Bool) (p : Nat) (hp1 : 1 ≤ p) (hp : p ≤ 30) (x : Nat) :
    x ∈ stages_subscripts sse ((2 : Int) ^ p) ↔ x < 2 ^ p := by
  rw [stages_subscripts_eq sse p hp1 hp]
  have hdvd : ∀ s, s ≤ p → 2 ^ s ∣ 2 ^ p := fun s hs => pow_dvd_pow 2 hs
  have h2 : (2 : Nat) ∣ 2 ^ p := by
    have := hdvd 1 hp1
    simpa using this
  have hstart : ∀ y ∈ (if 2 ≤ p then stage2_subscripts (2 ^ p) ++ stage4_subscripts (2 ^ p)
      else stage2_subscripts (2 ^ p)), y < 2 ^ p := by
    intro y hy
    by_cases hp2 : 2 ≤ p
    · rw [if_pos hp2, List.mem_append] at hy
      have h4 : (4 : Nat) ∣ 2 ^ p := by
        have := hdvd 2 hp2
        simpa using this
      rcases hy with hy | hy
      · exact stage2_subscripts_lt _ h2 y hy
      · exact stage4_subscripts_lt _ h4 y hy
    · rw [if_neg hp2] at hy
      exact stage2_subscripts_lt _ h2 y hy
  constructor
  · revert x
    apply forLoop_invariant (fun acc : List Nat => ∀ x ∈ acc, x < 2 ^ p) (fun s => 3 ≤ s)
    · intro t ht
      omega
    · intro s acc hs3 hsp hacc x hx
      rw [List.mem_append] at hx
      rcases hx with hx | hx
      · exact hacc x hx
      · rw [shl_one] at hx
        have hm : 2 ^ s ∣ 2 ^ p := hdvd s (by omega)
        have h4 : (4 : Nat) ∣ 2 ^ s := by
          have : (2 : Nat) ^ 2 ∣ 2 ^ s := pow_dvd_pow 2 (by omega)
          simpa using this
        cases sse
        · simp only [Bool.false_eq_true, if_false] at hx
          exact scalarStage_subscripts_lt _ _ (Dvd.dvd.trans (by norm_num) h4) hm x hx
        · simp only [if_true] at hx
          exact sseStage_subscripts_lt _ _ h4 hm x hx
    · exact le_refl 3
    · exact hstart
  · intro hx
    apply forLoop_invariant (fun acc : List Nat => x ∈ acc) (fun _ => True)
    · intro _ _
      trivial
    · intro s acc _ _ hacc
      exact List.mem_append_left _ hacc
    · trivial
    · have hmem : x ∈ stage2_subscripts (2 ^ p) := by
        obtain ⟨q, rfl⟩ : ∃ q, p = q + 1 := ⟨p - 1, by omega⟩
        rw [pow_succ] at hx ⊢
        exact mem_stage2_subscripts _ x hx
      by_cases hp2 : 2 ≤ p
      · rw [if_pos hp2]
        exact List.mem_append_left _ hmem
      · rw [if_neg hp2]
        exact hmem

/-- The subscripts written by the bit-reversal loop, in the order of the loop. -/
theorem bitReverseCopy_subscripts_eq (N : Nat) (p : Int) :
    bitReverseCopy_subscripts N p = (List.range N).map (fun i => BitReverse i p) := by
  unfold bitReverseCopy_subscripts
  have e := forLoop_eq_fold (fun i (acc : List Nat) => acc ++ [BitReverse i p]) 1 N
    (by norm_num) []
  simp only [mul_one] at e
  rw [e]
  exact fold_append_map (fun i => BitReverse i p) N

/-- The bit-reversal loop writes every cell below `2^p` exactly once. -/
theorem bitReverseCopy_subscripts_perm (p : Nat) (hp : p ≤ 32) :
    (bitReverseCopy_subscripts (2 ^ p) (p : Int)).Perm (List.range (2 ^ p)) := by
  rw [bitReverseCopy_subscripts_eq]
  have hnd : ((List.range (2 ^ p)).map (fun i => BitReverse i (p : Int))).Nodup := by
    apply List.Nodup.map_on _ (List.nodup_range _)
    intro a ha b hb h
    exact BitReverse_inj p a b hp (List.mem_range.mp ha) (List.mem_range.mp hb) h
  rw [List.perm_ext_iff_of_nodup hnd (List.nodup_range _)]
  intro j
  rw [List.mem_map, List.mem_range]
  constructor
  · rintro ⟨i, _, rfl⟩
    exact BitReverse_lt i p hp
  · intro hj
    exact ⟨BitReverse j (p : Int), List.mem_range.mpr (BitReverse_lt j p hp),
      BitReverse_invol j p hp hj⟩

end subscripts

section claimsSubscripts

/-- C32: index safety of the 1D transforms.  For every `N = 2^p` with `1 ≤ p ≤ 30`:
`GetPowerOf2(N) = p`; the shift amount `32 - p` of `BitReverse` lies in `[2, 31]`;
`BitReverse(i, p) < N` for every `i < N`; the subscripts of `out` in the butterfly
stages of the scalar and of the SSE variants are exactly the cells below `N`;
`BitReverse(., p)` is a bijection on `[0, N)`; and the first loop writes every cell of
`out` below `N` exactly once, cell `j` receiving `in[BitReverse(j, p)]`. -/
theorem transform_index_safety (p : Nat) (hp1 : 1 ≤ p) (hp : p ≤ 30) :
    GetPowerOf2 (toUnsigned ((2 : Int) ^ p)) = (p : Int) ∧
    (2 ≤ 32 - GetPowerOf2 (toUnsigned ((2 : Int) ^ p)) ∧
      32 - GetPowerOf2 (toUnsigned ((2 : Int) ^ p)) ≤ 31) ∧
    (∀ i, i < 2 ^ p → BitReverse i (GetPowerOf2 (toUnsigned ((2 : Int) ^ p))) < 2 ^ p) ∧
    (∀ (sse : Bool) (i : Nat), i ∈ stages_subscripts sse ((2 : Int) ^ p) ↔ i < 2 ^ p) ∧
    (∀ j, j < 2 ^ p → ∃! i, i < 2 ^ p ∧ BitReverse i (p : Int) = j) ∧
    (bitReverseCopy_subscripts (2 ^ p) (p : Int)).Perm (List.range (2 ^ p)) ∧
    (∀ (K : Type) [Field K] (inp out : Buf K) (j : Nat), j < 2 ^ p →
      bitReverseCopy inp out (2 ^ p) (p : Int) j = inp (BitReverse j (p : Int))) := by
  have hg : GetPowerOf2 (toUnsigned ((2 : Int) ^ p)) = (p : Int) := by
    rw [toUnsigned_two_pow p (by omega), GetPowerOf2_two_pow p (by omega)]
  refine ⟨hg, ?_, ?_, ?_, ?_, ?_, ?_⟩
  · rw [hg]
    omega
  · intro i _
    rw [hg]
    exact BitReverse_lt i p (by omega)
  · intro sse i
    exact mem_stages_subscripts sse p hp1 hp i
  · intro j hj
    refine ⟨BitReverse j (p : Int), ⟨BitReverse_lt j p (by omega),
      BitReverse_invol j p (by omega) hj⟩, ?_⟩
    rintro i ⟨hi, rfl⟩
    exact (BitReverse_invol i p (by omega) hi).symm
  · exact bitReverseCopy_subscripts_perm p (by omega)
  · intro K _ inp out j hj
    have h := (bitReverseCopy_spec inp out p (by omega)).1 (BitReverse j (p : Int))
      (BitReverse_lt j p (by omega))
    rw [BitReverse_invol j p (by omega) hj] at h
    exact h

theorem transform_index_safety_witness :
    GetPowerOf2 (toUnsigned ((2 : Int) ^ 30)) = ((30 : Nat) : Int) ∧
    (∀ (sse : Bool) (i : Nat), i ∈ stages_subscripts sse ((2 : Int) ^ 30) ↔ i < 2 ^ 30) :=
  let h := transform_index_safety 30 (by decide) (by decide)
  ⟨h.1, h.2.2.2.1⟩

end claimsSubscripts

section zeroFrequency

/-- The value of the loop body of `GenerateOceanSpectrum` at the cell `(0, 0)`: both
`Ph` factors vanish there. -/
theorem spectrumCell_origin (exp : ℝ → ℝ) (cexp : complex64 ℝ → complex64 ℝ)
    (Lx Ly Vx Vy A l t : ℝ) (z_a z_b : complex64 ℝ) :
    spectrumCell Real.pi Real.sqrt exp cexp Lx Ly Vx Vy A l t 0 0 z_a z_b = 0 := by
  have hP : ∀ kx ky : ℝ, kx = 0 → ky = 0 → Ph Real.sqrt exp kx ky Vx Vy A l = 0 := by
    intro kx ky hx hy
    subst hx hy
    unfold Ph
    simp
  have hz : ∀ z : complex64 ℝ, scale (ONE_OVER_SQRT_2 * Real.sqrt 0) z = 0 := by
    intro z
    unfold scale
    rw [Real.sqrt_zero, mul_zero, zero_mul, zero_mul]
    rfl
  have hc : conj (0 : complex64 ℝ) = 0 := by
    apply complex64.ext
    · rfl
    · show -(0 : ℝ) = 0
      exact neg_zero
  unfold spectrumCell
  simp only []
  rw [hP _ _ (by simp) (by simp), hP _ _ (by simp) (by simp), hz, hz, hc, zero_mul, zero_mul,
    add_zero]

/-- The sum of the inverse kernel over the outputs: `2^p` at the bin `0`, `0` at the
other bins. -/
theorem sum_inv_kernel (p n : Nat) (hn : n < 2 ^ p) :
    ∑ k ∈ Finset.range (2 ^ p), Complex.exp (Complex.I * 2 * Real.pi * n * k / (2 : ℂ) ^ p) =
      if n = 0 then (2 : ℂ) ^ p else 0 := by
  have h := orth_exp p n 0 hn (by positivity)
  have e : ∀ k ∈ Finset.range (2 ^ p),
      Complex.exp (Complex.I * 2 * Real.pi * n * k / (2 : ℂ) ^ p) =
        Complex.exp (Complex.I * 2 * Real.pi * k * n / (2 : ℂ) ^ p) *
          Complex.exp (-(Complex.I * 2 * Real.pi * k * ((0 : Nat) : ℂ) / (2 : ℂ) ^ p)) := by
    intro k _
    have e0 : -(Complex.I * 2 * Real.pi * k * ((0 : Nat) : ℂ) / (2 : ℂ) ^ p) = 0 := by simp
    rw [e0, Complex.exp_zero, mul_one]
    congr 1
    ring
  rw [Finset.sum_congr rfl e, h]
  by_cases h0 : n = 0
  · rw [if_pos h0.symm, if_pos h0]
  · rw [if_neg (fun hc => h0 hc.symm), if_neg h0]

/-- The sum over the grid of an inverse 2D transform is the cell count times the
zero-frequency cell of its input. -/
theorem grid_total (p1 p2 : Nat) (a : Nat → ℂ) :
    ∑ k1 ∈ Finset.range (2 ^ p1), ∑ k2 ∈ Finset.range (2 ^ p2),
      ∑ n1 ∈ Finset.range (2 ^ p1),
        (∑ n2 ∈ Finset.range (2 ^ p2), a (n1 * 2 ^ p2 + n2) *
          Complex.exp (Complex.I * 2 * Real.pi * n2 * k2 / (2 : ℂ) ^ p2)) *
          Complex.exp (Complex.I * 2 * Real.pi * n1 * k1 / (2 : ℂ) ^ p1) =
      (2 : ℂ) ^ p1 * (2 : ℂ) ^ p2 * a 0 := by
  have hpos1 : 0 < 2 ^ p1 := by positivity
  have hpos2 : 0 < 2 ^ p2 := by positivity
  have inner : ∀ n1 : Nat, ∑ k2 ∈ Finset.range (2 ^ p2),
      ∑ n2 ∈ Finset.range (2 ^ p2), a (n1 * 2 ^ p2 + n2) *
        Complex.exp (Complex.I * 2 * Real.pi * n2 * k2 / (2 : ℂ) ^ p2) =
      a (n1 * 2 ^ p2) * (2 : ℂ) ^ p2 := by
    intro n1
    rw [Finset.sum_comm]
    have e : ∀ n2 ∈ Finset.range (2 ^ p2), ∑ k2 ∈ Finset.range (2 ^ p2),
        a (n1 * 2 ^ p2 + n2) *
          Complex.exp (Complex.I * 2 * Real.pi * n2 * k2 / (2 : ℂ) ^ p2) =
        a (n1 * 2 ^ p2 + n2) * (if n2 = 0 then (2 : ℂ) ^ p2 else 0) := by
      intro n2 hn2
      rw [← Finset.mul_sum, sum_inv_kernel p2 n2 (Finset.mem_range.mp hn2)]
    rw [Finset.sum_congr rfl e, Finset.sum_eq_single 0]
    · simp
    · intro n2 _ hne
      rw [if_neg hne, mul_zero]
    · intro h
      exact absurd (Finset.mem_range.mpr hpos2) h
  have row : ∀ k1 : Nat, ∑ k2 ∈ Finset.range (2 ^ p2),
      ∑ n1 ∈ Finset.range (2 ^ p1),
        (∑ n2 ∈ Finset.range (2 ^ p2), a (n1 * 2 ^ p2 + n2) *
          Complex.exp (Complex.I * 2 * Real.pi * n2 * k2 / (2 : ℂ) ^ p2)) *
          Complex.exp (Complex.I * 2 * Real.pi * n1 * k1 / (2 : ℂ) ^ p1) =
      ∑ n1 ∈ Finset.range (2 ^ p1), (a (n1 * 2 ^ p2) * (2 : ℂ) ^ p2) *
        Complex.exp (Complex.I * 2 * Real.pi * n1 * k1 / (2 : ℂ) ^ p1) := by
    intro k1
    rw [Finset.sum_comm]
    apply Finset.sum_congr rfl
    intro n1 _
    rw [← Finset.sum_mul, inner n1]
  rw [Finset.sum_congr rfl (fun k1 _ => row k1), Finset.sum_comm]
  have e : ∀ n1 ∈ Finset.range (2 ^ p1), ∑ k1 ∈ Finset.range (2 ^ p1),
      (a (n1 * 2 ^ p2) * (2 : ℂ) ^ p2) *
        Complex.exp (Complex.I * 2 * Real.pi * n1 * k1 / (2 : ℂ) ^ p1) =
      (a (n1 * 2 ^ p2) * (2 : ℂ) ^ p2) * (if n1 = 0 then (2 : ℂ) ^ p1 else 0) := by
    intro n1 hn1
    rw [← Finset.mul_sum, sum_inv_kernel p1 n1 (Finset.mem_range.mp hn1)]
  rw [Finset.sum_congr rfl e, Finset.sum_eq_single 0]
  · simp
    ring
  · intro n1 _ hne
    rw [if_neg hne, mul_zero]
  · intro h
    exact absurd (Finset.mem_range.mpr hpos1) h

end zeroFrequency

section hermitian

theorem negBin_lt (N k : Nat) (hN : 0 < N) : negBin N k < N := Nat.mod_lt _ hN

theorem negBin_zero (N : Nat) : negBin N 0 = 0 := by
  unfold negBin
  rw [Nat.sub_zero, Nat.mod_self]

theorem negBin_pos (N k : Nat) (hk : 0 < k) (hlt : k < N) : negBin N k = N - k := by
  unfold negBin
  exact Nat.mod_eq_of_lt (by omega)

theorem negBin_invol (N k : Nat) (hlt : k < N) : negBin N (negBin N k) = k := by
  rcases Nat.eq_zero_or_pos k with rfl | hk
  · rw [negBin_zero, negBin_zero]
  · rw [negBin_pos N k hk hlt, negBin_pos N (N - k) (by omega) (by omega)]
    omega

/-- A sum over the bins is the sum over the opposite bins. -/
theorem sum_negBin (N : Nat) (f : Nat → ℂ) :
    ∑ k ∈ Finset.range N, f k = ∑ k ∈ Finset.range N, f (negBin N k) := by
  apply Finset.sum_nbij' (negBin N) (negBin N)
  · intro a ha
    exact Finset.mem_range.mpr (negBin_lt N a (by have := Finset.mem_range.mp ha; omega))
  · intro a ha
    exact Finset.mem_range.mpr (negBin_lt N a (by have := Finset.mem_range.mp ha; omega))
  · intro a ha
    exact negBin_invol N a (Finset.mem_range.mp ha)
  · intro a ha
    exact negBin_invol N a (Finset.mem_range.mp ha)
  · intro a ha
    rw [negBin_invol N a (Finset.mem_range.mp ha)]

/-- The inverse kernel at the opposite bin is the forward kernel. -/
theorem kernel_negBin (p n k : Nat) (hk : k < 2 ^ p) :
    Complex.exp (Complex.I * 2 * Real.pi * n * (negBin (2 ^ p) k : Nat) / (2 : ℂ) ^ p) =
      Complex.exp (-(Complex.I * 2 * Real.pi * n * k / (2 : ℂ) ^ p)) := by
  rcases Nat.eq_zero_or_pos k with rfl | hpos
  · rw [negBin_zero]
    simp
  · rw [negBin_pos _ k hpos hk]
    exact exp_wrap p k n (le_of_lt hk)

/-- The same with the bin in the first place. -/
theorem kernel_negBin_left (p n k : Nat) (hk : k < 2 ^ p) :
    Complex.exp (Complex.I * 2 * Real.pi * (negBin (2 ^ p) k : Nat) * n / (2 : ℂ) ^ p) =
      Complex.exp (-(Complex.I * 2 * Real.pi * k * n / (2 : ℂ) ^ p)) := by
  have h := kernel_negBin p n k hk
  have e1 : Complex.I * 2 * Real.pi * (negBin (2 ^ p) k : Nat) * n / (2 : ℂ) ^ p =
      Complex.I * 2 * Real.pi * n * (negBin (2 ^ p) k : Nat) / (2 : ℂ) ^ p := by ring
  have e2 : Complex.I * 2 * Real.pi * k * n / (2 : ℂ) ^ p =
      Complex.I * 2 * Real.pi * n * k / (2 : ℂ) ^ p := by ring
  rw [e1, e2, h]

/-- The forward kernel at the opposite bin is the inverse kernel. -/
theorem fwd_kernel_negBin (p n k : Nat) (hk : k < 2 ^ p) :
    Complex.exp (-(Complex.I * 2 * Real.pi * n * (negBin (2 ^ p) k : Nat) / (2 : ℂ) ^ p)) =
      Complex.exp (Complex.I * 2 * Real.pi * n * k / (2 : ℂ) ^ p) := by
  rw [Complex.exp_neg, kernel_negBin p n k hk, Complex.exp_neg, inv_inv]

/-- The conjugate of the inverse kernel is the forward kernel. -/
theorem conj_inv_kernel (p n k : Nat) :
    (starRingEnd ℂ) (Complex.exp (Complex.I * 2 * Real.pi * n * k / (2 : ℂ) ^ p)) =
      Complex.exp (-(Complex.I * 2 * Real.pi * n * k / (2 : ℂ) ^ p)) := by
  rw [← Complex.exp_conj]
  congr 1
  simp only [map_neg, map_div₀, map_mul, map_pow, Complex.conj_I, Complex.conj_ofReal,
    Complex.conj_natCast, map_ofNat]
  ring

/-- The wavenumber of the opposite bin is the opposite wavenumber; the bins `0` and
`N/2` are their own opposites and have the wavenumber `0`. -/
theorem wavenumber_negBin (p j : Nat) (hp : 1 ≤ p) (hj : j < 2 ^ p) (L : ℝ) :
    wavenumber Real.pi (negBin (2 ^ p) j) ((2 : Int) ^ p) L =
      -wavenumber Real.pi j ((2 : Int) ^ p) L := by
  obtain ⟨q, rfl⟩ : ∃ q, p = q + 1 := ⟨p - 1, by omega⟩
  have heven : (2 : Int) ^ (q + 1) = 2 * 2 ^ q := by ring
  have hevenN : (2 : Nat) ^ (q + 1) = 2 * 2 ^ q := by ring
  have hqpos : (0 : Int) < 2 ^ q := by positivity
  have hjI : (j : Int) < (2 : Int) ^ (q + 1) := by exact_mod_cast hj
  have hN : (0 : Int) ≤ (2 : Int) ^ (q + 1) := by positivity
  obtain ⟨a1, a2, a3⟩ := wavenumber_eq Real.pi j ((2 : Int) ^ (q + 1)) L hN
  obtain ⟨b1, b2, b3⟩ :=
    wavenumber_eq Real.pi (negBin (2 ^ (q + 1)) j) ((2 : Int) ^ (q + 1)) L hN
  rcases Nat.eq_zero_or_pos j with rfl | hpos
  · rw [negBin_zero, a1 (by push_cast; omega)]
    simp
  · have hneg := negBin_pos _ j hpos hj
    have hsub : ((2 ^ (q + 1) - j : Nat) : Int) = (2 : Int) ^ (q + 1) - (j : Int) := by
      rw [Nat.cast_sub (by omega)]
      push_cast
      rfl
    have hsubR : ((2 ^ (q + 1) - j : Nat) : ℝ) = (2 : ℝ) ^ (q + 1) - (j : ℝ) := by
      rw [Nat.cast_sub (by omega)]
      push_cast
      rfl
    rw [hneg] at b1 b2 b3 ⊢
    rw [hsub] at b1 b2 b3
    rcases lt_trichotomy (j : Int) ((2 : Int) ^ (q + 1) / 2) with h | h | h
    · rw [a1 h, b2 (by omega), hsubR]
      push_cast
      ring
    · rw [a3 h, b3 (by omega)]
      simp
    · rw [a2 h, b1 (by omega), hsubR]
      push_cast
      ring

/-- The spectrum of a real grid is Hermitian-symmetric. -/
theorem spectrum_hermitian (p1 p2 : Nat) (a : Nat → ℂ)
    (ha : ∀ j, (starRingEnd ℂ) (a j) = a j) (k1 k2 : Nat) (hk1 : k1 < 2 ^ p1)
    (hk2 : k2 < 2 ^ p2) :
    ∑ n1 ∈ Finset.range (2 ^ p1),
        (∑ n2 ∈ Finset.range (2 ^ p2), a (n1 * 2 ^ p2 + n2) *
          Complex.exp (-(Complex.I * 2 * Real.pi * n2 * (negBin (2 ^ p2) k2 : Nat) /
            (2 : ℂ) ^ p2))) *
          Complex.exp (-(Complex.I * 2 * Real.pi * n1 * (negBin (2 ^ p1) k1 : Nat) /
            (2 : ℂ) ^ p1)) =
      (starRingEnd ℂ) (∑ n1 ∈ Finset.range (2 ^ p1),
        (∑ n2 ∈ Finset.range (2 ^ p2), a (n1 * 2 ^ p2 + n2) *
          Complex.exp (-(Complex.I * 2 * Real.pi * n2 * k2 / (2 : ℂ) ^ p2))) *
          Complex.exp (-(Complex.I * 2 * Real.pi * n1 * k1 / (2 : ℂ) ^ p1))) := by
  rw [map_sum]
  apply Finset.sum_congr rfl
  intro n1 _
  rw [map_mul, map_sum, conj_fwd_kernel, fwd_kernel_negBin p1 n1 k1 hk1]
  congr 1
  apply Finset.sum_congr rfl
  intro n2 _
  rw [map_mul, ha, conj_fwd_kernel, fwd_kernel_negBin p2 n2 k2 hk2]

/-- The inverse transform of a Hermitian-symmetric spectrum is its own conjugate. -/
theorem inverse_of_hermitian (p1 p2 : Nat) (F : Nat → ℂ)
    (hF : ∀ k1, k1 < 2 ^ p1 → ∀ k2, k2 < 2 ^ p2 →
      F (negBin (2 ^ p1) k1 * 2 ^ p2 + negBin (2 ^ p2) k2) =
        (starRingEnd ℂ) (F (k1 * 2 ^ p2 + k2)))
    (x y : Nat) :
    (starRingEnd ℂ) (∑ k1 ∈ Finset.range (2 ^ p1),
        (∑ k2 ∈ Finset.range (2 ^ p2), F (k1 * 2 ^ p2 + k2) *
          Complex.exp (Complex.I * 2 * Real.pi * k2 * x / (2 : ℂ) ^ p2)) *
          Complex.exp (Complex.I * 2 * Real.pi * k1 * y / (2 : ℂ) ^ p1)) =
      ∑ k1 ∈ Finset.range (2 ^ p1),
        (∑ k2 ∈ Finset.range (2 ^ p2), F (k1 * 2 ^ p2 + k2) *
          Complex.exp (Complex.I * 2 * Real.pi * k2 * x / (2 : ℂ) ^ p2)) *
          Complex.exp (Complex.I * 2 * Real.pi * k1 * y / (2 : ℂ) ^ p1) := by
  rw [map_sum, sum_negBin (2 ^ p1) (fun k1 =>
    (∑ k2 ∈ Finset.range (2 ^ p2), F (k1 * 2 ^ p2 + k2) *
      Complex.exp (Complex.I * 2 * Real.pi * k2 * x / (2 : ℂ) ^ p2)) *
      Complex.exp (Complex.I * 2 * Real.pi * k1 * y / (2 : ℂ) ^ p1))]
  apply Finset.sum_congr rfl
  intro k1 hk1
  have hk1' := Finset.mem_range.mp hk1
  rw [map_mul, map_sum, conj_inv_kernel, kernel_negBin_left p1 y k1 hk1',
    sum_negBin (2 ^ p2) (fun k2 => F (negBin (2 ^ p1) k1 * 2 ^ p2 + k2) *
      Complex.exp (Complex.I * 2 * Real.pi * k2 * x / (2 : ℂ) ^ p2))]
  congr 1
  apply Finset.sum_congr rfl
  intro k2 hk2
  have hk2' := Finset.mem_range.mp hk2
  rw [map_mul, conj_inv_kernel, kernel_negBin_left p2 x k2 hk2', hF k1 hk1' k2 hk2']

/-- A differentiated spectrum `i * k * H` with `H` Hermitian-symmetric, a real scaling
`c` and an odd real wavenumber `k` is Hermitian-symmetric. -/
theorem grad_hermitian (s s' : ℂ) (c w w' : ℝ) (hs : s' = (starRingEnd ℂ) s) (hw : w' = -w) :
    s' / (c : ℂ) * (w' : ℂ) * Complex.I =
      (starRingEnd ℂ) (s / (c : ℂ) * (w : ℂ) * Complex.I) := by
  rw [hs, hw, map_mul, map_mul, map_div₀, Complex.conj_I, Complex.conj_ofReal,
    Complex.conj_ofReal]
  push_cast
  ring

end hermitian

section hermitianCode

/-- The wavenumber of the bin `0` and of the Nyquist bin `N/2` is `0`. -/
theorem wavenumber_zero_nyquist (p : Nat) (hp : 1 ≤ p) (L : ℝ) :
    wavenumber Real.pi 0 ((2 : Int) ^ p) L = 0 ∧
      wavenumber Real.pi (2 ^ p / 2) ((2 : Int) ^ p) L = 0 := by
  obtain ⟨q, rfl⟩ : ∃ q, p = q + 1 := ⟨p - 1, by omega⟩
  have heven : (2 : Int) ^ (q + 1) = 2 * 2 ^ q := by ring
  have hevenN : (2 : Nat) ^ (q + 1) / 2 = 2 ^ q := by
    rw [pow_succ, Nat.mul_div_cancel _ (by norm_num)]
  have hqpos : (0 : Int) < 2 ^ q := by positivity
  have hN : (0 : Int) ≤ (2 : Int) ^ (q + 1) := by positivity
  obtain ⟨a1, -, -⟩ := wavenumber_eq Real.pi 0 ((2 : Int) ^ (q + 1)) L hN
  obtain ⟨-, -, b3⟩ := wavenumber_eq Real.pi (2 ^ (q + 1) / 2) ((2 : Int) ^ (q + 1)) L hN
  refine ⟨?_, ?_⟩
  · rw [a1 (by push_cast; omega)]
    simp
  · apply b3
    rw [hevenN]
    push_cast
    omega

/-- A sample with imaginary part `0` is its own conjugate. -/
theorem conj_real_sample (z : complex64 ℝ) (hz : z.im = 0) :
    (starRingEnd ℂ) (toComplex z) = toComplex z :=
  Complex.conj_eq_iff_im.mpr hz

/-- The spectrum that the spectral branch computes from a real grid is
Hermitian-symmetric. -/
theorem code_spectrum_hermitian (p1 p2 : Nat) (inp S : Buf ℝ) (hinp : ∀ j, (inp j).im = 0)
    (fS : ∀ k1, k1 < 2 ^ p1 → ∀ k2, k2 < 2 ^ p2 →
      toComplex (S (k1 * 2 ^ p2 + k2)) =
        ∑ n1 ∈ Finset.range (2 ^ p1),
          (∑ n2 ∈ Finset.range (2 ^ p2), toComplex (inp (n1 * 2 ^ p2 + n2)) *
            Complex.exp (-(Complex.I * 2 * Real.pi * n2 * k2 / (2 : ℂ) ^ p2))) *
            Complex.exp (-(Complex.I * 2 * Real.pi * n1 * k1 / (2 : ℂ) ^ p1)))
    (k1 k2 : Nat) (hk1 : k1 < 2 ^ p1) (hk2 : k2 < 2 ^ p2) :
    toComplex (S (negBin (2 ^ p1) k1 * 2 ^ p2 + negBin (2 ^ p2) k2)) =
      (starRingEnd ℂ) (toComplex (S (k1 * 2 ^ p2 + k2))) := by
  rw [fS _ (negBin_lt _ k1 (by positivity)) _ (negBin_lt _ k2 (by positivity)),
    fS k1 hk1 k2 hk2]
  exact spectrum_hermitian p1 p2 (fun j => toComplex (inp j))
    (fun j => conj_real_sample _ (hinp j)) k1 k2 hk1 hk2

/-- A cell of an inverse 2D transform of a Hermitian-symmetric spectrum has imaginary
part `0`. -/
theorem code_inverse_real (p1 p2 : Nat) (G R : Buf ℝ)
    (hG : ∀ k1, k1 < 2 ^ p1 → ∀ k2, k2 < 2 ^ p2 →
      toComplex (G (negBin (2 ^ p1) k1 * 2 ^ p2 + negBin (2 ^ p2) k2)) =
        (starRingEnd ℂ) (toComplex (G (k1 * 2 ^ p2 + k2))))
    (x y : Nat)
    (fR : toComplex (R (y * 2 ^ p2 + x)) =
      ∑ k1 ∈ Finset.range (2 ^ p1),
        (∑ k2 ∈ Finset.range (2 ^ p2), toComplex (G (k1 * 2 ^ p2 + k2)) *
          Complex.exp (Complex.I * 2 * Real.pi * k2 * x / (2 : ℂ) ^ p2)) *
          Complex.exp (Complex.I * 2 * Real.pi * k1 * y / (2 : ℂ) ^ p1)) :
    (R (y * 2 ^ p2 + x)).im = 0 := by
  have h := inverse_of_hermitian p1 p2 (fun j => toComplex (G j)) hG x y
  rw [← fR] at h
  exact Complex.conj_eq_iff_im.mp h

end hermitianCode

section claimsHermitian

/-- C34: taking the real part in spectral-differentiation mode discards nothing.  On a
grid of `Nx = 2^p2` by `Ny = 2^p1` cells (the cell count an `int`), in exact arithmetic
the branch returns, and the inverse transforms `grad_signal_x` and `grad_signal_y` of
`G_x = i*kx*H` and `G_y = i*ky*H`, with `H = DFT2D(height)/(Nx*Ny)` and the real height
field `height = |signal|`, have imaginary part exactly `0` at every cell, so each is the
returned gradient with imaginary part `0`; the code gives the wavenumber `0` to the
Nyquist bin `N/2` as well as to the bin `0`, and opposite wavenumbers to opposite
bins. -/
theorem spectral_gradient_imaginary_zero (USE_SIMD : Bool)
    (cexp : complex64 ℝ → complex64 ℝ) (hexp : IsCexp cexp) (p1 p2 : Nat) (hp1 : 1 ≤ p1)
    (hp2 : 1 ≤ p2) (hp : p1 + p2 ≤ 30) (Lx Ly : ℝ) (signal : Buf ℝ) :
    ∃ (height S G_x G_y grad_signal_x grad_signal_y : Buf ℝ) (grad : (Nat → ℝ) × (Nat → ℝ)),
      GenerateOcean_gradients_spectral USE_SIMD Real.pi Real.sqrt cexp ((2 : Int) ^ p2)
        ((2 : Int) ^ p1) Lx Ly signal = .ok grad ∧
      (if USE_SIMD then
          DFT2D_sse Real.pi cexp height (fun _ => 0) ((2 : Int) ^ p1) ((2 : Int) ^ p2)
        else DFT2D_scalar Real.pi cexp height (fun _ => 0) ((2 : Int) ^ p1) ((2 : Int) ^ p2)) =
          .ok S ∧
      (if USE_SIMD then
          IDFT2D_sse Real.pi cexp G_x (fun _ => 0) ((2 : Int) ^ p1) ((2 : Int) ^ p2)
        else IDFT2D_scalar Real.pi cexp G_x (fun _ => 0) ((2 : Int) ^ p1) ((2 : Int) ^ p2)) =
          .ok grad_signal_x ∧
      (if USE_SIMD then
          IDFT2D_sse Real.pi cexp G_y (fun _ => 0) ((2 : Int) ^ p1) ((2 : Int) ^ p2)
        else IDFT2D_scalar Real.pi cexp G_y (fun _ => 0) ((2 : Int) ^ p1) ((2 : Int) ^ p2)) =
          .ok grad_signal_y ∧
      (∀ x y : Nat, x < 2 ^ p2 → y < 2 ^ p1 →
        height (y * 2 ^ p2 + x) = ⟨cabs Real.sqrt (signal (y * 2 ^ p2 + x)), 0⟩ ∧
        G_x (y * 2 ^ p2 + x) =
          (⟨0, 1⟩ : complex64 ℝ) * ⟨wavenumber Real.pi x ((2 : Int) ^ p2) Lx, 0⟩ *
            divR (S (y * 2 ^ p2 + x)) (((2 : Int) ^ p2 * (2 : Int) ^ p1 : Int) : ℝ) ∧
        G_y (y * 2 ^ p2 + x) =
          (⟨0, 1⟩ : complex64 ℝ) * ⟨wavenumber Real.pi y ((2 : Int) ^ p1) Ly, 0⟩ *
            divR (S (y * 2 ^ p2 + x)) (((2 : Int) ^ p2 * (2 : Int) ^ p1 : Int) : ℝ) ∧
        (grad_signal_x (y * 2 ^ p2 + x)).im = 0 ∧
        (grad_signal_y (y * 2 ^ p2 + x)).im = 0 ∧
        grad_signal_x (y * 2 ^ p2 + x) = ⟨grad.1 (y * 2 ^ p2 + x), 0⟩ ∧
        grad_signal_y (y * 2 ^ p2 + x) = ⟨grad.2 (y * 2 ^ p2 + x), 0⟩) ∧
      (wavenumber Real.pi 0 ((2 : Int) ^ p2) Lx = 0 ∧
        wavenumber Real.pi (2 ^ p2 / 2) ((2 : Int) ^ p2) Lx = 0 ∧
        wavenumber Real.pi 0 ((2 : Int) ^ p1) Ly = 0 ∧
        wavenumber Real.pi (2 ^ p1 / 2) ((2 : Int) ^ p1) Ly = 0) ∧
      (∀ x : Nat, 0 < x → x < 2 ^ p2 →
        wavenumber Real.pi (2 ^ p2 - x) ((2 : Int) ^ p2) Lx =
          -wavenumber Real.pi x ((2 : Int) ^ p2) Lx) ∧
      (∀ y : Nat, 0 < y → y < 2 ^ p1 →
        wavenumber Real.pi (2 ^ p1 - y) ((2 : Int) ^ p1) Ly =
          -wavenumber Real.pi y ((2 : Int) ^ p1) Ly) := by
  have e1 := two_pow_toNat p1
  have e2 := two_pow_toNat p2
  have hcell : ∀ k1 k2 : Nat, k1 < 2 ^ p1 → k2 < 2 ^ p2 → k1 * 2 ^ p2 + k2 < 2 ^ p1 * 2 ^ p2 :=
    fun k1 k2 h1 h2 => cell_lt (2 ^ p2) (2 ^ p1) k2 k1 h2 h1
  have hn1 : ∀ k, negBin (2 ^ p1) k < 2 ^ p1 := fun k => negBin_lt _ k (by positivity)
  have hn2 : ∀ k, negBin (2 ^ p2) k < 2 ^ p2 := fun k => negBin_lt _ k (by positivity)
  obtain ⟨S, hS, fS⟩ := grid_DFT2D_real cexp USE_SIMD hexp p1 p2 hp1 hp2 hp
    (fun j => if j < 2 ^ p1 * 2 ^ p2 then
      (⟨cabs Real.sqrt (signal j), 0⟩ : complex64 ℝ) else 0) (fun _ => 0)
  obtain ⟨Sx, hSx, fSx⟩ := grid_IDFT2D_real cexp USE_SIMD hexp p1 p2 hp1 hp2 hp
    (fun j => if j < 2 ^ p1 * 2 ^ p2 then
      scaleR (if j < 2 ^ p1 * 2 ^ p2 then
          divR (S j) (((2 : Int) ^ p2 * (2 : Int) ^ p1 : Int) : ℝ) else S j)
        (wavenumber Real.pi (j % 2 ^ p2) ((2 : Int) ^ p2) Lx) * (⟨0, 1⟩ : complex64 ℝ) else 0)
    (fun _ => 0)
  obtain ⟨Sy, hSy, fSy⟩ := grid_IDFT2D_real cexp USE_SIMD hexp p1 p2 hp1 hp2 hp
    (fun j => if j < 2 ^ p1 * 2 ^ p2 then
      scaleR (if j < 2 ^ p1 * 2 ^ p2 then
          divR (S j) (((2 : Int) ^ p2 * (2 : Int) ^ p1 : Int) : ℝ) else S j)
        (wavenumber Real.pi (j / 2 ^ p2) ((2 : Int) ^ p1) Ly) * (⟨0, 1⟩ : complex64 ℝ) else 0)
    (fun _ => 0)
  have hrun := GenerateOcean_gradients_spectral_eq USE_SIMD Real.pi Real.sqrt cexp
    ((2 : Int) ^ p2) ((2 : Int) ^ p1) (2 ^ p2) (2 ^ p1) e2 e1 Lx Ly signal S Sx Sy hS hSx hSy
  have hherm := code_spectrum_hermitian p1 p2
    (fun j => if j < 2 ^ p1 * 2 ^ p2 then
      (⟨cabs Real.sqrt (signal j), 0⟩ : complex64 ℝ) else 0) S
    (by
      intro j
      by_cases hj : j < 2 ^ p1 * 2 ^ p2
      · simp only [hj, if_true]
      · simp only [hj, if_false]
        rfl) fS
  have imx : ∀ x y : Nat, x < 2 ^ p2 → y < 2 ^ p1 → (Sx (y * 2 ^ p2 + x)).im = 0 := by
    intro x y hx hy
    refine code_inverse_real p1 p2
      (fun j => if j < 2 ^ p1 * 2 ^ p2 then
        scaleR (if j < 2 ^ p1 * 2 ^ p2 then
            divR (S j) (((2 : Int) ^ p2 * (2 : Int) ^ p1 : Int) : ℝ) else S j)
          (wavenumber Real.pi (j % 2 ^ p2) ((2 : Int) ^ p2) Lx) * (⟨0, 1⟩ : complex64 ℝ)
        else 0)
      Sx ?_ x y (fSx y hy x hx)
    intro k1 hk1 k2 hk2
    simp only [hcell k1 k2 hk1 hk2, hcell _ _ (hn1 k1) (hn2 k2), if_true,
      (cell_coords (2 ^ p2) k2 k1 hk2).2,
      (cell_coords (2 ^ p2) (negBin (2 ^ p2) k2) (negBin (2 ^ p1) k1) (hn2 k2)).2]
    rw [map_mul, map_mul, toComplex_scaleR, toComplex_scaleR, toComplex_divR, toComplex_divR,
      toComplex_posI]
    exact grad_hermitian _ _ _ _ _ (hherm k1 k2 hk1 hk2) (wavenumber_negBin p2 k2 hp2 hk2 Lx)
  have imy : ∀ x y : Nat, x < 2 ^ p2 → y < 2 ^ p1 → (Sy (y * 2 ^ p2 + x)).im = 0 := by
    intro x y hx hy
    refine code_inverse_real p1 p2
      (fun j => if j < 2 ^ p1 * 2 ^ p2 then
        scaleR (if j < 2 ^ p1 * 2 ^ p2 then
            divR (S j) (((2 : Int) ^ p2 * (2 : Int) ^ p1 : Int) : ℝ) else S j)
          (wavenumber Real.pi (j / 2 ^ p2) ((2 : Int) ^ p1) Ly) * (⟨0, 1⟩ : complex64 ℝ)
        else 0)
      Sy ?_ x y (fSy y hy x hx)
    intro k1 hk1 k2 hk2
    simp only [hcell k1 k2 hk1 hk2, hcell _ _ (hn1 k1) (hn2 k2), if_true,
      (cell_coords (2 ^ p2) k2 k1 hk2).1,
      (cell_coords (2 ^ p2) (negBin (2 ^ p2) k2) (negBin (2 ^ p1) k1) (hn2 k2)).1]
    rw [map_mul, map_mul, toComplex_scaleR, toComplex_scaleR, toComplex_divR, toComplex_divR,
      toComplex_posI]
    exact grad_hermitian _ _ _ _ _ (hherm k1 k2 hk1 hk2) (wavenumber_negBin p1 k1 hp1 hk1 Ly)
  refine ⟨_, S, _, _, Sx, Sy, _, hrun, hS, hSx, hSy, ?_, ?_, ?_, ?_⟩
  · intro x y hx hy
    have hlt := hcell y x hy hx
    obtain ⟨c1, c2⟩ := cell_coords (2 ^ p2) x y hx
    refine ⟨?_, ?_, ?_, imx x y hx hy, imy x y hx hy, ?_, ?_⟩
    · simp only [hlt, if_true]
    · simp only [hlt, if_true, c2]
      exact scaleR_mul_I _ _
    · simp only [hlt, if_true, c1]
      exact scaleR_mul_I _ _
    · simp only [hlt, if_true]
      exact complex64.ext rfl (imx x y hx hy)
    · simp only [hlt, if_true]
      exact complex64.ext rfl (imy x y hx hy)
  · exact ⟨(wavenumber_zero_nyquist p2 hp2 Lx).1, (wavenumber_zero_nyquist p2 hp2 Lx).2,
      (wavenumber_zero_nyquist p1 hp1 Ly).1, (wavenumber_zero_nyquist p1 hp1 Ly).2⟩
  · intro x h0 hx
    have h := wavenumber_negBin p2 x hp2 hx Lx
    rw [negBin_pos _ x h0 hx] at h
    exact h
  · intro y h0 hy
    have h := wavenumber_negBin p1 y hp1 hy Ly
    rw [negBin_pos _ y h0 hy] at h
    exact h

theorem spectral_gradient_imaginary_zero_witness :
    ∃ (grad_signal_x grad_signal_y : Buf ℝ) (grad : (Nat → ℝ) × (Nat → ℝ)),
      GenerateOcean_gradients_spectral false Real.pi Real.sqrt
        (fun z => ⟨Real.exp z.re * Real.cos z.im, Real.exp z.re * Real.sin z.im⟩)
        ((2 : Int) ^ 2) ((2 : Int) ^ 1) 8 2 (fun j => ⟨j, 1⟩) = .ok grad ∧
      ∀ x y : Nat, x < 2 ^ 2 → y < 2 ^ 1 →
        grad_signal_x (y * 2 ^ 2 + x) = ⟨grad.1 (y * 2 ^ 2 + x), 0⟩ ∧
        grad_signal_y (y * 2 ^ 2 + x) = ⟨grad.2 (y * 2 ^ 2 + x), 0⟩ :=
  let ⟨_, _, _, _, gx, gy, grad, h, _, _, _, hc, _⟩ :=
    spectral_gradient_imaginary_zero false
      (fun z => ⟨Real.exp z.re * Real.cos z.im, Real.exp z.re * Real.sin z.im⟩)
      (fun θ => by simp) 1 2 (by decide) (by decide) (by decide) 8 2 (fun j => ⟨j, 1⟩)
  ⟨gx, gy, grad, h, fun x y hx hy =>
    ⟨(hc x y hx hy).2.2.2.2.2.1, (hc x y hx hy).2.2.2.2.2.2⟩⟩

end claimsHermitian

section roundingLemmas

variable {K : Type} [LinearOrderedField K] [FloorRing K]

/-- An integer rounds to itself. -/
theorem roundHalfEven_intCast (n : Int) : roundHalfEven (n : K) = n := by
  unfold roundHalfEven
  simp

/-- A value less than half a unit from an integer rounds to it. -/
theorem roundHalfEven_near (x : K) (n : Int) (h1 : (n : K) - 1 / 2 < x)
    (h2 : x < (n : K) + 1 / 2) : roundHalfEven x = n := by
  unfold roundHalfEven
  simp only []
  by_cases hx : (n : K) ≤ x
  · have hf : ⌊x⌋ = n := Int.floor_eq_iff.mpr ⟨hx, by linarith⟩
    rw [hf, if_pos (by linarith)]
  · have hf : ⌊x⌋ = n - 1 :=
      Int.floor_eq_iff.mpr ⟨by push_cast; linarith, by push_cast; linarith⟩
    rw [hf]
    push_cast
    rw [if_neg (by linarith), if_pos (by linarith)]
    ring

/-- A value half-way above an even integer rounds down to it. -/
theorem roundHalfEven_tie (n : Int) (hn : n % 2 = 0) :
    roundHalfEven ((n : K) + 1 / 2) = n := by
  unfold roundHalfEven
  have hf : ⌊(n : K) + 1 / 2⌋ = n := Int.floor_eq_iff.mpr ⟨by linarith, by linarith⟩
  simp only [hf]
  rw [if_neg (by simp), if_neg (by simp), if_pos hn]

/-- The binary exponent of a value between `2^e` and `2^(e+1)`. -/
theorem binade_eq (x : K) (e : Int) (h1 : (2 : K) ^ e ≤ |x|) (h2 : |x| < (2 : K) ^ (e + 1)) :
    Int.log 2 |x| = e := by
  have hpos : 0 < |x| := lt_of_lt_of_le (by positivity) h1
  have a : e ≤ Int.log 2 |x| :=
    (Int.zpow_le_iff_le_log (by norm_num) hpos).mp (by exact_mod_cast h1)
  have b : Int.log 2 |x| < e + 1 :=
    (Int.lt_zpow_iff_log_lt (by norm_num) hpos).mp (by exact_mod_cast h2)
  omega

/-- The `float` nearest to a value of binary exponent `e ≥ -126`. -/
theorem binary32_of_binade (x : K) (e n : Int) (he : -126 ≤ e) (h1 : (2 : K) ^ e ≤ |x|)
    (h2 : |x| < (2 : K) ^ (e + 1)) (hn : roundHalfEven (x / (2 : K) ^ (e - 23)) = n) :
    binary32 x = (n : K) * (2 : K) ^ (e - 23) := by
  unfold binary32
  simp only []
  rw [binade_eq x e h1 h2, max_eq_left he, hn]

/-- A value with a significand of 24 bits is a `float`: rounding leaves it as it is. -/
theorem binary32_exact (x : K) (e m : Int) (he : -126 ≤ e) (h1 : (2 : K) ^ e ≤ |x|)
    (h2 : |x| < (2 : K) ^ (e + 1)) (hx : x = (m : K) * (2 : K) ^ (e - 23)) :
    binary32 x = x := by
  have hne : (2 : K) ^ (e - 23) ≠ 0 := zpow_ne_zero _ (by norm_num)
  rw [binary32_of_binade x e m he h1 h2
    (by rw [hx, mul_div_assoc, div_self hne, mul_one, roundHalfEven_intCast])]
  exact hx.symm

/-- Zero is a `float`. -/
theorem binary32_zero : binary32 (0 : K) = 0 := by
  unfold binary32
  simp only [zero_div]
  rw [show roundHalfEven (0 : K) = 0 by
    have := roundHalfEven_intCast (K := K) 0
    simpa using this]
  simp

end roundingLemmas

section floatBytes

/-- The `float` quotient, product and byte of the height `2517261` between the bounds
`0` and `2999540`. -/
theorem byte_of_2517261 :
    binary32 ((2999540 : ℚ) - 0) = 2999540 ∧
    binary32 ((2517261 : ℚ) - 0) = 2517261 ∧
    binary32 ((2517261 : ℚ) / 2999540) = 14079703 / 16777216 ∧
    binary32 ((14079703 : ℚ) / 16777216 * 255) = 214 := by
  refine ⟨?_, ?_, ?_, ?_⟩
  · rw [sub_zero]
    exact binary32_exact (2999540 : ℚ) 21 11998160 (by norm_num)
      (by rw [abs_of_pos (by norm_num)]; norm_num)
      (by rw [abs_of_pos (by norm_num)]; norm_num) (by norm_num)
  · rw [sub_zero]
    exact binary32_exact (2517261 : ℚ) 21 10069044 (by norm_num)
      (by rw [abs_of_pos (by norm_num)]; norm_num)
      (by rw [abs_of_pos (by norm_num)]; norm_num) (by norm_num)
  · rw [binary32_of_binade (2517261 / 2999540 : ℚ) (-1) 14079703 (by norm_num)
      (by rw [abs_of_pos (by norm_num)]; norm_num)
      (by rw [abs_of_pos (by norm_num)]; norm_num)
      (by apply roundHalfEven_near <;> norm_num)]
    norm_num
  · rw [binary32_of_binade ((14079703 : ℚ) / 16777216 * 255) 7 14024704 (by norm_num)
      (by rw [abs_of_pos (by norm_num)]; norm_num)
      (by rw [abs_of_pos (by norm_num)]; norm_num)
      (by apply roundHalfEven_near <;> norm_num)]
    norm_num

end floatBytes

section claimsFloatBytes

/-- C27, counterexample: with the rounding of `float` arithmetic, for the bounds
`min_value = 0`, `max_value = 2999540` and the height `p = 2517261` between them (three
`float`s), `SaveHeightMap` writes the byte `214`: the quotient is rounded up to
`14079703 / 2^24` and its product by `255` to `214`; `trunc(255 * (p - min_value) / range)`
is `213`. -/
theorem SaveHeightMap_byte_float_counterexample :
    (0 : ℚ) ≤ 2517261 ∧ (2517261 : ℚ) ≤ 2999540 ∧
    SaveHeightMap_byte binary32 (0 : ℚ) 2999540 2517261 = 214 ∧
    ⌊255 * ((2517261 : ℚ) - 0) /
      (if (2999540 : ℚ) - 0 = 0 then 1 else 2999540 - 0)⌋.toNat = 213 := by
  obtain ⟨e1, e2, e3, e4⟩ := byte_of_2517261
  refine ⟨by norm_num, by norm_num, ?_, ?_⟩
  · unfold SaveHeightMap_byte
    simp only []
    rw [e1, e2, if_neg (by norm_num), e3, e4]
    unfold toGLubyte
    rw [if_pos (by norm_num), show ((214 : ℚ)) = ((214 : Int) : ℚ) by norm_num,
      Int.floor_intCast]
    rfl
  · rw [if_neg (by norm_num)]
    have : ⌊255 * ((2517261 : ℚ) - 0) / (2999540 - 0)⌋ = 213 := by
      rw [Int.floor_eq_iff]
      constructor <;> norm_num
    rw [this]
    rfl

end claimsFloatBytes

section floatNormals

/-- The roundings of the `float` operations in the normal of a cell of gradient
`(2^24, 0)`. -/
theorem binary32_values :
    binary32 (1 : ℝ) = 1 ∧ binary32 (-1 : ℝ) = -1 ∧
    binary32 (16777216 : ℝ) = 16777216 ∧ binary32 (-16777216 : ℝ) = -16777216 ∧
    binary32 (281474976710656 : ℝ) = 281474976710656 ∧
    binary32 (281474976710657 : ℝ) = 281474976710656 ∧
    binary32 (1 / 16777216 : ℝ) = 1 / 16777216 ∧
    binary32 (16777217 / 16777216 : ℝ) = 1 ∧
    binary32 (1 / 2 : ℝ) = 1 / 2 ∧
    binary32 (1e-7 : ℝ) = 14073749 / 140737488355328 := by
  refine ⟨?_, ?_, ?_, ?_, ?_, ?_, ?_, ?_, ?_, ?_⟩
  · exact binary32_exact (1 : ℝ) 0 8388608 (by norm_num)
      (by rw [abs_of_pos (by norm_num)]; norm_num)
      (by rw [abs_of_pos (by norm_num)]; norm_num) (by norm_num)
  · exact binary32_exact (-1 : ℝ) 0 (-8388608) (by norm_num)
      (by rw [abs_of_neg (by norm_num)]; norm_num)
      (by rw [abs_of_neg (by norm_num)]; norm_num) (by norm_num)
  · exact binary32_exact (16777216 : ℝ) 24 8388608 (by norm_num)
      (by rw [abs_of_pos (by norm_num)]; norm_num)
      (by rw [abs_of_pos (by norm_num)]; norm_num) (by norm_num)
  · exact binary32_exact (-16777216 : ℝ) 24 (-8388608) (by norm_num)
      (by rw [abs_of_neg (by norm_num)]; norm_num)
      (by rw [abs_of_neg (by norm_num)]; norm_num) (by norm_num)
  · exact binary32_exact (281474976710656 : ℝ) 48 8388608 (by norm_num)
      (by rw [abs_of_pos (by norm_num)]; norm_num)
      (by rw [abs_of_pos (by norm_num)]; norm_num) (by norm_num)
  · rw [binary32_of_binade (281474976710657 : ℝ) 48 8388608 (by norm_num)
      (by rw [abs_of_pos (by norm_num)]; norm_num)
      (by rw [abs_of_pos (by norm_num)]; norm_num)
      (by apply roundHalfEven_near <;> norm_num)]
    norm_num
  · exact binary32_exact (1 / 16777216 : ℝ) (-24) 8388608 (by norm_num)
      (by rw [abs_of_pos (by norm_num)]; norm_num)
      (by rw [abs_of_pos (by norm_num)]; norm_num) (by norm_num)
  · rw [binary32_of_binade (16777217 / 16777216 : ℝ) 0 8388608 (by norm_num)
      (by rw [abs_of_pos (by norm_num)]; norm_num)
      (by rw [abs_of_pos (by norm_num)]; norm_num)
      (by
        have h := roundHalfEven_tie (K := ℝ) 8388608 (by decide)
        rw [← h]
        congr 1
        norm_num)]
    norm_num
  · exact binary32_exact (1 / 2 : ℝ) (-1) 8388608 (by norm_num)
      (by rw [abs_of_pos (by norm_num)]; norm_num)
      (by rw [abs_of_pos (by norm_num)]; norm_num) (by norm_num)
  · rw [binary32_of_binade (1e-7 : ℝ) (-24) 14073749 (by norm_num)
      (by rw [abs_of_pos (by norm_num)]; norm_num)
      (by rw [abs_of_pos (by norm_num)]; norm_num)
      (by apply roundHalfEven_near <;> norm_num)]
    norm_num

/-- The normal that `float` arithmetic gives to a cell of gradient `(2^24, 0)` and the
vector stored for it. -/
theorem normal_of_2p24 :
    Math.Normalize binary32 (fun x => binary32 (Real.sqrt x))
        (Math.Cross binary32 (⟨1, 0, 16777216⟩ : Vector3 ℝ) ⟨0, 1, 0⟩) =
      ⟨-1, 0, 1 / 16777216⟩ ∧
    GenerateOcean_normal binary32 (fun x => binary32 (Real.sqrt x)) (16777216 : ℝ) 0 =
      ⟨0, 1 / 2, 1 / 2⟩ := by
  obtain ⟨b1, bm1, b24, bm24, b48, b48', bi, bt, bh, be⟩ := binary32_values
  have b0 : binary32 (0 : ℝ) = 0 := binary32_zero
  have hs : Real.sqrt 281474976710656 = 16777216 := by
    rw [show (281474976710656 : ℝ) = 16777216 ^ 2 by norm_num, Real.sqrt_sq (by norm_num)]
  have hc : Math.Cross binary32 (⟨1, 0, 16777216⟩ : Vector3 ℝ) ⟨0, 1, 0⟩ =
      ⟨-16777216, 0, 1⟩ := by
    unfold Math.Cross
    simp only [mul_zero, zero_mul, mul_one, one_mul, b0, b1, b24, sub_zero, zero_sub, bm24,
      neg_zero]
  have hl : Math.Length binary32 (fun x => binary32 (Real.sqrt x))
      (⟨-16777216, 0, 1⟩ : Vector3 ℝ) = 16777216 := by
    unfold Math.Length
    simp only [mul_zero, mul_one, b0, b1, add_zero]
    rw [show (-16777216 : ℝ) * -16777216 = 281474976710656 by norm_num, b48, b48,
      show (281474976710656 : ℝ) + 1 = 281474976710657 by norm_num, b48', hs, b24]
  have hn : Math.Normalize binary32 (fun x => binary32 (Real.sqrt x))
      (⟨-16777216, 0, 1⟩ : Vector3 ℝ) = ⟨-1, 0, 1 / 16777216⟩ := by
    unfold Math.Normalize
    simp only [hl, be]
    rw [if_neg (by norm_num)]
    unfold Vector3.mul_left
    simp only [bi, mul_zero, mul_one, b0]
    rw [show (1 / 16777216 : ℝ) * -16777216 = -1 by norm_num, bm1]
  rw [hc]
  refine ⟨hn, ?_⟩
  unfold GenerateOcean_normal
  simp only [hc, hn]
  unfold Vector3.add Vector3.mul_right
  simp only [zero_add, b1]
  rw [show (-1 : ℝ) + 1 = 0 by norm_num, b0,
    show (1 / 16777216 : ℝ) + 1 = 16777217 / 16777216 by norm_num, bt,
    show (0 : ℝ) * 0.5 = 0 by norm_num, b0, show (1 : ℝ) * 0.5 = 1 / 2 by norm_num, bh]

end floatNormals

section claimsFloatNormals

/-- C24, counterexample: with the rounding of `float` arithmetic, for the gradient
`(gx, gy) = (2^24, 0)` the cross product is `(-2^24, 0, 1)`, `Math::Length` rounds
`2^48 + 1` to `2^48` and returns `2^24`, and the normal is `(-1, 0, 2^-24)`: it is not
`(-gx, -gy, 1)/sqrt(gx^2 + gy^2 + 1)` and its length is not `1`. -/
theorem GenerateOcean_normal_unit_float_counterexample :
    Math.Normalize binary32 (fun x => binary32 (Real.sqrt x))
        (Math.Cross binary32 (⟨1, 0, 16777216⟩ : Vector3 ℝ) ⟨0, 1, 0⟩) =
      ⟨-1, 0, 1 / 16777216⟩ ∧
    Math.Normalize binary32 (fun x => binary32 (Real.sqrt x))
        (Math.Cross binary32 (⟨1, 0, 16777216⟩ : Vector3 ℝ) ⟨0, 1, 0⟩) ≠
      ⟨-16777216 / Real.sqrt (16777216 ^ 2 + 0 ^ 2 + 1), -0 / Real.sqrt (16777216 ^ 2 + 0 ^ 2 + 1),
        1 / Real.sqrt (16777216 ^ 2 + 0 ^ 2 + 1)⟩ ∧
    Math.Length id Real.sqrt (Math.Normalize binary32 (fun x => binary32 (Real.sqrt x))
        (Math.Cross binary32 (⟨1, 0, 16777216⟩ : Vector3 ℝ) ⟨0, 1, 0⟩)) ≠ 1 := by
  rw [normal_of_2p24.1]
  refine ⟨rfl, ?_, ?_⟩
  · intro h
    have hz : (1 / 16777216 : ℝ) = 1 / Real.sqrt (16777216 ^ 2 + 0 ^ 2 + 1) :=
      congrArg Vector3.z h
    have hpos : (0 : ℝ) < 16777216 ^ 2 + 0 ^ 2 + 1 := by norm_num
    have hs : Real.sqrt (16777216 ^ 2 + 0 ^ 2 + 1) = 16777216 := by
      have h1 := one_div_one_div (Real.sqrt (16777216 ^ 2 + 0 ^ 2 + 1))
      rw [← hz] at h1
      rw [← h1]
      norm_num
    have hq := Real.sq_sqrt hpos.le
    rw [hs] at hq
    norm_num at hq
  · intro h
    unfold Math.Length at h
    simp only [id_eq] at h
    rw [Real.sqrt_eq_one] at h
    norm_num at h

/-- C25, counterexample: with the rounding of `float` arithmetic, the vector stored for
a cell of gradient `(2^24, 0)` is `(0, 0.5, 0.5)`: the third component of the normal is
`2^-24`, the sum `2^-24 + 1` is rounded to `1`, and the third component stored is `1/2`,
not greater than `1/2`. -/
theorem GenerateOcean_normal_range_float_counterexample :
    GenerateOcean_normal binary32 (fun x => binary32 (Real.sqrt x)) (16777216 : ℝ) 0 =
      ⟨0, 1 / 2, 1 / 2⟩ ∧
    ¬ (1 / 2 < (GenerateOcean_normal binary32 (fun x => binary32 (Real.sqrt x))
      (16777216 : ℝ) 0).z) := by
  rw [normal_of_2p24.2]
  exact ⟨rfl, lt_irrefl _⟩

end claimsFloatNormals

section heightsLemmas

/-- `Ph` of a non-negative amplitude is non-negative. -/
theorem Ph_nonneg (kx ky Vx Vy A l : ℝ) (hA : 0 ≤ A) :
    0 ≤ Ph Real.sqrt Real.exp kx ky Vx Vy A l := by
  unfold Ph
  simp only []
  split_ifs
  · exact le_rfl
  · exact le_rfl
  · exact mul_nonneg (mul_nonneg (div_nonneg (mul_nonneg hA (Real.exp_pos _).le)
      (mul_self_nonneg _)) (mul_self_nonneg _)) (Real.exp_pos _).le

/-- `Ph` of a negative amplitude, at a wave vector and a wind along the first axis, is
negative. -/
theorem Ph_neg_axis (kx Vx A l : ℝ) (hA : A < 0) (hk : kx ≠ 0) (hV : Vx ≠ 0) :
    Ph Real.sqrt Real.exp kx 0 Vx 0 A l < 0 := by
  have hk2 : 0 < kx * kx + 0 * 0 := by
    rw [mul_zero, add_zero]
    exact mul_self_pos.mpr hk
  have hV2 : 0 < Vx * Vx + 0 * 0 := by
    rw [mul_zero, add_zero]
    exact mul_self_pos.mpr hV
  have hks : 0 < Real.sqrt (kx * kx + 0 * 0) := Real.sqrt_pos.mpr hk2
  have hVs : 0 < Real.sqrt (Vx * Vx + 0 * 0) := Real.sqrt_pos.mpr hV2
  have hd : kx / Real.sqrt (kx * kx + 0 * 0) * (Vx / Real.sqrt (Vx * Vx + 0 * 0)) +
      0 / Real.sqrt (kx * kx + 0 * 0) * (0 / Real.sqrt (Vx * Vx + 0 * 0)) ≠ 0 := by
    have e : (0 : ℝ) / Real.sqrt (kx * kx + 0 * 0) * (0 / Real.sqrt (Vx * Vx + 0 * 0)) = 0 :=
      by simp
    rw [e, add_zero]
    exact mul_ne_zero (div_ne_zero hk hks.ne') (div_ne_zero hV hVs.ne')
  unfold Ph
  simp only []
  rw [if_neg hks.ne', if_neg hVs.ne']
  exact mul_neg_of_neg_of_pos (mul_neg_of_neg_of_pos (div_neg_of_neg_of_pos
    (mul_neg_of_neg_of_pos hA (Real.exp_pos _)) (mul_pos hk2 hk2))
    (mul_pos (abs_pos.mpr hd) (abs_pos.mpr hd))) (Real.exp_pos _)

variable {K : Type} [LinearOrderedField K]

/-- The arguments of the square roots of `GenerateOceanSpectrum`: the two values of `Ph`
of every cell. -/
theorem sqrt_args_mem (PI : K) (sqrt exp : K → K) (Nx Ny : Int) (Lx Ly Vx Vy A l a : K) :
    a ∈ GenerateOceanSpectrum_sqrt_args PI sqrt exp Nx Ny Lx Ly Vx Vy A l ↔
      ∃ c, c < Ny.toNat * Nx.toNat ∧
        (a = Ph sqrt exp (2 * PI * ((c % Nx.toNat : Nat) : K) / Lx)
            (2 * PI * ((c / Nx.toNat : Nat) : K) / Ly) Vx Vy (A / (Lx * Ly)) l ∨
          a = Ph sqrt exp (-(2 * PI * ((c % Nx.toNat : Nat) : K) / Lx))
            (-(2 * PI * ((c / Nx.toNat : Nat) : K) / Ly)) Vx Vy (A / (Lx * Ly)) l) := by
  unfold GenerateOceanSpectrum_sqrt_args
  simp only []
  rw [nested_forLoop_flat (fun y x (args : List K) =>
    args ++ [Ph sqrt exp (2 * PI * (x : K) / Lx) (2 * PI * (y : K) / Ly) Vx Vy
        (A / (Lx * Ly)) l,
      Ph sqrt exp (-(2 * PI * (x : K) / Lx)) (-(2 * PI * (y : K) / Ly)) Vx Vy
        (A / (Lx * Ly)) l]) Nx.toNat Ny.toNat [],
    mem_fold_append (fun c =>
      [Ph sqrt exp (2 * PI * ((c % Nx.toNat : Nat) : K) / Lx)
          (2 * PI * ((c / Nx.toNat : Nat) : K) / Ly) Vx Vy (A / (Lx * Ly)) l,
        Ph sqrt exp (-(2 * PI * ((c % Nx.toNat : Nat) : K) / Lx))
          (-(2 * PI * ((c / Nx.toNat : Nat) : K) / Ly)) Vx Vy (A / (Lx * Ly)) l])]
  simp only [List.not_mem_nil, false_or, List.mem_cons, or_false]

/-- The first part of `GenerateOcean` when the transform returns and no argument of a
square root is negative. -/
theorem GenerateOcean_heights_of_nonneg {G : Type} (USE_SIMD : Bool) (PI : K)
    (sqrt exp : K → K) (cexp : complex64 K → complex64 K) (mt19937 : Nat → G)
    (nd : G → K × G) (params : OceanParams K) (h0 : 0 ≤ params.Nx * params.Ny)
    (h1 : params.Nx * params.Ny ≤ 2147483647) (signal : Buf K)
    (hs : (if USE_SIMD then IDFT2D_sse PI cexp
          (GenerateOceanSpectrum PI sqrt exp cexp mt19937 nd (fun _ => 0) params.seed
            params.Nx params.Ny params.Lx params.Ly params.Vx params.Vy params.A params.l
            params.t) (fun _ => 0) params.Ny params.Nx
        else IDFT2D_scalar PI cexp
          (GenerateOceanSpectrum PI sqrt exp cexp mt19937 nd (fun _ => 0) params.seed
            params.Nx params.Ny params.Lx params.Ly params.Vx params.Vy params.A params.l
            params.t) (fun _ => 0) params.Ny params.Nx) = .ok signal)
    (hargs : ∀ a ∈ GenerateOceanSpectrum_sqrt_args PI sqrt exp params.Nx params.Ny params.Lx
      params.Ly params.Vx params.Vy params.A params.l, 0 ≤ a) :
    GenerateOcean_heights USE_SIMD PI sqrt exp cexp mt19937 nd params =
      .ok { spectrum := GenerateOceanSpectrum PI sqrt exp cexp mt19937 nd (fun _ => 0)
              params.seed params.Nx params.Ny params.Lx params.Ly params.Vx params.Vy
              params.A params.l params.t,
            signal := signal,
            height_map_data := (GenerateOcean_height_range sqrt params.Nx params.Ny signal
              (fun _ => 0)).height_map_data,
            min_value := (GenerateOcean_height_range sqrt params.Nx params.Ny signal
              (fun _ => 0)).min_value,
            max_value := (GenerateOcean_height_range sqrt params.Nx params.Ny signal
              (fun _ => 0)).max_value } := by
  have hany : (GenerateOceanSpectrum_sqrt_args PI sqrt exp params.Nx params.Ny params.Lx
      params.Ly params.Vx params.Vy params.A params.l).any (fun a => decide (a < 0)) =
      false := by
    rw [List.any_eq_false]
    intro a ha
    have := hargs a ha
    simpa using this
  unfold GenerateOcean_heights
  simp only []
  rw [if_neg (by omega), if_neg (by omega), hs]
  show (if _ then _ else _) = _
  rw [hany]
  rfl

/-- The first part of `GenerateOcean` when the transform returns and the argument of a
square root of some cell is negative. -/
theorem GenerateOcean_heights_of_neg {G : Type} (USE_SIMD : Bool) (PI : K)
    (sqrt exp : K → K) (cexp : complex64 K → complex64 K) (mt19937 : Nat → G)
    (nd : G → K × G) (params : OceanParams K) (h0 : 0 ≤ params.Nx * params.Ny)
    (h1 : params.Nx * params.Ny ≤ 2147483647) (signal : Buf K)
    (hs : (if USE_SIMD then IDFT2D_sse PI cexp
          (GenerateOceanSpectrum PI sqrt exp cexp mt19937 nd (fun _ => 0) params.seed
            params.Nx params.Ny params.Lx params.Ly params.Vx params.Vy params.A params.l
            params.t) (fun _ => 0) params.Ny params.Nx
        else IDFT2D_scalar PI cexp
          (GenerateOceanSpectrum PI sqrt exp cexp mt19937 nd (fun _ => 0) params.seed
            params.Nx params.Ny params.Lx params.Ly params.Vx params.Vy params.A params.l
            params.t) (fun _ => 0) params.Ny params.Nx) = .ok signal)
    (c : Nat) (hc : c < params.Ny.toNat * params.Nx.toNat)
    (hneg : Ph sqrt exp (2 * PI * ((c % params.Nx.toNat : Nat) : K) / params.Lx)
      (2 * PI * ((c / params.Nx.toNat : Nat) : K) / params.Ly) params.Vx params.Vy
      (params.A / (params.Lx * params.Ly)) params.l < 0) :
    GenerateOcean_heights USE_SIMD PI sqrt exp cexp mt19937 nd params =
      .error .notANumber := by
  have hany : (GenerateOceanSpectrum_sqrt_args PI sqrt exp params.Nx params.Ny params.Lx
      params.Ly params.Vx params.Vy params.A params.l).any (fun a => decide (a < 0)) =
      true := by
    rw [List.any_eq_true]
    exact ⟨_, (sqrt_args_mem PI sqrt exp params.Nx params.Ny params.Lx params.Ly params.Vx
      params.Vy params.A params.l _).2 ⟨c, hc, Or.inl rfl⟩, decide_eq_true hneg⟩
  unfold GenerateOcean_heights
  simp only []
  rw [if_neg (by omega), if_neg (by omega), hs]
  show (if _ then _ else _) = _
  rw [hany]
  rfl

end heightsLemmas

section heightsOutcome

/-- The inverse 2D transform of `GenerateOcean` returns on a grid of valid sizes whose
cell count is an `int`. -/
theorem heights_signal_ok (USE_SIMD : Bool) (cexp : complex64 ℝ → complex64 ℝ)
    (Nx Ny : Int) (vx : Nx > 1 ∧ IsPowerOf2 (toUnsigned Nx) = true)
    (vy : Ny > 1 ∧ IsPowerOf2 (toUnsigned Ny) = true) (hcells : Nx * Ny ≤ 2147483647)
    (spectrum : Buf ℝ) :
    ∃ signal, (if USE_SIMD then IDFT2D_sse Real.pi cexp spectrum (fun _ => 0) Ny Nx
      else IDFT2D_scalar Real.pi cexp spectrum (fun _ => 0) Ny Nx) = .ok signal := by
  have hcomm : Ny * Nx ≤ 2147483647 := by rw [Int.mul_comm]; exact hcells
  cases USE_SIMD
  · exact transform2D_ok _ (IDFT1D_scalar_checksSize Real.pi cexp) _ _ _ _ vy vx hcomm
  · exact transform2D_ok _ (IDFT1D_sse_checksSize Real.pi cexp) _ _ _ _ vy vx hcomm

/-- With extents above `0` and an amplitude that is not negative, no argument of a
square root of `GenerateOceanSpectrum` is negative. -/
theorem sqrt_args_nonneg (Nx Ny : Int) (Lx Ly Vx Vy A l : ℝ) (hLx : 0 < Lx) (hLy : 0 < Ly)
    (hA : 0 ≤ A) :
    ∀ a ∈ GenerateOceanSpectrum_sqrt_args Real.pi Real.sqrt Real.exp Nx Ny Lx Ly Vx Vy A l,
      0 ≤ a := by
  intro a ha
  rw [sqrt_args_mem] at ha
  obtain ⟨c, _, h | h⟩ := ha
  · rw [h]
    exact Ph_nonneg _ _ _ _ _ _ (div_nonneg hA (mul_pos hLx hLy).le)
  · rw [h]
    exact Ph_nonneg _ _ _ _ _ _ (div_nonneg hA (mul_pos hLx hLy).le)

/-- The first part of `GenerateOcean` returns for valid parameters whose cell count is
an `int` and whose amplitude is not negative. -/
theorem GenerateOcean_heights_valid {G : Type} (USE_SIMD : Bool)
    (cexp : complex64 ℝ → complex64 ℝ) (mt19937 : Nat → G) (nd : G → ℝ × G)
    (params : OceanParams ℝ) (hvalid : ValidateOceanParams params = 0)
    (hx : -2147483648 ≤ params.Nx ∧ params.Nx ≤ 2147483647)
    (hy : -2147483648 ≤ params.Ny ∧ params.Ny ≤ 2147483647)
    (hcells : params.Nx * params.Ny ≤ 2147483647) (hA : 0 ≤ params.A) :
    ∃ signal : Buf ℝ,
      (if USE_SIMD then IDFT2D_sse Real.pi cexp
          (GenerateOceanSpectrum Real.pi Real.sqrt Real.exp cexp mt19937 nd (fun _ => 0)
            params.seed params.Nx params.Ny params.Lx params.Ly params.Vx params.Vy params.A
            params.l params.t) (fun _ => 0) params.Ny params.Nx
        else IDFT2D_scalar Real.pi cexp
          (GenerateOceanSpectrum Real.pi Real.sqrt Real.exp cexp mt19937 nd (fun _ => 0)
            params.seed params.Nx params.Ny params.Lx params.Ly params.Vx params.Vy params.A
            params.l params.t) (fun _ => 0) params.Ny params.Nx) = .ok signal ∧
      GenerateOcean_heights USE_SIMD Real.pi Real.sqrt Real.exp cexp mt19937 nd params =
        .ok { spectrum := GenerateOceanSpectrum Real.pi Real.sqrt Real.exp cexp mt19937 nd
                (fun _ => 0) params.seed params.Nx params.Ny params.Lx params.Ly params.Vx
                params.Vy params.A params.l params.t,
              signal := signal,
              height_map_data := (GenerateOcean_height_range Real.sqrt params.Nx params.Ny
                signal (fun _ => 0)).height_map_data,
              min_value := (GenerateOcean_height_range Real.sqrt params.Nx params.Ny signal
                (fun _ => 0)).min_value,
              max_value := (GenerateOcean_height_range Real.sqrt params.Nx params.Ny signal
                (fun _ => 0)).max_value } := by
  obtain ⟨⟨vx, vy⟩, ⟨hLx, hLy⟩, _⟩ := (ValidateOceanParams_zero_iff params hx hy).1 hvalid
  have vx' := (valid_size_iff params.Nx hx.1 hx.2).2 vx
  have vy' := (valid_size_iff params.Ny hy.1 hy.2).2 vy
  have hpos : 0 < params.Nx * params.Ny := Int.mul_pos (by omega) (by omega)
  obtain ⟨signal, hs⟩ := heights_signal_ok USE_SIMD cexp params.Nx params.Ny vx' vy' hcells
    (GenerateOceanSpectrum Real.pi Real.sqrt Real.exp cexp mt19937 nd (fun _ => 0)
      params.seed params.Nx params.Ny params.Lx params.Ly params.Vx params.Vy params.A
      params.l params.t)
  exact ⟨signal, hs, GenerateOcean_heights_of_nonneg USE_SIMD Real.pi Real.sqrt Real.exp cexp
    mt19937 nd params hpos.le hcells signal hs
    (sqrt_args_nonneg params.Nx params.Ny params.Lx params.Ly params.Vx params.Vy params.A
      params.l hLx hLy hA)⟩

/-- The first part of `GenerateOcean` for valid parameters whose cell count is an `int`,
with a negative amplitude and a wind along the first axis: `Ph` of the cell `(1, 0)` is
negative and its square root is a NaN. -/
theorem GenerateOcean_heights_negative {G : Type} (USE_SIMD : Bool)
    (cexp : complex64 ℝ → complex64 ℝ) (mt19937 : Nat → G) (nd : G → ℝ × G)
    (params : OceanParams ℝ) (hvalid : ValidateOceanParams params = 0)
    (hx : -2147483648 ≤ params.Nx ∧ params.Nx ≤ 2147483647)
    (hy : -2147483648 ≤ params.Ny ∧ params.Ny ≤ 2147483647)
    (hcells : params.Nx * params.Ny ≤ 2147483647) (hA : params.A < 0)
    (hVy : params.Vy = 0) :
    GenerateOcean_heights USE_SIMD Real.pi Real.sqrt Real.exp cexp mt19937 nd params =
      .error .notANumber := by
  obtain ⟨⟨vx, vy⟩, ⟨hLx, hLy⟩, hV⟩ := (ValidateOceanParams_zero_iff params hx hy).1 hvalid
  have vx' := (valid_size_iff params.Nx hx.1 hx.2).2 vx
  have vy' := (valid_size_iff params.Ny hy.1 hy.2).2 vy
  have hpos : 0 < params.Nx * params.Ny := Int.mul_pos (by omega) (by omega)
  have hVx : params.Vx ≠ 0 := fun h => hV ⟨h, hVy⟩
  obtain ⟨signal, hs⟩ := heights_signal_ok USE_SIMD cexp params.Nx params.Ny vx' vy' hcells
    (GenerateOceanSpectrum Real.pi Real.sqrt Real.exp cexp mt19937 nd (fun _ => 0)
      params.seed params.Nx params.Ny params.Lx params.Ly params.Vx params.Vy params.A
      params.l params.t)
  have hNx : 1 < params.Nx.toNat := by omega
  have hNy : 1 < params.Ny.toNat := by omega
  have hc : 1 < params.Ny.toNat * params.Nx.toNat := by
    calc 1 < params.Nx.toNat := hNx
      _ = 1 * params.Nx.toNat := (Nat.one_mul _).symm
      _ ≤ params.Ny.toNat * params.Nx.toNat := Nat.mul_le_mul_right _ (by omega)
  apply GenerateOcean_heights_of_neg USE_SIMD Real.pi Real.sqrt Real.exp cexp mt19937 nd
    params hpos.le hcells signal hs 1 hc
  rw [Nat.mod_eq_of_lt hNx, Nat.div_eq_of_lt hNx, hVy]
  have e : 2 * Real.pi * ((0 : Nat) : ℝ) / params.Ly = 0 := by simp
  rw [e]
  apply Ph_neg_axis
  · exact div_neg_of_neg_of_pos hA (mul_pos hLx hLy)
  · have := Real.pi_pos
    have h1 : 0 < 2 * Real.pi * ((1 : Nat) : ℝ) / params.Lx := by
      apply div_pos _ hLx
      simp only [Nat.cast_one, mul_one]
      linarith
    exact h1.ne'
  · exact hVx

end heightsOutcome

section claimsHeights

/-- C20, with the provisos it needs: for every valid parameter set whose amplitude `A`
is not negative and whose cell count `Nx * Ny` is an `int`, in exact real arithmetic (no
rounding, overflow or underflow of the floating-point operations), the first part of
`GenerateOcean` returns, and each height is the complex magnitude of the cell of the 2D
inverse transform of the spectrum,
`height[y*Nx+x] = |IDFT2D(spectrum, Ny, Nx)[y*Nx+x]|` (not its real part), hence every
height is at least `0`. -/
theorem GenerateOcean_heights_magnitude {G : Type} (USE_SIMD : Bool)
    (cexp : complex64 ℝ → complex64 ℝ) (mt19937 : Nat → G) (nd : G → ℝ × G)
    (params : OceanParams ℝ) (hvalid : ValidateOceanParams params = 0)
    (hx : -2147483648 ≤ params.Nx ∧ params.Nx ≤ 2147483647)
    (hy : -2147483648 ≤ params.Ny ∧ params.Ny ≤ 2147483647)
    (hcells : params.Nx * params.Ny ≤ 2147483647) (hA : 0 ≤ params.A) :
    ∃ r : OceanHeights ℝ,
      GenerateOcean_heights USE_SIMD Real.pi Real.sqrt Real.exp cexp mt19937 nd params = .ok r ∧
      r.spectrum = GenerateOceanSpectrum Real.pi Real.sqrt Real.exp cexp mt19937 nd (fun _ => 0)
        params.seed params.Nx params.Ny params.Lx params.Ly params.Vx params.Vy params.A
        params.l params.t ∧
      (if USE_SIMD then IDFT2D_sse Real.pi cexp r.spectrum (fun _ => 0) params.Ny params.Nx
        else IDFT2D_scalar Real.pi cexp r.spectrum (fun _ => 0) params.Ny params.Nx) =
          .ok r.signal ∧
      ∀ x y : Nat, (x : Int) < params.Nx → (y : Int) < params.Ny →
        r.height_map_data (y * params.Nx.toNat + x) =
          Complex.abs (toComplex (r.signal (y * params.Nx.toNat + x))) ∧
        0 ≤ r.height_map_data (y * params.Nx.toNat + x) := by
  obtain ⟨signal, hs, hr⟩ := GenerateOcean_heights_valid USE_SIMD cexp mt19937 nd params
    hvalid hx hy hcells hA
  refine ⟨_, hr, rfl, hs, ?_⟩
  intro x y hxx hyy
  have hlt : y * params.Nx.toNat + x < params.Ny.toNat * params.Nx.toNat :=
    cell_lt _ _ x y (by omega) (by omega)
  have e : (GenerateOcean_height_range Real.sqrt params.Nx params.Ny signal
      (fun _ => 0)).height_map_data (y * params.Nx.toNat + x) =
      cabs Real.sqrt (signal (y * params.Nx.toNat + x)) := by
    rw [GenerateOcean_height_range_eq, rangeStep_fold_heights]
    simp only [hlt, if_true]
  exact ⟨e.trans (cabs_eq_abs _), le_of_le_of_eq (Real.sqrt_nonneg _) e.symm⟩

theorem GenerateOcean_heights_magnitude_witness :
    ∃ r : OceanHeights ℝ,
      GenerateOcean_heights false Real.pi Real.sqrt Real.exp (fun z => z) (fun s => s)
        (fun g => ((g : ℝ), g + 1)) (InitOceanTool_params ℝ) = .ok r ∧
      ∀ x y : Nat, (x : Int) < 32 → (y : Int) < 32 → 0 ≤ r.height_map_data (y * 32 + x) :=
  let ⟨r, h1, _, _, h4⟩ := GenerateOcean_heights_magnitude false (fun z => z) (fun s => s)
    (fun g => ((g : ℝ), g + 1)) (InitOceanTool_params ℝ) (ValidateOceanParams_init ℝ)
    (by decide) (by decide) (by decide) (by norm_num [InitOceanTool_params])
  ⟨r, h1, fun x y hx hy => (h4 x y hx hy).2⟩

/-- C20, counterexample: the parameters of `InitOceanTool` with the amplitude `A = -10`
are valid (`ValidateOceanParams` does not look at `A`), and whatever the build flag, the
complex exponential and the random draws, the first part of `GenerateOcean` does not
give heights that are magnitudes: `Ph` is negative at the cell `(1, 0)`, its square root
is a NaN, and the heights are NaNs. -/
theorem GenerateOcean_heights_magnitude_counterexample :
    ValidateOceanParams ({ InitOceanTool_params ℝ with A := -10 } : OceanParams ℝ) = 0 ∧
    ∀ (USE_SIMD : Bool) (cexp : complex64 ℝ → complex64 ℝ) (nd : Nat → ℝ × Nat),
      GenerateOcean_heights USE_SIMD Real.pi Real.sqrt Real.exp cexp (fun s => s) nd
        ({ InitOceanTool_params ℝ with A := -10 } : OceanParams ℝ) = .error .notANumber := by
  have hv : ValidateOceanParams ({ InitOceanTool_params ℝ with A := -10 } : OceanParams ℝ) =
      0 := by
    have h := ValidateOceanParams_init ℝ
    rw [ValidateOceanParams_zero_iff _ (by decide) (by decide)] at h
    rw [ValidateOceanParams_zero_iff _ (by decide) (by decide)]
    exact h
  refine ⟨hv, ?_⟩
  intro USE_SIMD cexp nd
  exact GenerateOcean_heights_negative USE_SIMD cexp (fun s => s) nd _ hv (by decide)
    (by decide) (by decide) (by norm_num [InitOceanTool_params]) rfl

end claimsHeights

section claimsHeightRange

/-- C36, with the provisos it needs: after `GenerateOcean` on valid parameters whose
amplitude `A` is not negative and whose cell count is an `int`, in exact real arithmetic
(no rounding, overflow or underflow), `tool->min_value` and `tool->max_value` are finite
and are the minimum and the maximum of the height field `height[c] = |signal[c]|`:
`min_value ≤ height[c] ≤ max_value` for every cell `c`, both bounds are heights of some
cell, and `0 ≤ min_value ≤ max_value`. -/
theorem GenerateOcean_min_max {G : Type} (USE_SIMD : Bool)
    (cexp : complex64 ℝ → complex64 ℝ) (mt19937 : Nat → G) (nd : G → ℝ × G)
    (params : OceanParams ℝ) (hvalid : ValidateOceanParams params = 0)
    (hx : -2147483648 ≤ params.Nx ∧ params.Nx ≤ 2147483647)
    (hy : -2147483648 ≤ params.Ny ∧ params.Ny ≤ 2147483647)
    (hcells : params.Nx * params.Ny ≤ 2147483647) (hA : 0 ≤ params.A) :
    ∃ (r : OceanHeights ℝ) (min_value max_value : ℝ),
      GenerateOcean_heights USE_SIMD Real.pi Real.sqrt Real.exp cexp mt19937 nd params = .ok r ∧
      r.min_value = (min_value : WithTop ℝ) ∧
      r.max_value = (max_value : WithBot ℝ) ∧
      (∀ c, c < params.Ny.toNat * params.Nx.toNat →
        r.height_map_data c = cabs Real.sqrt (r.signal c) ∧
        min_value ≤ r.height_map_data c ∧ r.height_map_data c ≤ max_value) ∧
      (∃ c, c < params.Ny.toNat * params.Nx.toNat ∧ r.height_map_data c = min_value) ∧
      (∃ c, c < params.Ny.toNat * params.Nx.toNat ∧ r.height_map_data c = max_value) ∧
      0 ≤ min_value ∧ min_value ≤ max_value := by
  obtain ⟨signal, _, hr⟩ := GenerateOcean_heights_valid USE_SIMD cexp mt19937 nd params
    hvalid hx hy hcells hA
  obtain ⟨⟨vx, vy⟩, _, _⟩ := (ValidateOceanParams_zero_iff params hx hy).1 hvalid
  obtain ⟨mn, mx, h1, h2, h3, h4, h5, h6, h7⟩ := height_range_bounds params.Nx params.Ny
    (by omega) (by omega) signal (fun _ => 0)
  exact ⟨_, mn, mx, hr, h1, h2, h3, h4, h5, h6, h7⟩

theorem GenerateOcean_min_max_witness :
    ∃ (r : OceanHeights ℝ) (min_value max_value : ℝ),
      GenerateOcean_heights false Real.pi Real.sqrt Real.exp (fun z => z) (fun s => s)
        (fun g => ((g : ℝ), g + 1)) (InitOceanTool_params ℝ) = .ok r ∧
      r.min_value = (min_value : WithTop ℝ) ∧
      r.max_value = (max_value : WithBot ℝ) ∧
      0 ≤ min_value ∧ min_value ≤ max_value :=
  let ⟨r, mn, mx, h0, h1, h2, _, _, _, h3, h4⟩ :=
    GenerateOcean_min_max false (fun z => z) (fun s => s)
      (fun g => ((g : ℝ), g + 1)) (InitOceanTool_params ℝ) (ValidateOceanParams_init ℝ)
      (by decide) (by decide) (by decide) (by norm_num [InitOceanTool_params])
  ⟨r, mn, mx, h0, h1, h2, h3, h4⟩

/-- C36, counterexample: the grid of `4` by `2` cells with extents `1`, wind `(1, 0)` and
amplitude `A = -1` is valid, and whatever the build flag, the complex exponential and
the random draws, `GenerateOcean` does not leave the minimum and the maximum of the
heights in `tool->min_value` and `tool->max_value`: `Ph` is negative at the cell
`(1, 0)`, the heights are NaNs, and no comparison of the height loop holds. -/
theorem GenerateOcean_min_max_counterexample :
    ValidateOceanParams
      ({ Nx := 4, Ny := 2, Lx := 1, Ly := 1, Vx := 1, Vy := 0, A := -1, l := 0, t := 0,
         seed := 0 } : OceanParams ℝ) = 0 ∧
    ∀ (USE_SIMD : Bool) (cexp : complex64 ℝ → complex64 ℝ) (nd : Nat → ℝ × Nat),
      GenerateOcean_heights USE_SIMD Real.pi Real.sqrt Real.exp cexp (fun s => s) nd
        ({ Nx := 4, Ny := 2, Lx := 1, Ly := 1, Vx := 1, Vy := 0, A := -1, l := 0, t := 0,
           seed := 0 } : OceanParams ℝ) = .error .notANumber := by
  have hv : ValidateOceanParams
      ({ Nx := 4, Ny := 2, Lx := 1, Ly := 1, Vx := 1, Vy := 0, A := -1, l := 0, t := 0,
         seed := 0 } : OceanParams ℝ) = 0 := by
    rw [ValidateOceanParams_zero_iff _ (by decide) (by decide)]
    exact ⟨⟨⟨⟨2, rfl⟩, by decide⟩, ⟨⟨1, rfl⟩, by decide⟩⟩, ⟨one_pos, one_pos⟩,
      fun h => one_ne_zero h.1⟩
  refine ⟨hv, ?_⟩
  intro USE_SIMD cexp nd
  exact GenerateOcean_heights_negative USE_SIMD cexp (fun s => s) nd _ hv (by decide)
    (by decide) (by decide) (by norm_num) rfl

end claimsHeightRange

section claimsZeroFrequency

/-- C35, with the provisos it needs: the zero-frequency cell of the synthesized
spectrum is zero.  On every grid of `Nx = 2^p2` by `Ny = 2^p1` cells, for all extents
other than `0`, every wind, amplitude, `l`, time `t`, seed and random draws,
`GenerateOceanSpectrum` stores `spectrum[0] = 0`, whatever the array held, because `Ph`
vanishes at `k = (0, 0)`; and when the extents are above `0`, the amplitude is not
negative and the cell count is an `int`, in exact real arithmetic (no rounding, overflow
or underflow) the first part of `GenerateOcean` returns and the space-domain signal, the
inverse 2D transform of that spectrum, sums to `0` over the grid. -/
theorem GenerateOcean_zero_frequency {G : Type} (USE_SIMD : Bool)
    (cexp : complex64 ℝ → complex64 ℝ) (hexp : IsCexp cexp) (mt19937 : Nat → G)
    (nd : G → ℝ × G) (params : OceanParams ℝ) (p1 p2 : Nat) (hp1 : 1 ≤ p1) (hp2 : 1 ≤ p2)
    (hp : p1 + p2 ≤ 30) (hNx : params.Nx = 2 ^ p2) (hNy : params.Ny = 2 ^ p1)
    (hLx : 0 < params.Lx) (hLy : 0 < params.Ly) (hA : 0 ≤ params.A) :
    (∀ (exp : ℝ → ℝ) (cexp' : complex64 ℝ → complex64 ℝ) (spectrum : Buf ℝ) (seed : Nat)
        (Lx Ly Vx Vy A l t : ℝ), Lx ≠ 0 → Ly ≠ 0 →
      GenerateOceanSpectrum Real.pi Real.sqrt exp cexp' mt19937 nd spectrum seed
        params.Nx params.Ny Lx Ly Vx Vy A l t 0 = 0) ∧
    ∃ r : OceanHeights ℝ,
      GenerateOcean_heights USE_SIMD Real.pi Real.sqrt Real.exp cexp mt19937 nd params =
        .ok r ∧
      r.spectrum 0 = 0 ∧
      ∑ y ∈ Finset.range (2 ^ p1), ∑ x ∈ Finset.range (2 ^ p2), r.signal (y * 2 ^ p2 + x) =
        0 := by
  have hzero : ∀ (exp : ℝ → ℝ) (cexp' : complex64 ℝ → complex64 ℝ) (spectrum : Buf ℝ)
      (seed : Nat) (Lx Ly Vx Vy A l t : ℝ),
      GenerateOceanSpectrum Real.pi Real.sqrt exp cexp' mt19937 nd spectrum seed
        params.Nx params.Ny Lx Ly Vx Vy A l t 0 = 0 := by
    intro exp cexp' spectrum seed Lx Ly Vx Vy A l t
    have h := GenerateOceanSpectrum_at Real.pi Real.sqrt exp cexp' mt19937 nd spectrum
      seed params.Nx params.Ny Lx Ly Vx Vy A l t 0 0 (by rw [hNx]; positivity)
      (by rw [hNy]; positivity)
    simp only [Nat.zero_mul, Nat.add_zero] at h
    rw [h]
    exact spectrumCell_origin _ _ _ _ _ _ _ _ _ _ _
  refine ⟨fun exp cexp' spectrum seed Lx Ly Vx Vy A l t _ _ =>
    hzero exp cexp' spectrum seed Lx Ly Vx Vy A l t, ?_⟩
  obtain ⟨signal, hs, fs⟩ := grid_IDFT2D_real cexp USE_SIMD hexp p1 p2 hp1 hp2 hp
    (GenerateOceanSpectrum Real.pi Real.sqrt Real.exp cexp mt19937 nd (fun _ => 0)
      params.seed params.Nx params.Ny params.Lx params.Ly params.Vx params.Vy params.A
      params.l params.t) (fun _ => 0)
  have hcells : ((2 : Int) ^ p2) * ((2 : Int) ^ p1) ≤ 2147483647 := by
    rw [← pow_add]
    have : (2 : Int) ^ (p2 + p1) ≤ 2 ^ 30 := pow_le_pow_right₀ (by norm_num) (by omega)
    omega
  have hpos : (0 : Int) < ((2 : Int) ^ p2) * ((2 : Int) ^ p1) := by positivity
  rw [← hNx, ← hNy] at hs hcells hpos
  refine ⟨_, GenerateOcean_heights_of_nonneg USE_SIMD Real.pi Real.sqrt Real.exp cexp
    mt19937 nd params hpos.le hcells signal hs
    (sqrt_args_nonneg params.Nx params.Ny params.Lx params.Ly params.Vx params.Vy params.A
      params.l hLx hLy hA), hzero _ _ _ _ _ _ _ _ _ _ _, ?_⟩
  simp only []
  apply toComplex_injective
  rw [map_sum, map_zero]
  have e : ∀ y ∈ Finset.range (2 ^ p1),
      toComplex (∑ x ∈ Finset.range (2 ^ p2), signal (y * 2 ^ p2 + x)) =
      ∑ x ∈ Finset.range (2 ^ p2), ∑ n1 ∈ Finset.range (2 ^ p1),
        (∑ n2 ∈ Finset.range (2 ^ p2),
          toComplex (GenerateOceanSpectrum Real.pi Real.sqrt Real.exp cexp mt19937 nd
            (fun _ => 0) params.seed params.Nx params.Ny params.Lx params.Ly params.Vx
            params.Vy params.A params.l params.t (n1 * 2 ^ p2 + n2)) *
          Complex.exp (Complex.I * 2 * Real.pi * n2 * x / (2 : ℂ) ^ p2)) *
          Complex.exp (Complex.I * 2 * Real.pi * n1 * y / (2 : ℂ) ^ p1) := by
    intro y hy
    rw [map_sum]
    apply Finset.sum_congr rfl
    intro x hx
    exact fs y (Finset.mem_range.mp hy) x (Finset.mem_range.mp hx)
  rw [Finset.sum_congr rfl e, grid_total p1 p2 (fun j => toComplex
    (GenerateOceanSpectrum Real.pi Real.sqrt Real.exp cexp mt19937 nd
      (fun _ => 0) params.seed params.Nx params.Ny params.Lx params.Ly params.Vx
      params.Vy params.A params.l params.t j))]
  rw [hzero, map_zero, mul_zero]

theorem GenerateOcean_zero_frequency_witness :
    ∃ r : OceanHeights ℝ,
      GenerateOcean_heights false Real.pi Real.sqrt Real.exp
        (fun z => ⟨Real.exp z.re * Real.cos z.im, Real.exp z.re * Real.sin z.im⟩)
        (fun s => s) (fun g => ((g : ℝ), g + 1)) (InitOceanTool_params ℝ) = .ok r ∧
      r.spectrum 0 = 0 ∧
      ∑ y ∈ Finset.range (2 ^ 5), ∑ x ∈ Finset.range (2 ^ 5), r.signal (y * 2 ^ 5 + x) = 0 :=
  (GenerateOcean_zero_frequency false
    (fun z => ⟨Real.exp z.re * Real.cos z.im, Real.exp z.re * Real.sin z.im⟩)
    (fun θ => by simp) (fun s => s) (fun g => ((g : ℝ), g + 1)) (InitOceanTool_params ℝ)
    5 5 (by decide) (by decide) (by decide) rfl rfl
    (by norm_num [InitOceanTool_params]) (by norm_num [InitOceanTool_params])
    (by norm_num [InitOceanTool_params])).2

/-- C35, counterexample: the grid of `2` by `2` cells with extents `1`, wind `(1, 0)` and
amplitude `A = -1` is valid, and whatever the build flag, the complex exponential and
the random draws, `GenerateOcean` does not give a signal that sums to `0`: `Ph` is
negative at the cell `(1, 0)`, its square root is a NaN, and so is every sum that it
enters. -/
theorem GenerateOcean_zero_frequency_counterexample :
    ValidateOceanParams
      ({ Nx := 2, Ny := 2, Lx := 1, Ly := 1, Vx := 1, Vy := 0, A := -1, l := 0, t := 0,
         seed := 0 } : OceanParams ℝ) = 0 ∧
    ∀ (USE_SIMD : Bool) (cexp : complex64 ℝ → complex64 ℝ) (nd : Nat → ℝ × Nat),
      GenerateOcean_heights USE_SIMD Real.pi Real.sqrt Real.exp cexp (fun s => s) nd
        ({ Nx := 2, Ny := 2, Lx := 1, Ly := 1, Vx := 1, Vy := 0, A := -1, l := 0, t := 0,
           seed := 0 } : OceanParams ℝ) = .error .notANumber := by
  have hv : ValidateOceanParams
      ({ Nx := 2, Ny := 2, Lx := 1, Ly := 1, Vx := 1, Vy := 0, A := -1, l := 0, t := 0,
         seed := 0 } : OceanParams ℝ) = 0 := by
    rw [ValidateOceanParams_zero_iff _ (by decide) (by decide)]
    exact ⟨⟨⟨⟨1, rfl⟩, by decide⟩, ⟨⟨1, rfl⟩, by decide⟩⟩, ⟨one_pos, one_pos⟩,
      fun h => one_ne_zero h.1⟩
  refine ⟨hv, ?_⟩
  intro USE_SIMD cexp nd
  exact GenerateOcean_heights_negative USE_SIMD cexp (fun s => s) nd _ hv (by decide)
    (by decide) (by decide) (by norm_num) rfl

end claimsZeroFrequency

section pureSinusoid

end pureSinusoid

section claimsPureSinusoid

end claimsPureSinusoid

section binadeQuantum

variable {K : Type} [LinearOrderedField K]

/-- The quantum of a binade: `2^(e+1) = 2^24 * 2^(e-23)` and `2^e = 2^23 * 2^(e-23)`. -/
theorem binade_quantum (e : Int) :
    (2 : K) ^ (e + 1) = ((16777216 : Int) : K) * (2 : K) ^ (e - 23) ∧
    (2 : K) ^ e = ((8388608 : Int) : K) * (2 : K) ^ (e - 23) := by
  constructor
  · rw [show e + 1 = 24 + (e - 23) by ring, zpow_add₀ (two_ne_zero)]
    norm_num
  · nth_rewrite 1 [show e = 23 + (e - 23) by ring]
    rw [zpow_add₀ (two_ne_zero)]
    norm_num

end binadeQuantum

section roundingMonotone

variable {K : Type} [LinearOrderedField K] [FloorRing K]

/-- The nearest integer is the integer part or the next integer. -/
theorem roundHalfEven_floor (x : K) :
    ⌊x⌋ ≤ roundHalfEven x ∧ roundHalfEven x ≤ ⌊x⌋ + 1 := by
  unfold roundHalfEven
  simp only []
  split_ifs <;> constructor <;> omega

/-- Rounding to the nearest integer is monotone. -/
theorem roundHalfEven_mono {x y : K} (h : x ≤ y) : roundHalfEven x ≤ roundHalfEven y := by
  have hf : ⌊x⌋ ≤ ⌊y⌋ := Int.floor_le_floor h
  rcases lt_or_eq_of_le hf with hlt | heq
  · have h1 := (roundHalfEven_floor x).2
    have h2 := (roundHalfEven_floor y).1
    omega
  · unfold roundHalfEven
    simp only []
    rw [← heq]
    have hxy : x - (⌊x⌋ : K) ≤ y - (⌊x⌋ : K) := by linarith
    split_ifs <;> first | omega | (exfalso; linarith)

/-- A value between two integers rounds to an integer between them. -/
theorem roundHalfEven_bracket (x : K) (a b : Int) (ha : (a : K) ≤ x) (hb : x ≤ (b : K)) :
    a ≤ roundHalfEven x ∧ roundHalfEven x ≤ b := by
  have h1 := roundHalfEven_mono ha
  have h2 := roundHalfEven_mono hb
  rw [roundHalfEven_intCast] at h1 h2
  exact ⟨h1, h2⟩

/-- Rounding to the nearest integer, ties to even, commutes with the change of sign. -/
theorem roundHalfEven_neg (x : K) : roundHalfEven (-x) = -roundHalfEven x := by
  by_cases hx : (⌊x⌋ : K) = x
  · rw [← hx, ← Int.cast_neg, roundHalfEven_intCast, roundHalfEven_intCast]
  · have hlt : (⌊x⌋ : K) < x := lt_of_le_of_ne (Int.floor_le x) hx
    have hlt2 : x < (⌊x⌋ : K) + 1 := Int.lt_floor_add_one x
    have hf : ⌊-x⌋ = -⌊x⌋ - 1 := by
      rw [Int.floor_eq_iff]
      push_cast
      constructor <;> linarith
    unfold roundHalfEven
    simp only []
    rw [hf]
    push_cast
    split_ifs <;> first | omega | (exfalso; linarith)

/-- The rounding to a `float` commutes with the change of sign. -/
theorem binary32_neg (x : K) : binary32 (-x) = -binary32 x := by
  unfold binary32
  simp only [abs_neg, neg_div, roundHalfEven_neg]
  push_cast
  ring

/-- The binary exponent of a positive value, as `binary32` takes it: the value is below
`2^(e+1)`, and at least `2^e` unless the exponent was raised to `-126`. -/
theorem exponent_bounds (x : K) (hx : 0 < x) :
    x < (2 : K) ^ (max (Int.log 2 x) (-126) + 1) ∧
    (-126 ≤ Int.log 2 x → (2 : K) ^ (max (Int.log 2 x) (-126)) ≤ x) := by
  constructor
  · have h1 : x < ((2 : Nat) : K) ^ (Int.log 2 x + 1) := Int.lt_zpow_succ_log_self (by norm_num) x
    have h2 : (2 : K) ^ (Int.log 2 x + 1) ≤ (2 : K) ^ (max (Int.log 2 x) (-126) + 1) :=
      zpow_le_zpow_right₀ (by norm_num) (by omega)
    exact lt_of_lt_of_le (by exact_mod_cast h1) h2
  · intro h
    rw [max_eq_left h]
    have h1 : ((2 : Nat) : K) ^ (Int.log 2 x) ≤ x := Int.zpow_log_le_self (by norm_num) hx
    exact_mod_cast h1

/-- The `float` nearest to a positive value lies in the closed binade of the value. -/
theorem binary32_binade (x : K) (hx : 0 < x) :
    0 ≤ binary32 x ∧ binary32 x ≤ (2 : K) ^ (max (Int.log 2 x) (-126) + 1) ∧
    (-126 ≤ Int.log 2 x → (2 : K) ^ (max (Int.log 2 x) (-126)) ≤ binary32 x) := by
  obtain ⟨h1, h2⟩ := exponent_bounds x hx
  obtain ⟨q1, q2⟩ := binade_quantum (K := K) (max (Int.log 2 x) (-126))
  have hq : (0 : K) < (2 : K) ^ (max (Int.log 2 x) (-126) - 23) := zpow_pos (by norm_num) _
  have e : binary32 x = (roundHalfEven (x / (2 : K) ^ (max (Int.log 2 x) (-126) - 23)) : K) *
      (2 : K) ^ (max (Int.log 2 x) (-126) - 23) := by
    unfold binary32
    simp only [abs_of_pos hx]
  rw [e]
  refine ⟨?_, ?_, ?_⟩
  · have b := (roundHalfEven_bracket (x / (2 : K) ^ (max (Int.log 2 x) (-126) - 23)) 0
      16777216 (by push_cast; exact (div_pos hx hq).le)
      (by rw [div_le_iff₀ hq, ← q1]; exact h1.le)).1
    exact mul_nonneg (by exact_mod_cast b) hq.le
  · have b := (roundHalfEven_bracket (x / (2 : K) ^ (max (Int.log 2 x) (-126) - 23)) 0
      16777216 (by push_cast; exact (div_pos hx hq).le)
      (by rw [div_le_iff₀ hq, ← q1]; exact h1.le)).2
    rw [q1]
    exact mul_le_mul_of_nonneg_right (by exact_mod_cast b) hq.le
  · intro h
    have b := (roundHalfEven_bracket (x / (2 : K) ^ (max (Int.log 2 x) (-126) - 23)) 8388608
      16777216 (by rw [le_div_iff₀ hq, ← q2]; exact h2 h)
      (by rw [div_le_iff₀ hq, ← q1]; exact h1.le)).1
    rw [q2]
    exact mul_le_mul_of_nonneg_right (by exact_mod_cast b) hq.le

/-- The rounding to a `float` is monotone on the positive values. -/
theorem binary32_mono_pos (x y : K) (hx : 0 < x) (hxy : x ≤ y) : binary32 x ≤ binary32 y := by
  have hy : 0 < y := lt_of_lt_of_le hx hxy
  have hlog : Int.log 2 x ≤ Int.log 2 y := Int.log_mono_right hx hxy
  rcases lt_or_eq_of_le (max_le_max hlog (le_refl (-126 : Int))) with hlt | heq
  · have b1 := (binary32_binade x hx).2.1
    have b2 := (binary32_binade y hy).2.2 (by omega)
    have b3 : (2 : K) ^ (max (Int.log 2 x) (-126) + 1) ≤ (2 : K) ^ (max (Int.log 2 y) (-126)) :=
      zpow_le_zpow_right₀ (by norm_num) (by omega)
    exact le_trans b1 (le_trans b3 b2)
  · have hq : (0 : K) < (2 : K) ^ (max (Int.log 2 y) (-126) - 23) := zpow_pos (by norm_num) _
    unfold binary32
    simp only [abs_of_pos hx, abs_of_pos hy]
    rw [heq]
    apply mul_le_mul_of_nonneg_right _ hq.le
    have := roundHalfEven_mono (div_le_div_of_nonneg_right hxy hq.le)
    exact_mod_cast this

/-- The rounding to a `float` is monotone. -/
theorem binary32_mono (x y : K) (hxy : x ≤ y) : binary32 x ≤ binary32 y := by
  rcases lt_trichotomy x 0 with hx | hx | hx
  · have hnx : 0 ≤ binary32 (-x) := (binary32_binade (-x) (by linarith)).1
    rw [binary32_neg] at hnx
    rcases lt_trichotomy y 0 with hy | hy | hy
    · have h := binary32_mono_pos (-y) (-x) (by linarith) (by linarith)
      rw [binary32_neg, binary32_neg] at h
      linarith
    · rw [hy, binary32_zero]
      linarith
    · have := (binary32_binade y hy).1
      linarith
  · rw [hx, binary32_zero]
    rcases lt_or_eq_of_le (hx ▸ hxy) with hy | hy
    · exact (binary32_binade y hy).1
    · rw [← hy, binary32_zero]
  · exact binary32_mono_pos x y hx hxy

/-- The rounding to a `float` is a rounding in the sense of `IsRounding`. -/
theorem isRounding_binary32 : IsRounding (binary32 : K → K) := by
  refine ⟨binary32_mono, binary32_zero, ?_, ?_⟩
  · exact binary32_exact (1 : K) 0 8388608 (by norm_num)
      (by rw [abs_of_pos (by norm_num)]; norm_num)
      (by rw [abs_of_pos (by norm_num)]; norm_num) (by norm_num)
  · exact binary32_exact (255 : K) 7 16711680 (by norm_num)
      (by rw [abs_of_pos (by norm_num)]; norm_num)
      (by rw [abs_of_pos (by norm_num)]; norm_num) (by norm_num)

end roundingMonotone

section claimsFloatBytesWitness

theorem SaveHeightMap_byte_spec_witness :
    SaveHeightMap_byte binary32 (0 : ℚ) 2999540 2517261 ≤ 255 ∧
    SaveHeightMap_byte binary32 (0 : ℚ) 2999540 0 = 0 ∧
    SaveHeightMap_byte id (1 : ℚ) 5 2 = ⌊255 * ((2 : ℚ) - 1) /
      (if (5 : ℚ) - 1 = 0 then 1 else 5 - 1)⌋.toNat :=
  ⟨(SaveHeightMap_byte_spec binary32 isRounding_binary32 (0 : ℚ) 2999540 2517261
      (by norm_num) (by norm_num)).2.2.1,
    (SaveHeightMap_byte_spec binary32 isRounding_binary32 (0 : ℚ) 2999540 2517261
      (by norm_num) (by norm_num)).2.2.2.1,
    (SaveHeightMap_byte_spec id isRounding_id (1 : ℚ) 5 2 (by norm_num)
      (by norm_num)).2.2.2.2.2.2.2.2⟩

end claimsFloatBytesWitness

end OceanTool
